import Mathlib

/-!
# Mesoscopic segment engine (`src/mesosim/MESegment.cpp`)

A shallow embedding of `MESegment` and of the operations defined in
`MESegment.cpp`, followed by the properties proved about them.

Conventions of the embedding.

* `SUMOTime` (a 64-bit signed tick count) is `Int`; the two places where the
  C++ arithmetic is carried out on `size_t` are wrapped explicitly.
* `SUMOReal` is `ℚ`: real arithmetic is exact.  Rounding is modelled only for
  the occupancy round trip, where the rounding of the addition in `receive` and
  of the subtraction in `removeCar` is a parameter (`occupancyOnReceive`,
  `occupancyOnRemove`).
* A `std::vector` is a `List` with the same indexing: index `0` is `front()`,
  the last element is `back()`.  The vehicle that leaves a queue next is
  `back()` (see `getEventTime`, `removeCar`, `setSpeedForQueue`).
* `MEVehicle*` is a `VehPtr`; the pointed-to objects live in the store
  `World.veh`, so that aliasing behaves as with pointers.
* Calls into the scheduler (`MSGlobals::gMesoNet`), the detectors, the vehicle
  control and the random number generator are recorded, in call order, in
  `World.trace`.
* An out-of-range `operator[]`, `back()` of an empty vector and a failed
  `assert` are undefined in C++; the embedding is total and such accesses read
  a default / write nothing.  Properties that depend on them carry the
  precondition as a hypothesis.
-/

namespace Meso

abbrev SUMOTime := Int
abbrev SUMOReal := ℚ
abbrev VehPtr := Nat
abbrev EdgeId := Nat
abbrev LaneId := Nat

/-- Largest value of the 64-bit `SUMOTime`. -/
def SUMOTime_MAX : SUMOTime := 2 ^ 63 - 1

/-- Smallest value of the 64-bit `SUMOTime`. -/
def SUMOTime_MIN : SUMOTime := -(2 ^ 63)

/-- Modelled from the spec: the TimeMath helper turning ticks into seconds
(`STEPS2TIME`, declared in a header that is not part of the sources); one tick
is a millisecond. -/
def STEPS2TIME (x : SUMOTime) : SUMOReal := (x : ℚ) / 1000

/-- The conversion `(SUMOTime) x` of a real to an integer: truncation toward zero. -/
def castToTime (x : SUMOReal) : SUMOTime := if 0 ≤ x then ⌊x⌋ else ⌈x⌉

/-- Modelled from the spec: the TimeMath helper turning seconds into ticks
(`TIME2STEPS`, declared in a header that is not part of the sources). -/
def TIME2STEPS (x : SUMOReal) : SUMOTime := castToTime (x * 1000)

/-- Value of a 64-bit unsigned word read as `SUMOTime` (two's complement). -/
def wrapTime (x : Int) : SUMOTime := (x + 2 ^ 63) % 2 ^ 64 - 2 ^ 63

/-- The expression `(SUMOTime)(t / lanes.size())`: the division is carried out
on `size_t`, the left operand being converted to it first. -/
def divBySize (t : SUMOTime) (n : Nat) : SUMOTime := wrapTime (((t % 2 ^ 64) / (n : Int)))

/-- `std::numeric_limits<SUMOReal>::max()` for `SUMOReal = double`. -/
def DO_NOT_PATCH_JAM_THRESHOLD : SUMOReal := 2 ^ 1024 - 2 ^ 971

/-- `MSMoveReminder::Notification`. -/
inductive Notification where
  | DEPARTED
  | SEGMENT
  | JUNCTION
  | ARRIVED
  | VAPORIZED
  | TELEPORT
  deriving DecidableEq, Repr

/-- External calls issued by a segment, in the order they are made. -/
inductive Event where
  | addLeaderCar (v : VehPtr)
  | removeLeaderCar (v : VehPtr)
  | changeSegmentToVaporization (v : VehPtr) (t : SUMOTime)
  | updateDetectors (v : VehPtr) (t : SUMOTime) (isLeaving : Bool) (reason : Option Notification)
  | activateReminders (v : VehPtr) (reason : Notification)
  | scheduleVehicleRemoval (v : VehPtr)
  | randDraw
  deriving DecidableEq, Repr

/-- Modelled from the spec: the VehicleFacade of section 3 (`MEVehicle.h` is not
part of the sources).  The first ten fields are what the queries of the facade
return to the segment; the last five are the attributes the segment writes. -/
structure MEVehicle where
  length : SUMOReal
  minGap : SUMOReal
  maxSpeed : SUMOReal
  chosenSpeedFactor : SUMOReal
  speed : SUMOReal
  routeEndsOnMove : Bool
  arrived : Bool
  succEdge1 : Option EdgeId
  stoptime : SUMOTime
  validRoute : Bool
  eventTime : SUMOTime
  lastEntryTime : SUMOTime
  blockTime : SUMOTime
  segment : Option String
  queIndex : Nat
  deriving DecidableEq, Repr

/-- `getVehicleType().getLengthWithGap()`. -/
def MEVehicle.getLengthWithGap (v : MEVehicle) : SUMOReal := v.length + v.minGap

/-- What the constructor reads of the parent `MSEdge`. -/
structure MSEdge where
  lanes : List LaneId
  successors : List EdgeId
  allowedLanes : EdgeId → List LaneId

/-- Fields of `MESegment`. -/
structure MESegment where
  id : String
  myNextSegment : Option String
  myLength : SUMOReal
  myMaxSpeed : SUMOReal
  myIndex : Nat
  myTau_ff : SUMOTime
  myTau_fj : SUMOTime
  myTau_jf : SUMOTime
  myTau_jj : SUMOTime
  myHeadwayCapacity : SUMOReal
  myCapacity : SUMOReal
  myOccupancy : SUMOReal
  myJamThreshold : SUMOReal
  myJunctionControl : Bool
  myEntryBlockTime : SUMOTime
  myLengthGeometryFactor : SUMOReal
  myMeanSpeed : SUMOReal
  myLastMeanSpeedUpdate : SUMOTime
  myCarQues : List (List VehPtr)
  myBlockTimes : List SUMOTime
  myFollowerMap : List (EdgeId × List Nat)
  deriving DecidableEq, Repr

/-- A segment, the vehicle objects its queues point to, and the external calls
made so far. -/
structure World where
  seg : MESegment
  veh : VehPtr → MEVehicle
  trace : List Event

/-- Global state read by the segment: `MSGlobals`, the current time step of
`MSNet`, the default vehicle type, and `MEVehicle::getConservativeSpeed`
(which returns a speed and the updated by-reference argument). -/
structure Env where
  gMesoOvertaking : Bool
  gCheckRoutes : Bool
  currentTimeStep : SUMOTime
  defaultLength : SUMOReal
  defaultMinGap : SUMOReal
  getConservativeSpeed : MEVehicle → SUMOTime → SUMOReal × SUMOTime

/-- The `MESegment* next` argument of `send` / `removeCar`. -/
inductive NextSeg where
  | null
  | vaporizationTarget
  | real (s : MESegment)

/-- Modelled from the spec: `isInvalid(next)` (defined in `MESegment.h`, not
part of the sources): null or the vaporization sentinel. -/
def isInvalid : NextSeg → Bool
  | NextSeg.null => true
  | NextSeg.vaporizationTarget => true
  | NextSeg.real _ => false

/-- Modelled from the spec: `free()` (defined in `MESegment.h`, not part of the
sources): `occupancy ≤ jamThreshold`, recomputed on every read. -/
def free (s : MESegment) : Bool := decide (s.myOccupancy ≤ s.myJamThreshold)

/-- Append an external call to the trace. -/
def World.log (w : World) (e : Event) : World := { w with trace := w.trace ++ [e] }

/-- Write through a vehicle pointer. -/
def World.setVeh (w : World) (p : VehPtr) (f : MEVehicle → MEVehicle) : World :=
  { w with veh := Function.update w.veh p (f (w.veh p)) }

/-- `myCarQues[q]`. -/
def MESegment.que (s : MESegment) (q : Nat) : List VehPtr := s.myCarQues.getD q []

/-- `myBlockTimes[q]`. -/
def MESegment.block (s : MESegment) (q : Nat) : SUMOTime := s.myBlockTimes.getD q 0

/-- `MESegment::jamThresholdForSpeed`. -/
def jamThresholdForSpeed (env : Env) (s : MESegment) (speed : SUMOReal) : SUMOReal :=
  ((⌈s.myLength / (speed * STEPS2TIME s.myTau_ff)⌉ : Int) : ℚ) * (env.defaultLength + env.defaultMinGap)

/-- `MESegment::recomputeJamThreshold`. -/
def recomputeJamThreshold (env : Env) (s : MESegment) (jamThresh : SUMOReal) : MESegment :=
  if jamThresh = DO_NOT_PATCH_JAM_THRESHOLD then s
  else if jamThresh < 0 then { s with myJamThreshold := jamThresholdForSpeed env s s.myMaxSpeed }
  else { s with myJamThreshold := jamThresh * s.myCapacity }

/-- `myFollowerMap[edge] = value` on the association list standing for the `std::map`. -/
def followerMapSet (m : List (EdgeId × List Nat)) (e : EdgeId) (v : List Nat) : List (EdgeId × List Nat) :=
  (e, v) :: m.filter (fun kv => kv.1 ≠ e)

/-- The constructor `MESegment::MESegment`.  `uninitJamThreshold` stands for the
indeterminate content of `myJamThreshold` before `recomputeJamThreshold` runs. -/
def construct (env : Env) (id : String) (parent : MSEdge) (next : Option String)
    (length speed : SUMOReal) (idx : Nat) (tauff taufj taujf taujj : SUMOTime)
    (jamThresh : SUMOReal) (multiQueue junctionControl : Bool)
    (lengthGeometryFactor uninitJamThreshold : SUMOReal) : MESegment :=
  let n := parent.lanes.length
  let multi := multiQueue && decide (n > 1) && decide (parent.successors.length > 1)
  let s : MESegment :=
    { id := id
      myNextSegment := next
      myLength := length
      myMaxSpeed := speed
      myIndex := idx
      myTau_ff := divBySize tauff n
      myTau_fj := divBySize taufj n
      myTau_jf := divBySize taujf n
      myTau_jj := divBySize taujj n
      myHeadwayCapacity := length / (15 / 2) * n
      myCapacity := length * n
      myOccupancy := 0
      myJamThreshold := uninitJamThreshold
      myJunctionControl := junctionControl
      myEntryBlockTime := SUMOTime_MIN
      myLengthGeometryFactor := lengthGeometryFactor
      myMeanSpeed := speed
      myLastMeanSpeedUpdate := SUMOTime_MIN
      myCarQues := if multi then List.replicate n [] else [[]]
      myBlockTimes := if multi then List.replicate n (-1) else [-1]
      myFollowerMap :=
        if multi then
          parent.successors.foldl
            (fun m e => followerMapSet m e ((parent.allowedLanes e).map (fun j => parent.lanes.indexOf j))) []
        else [] }
  recomputeJamThreshold env s jamThresh

/-- A world holding a freshly constructed segment and no external call yet. -/
def World.fresh (s : MESegment) (veh : VehPtr → MEVehicle) : World :=
  { seg := s, veh := veh, trace := [] }

/-- `MESegment::updateDetectorsOnLeave`. -/
def updateDetectorsOnLeave (w : World) (v : VehPtr) (currentTime : SUMOTime) (next : NextSeg) : World :=
  let reason :=
    match next with
    | NextSeg.null => Notification.ARRIVED
    | NextSeg.vaporizationTarget => Notification.VAPORIZED
    | NextSeg.real _ =>
      if w.seg.myNextSegment = none then Notification.JUNCTION else Notification.SEGMENT
  w.log (Event.updateDetectors v currentTime true (some reason))

/-- `MESegment::getCarNumber`. -/
def getCarNumber (s : MESegment) : Nat :=
  s.myCarQues.foldl (fun total k => total + k.length) 0

/-- Inner loop of `getMeanSpeed` over one queue, from `back()` to `front()`;
`vehs` is the queue reversed.  Returns the accumulated speed sum. -/
def meanSpeedQueue (env : Env) (veh : VehPtr → MEVehicle) (tau : SUMOTime) :
    List VehPtr → SUMOTime → SUMOReal → SUMOReal
  | [], _, v => v
  | p :: rest, earliestExitTime, v =>
    let r := env.getConservativeSpeed (veh p) earliestExitTime
    meanSpeedQueue env veh tau rest (r.2 + tau) (v + r.1)

/-- `MESegment::getMeanSpeed`; the method is `const` but writes the cache fields. -/
def getMeanSpeed (env : Env) (w : World) (useCached : Bool) : SUMOReal × World :=
  if env.currentTimeStep ≠ w.seg.myLastMeanSpeedUpdate ∨ useCached = false then
    let tau := if free w.seg then w.seg.myTau_ff else w.seg.myTau_jf
    let acc := w.seg.myCarQues.foldl
      (fun (a : SUMOReal × Nat) k =>
        (meanSpeedQueue env w.veh tau k.reverse env.currentTimeStep a.1, a.2 + k.length))
      ((0 : SUMOReal), 0)
    let ms := if acc.2 = 0 then w.seg.myMaxSpeed else acc.1 / (acc.2 : ℚ)
    (ms, { w with seg := { w.seg with myLastMeanSpeedUpdate := env.currentTimeStep, myMeanSpeed := ms } })
  else (w.seg.myMeanSpeed, w)

/-- `MESegment::hasSpaceFor`. -/
def hasSpaceFor (env : Env) (w : World) (veh : VehPtr) (entryTime : SUMOTime) (init : Bool) :
    Bool × World :=
  if w.seg.myOccupancy = 0 then (true, w)
  else
    let newOccupancy := w.seg.myOccupancy + (w.veh veh).getLengthWithGap
    if newOccupancy > w.seg.myCapacity then (false, w)
    else if init then
      let r := getMeanSpeed env w false
      (decide (newOccupancy ≤ jamThresholdForSpeed env r.2.seg r.1), r.2)
    else (decide (entryTime ≥ w.seg.myEntryBlockTime), w)

/-- `MESegment::initialise` ends in one of three ways. -/
inductive InitResult where
  | returned (b : Bool)
  | processError
  deriving DecidableEq, Repr

/-- `MESegment::removeCar`: returns the new leader car (or null) and the new state. -/
def removeCar (w : World) (v : VehPtr) (leaveTime : SUMOTime) (next : NextSeg) :
    Option VehPtr × World :=
  let q := (w.veh v).queIndex
  let w1 : World :=
    { w with seg := { w.seg with
        myOccupancy := max 0 (w.seg.myOccupancy - (w.veh v).getLengthWithGap) } }
  let cars := w1.seg.que q
  let w2 := updateDetectorsOnLeave w1 v leaveTime next
  if cars.getLast? = some v then
    let cars1 := cars.dropLast
    (cars1.getLast?, { w2 with seg := { w2.seg with myCarQues := w2.seg.myCarQues.set q cars1 } })
  else
    (none, { w2 with seg := { w2.seg with myCarQues := w2.seg.myCarQues.set q (cars.erase v) } })

/-- `MESegment::getTimeHeadway`. -/
def getTimeHeadway (s : MESegment) (predecessorIsFree : Bool) : SUMOTime :=
  if predecessorIsFree then
    if free s then s.myTau_ff else s.myTau_fj
  else
    if free s then s.myTau_jf
    else
      let b : SUMOTime := castToTime (s.myHeadwayCapacity * ((s.myTau_jf - s.myTau_jj : Int) : ℚ))
      wrapTime (s.myTau_jj * (getCarNumber s : Int) + b)

/-- `MESegment::getNextInsertionTime`. -/
def getNextInsertionTime (s : MESegment) (earliestEntry : SUMOTime) : SUMOTime :=
  let earliestLeave := (List.range s.myCarQues.length).foldl
    (fun e i => max e (s.block i)) earliestEntry
  max s.myEntryBlockTime (max earliestEntry (earliestLeave - TIME2STEPS (s.myLength / s.myMaxSpeed)))

/-- `myBlockTimes[q] = t`. -/
def World.setBlock (w : World) (q : Nat) (t : SUMOTime) : World :=
  { w with seg := { w.seg with myBlockTimes := w.seg.myBlockTimes.set q t } }

/-- `MESegment::send`.  The junction link (`getLink`, `removeApproaching`) is
outside the segment state and is not modelled. -/
def send (w : World) (veh : VehPtr) (next : NextSeg) (time : SUMOTime) : World :=
  let r := removeCar w veh time next
  let lc := r.1
  let w1 := r.2
  let q := (w1.veh veh).queIndex
  let w2 := w1.setBlock q time
  let w3 :=
    match next with
    | NextSeg.real n => w2.setBlock q (w2.seg.block q + getTimeHeadway n (free w2.seg))
    | _ => w2
  match lc with
  | some l =>
    (w3.setVeh l (fun v => { v with eventTime := max v.eventTime (w3.seg.block q) })).log
      (Event.addLeaderCar l)
  | none => w3

/-- `MESegment::overtake`; `rand` is the value `RandHelper::rand()` returns if
it is called, which the short-circuit allows only after the first two tests. -/
def overtake (env : Env) (w : World) (rand : SUMOReal) : Bool × World :=
  if env.gMesoOvertaking && decide (w.seg.myCapacity > w.seg.myLength) then
    (decide (rand > w.seg.myOccupancy / w.seg.myCapacity), w.log Event.randDraw)
  else (false, w)

/-- Queue selection in `receive`: the value of `nextQueIndex`. -/
def chooseQueue (s : MESegment) (succ : Option EdgeId) : Nat :=
  if s.myCarQues.length > 1 then
    match succ with
    | none => 0
    | some e =>
      match s.myFollowerMap.lookup e with
      | none => 0
      | some indices =>
        indices.tail.foldl
          (fun nextQueIndex i =>
            if (s.que i).length < (s.que nextQueIndex).length then i else nextQueIndex)
          (indices.headD 0)
  else 0

/-- The test at the head of `receive` that decides whether the route has ended. -/
def arrivalOnEntry (s : MESegment) (v : MEVehicle) (isDepart afterTeleport : Bool) : Bool :=
  !isDepart && (((s.myIndex == 0 || afterTeleport) && v.routeEndsOnMove) || v.arrived)

/-- The tentative exit time `tleave` computed by `receive` before the queue is inspected. -/
def tentativeLeave (s : MESegment) (v : MEVehicle) (time : SUMOTime) (nextQueIndex : Nat) :
    SUMOTime :=
  let maxSpeedOnEdge := v.chosenSpeedFactor * s.myMaxSpeed
  let uspeed := max (min maxSpeedOnEdge v.maxSpeed) (5 / 100)
  max (time + TIME2STEPS (s.myLength / uspeed) + v.stoptime) (s.block nextQueIndex)

/-- The queue insertion of `receive`: the state after the calls made while
inserting, the final `tleave`, whether `newLeader` is set, and the queue after
insertion. -/
def insertCar (env : Env) (w : World) (veh : VehPtr) (isDepart : Bool) (rand : SUMOReal)
    (tleave0 : SUMOTime) (cars : List VehPtr) : World × SUMOTime × Bool × List VehPtr :=
  match cars with
  | [] => (w, tleave0, true, [veh])
  | c0 :: rest =>
    let leaderOut := (w.veh c0).eventTime
    if !isDepart && decide (leaderOut > tleave0) then
      let o := overtake env w rand
      if o.1 then
        if rest = [] then
          (o.2.log (Event.removeLeaderCar c0), tleave0, true, c0 :: veh :: rest)
        else (o.2, tleave0, false, c0 :: veh :: rest)
      else (o.2, max (leaderOut + w.seg.myTau_ff) tleave0, false, veh :: c0 :: rest)
    else (w, max (leaderOut + w.seg.myTau_ff) tleave0, false, veh :: c0 :: rest)

/-- `MESegment::receive`.  `rand` is the next value of the shared random number
generator.  The second argument of `setEventTime` (the delay marker of the
edge) and `addReminders` have no effect on the segment and are not modelled;
the one-argument `setSegment(this)` assigns the segment only, as in the spec. -/
def receive (env : Env) (w0 : World) (veh : VehPtr) (time : SUMOTime)
    (isDepart afterTeleport : Bool) (rand : SUMOReal) : World :=
  let speed : SUMOReal := if isDepart then -1 else (w0.veh veh).speed
  let w := w0.setVeh veh (fun v =>
    { v with segment := some w0.seg.id, lastEntryTime := time, blockTime := SUMOTime_MAX })
  if arrivalOnEntry w.seg (w.veh veh) isDepart afterTeleport then
    let w1 := w.setVeh veh (fun v => { v with eventTime := time + TIME2STEPS (w.seg.myLength / speed) })
    let w2 := w1.log (Event.activateReminders veh Notification.JUNCTION)
    let w3 := updateDetectorsOnLeave w2 veh time NextSeg.null
    w3.log (Event.scheduleVehicleRemoval veh)
  else
    let nextQueIndex := chooseQueue w.seg (w.veh veh).succEdge1
    let tleave0 := tentativeLeave w.seg (w.veh veh) time nextQueIndex
    let ins := insertCar env w veh isDepart rand tleave0 (w.seg.que nextQueIndex)
    let wi := ins.1
    let tleave := ins.2.1
    let newLeader := ins.2.2.1
    let w1 : World := { wi with seg := { wi.seg with
      myCarQues := wi.seg.myCarQues.set nextQueIndex ins.2.2.2
      myEntryBlockTime := if isDepart then wi.seg.myEntryBlockTime else time + wi.seg.myTau_ff - 1 } }
    let w2 := w1.setVeh veh (fun v =>
      { v with eventTime := tleave, segment := some w1.seg.id, queIndex := nextQueIndex })
    let w3 : World := { w2 with seg := { w2.seg with
      myOccupancy := min w2.seg.myCapacity (w2.seg.myOccupancy + (w2.veh veh).getLengthWithGap) } }
    let w4 := w3.log (Event.activateReminders veh
      (if isDepart then Notification.DEPARTED
       else if w3.seg.myIndex == 0 || afterTeleport then Notification.JUNCTION
       else Notification.SEGMENT))
    if newLeader then w4.log (Event.addLeaderCar veh) else w4

/-- `MESegment::initialise`. -/
def initialise (env : Env) (w : World) (veh : VehPtr) (time : SUMOTime) : InitResult × World :=
  let h := hasSpaceFor env w veh time true
  if h.1 then
    -- a depart never reaches overtake(), so no random number is consumed
    let w1 := receive env h.2 veh time true false 0
    if env.gCheckRoutes && !(w1.veh veh).validRoute then (InitResult.processError, w1)
    else (InitResult.returned true, w1)
  else (InitResult.returned false, h.2)

/-- `MESegment::vaporizeAnyCar`: the return value, the victim (if any) and the
state after the two scheduler calls have been issued. -/
def vaporizeAnyCar (w : World) (currentTime : SUMOTime) : Bool × Option VehPtr × World :=
  match w.seg.myCarQues.find? (fun k => !k.isEmpty) with
  | some k =>
    match k.head? with
    | some remove =>
      let w1 := if k.length = 1 then w.log (Event.removeLeaderCar remove) else w
      (true, some remove, w1.log (Event.changeSegmentToVaporization remove currentTime))
    | none => (false, none, w)
  | none => (false, none, w)

/-- `MESegment::newArrival`. -/
def newArrival (s : MESegment) (v : MEVehicle) (newSpeed : SUMOReal) (currentTime : SUMOTime) :
    SUMOTime :=
  let pos := min s.myLength (STEPS2TIME (currentTime - v.lastEntryTime) * v.speed)
  currentTime + max (TIME2STEPS ((s.myLength - pos) / newSpeed)) 1

/-- The second loop of `setSpeedForQueue`, over the vehicles behind the one
that leaves next, from the back of the vector toward its front. -/
def setSpeedFollowers (newSpeed : SUMOReal) (currentTime : SUMOTime) :
    List VehPtr → SUMOTime → World → World
  | [], _, w => w
  | p :: rest, newEvent, w =>
    let w1 := w.log (Event.updateDetectors p currentTime false none)
    let newEvent1 := max (newArrival w1.seg (w1.veh p) newSpeed currentTime) (newEvent + w1.seg.myTau_ff)
    let w2 := w1.setVeh p (fun v => { v with eventTime := newEvent1 })
    setSpeedFollowers newSpeed currentTime rest newEvent1 w2

/-- `MESegment::setSpeedForQueue`. -/
def setSpeedForQueue (w : World) (newSpeed : SUMOReal) (currentTime blockTime : SUMOTime)
    (vehs : List VehPtr) : World :=
  match vehs.reverse with
  | [] => w
  | v :: rest =>
    let w1 := w.log (Event.updateDetectors v currentTime false none)
    let newEvent := max (newArrival w1.seg (w1.veh v) newSpeed currentTime) blockTime
    let w2 :=
      if (w1.veh v).eventTime ≠ newEvent then
        ((w1.log (Event.removeLeaderCar v)).setVeh v (fun x => { x with eventTime := newEvent })).log
          (Event.addLeaderCar v)
      else w1
    setSpeedFollowers newSpeed currentTime rest newEvent w2

/-- `MESegment::setSpeed`. -/
def setSpeed (env : Env) (w : World) (newSpeed : SUMOReal) (currentTime : SUMOTime)
    (jamThresh : SUMOReal) : World :=
  if w.seg.myMaxSpeed = newSpeed then w
  else
    let w1 : World :=
      { w with seg := recomputeJamThreshold env { w.seg with myMaxSpeed := newSpeed } jamThresh }
    (List.range w1.seg.myCarQues.length).foldl
      (fun x i =>
        if (x.seg.que i).length ≠ 0 then
          setSpeedForQueue x newSpeed currentTime (x.seg.block i) (x.seg.que i)
        else x)
      w1

/-- `MESegment::getEventTime`. -/
def getEventTime (w : World) : SUMOTime :=
  let result := (List.range w.seg.myCarQues.length).foldl
    (fun result i =>
      match (w.seg.que i).getLast? with
      | some b => if (w.veh b).eventTime < result then (w.veh b).eventTime else result
      | none => result)
    SUMOTime_MAX
  if result < SUMOTime_MAX then result else -1

/-- `MESegment::loadState`; `vehs` are the vehicles `vc.getVehicle` returns for
the listed ids. -/
def loadState (w : World) (vehs : List VehPtr) (block : SUMOTime) (queIdx : Nat) : World :=
  let w1 : World := vehs.foldl
    (fun x v => { x with seg := { x.seg with
      myCarQues := x.seg.myCarQues.set queIdx (x.seg.que queIdx ++ [v])
      myOccupancy := x.seg.myOccupancy + (x.veh v).getLengthWithGap } })
    w
  let w2 :=
    match (w1.seg.que queIdx).getLast? with
    | some veh => w1.log (Event.addLeaderCar veh)
    | none => w1
  let w3 := w2.setBlock queIdx block
  let occupancy := min w3.seg.myCapacity w3.seg.myOccupancy
  { w3 with seg := { w3.seg with myOccupancy := occupancy } }

/-- Modelled from the spec: the scheduler's `changeSegment(veh, t,
vaporizationSentinel)` (`MELoop`, not part of the sources), a scheduler-driven
removal: it calls `send(veh, vaporizationSentinel, t)` on the vehicle's segment. -/
def changeSegmentToVaporization (w : World) (veh : VehPtr) (t : SUMOTime) : World :=
  send w veh NextSeg.vaporizationTarget t

/-- One operation on a segment, with the values the environment supplies to it. -/
inductive Op where
  | receive (env : Env) (veh : VehPtr) (time : SUMOTime) (isDepart afterTeleport : Bool)
      (rand : SUMOReal)
  | send (veh : VehPtr) (next : NextSeg) (time : SUMOTime)
  | vaporizeAnyCar (currentTime : SUMOTime)
  | setSpeed (env : Env) (newSpeed : SUMOReal) (currentTime : SUMOTime) (jamThresh : SUMOReal)
  | loadState (vehs : List VehPtr) (block : SUMOTime) (queIdx : Nat)

/-- Effect of one operation.  `vaporizeAnyCar` is followed by the removal the
scheduler performs in response to its `changeSegment` call. -/
def step (w : World) : Op → World
  | Op.receive env veh time isDepart afterTeleport rand =>
    receive env w veh time isDepart afterTeleport rand
  | Op.send veh next time => send w veh next time
  | Op.vaporizeAnyCar t =>
    match vaporizeAnyCar w t with
    | (_, some victim, w1) => changeSegmentToVaporization w1 victim t
    | (_, none, w1) => w1
  | Op.setSpeed env newSpeed t jamThresh => setSpeed env w newSpeed t jamThresh
  | Op.loadState vehs block queIdx => loadState w vehs block queIdx

/-- State after a sequence of operations. -/
def run (w : World) (ops : List Op) : World := ops.foldl step w

/-- The attributes of a segment that no method assigns after construction. -/
def MESegment.fixed (s : MESegment) :=
  (s.id, s.myNextSegment, s.myLength, s.myIndex, s.myTau_ff, s.myTau_fj, s.myTau_jf, s.myTau_jj,
    s.myHeadwayCapacity, s.myCapacity, s.myJunctionControl, s.myLengthGeometryFactor,
    s.myFollowerMap, s.myCarQues.length, s.myBlockTimes.length)

/-- The attributes of a vehicle the segment only reads. -/
def MEVehicle.facade (v : MEVehicle) :=
  (v.length, v.minGap, v.maxSpeed, v.chosenSpeedFactor, v.speed, v.routeEndsOnMove, v.arrived,
    v.succEdge1, v.stoptime, v.validRoute)

/-- A vehicle for the worked examples: 5 m long with a 2.5 m gap, on a route that continues. -/
def exVehicle : MEVehicle :=
  { length := 5, minGap := 5 / 2, maxSpeed := 50, chosenSpeedFactor := 1, speed := 10,
    routeEndsOnMove := false, arrived := false, succEdge1 := none, stoptime := 0,
    validRoute := true, eventTime := 0, lastEntryTime := 0, blockTime := 0, segment := none,
    queIndex := 0 }

/-- Globals for the worked examples: overtaking enabled, default vehicle 5 m + 2.5 m. -/
def exEnv : Env :=
  { gMesoOvertaking := true, gCheckRoutes := false, currentTimeStep := 0, defaultLength := 5,
    defaultMinGap := 5 / 2, getConservativeSpeed := fun v t => (10, max v.eventTime t) }

/-- A one-lane edge with a single successor. -/
def exEdge : MSEdge := { lanes := [0], successors := [1], allowedLanes := fun _ => [0] }

/-- An empty one-lane, one-queue segment of 100 m with free speed 25 m/s. -/
def exSegment : MESegment :=
  { id := "seg", myNextSegment := none, myLength := 100, myMaxSpeed := 25, myIndex := 0,
    myTau_ff := 1000, myTau_fj := 1500, myTau_jf := 2000, myTau_jj := 3000,
    myHeadwayCapacity := 40 / 3, myCapacity := 100, myOccupancy := 0, myJamThreshold := 30,
    myJunctionControl := false, myEntryBlockTime := 0, myLengthGeometryFactor := 1,
    myMeanSpeed := 25, myLastMeanSpeedUpdate := SUMOTime_MIN, myCarQues := [[]],
    myBlockTimes := [-1], myFollowerMap := [] }

/-- The example segment with a given occupancy, all vehicles of the store being `v`. -/
def exWorld (occupancy : SUMOReal) (v : MEVehicle) : World :=
  { seg := { exSegment with myOccupancy := occupancy }, veh := fun _ => v, trace := [] }

/-- The constructor `MESegment::MESegment(const std::string& id)`, used for
the vaporization target.  The members it does not initialise are parameters. -/
def constructNamed (id : String) (occupancy jamThreshold meanSpeed : SUMOReal)
    (entryBlockTime lastMeanSpeedUpdate : SUMOTime) : MESegment :=
  { id := id, myNextSegment := none, myLength := 0, myMaxSpeed := 0, myIndex := 0,
    myTau_ff := 0, myTau_fj := 0, myTau_jf := 0, myTau_jj := 0, myHeadwayCapacity := 0,
    myCapacity := 0, myOccupancy := occupancy, myJamThreshold := jamThreshold,
    myJunctionControl := false, myEntryBlockTime := entryBlockTime, myLengthGeometryFactor := 0,
    myMeanSpeed := meanSpeed, myLastMeanSpeedUpdate := lastMeanSpeedUpdate, myCarQues := [],
    myBlockTimes := [], myFollowerMap := [] }

/-- Vehicle 0 is 96.5 m long with a 2.5 m gap, every other vehicle is 1 m long with a 1 m gap. -/
def exStoreLong : VehPtr → MEVehicle :=
  fun p => if p = 0 then { exVehicle with length := 193 / 2 }
    else { exVehicle with length := 1, minGap := 1 }

/-- The example segment after vehicle 0 of `exStoreLong` has departed on it. -/
def exWorldNearlyFull : World := receive exEnv (World.fresh exSegment exStoreLong) 0 0 true false 0

/-- The example segment holding five example vehicles, which puts its occupancy
(37.5) above its jam threshold (30). -/
def exWorldJammed : World :=
  { seg := { exSegment with myOccupancy := 75 / 2, myCarQues := [[4, 3, 2, 1, 0]] },
    veh := fun _ => exVehicle, trace := [] }

/-- Event times along queue `q`, from `front()` (the vehicle received last)
to `back()` (the vehicle that leaves next). -/
def queueEventTimes (w : World) (q : Nat) : List SUMOTime :=
  (w.seg.que q).map (fun p => (w.veh p).eventTime)

/-- In every queue, of two adjacent vehicles the one nearer `front()` has an
event time at least that of the one nearer `back()`. -/
def QueueOrdered (w : World) : Prop :=
  ∀ q, List.Chain' (fun back front : SUMOTime => back ≥ front) (queueEventTimes w q)

/-- No vehicle is queued twice. -/
def QueuesDistinct (w : World) : Prop :=
  (∀ q, (w.seg.que q).Nodup) ∧ ∀ q1 q2, q1 ≠ q2 → List.Disjoint (w.seg.que q1) (w.seg.que q2)

/-- Side conditions under which an operation keeps the queues ordered: a
received vehicle is not queued already and does not overtake into a queue of two
or more vehicles; a `send` that promotes a new leader leaves a block time that
does not exceed the event time of the vehicle behind that leader. -/
def OrderSafe (w : World) : Op → Prop
  | Op.receive env veh time isDepart afterTeleport rand =>
    (∀ q, veh ∉ w.seg.que q)
    ∧ (arrivalOnEntry w.seg (w.veh veh) isDepart afterTeleport = true
      ∨ (w.seg.que (chooseQueue w.seg (w.veh veh).succEdge1)).length ≤ 1
      ∨ ((receive env w veh time isDepart afterTeleport rand).seg.que
          (chooseQueue w.seg (w.veh veh).succEdge1)).head? = some veh)
  | Op.send veh next time =>
    ∀ pre f lc, w.seg.que (w.veh veh).queIndex = pre ++ [f, lc, veh] →
      (send w veh next time).seg.block (w.veh veh).queIndex ≤ (w.veh f).eventTime
  | Op.setSpeed _ _ _ _ => True
  | Op.vaporizeAnyCar _ => False
  | Op.loadState _ _ _ => False

/-- Every operation of the sequence meets `OrderSafe` in the state it is applied to. -/
def OrderSafeRun : World → List Op → Prop
  | _, [] => True
  | w, op :: rest => OrderSafe w op ∧ OrderSafeRun (step w op) rest

/-- The three facts the ordering argument carries along a run. -/
def OrderInv (w : World) : Prop := QueueOrdered w ∧ QueuesDistinct w ∧ 0 ≤ w.seg.myTau_ff

/-- A two-lane, one-queue variant of the example segment: capacity 200, free
speed 10 m/s, `tau_ff` 0.5 s. -/
def exSegmentTwoLanes : MESegment :=
  { exSegment with
    myMaxSpeed := 10, myMeanSpeed := 10, myCapacity := 200, myTau_ff := 500, myHeadwayCapacity := 80 / 3 }

/-- Vehicle 2 chooses twice the speed limit, every other vehicle is `exVehicle`. -/
def exStoreFast : VehPtr → MEVehicle :=
  fun p => if p = 2 then { exVehicle with chosenSpeedFactor := 2 } else exVehicle

/-- Vehicles 0 and 1 depart on the empty two-lane segment at 0 s and 0.5 s. -/
def exDeparts : List Op := [Op.receive exEnv 0 0 true false 0, Op.receive exEnv 1 500 true false 0]

/-- After `exDeparts`, the fast vehicle 2 enters from upstream at 1 s and the
random draw 0.9 lets it overtake. -/
def exOvertakeOps : List Op := exDeparts ++ [Op.receive exEnv 2 1000 false false (9 / 10)]

/-- A free segment whose `tau_ff` is 5 s, used as the target of a `send`. -/
def exSegmentSlow : MESegment := { exSegment with myTau_ff := 5000 }

/-- After `exDeparts`, vehicle 3 departs at 1 s and vehicle 0 is sent on at 10 s. -/
def exSendOps : List Op :=
  exDeparts ++ [Op.receive exEnv 3 1000 true false 0, Op.send 0 (NextSeg.real exSegmentSlow) 10000]

/-- After `exDeparts`, vehicle 0 arrives at 10 s and the free speed is halved at 10.5 s. -/
def exOrderedOps : List Op :=
  exDeparts ++ [Op.send 0 NextSeg.null 10000, Op.setSpeed exEnv 5 10500 (-1)]

/-- The occupancy bounds together with what keeps them: a non-negative
capacity and vehicles of non-negative length plus gap. -/
def OccupancyInv (w : World) : Prop :=
  (∀ p, 0 ≤ (w.veh p).getLengthWithGap) ∧ 0 ≤ w.seg.myCapacity
    ∧ 0 ≤ w.seg.myOccupancy ∧ w.seg.myOccupancy ≤ w.seg.myCapacity

/-- Scenario S2: the segment built for L = 100 m on a one-lane edge with
`tau_jj` = 3 s and `tau_jf` = 2 s, holding ten vehicles in a jam. -/
def exJamPropagation : MESegment :=
  { construct exEnv "seg" exEdge none 100 25 0 1000 1000 2000 3000 (-1) false false 1 0 with
    myOccupancy := 75, myCarQues := [[9, 8, 7, 6, 5, 4, 3, 2, 1, 0]] }

/-- Scenario S1: vehicle `v` departs at time 0 on the empty segment built for
L = 100 m, v_max = 25 m/s and `tau_ff` = 1 s on the edge `parent`. -/
def exFreeFlow (env : Env) (parent : MSEdge) (store : VehPtr → MEVehicle) (v : VehPtr) : World :=
  receive env
    (World.fresh (construct env "seg" parent none 100 25 0 1000 1000 2000 3000 (-1) false false 1 0) store)
    v 0 true false 0

/-- Event times of the vehicles that leave next, one for each non-empty queue. -/
def leaderEventTimes (w : World) : List SUMOTime :=
  w.seg.myCarQues.filterMap (fun k => k.getLast?.map (fun b => (w.veh b).eventTime))

/-- Vehicle `p` has event time `p + 1` seconds. -/
def exStoreTimed : VehPtr → MEVehicle :=
  fun p => { exVehicle with eventTime := 1000 * ((p : Int) + 1) }

/-- Three queues, the middle one empty; the vehicles that leave next are 0 and 2. -/
def exWorldThreeQueues : World :=
  { seg := { exSegment with
      myOccupancy := 30, myCarQues := [[1, 0], [], [3, 2]], myBlockTimes := [-1, -1, -1] },
    veh := exStoreTimed, trace := [] }

/-- Number of `receive` calls in a sequence of operations. -/
def receiveCalls (ops : List Op) : Nat :=
  (ops.filter (fun op => match op with
    | Op.receive _ _ _ _ _ _ => true
    | _ => false)).length

/-- Number of `send` calls in a sequence of operations. -/
def sendCalls (ops : List Op) : Nat :=
  (ops.filter (fun op => match op with
    | Op.send _ _ _ => true
    | _ => false)).length

/-- Number of `receive` calls of a run, started in `w`, whose route continues,
that is, which do not take the arrival path and so queue their vehicle. -/
def queuedReceives : World → List Op → Nat
  | _, [] => 0
  | w, op :: rest =>
    (match op with
      | Op.receive _ veh _ isDepart afterTeleport _ =>
        if arrivalOnEntry w.seg (w.veh veh) isDepart afterTeleport then 0 else 1
      | _ => 0)
    + queuedReceives (step w op) rest

/-- Preconditions of the operations counted by the conservation law: a
`receive` selects an existing queue, a `send` is for a vehicle in the queue
its queue index names (the assertion of `removeCar`); no other operation. -/
def CountSafe (w : World) : Op → Prop
  | Op.receive _ veh _ _ _ _ => chooseQueue w.seg (w.veh veh).succEdge1 < w.seg.myCarQues.length
  | Op.send veh _ _ => veh ∈ w.seg.que (w.veh veh).queIndex
  | _ => False

/-- Every operation of the sequence meets `CountSafe` in the state it is applied to. -/
def CountSafeRun : World → List Op → Prop
  | _, [] => True
  | w, op :: rest => CountSafe w op ∧ CountSafeRun (step w op) rest

/-- Every vehicle of this store has arrived at its destination. -/
def exStoreArrived : VehPtr → MEVehicle := fun _ => { exVehicle with arrived := true }

/-- In every non-empty queue the vehicle that leaves next has an event time at
least the block time of the queue. -/
def LeaderAfterBlock (w : World) : Prop :=
  ∀ q b, (w.seg.que q).getLast? = some b → w.seg.block q ≤ (w.veh b).eventTime

/-- Side conditions under which an operation keeps `LeaderAfterBlock`: a
received vehicle is not queued already; a `send` removes the vehicle that
leaves next or leaves a block time not above the event time of that vehicle;
`loadState` lists distinct vehicles that are not queued, and leaves a block
time not above the event time of the vehicle that then leaves next. -/
def BlockSafe (w : World) : Op → Prop
  | Op.receive _ veh _ _ _ _ => ∀ q, veh ∉ w.seg.que q
  | Op.send veh next time =>
    (w.seg.que (w.veh veh).queIndex).getLast? = some veh
    ∨ ∀ b, (w.seg.que (w.veh veh).queIndex).getLast? = some b →
        (send w veh next time).seg.block (w.veh veh).queIndex ≤ (w.veh b).eventTime
  | Op.setSpeed _ _ _ _ => True
  | Op.loadState vehs block queIdx =>
    vehs.Nodup ∧ (∀ v ∈ vehs, ∀ q, v ∉ w.seg.que q)
    ∧ ∀ b, (w.seg.que queIdx ++ vehs).getLast? = some b →
        (loadState w vehs block queIdx).seg.block queIdx ≤ (w.veh b).eventTime
  | Op.vaporizeAnyCar _ => False

/-- Every operation of the sequence meets `BlockSafe` in the state it is applied to. -/
def BlockSafeRun : World → List Op → Prop
  | _, [] => True
  | w, op :: rest => BlockSafe w op ∧ BlockSafeRun (step w op) rest

/-- Vehicles 0 and 1 are restored into queue 0 with block time 0, vehicle 3
departs at 1 s, and vehicle 1, the next to leave, arrives at 2 s. -/
def exBlockOps : List Op :=
  [Op.loadState [0, 1] 0 0, Op.receive exEnv 3 1000 true false 0, Op.send 1 NextSeg.null 2000]

/-- Vehicle 0, whose event time is 0, is restored into queue 0 with block time 0.1 s. -/
def exLateBlockOps : List Op := [Op.loadState [0] 100 0]

/-- Modelled from the spec: the scheduler (`MELoop`, not part of the sources)
as one segment sees it, namely the set of vehicles registered by `addLeaderCar`
and not yet removed by `removeLeaderCar`.  `paired` stays true as long as every
`removeLeaderCar` named a vehicle that was registered when it was issued. -/
structure Scheduler where
  registered : Finset VehPtr
  paired : Bool

/-- Effect of one external call of the segment on the scheduler. -/
def Scheduler.apply (sch : Scheduler) : Event → Scheduler
  | Event.addLeaderCar v => { sch with registered := insert v sch.registered }
  | Event.removeLeaderCar v =>
    { registered := sch.registered.erase v, paired := sch.paired && decide (v ∈ sch.registered) }
  | _ => sch

/-- Effect of a list of external calls, in the order they were made. -/
def Scheduler.applyAll (sch : Scheduler) (evs : List Event) : Scheduler :=
  evs.foldl Scheduler.apply sch

/-- Modelled from the spec: the scheduler across one operation.  Before it calls
`send` on a vehicle the scheduler removes that vehicle from its own set; then
it processes the calls the operation has appended to the trace. -/
def schedStep (sch : Scheduler) (w : World) (op : Op) : Scheduler :=
  let sch0 : Scheduler :=
    match op with
    | Op.send veh _ _ => { sch with registered := sch.registered.erase veh }
    | _ => sch
  sch0.applyAll ((step w op).trace.drop w.trace.length)

/-- The scheduler after a sequence of operations that starts in state `w`. -/
def schedRun : Scheduler → World → List Op → Scheduler
  | sch, _, [] => sch
  | sch, w, op :: rest => schedRun (schedStep sch w op) (step w op) rest

/-- Vehicle `v` is the one that leaves next from some queue. -/
def IsLeader (w : World) (v : VehPtr) : Prop := ∃ q, (w.seg.que q).getLast? = some v

/-- Every queued vehicle records the index of the queue that holds it. -/
def QueIndexOk (w : World) : Prop := ∀ q v, v ∈ w.seg.que q → (w.veh v).queIndex = q

/-- Preconditions of the operations in the registration argument: a received
vehicle is not queued already and, unless its route ends, the queue selected
for it exists; `loadState` is not among the operations. -/
def RegSafe (w : World) : Op → Prop
  | Op.receive _ veh _ isDepart afterTeleport _ =>
    (∀ q, veh ∉ w.seg.que q)
    ∧ (arrivalOnEntry w.seg (w.veh veh) isDepart afterTeleport = true
      ∨ chooseQueue w.seg (w.veh veh).succEdge1 < w.seg.myCarQues.length)
  | Op.loadState _ _ _ => False
  | _ => True

/-- Every operation of the sequence meets `RegSafe` in the state it is applied to. -/
def RegSafeRun : World → List Op → Prop
  | _, [] => True
  | w, op :: rest => RegSafe w op ∧ RegSafeRun (step w op) rest

/-- What the registration argument carries along a run: every removal so far
named a registered vehicle, the registered vehicles are the leaders, no vehicle
is queued twice and every queued vehicle knows its queue. -/
def RegInv (sch : Scheduler) (w : World) : Prop :=
  sch.paired = true ∧ (∀ u, u ∈ sch.registered ↔ IsLeader w u) ∧ QueuesDistinct w ∧ QueIndexOk w

/-- After `exDeparts`, a vehicle is vaporized at 0.6 s and the free speed is
halved at 10.5 s. -/
def exRegOps : List Op :=
  exDeparts ++ [Op.vaporizeAnyCar 600, Op.setSpeed exEnv 5 10500 (-1)]

/-- The segment of `exWorldThreeQueues` (queue lengths 2, 0, 2) with a follower
map: edge 7 may be reached from queues 0, 2, 1 and edge 8 from queues 2, 0. -/
def exSegmentFollowers : MESegment :=
  { exWorldThreeQueues.seg with myFollowerMap := [(7, [0, 2, 1]), (8, [2, 0])] }

/-- Scenario S3: two lanes, capacity 200, L = 100, occupancy 50; vehicle 0 is
alone in the queue with event time 20 s; every other vehicle takes 10 s for the
segment at the free speed of 10 m/s. -/
def exWorldS3 : World :=
  { seg := { exSegmentTwoLanes with myOccupancy := 50, myCarQues := [[0]] },
    veh := fun p => if p = 0 then { exVehicle with eventTime := 20000 } else exVehicle,
    trace := [] }

/-- After `exSendOps`, vehicle 3 is vaporized at 11 s, before the block time of
15 s that the `send` of vehicle 0 left behind. -/
def exVaporizeEarlyOps : List Op := exSendOps ++ [Op.send 3 NextSeg.vaporizationTarget 11000]

/-- A jammed downstream segment holding two vehicles: occupancy 40 above the jam
threshold 30. -/
def exSegmentJamNext : MESegment := { exSegment with myOccupancy := 40, myCarQues := [[5, 4]] }

/-- A jammed segment (occupancy 80) with two vehicles and block time 5 s. -/
def exWorldJamSend : World :=
  { seg := { exSegment with myOccupancy := 80, myCarQues := [[1, 0]], myBlockTimes := [5000] },
    veh := fun _ => exVehicle, trace := [] }

/-- Operations that are not meant to lower the event time of vehicle `p`: a
`receive` of another vehicle, and any `send`. -/
def KeepsEvent (p : VehPtr) : Op → Prop
  | Op.receive _ veh _ _ _ _ => veh ≠ p
  | Op.send _ _ _ => True
  | _ => False

/-- Vehicle 0 departs on the empty two-lane segment (free speed 10 m/s); at 1 s
the free speed is raised to 25 m/s. -/
def exSpeedUpOps : List Op :=
  [Op.receive exEnv 0 0 true false 0, Op.setSpeed exEnv 25 1000 DO_NOT_PATCH_JAM_THRESHOLD]

/-- Summed length plus gap of all vehicles queued on the segment. -/
def queuedLengthWithGap (w : World) : SUMOReal :=
  (w.seg.myCarQues.map (fun k => (k.map (fun v => (w.veh v).getLengthWithGap)).sum)).sum

/-- The example segment as the second segment of its edge (index 1). -/
def exSegmentSecond : MESegment := { exSegment with myIndex := 1 }

/-- Modelled from the spec: the calls of `setSpeed` for one queue with block time
`blockTime`, stated for comparison with `setSpeedForQueue`: the detector update
of the leader, its removal from and registration with the scheduler if its
event time differs from `max(newArrival, blockTime)`, then the detector updates
of the other vehicles from the leader toward the tail. -/
def speedCalls (w : World) (newSpeed : SUMOReal) (currentTime blockTime : SUMOTime)
    (vehs : List VehPtr) : List Event :=
  match vehs.reverse with
  | [] => []
  | leader :: rest =>
    Event.updateDetectors leader currentTime false none
      :: ((if (w.veh leader).eventTime
              ≠ max (newArrival w.seg (w.veh leader) newSpeed currentTime) blockTime
            then [Event.removeLeaderCar leader, Event.addLeaderCar leader] else [])
          ++ rest.map (fun p => Event.updateDetectors p currentTime false none))

/-- The world of scenario S6: the example segment with vehicle 0 alone in its
queue, its event time at 100 s. -/
def exWorldS6 : World :=
  { seg := { exSegment with myCarQues := [[0]], myOccupancy := 15 / 2 },
    veh := fun _ => { exVehicle with eventTime := 100000 }, trace := [] }

/-- Modelled from the spec: the speeds `meanSpeed` sums for one queue, walked from
the vehicle that leaves next: the running `earliestExitTime` is passed to
`conservativeSpeed`, which updates it, and `tau` is added after each vehicle. -/
def specQueueSpeeds (env : Env) (veh : VehPtr → MEVehicle) (tau : SUMOTime) :
    List VehPtr → SUMOTime → List SUMOReal
  | [], _ => []
  | p :: rest, earliestExitTime =>
    (env.getConservativeSpeed (veh p) earliestExitTime).1
      :: specQueueSpeeds env veh tau rest ((env.getConservativeSpeed (veh p) earliestExitTime).2 + tau)

/-- Modelled from the spec: the recomputed mean speed, stated for comparison with
`getMeanSpeed`: `tau` is `tau_ff` on a free segment and `tau_jf` otherwise; every
queue starts at the current tick; the speeds are summed in the order they are
asked for and divided by the number of vehicles; `v_max` if there is none. -/
def specMeanSpeed (env : Env) (w : World) : SUMOReal :=
  let tau := if free w.seg then w.seg.myTau_ff else w.seg.myTau_jf
  let speeds := (w.seg.myCarQues.map
    (fun k => specQueueSpeeds env w.veh tau k.reverse env.currentTimeStep)).flatten
  let count := (w.seg.myCarQues.map List.length).sum
  if count = 0 then w.seg.myMaxSpeed else speeds.foldl (fun v x => v + x) 0 / (count : ℚ)

/-- Vehicle 0 is 27.5 m long with a 2.5 m gap, every other vehicle is the example vehicle. -/
def exStoreTruck : VehPtr → MEVehicle :=
  fun p => if p = 0 then { exVehicle with length := 55 / 2 } else exVehicle

/-- The example segment after vehicle 0 of `exStoreTruck` has departed on it. -/
def exWorldTruck : World := receive exEnv (World.fresh exSegment exStoreTruck) 0 0 true false 0

/-- The assignment `myOccupancy = MIN2(myCapacity, myOccupancy + lengthWithGap)`
of `receive`, with the rounding `fl` of the `SUMOReal` addition written out;
`fl = id` is the exact arithmetic used elsewhere in this development. -/
def occupancyOnReceive (fl : SUMOReal → SUMOReal) (capacity occupancy lengthWithGap : SUMOReal) :
    SUMOReal :=
  min capacity (fl (occupancy + lengthWithGap))

/-- The assignment `myOccupancy = MAX2(0, myOccupancy - lengthWithGap)` of
`removeCar`, with the rounding `fl` of the `SUMOReal` subtraction written out. -/
def occupancyOnRemove (fl : SUMOReal → SUMOReal) (occupancy lengthWithGap : SUMOReal) : SUMOReal :=
  max 0 (fl (occupancy - lengthWithGap))

/-- The example segment after one example vehicle has departed on it. -/
def exWorldOneCar : World :=
  receive exEnv (World.fresh exSegment (fun _ => exVehicle)) 0 0 true false 0

/-! ## Basic facts about the state updates -/

@[simp] theorem log_seg (w : World) (e : Event) : (w.log e).seg = w.seg := rfl
@[simp] theorem log_veh (w : World) (e : Event) : (w.log e).veh = w.veh := rfl
@[simp] theorem log_trace (w : World) (e : Event) : (w.log e).trace = w.trace ++ [e] := rfl
@[simp] theorem setVeh_seg (w : World) (p : VehPtr) (f : MEVehicle → MEVehicle) :
    (w.setVeh p f).seg = w.seg := rfl
@[simp] theorem setVeh_trace (w : World) (p : VehPtr) (f : MEVehicle → MEVehicle) :
    (w.setVeh p f).trace = w.trace := rfl
theorem setVeh_veh (w : World) (p q : VehPtr) (f : MEVehicle → MEVehicle) :
    (w.setVeh p f).veh q = if q = p then f (w.veh p) else w.veh q := by
  unfold World.setVeh
  by_cases h : q = p
  · subst h; simp
  · simp [h]
@[simp] theorem setVeh_veh_self (w : World) (p : VehPtr) (f : MEVehicle → MEVehicle) :
    (w.setVeh p f).veh p = f (w.veh p) := by simp [setVeh_veh]
theorem setVeh_veh_other (w : World) (p q : VehPtr) (f : MEVehicle → MEVehicle) (h : q ≠ p) :
    (w.setVeh p f).veh q = w.veh q := by simp [setVeh_veh, h]
@[simp] theorem setBlock_veh (w : World) (q : Nat) (t : SUMOTime) : (w.setBlock q t).veh = w.veh := rfl
@[simp] theorem setBlock_trace (w : World) (q : Nat) (t : SUMOTime) :
    (w.setBlock q t).trace = w.trace := rfl
@[simp] theorem updateDetectorsOnLeave_seg (w : World) (v : VehPtr) (t : SUMOTime) (n : NextSeg) :
    (updateDetectorsOnLeave w v t n).seg = w.seg := rfl
@[simp] theorem updateDetectorsOnLeave_veh (w : World) (v : VehPtr) (t : SUMOTime) (n : NextSeg) :
    (updateDetectorsOnLeave w v t n).veh = w.veh := rfl
@[simp] theorem overtake_seg (env : Env) (w : World) (r : SUMOReal) :
    (overtake env w r).2.seg = w.seg := by
  unfold overtake; split_ifs <;> rfl
@[simp] theorem overtake_veh (env : Env) (w : World) (r : SUMOReal) :
    (overtake env w r).2.veh = w.veh := by
  unfold overtake; split_ifs <;> rfl
@[simp] theorem insertCar_seg (env : Env) (w : World) (veh : VehPtr) (d : Bool) (r : SUMOReal)
    (t : SUMOTime) (cars : List VehPtr) : (insertCar env w veh d r t cars).1.seg = w.seg := by
  unfold insertCar
  cases cars with
  | nil => rfl
  | cons c rest => simp only []; split_ifs <;> simp
@[simp] theorem insertCar_veh (env : Env) (w : World) (veh : VehPtr) (d : Bool) (r : SUMOReal)
    (t : SUMOTime) (cars : List VehPtr) : (insertCar env w veh d r t cars).1.veh = w.veh := by
  unfold insertCar
  cases cars with
  | nil => rfl
  | cons c rest => simp only []; split_ifs <;> simp

/-- Occupancy after `receive`. -/
theorem receive_occupancy (env : Env) (w : World) (veh : VehPtr) (time : SUMOTime)
    (d a : Bool) (r : SUMOReal) :
    (receive env w veh time d a r).seg.myOccupancy =
      if arrivalOnEntry w.seg (w.veh veh) d a then w.seg.myOccupancy
      else min w.seg.myCapacity (w.seg.myOccupancy + (w.veh veh).getLengthWithGap) := by
  unfold receive
  simp only [setVeh_seg, setVeh_veh_self]
  have harr : ∀ (s : MESegment) (v : MEVehicle) (x : Option String) (t b : SUMOTime),
      arrivalOnEntry s { v with segment := x, lastEntryTime := t, blockTime := b } d a
        = arrivalOnEntry s v d a := fun _ _ _ _ _ => rfl
  rw [harr]
  by_cases h : arrivalOnEntry w.seg (w.veh veh) d a = true
  · simp [h]
  · simp only [h, if_false]
    split_ifs <;> simp [MEVehicle.getLengthWithGap]

theorem receive_fixed (env : Env) (w : World) (veh : VehPtr) (time : SUMOTime)
    (d a : Bool) (r : SUMOReal) :
    (receive env w veh time d a r).seg.fixed = w.seg.fixed := by
  unfold receive
  simp only [setVeh_seg, setVeh_veh_self]
  split_ifs <;> simp [MESegment.fixed]

theorem receive_facade (env : Env) (w : World) (veh : VehPtr) (time : SUMOTime)
    (d a : Bool) (r : SUMOReal) (p : VehPtr) :
    ((receive env w veh time d a r).veh p).facade = (w.veh p).facade := by
  unfold receive
  simp only [setVeh_seg, setVeh_veh_self]
  split_ifs <;> by_cases hp : p = veh <;> simp [setVeh_veh, hp, MEVehicle.facade]


theorem removeCar_occupancy (w : World) (v : VehPtr) (t : SUMOTime) (n : NextSeg) :
    (removeCar w v t n).2.seg.myOccupancy
      = max 0 (w.seg.myOccupancy - (w.veh v).getLengthWithGap) := by
  unfold removeCar
  simp only []
  split_ifs <;> rfl

theorem removeCar_fixed (w : World) (v : VehPtr) (t : SUMOTime) (n : NextSeg) :
    (removeCar w v t n).2.seg.fixed = w.seg.fixed := by
  unfold removeCar
  simp only []
  split_ifs <;> simp [MESegment.fixed]

@[simp] theorem removeCar_veh (w : World) (v : VehPtr) (t : SUMOTime) (n : NextSeg) :
    (removeCar w v t n).2.veh = w.veh := by
  unfold removeCar
  simp only []
  split_ifs <;> rfl

@[simp] theorem removeCar_blockTimes (w : World) (v : VehPtr) (t : SUMOTime) (n : NextSeg) :
    (removeCar w v t n).2.seg.myBlockTimes = w.seg.myBlockTimes := by
  unfold removeCar
  simp only []
  split_ifs <;> rfl

theorem send_occupancy (w : World) (v : VehPtr) (n : NextSeg) (t : SUMOTime) :
    (send w v n t).seg.myOccupancy = max 0 (w.seg.myOccupancy - (w.veh v).getLengthWithGap) := by
  unfold send
  simp only []
  cases n <;> cases (removeCar w v t _).1 <;>
    simp [World.setBlock, removeCar_occupancy]

theorem send_fixed (w : World) (v : VehPtr) (n : NextSeg) (t : SUMOTime) :
    (send w v n t).seg.fixed = w.seg.fixed := by
  have h := removeCar_fixed w v t n
  unfold send
  simp only []
  cases n <;> cases (removeCar w v t _).1 <;>
    simp_all [World.setBlock, MESegment.fixed]

theorem send_facade (w : World) (v : VehPtr) (n : NextSeg) (t : SUMOTime) (p : VehPtr) :
    ((send w v n t).veh p).facade = (w.veh p).facade := by
  unfold send
  simp only []
  cases n <;> cases (removeCar w v t _).1 <;>
    simp [setVeh_veh] <;> split_ifs <;> simp_all [MEVehicle.facade]


@[simp] theorem setSpeedFollowers_seg (ns : SUMOReal) (t : SUMOTime) (l : List VehPtr)
    (e : SUMOTime) (w : World) : (setSpeedFollowers ns t l e w).seg = w.seg := by
  induction l generalizing e w with
  | nil => rfl
  | cons p rest ih => simp [setSpeedFollowers, ih]

theorem setSpeedFollowers_facade (ns : SUMOReal) (t : SUMOTime) (l : List VehPtr)
    (e : SUMOTime) (w : World) (p : VehPtr) :
    ((setSpeedFollowers ns t l e w).veh p).facade = (w.veh p).facade := by
  induction l generalizing e w with
  | nil => rfl
  | cons q rest ih =>
    simp only [setSpeedFollowers, ih]
    by_cases hp : p = q <;> simp [setVeh_veh, hp, MEVehicle.facade]

@[simp] theorem setSpeedForQueue_seg (w : World) (ns : SUMOReal) (t b : SUMOTime)
    (vehs : List VehPtr) : (setSpeedForQueue w ns t b vehs).seg = w.seg := by
  unfold setSpeedForQueue
  cases vehs.reverse with
  | nil => rfl
  | cons v rest => simp only [setSpeedFollowers_seg]; split_ifs <;> simp

theorem setSpeedForQueue_facade (w : World) (ns : SUMOReal) (t b : SUMOTime)
    (vehs : List VehPtr) (p : VehPtr) :
    ((setSpeedForQueue w ns t b vehs).veh p).facade = (w.veh p).facade := by
  unfold setSpeedForQueue
  cases vehs.reverse with
  | nil => rfl
  | cons v rest =>
    simp only [setSpeedFollowers_facade]
    split_ifs <;> by_cases hp : p = v <;> simp [setVeh_veh, hp, MEVehicle.facade]

theorem recomputeJamThreshold_eq (env : Env) (s : MESegment) (jt : SUMOReal) :
    ∃ x, recomputeJamThreshold env s jt = { s with myJamThreshold := x } := by
  unfold recomputeJamThreshold
  split_ifs
  · exact ⟨s.myJamThreshold, rfl⟩
  · exact ⟨_, rfl⟩
  · exact ⟨_, rfl⟩

/-- The loop of `setSpeed` over the queues leaves the segment fields alone. -/
theorem setSpeed_loop_seg (ns : SUMOReal) (t : SUMOTime) (l : List Nat) (w : World) :
    (l.foldl (fun x i =>
        if (x.seg.que i).length ≠ 0 then
          setSpeedForQueue x ns t (x.seg.block i) (x.seg.que i)
        else x) w).seg = w.seg := by
  induction l generalizing w with
  | nil => rfl
  | cons i rest ih =>
    simp only [List.foldl_cons, ih]
    split_ifs <;> simp

theorem setSpeed_loop_facade (ns : SUMOReal) (t : SUMOTime) (l : List Nat) (w : World) (p : VehPtr) :
    ((l.foldl (fun x i =>
        if (x.seg.que i).length ≠ 0 then
          setSpeedForQueue x ns t (x.seg.block i) (x.seg.que i)
        else x) w).veh p).facade = (w.veh p).facade := by
  induction l generalizing w with
  | nil => rfl
  | cons i rest ih =>
    simp only [List.foldl_cons, ih]
    split_ifs <;> simp [setSpeedForQueue_facade]

/-- `setSpeed` assigns only `myMaxSpeed` and `myJamThreshold` among the segment fields. -/
theorem setSpeed_seg (env : Env) (w : World) (ns : SUMOReal) (t : SUMOTime) (jt : SUMOReal) :
    ∃ v x, (setSpeed env w ns t jt).seg = { w.seg with myMaxSpeed := v, myJamThreshold := x } := by
  unfold setSpeed
  split_ifs with h
  · exact ⟨w.seg.myMaxSpeed, w.seg.myJamThreshold, rfl⟩
  · simp only [setSpeed_loop_seg]
    obtain ⟨x, hx⟩ := recomputeJamThreshold_eq env { w.seg with myMaxSpeed := ns } jt
    exact ⟨ns, x, hx⟩

theorem setSpeed_facade (env : Env) (w : World) (ns : SUMOReal) (t : SUMOTime) (jt : SUMOReal)
    (p : VehPtr) : ((setSpeed env w ns t jt).veh p).facade = (w.veh p).facade := by
  unfold setSpeed
  split_ifs with h
  · rfl
  · simp only [setSpeed_loop_facade]

/-- The loop of `loadState`: vehicles are untouched, the fixed attributes stay,
and occupancy grows by the summed length-with-gap of the loaded vehicles. -/
theorem loadState_loop (q : Nat) (vehs : List VehPtr) (w : World) :
    let w1 := vehs.foldl
      (fun x v => { x with seg := { x.seg with
        myCarQues := x.seg.myCarQues.set q (x.seg.que q ++ [v])
        myOccupancy := x.seg.myOccupancy + (x.veh v).getLengthWithGap } }) w
    w1.veh = w.veh ∧ w1.trace = w.trace ∧ w1.seg.fixed = w.seg.fixed
      ∧ w1.seg.myBlockTimes = w.seg.myBlockTimes
      ∧ w1.seg.myOccupancy
          = w.seg.myOccupancy + (vehs.map (fun v => (w.veh v).getLengthWithGap)).sum := by
  induction vehs generalizing w with
  | nil => simp
  | cons v rest ih =>
    simp only [List.foldl_cons, List.map_cons, List.sum_cons]
    have := ih { w with seg := { w.seg with
        myCarQues := w.seg.myCarQues.set q (w.seg.que q ++ [v])
        myOccupancy := w.seg.myOccupancy + (w.veh v).getLengthWithGap } }
    simp only [] at this
    obtain ⟨h1, h2, h3, h4, h5⟩ := this
    refine ⟨h1, h2, ?_, h4, ?_⟩
    · rw [h3]; simp [MESegment.fixed]
    · rw [h5]; ring

theorem loadState_facade (w : World) (vehs : List VehPtr) (b : SUMOTime) (q : Nat) (p : VehPtr) :
    ((loadState w vehs b q).veh p).facade = (w.veh p).facade := by
  have h := (loadState_loop q vehs w).1
  simp only [] at h
  unfold loadState
  simp only []
  split <;> simp [h]

theorem loadState_fixed (w : World) (vehs : List VehPtr) (b : SUMOTime) (q : Nat) :
    (loadState w vehs b q).seg.fixed = w.seg.fixed := by
  have h := (loadState_loop q vehs w).2.2.1
  simp only [] at h
  unfold loadState
  simp only []
  split <;> simp_all [World.setBlock, MESegment.fixed]

theorem loadState_occupancy (w : World) (vehs : List VehPtr) (b : SUMOTime) (q : Nat) :
    (loadState w vehs b q).seg.myOccupancy
      = min w.seg.myCapacity
          (w.seg.myOccupancy + (vehs.map (fun v => (w.veh v).getLengthWithGap)).sum) := by
  have h := (loadState_loop q vehs w).2.2.2.2
  have hf := (loadState_loop q vehs w).2.2.1
  simp only [] at h hf
  have hc : ∀ s s1 : MESegment, s1.fixed = s.fixed → s1.myCapacity = s.myCapacity := by
    intro s s1 hh; simp only [MESegment.fixed, Prod.mk.injEq] at hh; tauto
  unfold loadState
  simp only []
  split <;> simp [World.setBlock, h, hc _ _ hf]

@[simp] theorem vaporizeAnyCar_seg (w : World) (t : SUMOTime) :
    (vaporizeAnyCar w t).2.2.seg = w.seg := by
  unfold vaporizeAnyCar
  split
  · split
    · simp only []; split_ifs <;> rfl
    · rfl
  · rfl

@[simp] theorem vaporizeAnyCar_veh (w : World) (t : SUMOTime) :
    (vaporizeAnyCar w t).2.2.veh = w.veh := by
  unfold vaporizeAnyCar
  split
  · split
    · simp only []; split_ifs <;> rfl
    · rfl
  · rfl


theorem capacity_of_fixed {s s1 : MESegment} (h : s1.fixed = s.fixed) :
    s1.myCapacity = s.myCapacity := by
  simp only [MESegment.fixed, Prod.mk.injEq] at h; tauto

theorem lengthWithGap_of_facade {v v1 : MEVehicle} (h : v1.facade = v.facade) :
    v1.getLengthWithGap = v.getLengthWithGap := by
  simp only [MEVehicle.facade, Prod.mk.injEq] at h
  unfold MEVehicle.getLengthWithGap
  rw [h.1, h.2.1]

theorem send_occupancyInv (w : World) (v : VehPtr) (n : NextSeg) (t : SUMOTime)
    (h : OccupancyInv w) : OccupancyInv (send w v n t) := by
  obtain ⟨hv, hc, h0, h1⟩ := h
  refine ⟨fun p => ?_, ?_, ?_, ?_⟩
  · rw [lengthWithGap_of_facade (send_facade w v n t p)]; exact hv p
  · rw [capacity_of_fixed (send_fixed w v n t)]; exact hc
  · rw [send_occupancy]; exact le_max_left _ _
  · rw [send_occupancy, capacity_of_fixed (send_fixed w v n t)]
    have := hv v
    exact max_le hc (by linarith)

theorem step_occupancyInv (w : World) (op : Op) (h : OccupancyInv w) : OccupancyInv (step w op) := by
  obtain ⟨hv, hc, h0, h1⟩ := h
  cases op with
  | receive env veh time d a r =>
    refine ⟨fun p => ?_, ?_, ?_, ?_⟩
    · show 0 ≤ ((receive env w veh time d a r).veh p).getLengthWithGap
      rw [lengthWithGap_of_facade (receive_facade env w veh time d a r p)]; exact hv p
    · show 0 ≤ (receive env w veh time d a r).seg.myCapacity
      rw [capacity_of_fixed (receive_fixed env w veh time d a r)]; exact hc
    · show 0 ≤ (receive env w veh time d a r).seg.myOccupancy
      rw [receive_occupancy]
      split_ifs
      · exact h0
      · have := hv veh
        exact le_min hc (by linarith)
    · show (receive env w veh time d a r).seg.myOccupancy ≤ (receive env w veh time d a r).seg.myCapacity
      rw [receive_occupancy, capacity_of_fixed (receive_fixed env w veh time d a r)]
      split_ifs
      · exact h1
      · exact min_le_left _ _
  | send v n t => exact send_occupancyInv w v n t ⟨hv, hc, h0, h1⟩
  | vaporizeAnyCar t =>
    have hw : OccupancyInv (vaporizeAnyCar w t).2.2 := by
      refine ⟨fun p => ?_, ?_, ?_, ?_⟩ <;> simp only [vaporizeAnyCar_seg, vaporizeAnyCar_veh]
      · exact hv p
      · exact hc
      · exact h0
      · exact h1
    show OccupancyInv (match vaporizeAnyCar w t with
      | (_, some victim, w1) => changeSegmentToVaporization w1 victim t
      | (_, none, w1) => w1)
    rcases hr : vaporizeAnyCar w t with ⟨b, o, w1⟩
    rw [hr] at hw
    cases o with
    | none => exact hw
    | some victim => exact send_occupancyInv w1 victim _ t hw
  | setSpeed env ns t jt =>
    obtain ⟨v, x, hs⟩ := setSpeed_seg env w ns t jt
    refine ⟨fun p => ?_, ?_, ?_, ?_⟩
    · show 0 ≤ ((setSpeed env w ns t jt).veh p).getLengthWithGap
      rw [lengthWithGap_of_facade (setSpeed_facade env w ns t jt p)]; exact hv p
    · show 0 ≤ (setSpeed env w ns t jt).seg.myCapacity
      rw [hs]; exact hc
    · show 0 ≤ (setSpeed env w ns t jt).seg.myOccupancy
      rw [hs]; exact h0
    · show (setSpeed env w ns t jt).seg.myOccupancy ≤ (setSpeed env w ns t jt).seg.myCapacity
      rw [hs]; exact h1
  | loadState vehs b q =>
    have hsum : 0 ≤ (vehs.map (fun v => (w.veh v).getLengthWithGap)).sum :=
      List.sum_nonneg (by
        intro x hx
        obtain ⟨v, _, rfl⟩ := List.mem_map.mp hx
        exact hv v)
    refine ⟨fun p => ?_, ?_, ?_, ?_⟩
    · show 0 ≤ ((loadState w vehs b q).veh p).getLengthWithGap
      rw [lengthWithGap_of_facade (loadState_facade w vehs b q p)]; exact hv p
    · show 0 ≤ (loadState w vehs b q).seg.myCapacity
      rw [capacity_of_fixed (loadState_fixed w vehs b q)]; exact hc
    · show 0 ≤ (loadState w vehs b q).seg.myOccupancy
      rw [loadState_occupancy]
      exact le_min hc (by linarith)
    · show (loadState w vehs b q).seg.myOccupancy ≤ (loadState w vehs b q).seg.myCapacity
      rw [loadState_occupancy, capacity_of_fixed (loadState_fixed w vehs b q)]
      exact min_le_left _ _

theorem run_occupancyInv (ops : List Op) (w : World) (h : OccupancyInv w) :
    OccupancyInv (run w ops) := by
  induction ops generalizing w with
  | nil => exact h
  | cons op rest ih => exact ih (step w op) (step_occupancyInv w op h)

theorem construct_occupancy (env : Env) (id : String) (parent : MSEdge) (next : Option String)
    (length speed : SUMOReal) (idx : Nat) (tauff taufj taujf taujj : SUMOTime)
    (jamThresh : SUMOReal) (multiQueue junctionControl : Bool) (lgf uninit : SUMOReal) :
    (construct env id parent next length speed idx tauff taufj taujf taujj jamThresh multiQueue
        junctionControl lgf uninit).myOccupancy = 0
    ∧ (construct env id parent next length speed idx tauff taufj taujf taujj jamThresh multiQueue
        junctionControl lgf uninit).myCapacity = length * parent.lanes.length := by
  unfold construct
  simp only []
  obtain ⟨x, hx⟩ := recomputeJamThreshold_eq env
    { id := id, myNextSegment := next, myLength := length, myMaxSpeed := speed, myIndex := idx,
      myTau_ff := divBySize tauff parent.lanes.length, myTau_fj := divBySize taufj parent.lanes.length,
      myTau_jf := divBySize taujf parent.lanes.length, myTau_jj := divBySize taujj parent.lanes.length,
      myHeadwayCapacity := length / (15 / 2) * parent.lanes.length,
      myCapacity := length * parent.lanes.length, myOccupancy := 0,
      myJamThreshold := uninit, myJunctionControl := junctionControl,
      myEntryBlockTime := SUMOTime_MIN, myLengthGeometryFactor := lgf, myMeanSpeed := speed,
      myLastMeanSpeedUpdate := SUMOTime_MIN,
      myCarQues := if (multiQueue && decide (parent.lanes.length > 1)
          && decide (parent.successors.length > 1)) = true
        then List.replicate parent.lanes.length [] else [[]],
      myBlockTimes := if (multiQueue && decide (parent.lanes.length > 1)
          && decide (parent.successors.length > 1)) = true
        then List.replicate parent.lanes.length (-1) else [-1],
      myFollowerMap := if (multiQueue && decide (parent.lanes.length > 1)
          && decide (parent.successors.length > 1)) = true
        then parent.successors.foldl
          (fun m e => followerMapSet m e ((parent.allowedLanes e).map (fun j => parent.lanes.indexOf j))) []
        else [] } jamThresh
  rw [hx]
  exact ⟨rfl, rfl⟩

/-- C1: starting from a freshly constructed segment (occupancy 0, capacity =
L × laneCount ≥ 0), `0 ≤ occupancy ≤ capacity` holds after every operation of
any sequence of receive, send, vaporizeAnyCar, setSpeed and loadState, the
vehicles having a non-negative length plus gap. -/
theorem occupancy_invariant (env : Env) (id : String) (parent : MSEdge) (next : Option String)
    (length speed : SUMOReal) (idx : Nat) (tauff taufj taujf taujj : SUMOTime)
    (jamThresh : SUMOReal) (multiQueue junctionControl : Bool) (lgf uninit : SUMOReal)
    (veh : VehPtr → MEVehicle) (ops : List Op) (k : Nat)
    (hL : 0 ≤ length) (hveh : ∀ p, 0 ≤ (veh p).getLengthWithGap) :
    0 ≤ (run (World.fresh (construct env id parent next length speed idx tauff taufj taujf taujj
          jamThresh multiQueue junctionControl lgf uninit) veh) (ops.take k)).seg.myOccupancy
    ∧ (run (World.fresh (construct env id parent next length speed idx tauff taufj taujf taujj
          jamThresh multiQueue junctionControl lgf uninit) veh) (ops.take k)).seg.myOccupancy
      ≤ (run (World.fresh (construct env id parent next length speed idx tauff taufj taujf taujj
          jamThresh multiQueue junctionControl lgf uninit) veh) (ops.take k)).seg.myCapacity := by
  obtain ⟨h0, hc⟩ := construct_occupancy env id parent next length speed idx tauff taufj taujf
    taujj jamThresh multiQueue junctionControl lgf uninit
  have hinit : OccupancyInv (World.fresh (construct env id parent next length speed idx tauff taufj
      taujf taujj jamThresh multiQueue junctionControl lgf uninit) veh) := by
    refine ⟨hveh, ?_, ?_, ?_⟩
    · show 0 ≤ (construct env id parent next length speed idx tauff taufj taujf taujj jamThresh
        multiQueue junctionControl lgf uninit).myCapacity
      rw [hc]; positivity
    · show 0 ≤ (construct env id parent next length speed idx tauff taufj taujf taujj jamThresh
        multiQueue junctionControl lgf uninit).myOccupancy
      rw [h0]
    · show (construct env id parent next length speed idx tauff taufj taujf taujj jamThresh
        multiQueue junctionControl lgf uninit).myOccupancy ≤ (construct env id parent next length
        speed idx tauff taufj taujf taujj jamThresh multiQueue junctionControl lgf uninit).myCapacity
      rw [h0, hc]; positivity
  exact (run_occupancyInv (ops.take k) _ hinit).2.2

theorem occupancy_invariant_witness :
    0 ≤ (run (World.fresh (construct exEnv "seg" exEdge none 100 25 0 1000 1000 2000 3000 (-1)
          false false 1 0) (fun _ => exVehicle))
        ([Op.receive exEnv 0 0 true false 0, Op.receive exEnv 1 500 false false (1 / 2),
          Op.setSpeed exEnv 10 600 (-1), Op.send 0 NextSeg.null 4000, Op.vaporizeAnyCar 4500,
          Op.loadState [2, 3] 0 0].take 6)).seg.myOccupancy
    ∧ (run (World.fresh (construct exEnv "seg" exEdge none 100 25 0 1000 1000 2000 3000 (-1)
          false false 1 0) (fun _ => exVehicle))
        ([Op.receive exEnv 0 0 true false 0, Op.receive exEnv 1 500 false false (1 / 2),
          Op.setSpeed exEnv 10 600 (-1), Op.send 0 NextSeg.null 4000, Op.vaporizeAnyCar 4500,
          Op.loadState [2, 3] 0 0].take 6)).seg.myOccupancy
      ≤ (run (World.fresh (construct exEnv "seg" exEdge none 100 25 0 1000 1000 2000 3000 (-1)
          false false 1 0) (fun _ => exVehicle))
        ([Op.receive exEnv 0 0 true false 0, Op.receive exEnv 1 500 false false (1 / 2),
          Op.setSpeed exEnv 10 600 (-1), Op.send 0 NextSeg.null 4000, Op.vaporizeAnyCar 4500,
          Op.loadState [2, 3] 0 0].take 6)).seg.myCapacity :=
  occupancy_invariant exEnv "seg" exEdge none 100 25 0 1000 1000 2000 3000 (-1) false false 1 0
    (fun _ => exVehicle) _ 6 (by norm_num)
    (fun _ => by norm_num [exVehicle, MEVehicle.getLengthWithGap])

/-! ## Admission -/

/-- C2: `hasSpaceFor` returns true whenever the occupancy is 0, for every vehicle,
every entry time and both values of `init`. -/
theorem hasSpaceFor_empty (env : Env) (w : World) (veh : VehPtr) (entryTime : SUMOTime) (init : Bool)
    (h : w.seg.myOccupancy = 0) : (hasSpaceFor env w veh entryTime init).1 = true := by
  simp [hasSpaceFor, h]

theorem hasSpaceFor_empty_witness :
    (exWorld 0 { exVehicle with length := 150 }).seg.myOccupancy = 0
    ∧ (exWorld 0 { exVehicle with length := 150 }).seg.myCapacity
        < ((exWorld 0 { exVehicle with length := 150 }).veh 0).getLengthWithGap
    ∧ (-5 : SUMOTime) < (exWorld 0 { exVehicle with length := 150 }).seg.myEntryBlockTime
    ∧ (hasSpaceFor exEnv (exWorld 0 { exVehicle with length := 150 }) 0 (-5) false).1 = true
    ∧ (hasSpaceFor exEnv (exWorld 0 { exVehicle with length := 150 }) 0 (-5) true).1 = true :=
  ⟨rfl, by norm_num [exWorld, exSegment, exVehicle, MEVehicle.getLengthWithGap],
    by norm_num [exWorld, exSegment],
    hasSpaceFor_empty exEnv _ 0 (-5) false rfl, hasSpaceFor_empty exEnv _ 0 (-5) true rfl⟩

/-- C3: `hasSpaceFor` returns false whenever the occupancy is not 0 and occupancy
plus the length and gap of the vehicle exceeds the capacity, for every entry
time and both values of `init`. -/
theorem hasSpaceFor_full (env : Env) (w : World) (veh : VehPtr) (entryTime : SUMOTime) (init : Bool)
    (h0 : w.seg.myOccupancy ≠ 0)
    (h : w.seg.myOccupancy + (w.veh veh).length + (w.veh veh).minGap > w.seg.myCapacity) :
    (hasSpaceFor env w veh entryTime init).1 = false := by
  have h' : w.seg.myCapacity < w.seg.myOccupancy + (w.veh veh).getLengthWithGap := by
    unfold MEVehicle.getLengthWithGap; linarith
  simp [hasSpaceFor, h0, h']

theorem hasSpaceFor_full_witness :
    (exWorld 99 { exVehicle with length := 1, minGap := 1 }).seg.myOccupancy
        = (exWorld 99 { exVehicle with length := 1, minGap := 1 }).seg.myCapacity - 1
    ∧ (hasSpaceFor exEnv (exWorld 99 { exVehicle with length := 1, minGap := 1 }) 0 5 false).1 = false :=
  ⟨by norm_num [exWorld, exSegment],
    hasSpaceFor_full exEnv _ 0 5 false (by norm_num [exWorld, exSegment])
      (by norm_num [exWorld, exSegment, exVehicle])⟩

/-- C4: for a regular entry (`init = false`) into a segment with non-zero
occupancy that the vehicle fits into, `hasSpaceFor` is true exactly when
`entryTime ≥ entryBlockTime`; the jam threshold plays no role. -/
theorem hasSpaceFor_regular (env : Env) (w : World) (veh : VehPtr) (entryTime : SUMOTime)
    (h0 : w.seg.myOccupancy ≠ 0)
    (h : w.seg.myOccupancy + (w.veh veh).length + (w.veh veh).minGap ≤ w.seg.myCapacity) :
    ((hasSpaceFor env w veh entryTime false).1 = true ↔ entryTime ≥ w.seg.myEntryBlockTime)
    ∧ ∀ jt : SUMOReal,
        (hasSpaceFor env { w with seg := { w.seg with myJamThreshold := jt } } veh entryTime false).1
          = (hasSpaceFor env w veh entryTime false).1 := by
  have h' : ¬ w.seg.myCapacity < w.seg.myOccupancy + (w.veh veh).getLengthWithGap := by
    unfold MEVehicle.getLengthWithGap; linarith
  constructor
  · simp [hasSpaceFor, h0, h']
  · intro jt
    simp [hasSpaceFor, h0, h']

theorem hasSpaceFor_regular_witness :
    ((hasSpaceFor exEnv (exWorld 50 exVehicle) 0 7 false).1 = true
      ↔ (7 : SUMOTime) ≥ (exWorld 50 exVehicle).seg.myEntryBlockTime)
    ∧ ∀ jt : SUMOReal,
        (hasSpaceFor exEnv { exWorld 50 exVehicle with
            seg := { (exWorld 50 exVehicle).seg with myJamThreshold := jt } } 0 7 false).1
          = (hasSpaceFor exEnv (exWorld 50 exVehicle) 0 7 false).1 :=
  hasSpaceFor_regular exEnv (exWorld 50 exVehicle) 0 7 (by norm_num [exWorld, exSegment])
    (by norm_num [exWorld, exSegment, exVehicle])

theorem getMeanSpeed_uncached (env : Env) (w : World) (cachedSpeed : SUMOReal) (cachedAt : SUMOTime) :
    (getMeanSpeed env { w with seg := { w.seg with myMeanSpeed := cachedSpeed, myLastMeanSpeedUpdate := cachedAt } } false).1
      = (getMeanSpeed env w false).1 := by
  simp [getMeanSpeed, free]

theorem getMeanSpeed_seg (env : Env) (w : World) (b : Bool) :
    ∃ ms t, (getMeanSpeed env w b).2 =
      { w with seg := { w.seg with myMeanSpeed := ms, myLastMeanSpeedUpdate := t } } := by
  by_cases hc : env.currentTimeStep ≠ w.seg.myLastMeanSpeedUpdate ∨ b = false
  · simp only [getMeanSpeed, if_pos hc]
    exact ⟨_, _, rfl⟩
  · simp only [getMeanSpeed, if_neg hc]
    exact ⟨w.seg.myMeanSpeed, w.seg.myLastMeanSpeedUpdate, rfl⟩

theorem jamThresholdForSpeed_getMeanSpeed (env : Env) (w : World) (b : Bool) (v : SUMOReal) :
    jamThresholdForSpeed env (getMeanSpeed env w b).2.seg v = jamThresholdForSpeed env w.seg v := by
  obtain ⟨ms, t, h⟩ := getMeanSpeed_seg env w b
  rw [h]; rfl

/-- The inner loop of `getMeanSpeed` adds the speeds of `specQueueSpeeds` in order. -/
theorem meanSpeedQueue_eq (env : Env) (veh : VehPtr → MEVehicle) (tau : SUMOTime)
    (l : List VehPtr) (e : SUMOTime) (v : SUMOReal) :
    meanSpeedQueue env veh tau l e v
      = (specQueueSpeeds env veh tau l e).foldl (fun v x => v + x) v := by
  induction l generalizing e v with
  | nil => rfl
  | cons p rest ih =>
    simp only [meanSpeedQueue, specQueueSpeeds, List.foldl_cons]
    exact ih _ _

/-- The outer loop of `getMeanSpeed`: the running sum and the vehicle count. -/
theorem meanSpeedLoop_eq (env : Env) (veh : VehPtr → MEVehicle) (tau now : SUMOTime)
    (qs : List (List VehPtr)) (v : SUMOReal) (n : Nat) :
    qs.foldl (fun (a : SUMOReal × Nat) k =>
        (meanSpeedQueue env veh tau k.reverse now a.1, a.2 + k.length)) (v, n)
      = ((qs.map (fun k => specQueueSpeeds env veh tau k.reverse now)).flatten.foldl
            (fun v x => v + x) v,
          n + (qs.map List.length).sum) := by
  induction qs generalizing v n with
  | nil => simp
  | cons k rest ih =>
    simp only [List.foldl_cons, List.map_cons, List.flatten_cons, List.foldl_append, List.sum_cons]
    rw [ih, meanSpeedQueue_eq, Nat.add_assoc]

/-- The mean speed `getMeanSpeed(false)` returns is the one the spec describes. -/
theorem getMeanSpeed_eq_spec (env : Env) (w : World) :
    (getMeanSpeed env w false).1 = specMeanSpeed env w := by
  unfold getMeanSpeed specMeanSpeed
  simp only [or_true, if_true, meanSpeedLoop_eq, Nat.zero_add]

/-- C5: for an initial placement (`init = true`) into a segment with non-zero
occupancy that the vehicle fits into, `hasSpaceFor` is true exactly when the new
occupancy is at most `ceil(L / (meanSpeed * tau_ff in seconds))` times the default
length plus gap.  `meanSpeed` is the mean `getMeanSpeed(false)` recomputes from
the queued vehicles: the conservative speeds, asked queue by queue from the
vehicle that leaves next with the exit time the previous answer left plus
`tau`, summed and divided by the number of vehicles, `v_max` when no vehicle is
queued.  What the cache holds, the entry time and the entry block time play
no role. -/
theorem hasSpaceFor_init (env : Env) (w : World) (veh : VehPtr) (entryTime : SUMOTime)
    (h0 : w.seg.myOccupancy ≠ 0)
    (h : w.seg.myOccupancy + (w.veh veh).length + (w.veh veh).minGap ≤ w.seg.myCapacity) :
    ((hasSpaceFor env w veh entryTime true).1 = true ↔
      w.seg.myOccupancy + (w.veh veh).length + (w.veh veh).minGap
        ≤ ((⌈w.seg.myLength / (specMeanSpeed env w * ((w.seg.myTau_ff : ℚ) / 1000))⌉ : Int) : ℚ)
            * (env.defaultLength + env.defaultMinGap))
    ∧ (getMeanSpeed env w false).1 = specMeanSpeed env w
    ∧ ((∀ k ∈ w.seg.myCarQues, k = []) → specMeanSpeed env w = w.seg.myMaxSpeed)
    ∧ (∀ p, w.seg.myCarQues = [[p]] →
        specMeanSpeed env w = (env.getConservativeSpeed (w.veh p) env.currentTimeStep).1)
    ∧ (∀ p1 p2, w.seg.myCarQues = [[p2, p1]] →
        specMeanSpeed env w
          = ((env.getConservativeSpeed (w.veh p1) env.currentTimeStep).1
              + (env.getConservativeSpeed (w.veh p2)
                  ((env.getConservativeSpeed (w.veh p1) env.currentTimeStep).2
                    + (if w.seg.myOccupancy ≤ w.seg.myJamThreshold then w.seg.myTau_ff
                        else w.seg.myTau_jf))).1) / 2)
    ∧ (∀ (cachedSpeed : SUMOReal) (cachedAt : SUMOTime),
        (getMeanSpeed env { w with seg := { w.seg with
            myMeanSpeed := cachedSpeed, myLastMeanSpeedUpdate := cachedAt } } false).1
          = (getMeanSpeed env w false).1
        ∧ (hasSpaceFor env { w with seg := { w.seg with
            myMeanSpeed := cachedSpeed, myLastMeanSpeedUpdate := cachedAt } } veh entryTime true).1
          = (hasSpaceFor env w veh entryTime true).1)
    ∧ (∀ (entryTime1 entryBlockTime1 : SUMOTime),
        (hasSpaceFor env { w with seg := { w.seg with myEntryBlockTime := entryBlockTime1 } }
            veh entryTime1 true).1
          = (hasSpaceFor env w veh entryTime true).1) := by
  have h' : ¬ w.seg.myCapacity < w.seg.myOccupancy + (w.veh veh).getLengthWithGap := by
    unfold MEVehicle.getLengthWithGap; linarith
  have key : ∀ (e : SUMOTime) (b : SUMOTime),
      (hasSpaceFor env { w with seg := { w.seg with myEntryBlockTime := b } } veh e true).1
        = decide (w.seg.myOccupancy + (w.veh veh).getLengthWithGap
            ≤ jamThresholdForSpeed env w.seg (getMeanSpeed env w false).1) := by
    intro e b
    unfold hasSpaceFor
    simp only [h0, h', if_false, if_true, gt_iff_lt, jamThresholdForSpeed_getMeanSpeed]
    simp [getMeanSpeed, free, jamThresholdForSpeed]
  have keyc : ∀ (c : SUMOReal) (t : SUMOTime),
      (hasSpaceFor env { w with seg := { w.seg with myMeanSpeed := c, myLastMeanSpeedUpdate := t } }
          veh entryTime true).1
        = decide (w.seg.myOccupancy + (w.veh veh).getLengthWithGap
            ≤ jamThresholdForSpeed env w.seg (getMeanSpeed env w false).1) := by
    intro c t
    unfold hasSpaceFor
    simp only [h0, h', if_false, if_true, gt_iff_lt, jamThresholdForSpeed_getMeanSpeed]
    simp [getMeanSpeed, free, jamThresholdForSpeed]
  refine ⟨?_, getMeanSpeed_eq_spec env w, fun hempty => ?_, fun p hp => ?_, fun p1 p2 hp => ?_,
    fun c t => ⟨getMeanSpeed_uncached env w c t, ?_⟩, ?_⟩
  · have := key entryTime w.seg.myEntryBlockTime
    simp only [] at this
    rw [this, getMeanSpeed_eq_spec]
    simp [jamThresholdForSpeed, STEPS2TIME, MEVehicle.getLengthWithGap, add_assoc]
  · have hsum : (w.seg.myCarQues.map List.length).sum = 0 := by
      apply List.sum_eq_zero
      intro x hx
      obtain ⟨k, hk, rfl⟩ := List.mem_map.mp hx
      rw [hempty k hk]
      rfl
    unfold specMeanSpeed
    simp only [hsum, if_true]
  · unfold specMeanSpeed
    simp [hp, specQueueSpeeds]
  · unfold specMeanSpeed
    simp only [hp, free]
    simp [specQueueSpeeds]
  · rw [keyc c t, ← key entryTime w.seg.myEntryBlockTime]
  · intro e1 b1
    rw [key e1 b1, ← key entryTime w.seg.myEntryBlockTime]

theorem exWorldTruck_state :
    exWorldTruck.seg.myCarQues = [[0]] ∧ exWorldTruck.seg.myOccupancy = 30
    ∧ exWorldTruck.seg.myCapacity = 100 ∧ exWorldTruck.seg.myLength = 100
    ∧ exWorldTruck.seg.myTau_ff = 1000 ∧ exWorldTruck.seg.myMaxSpeed = 25
    ∧ (exWorldTruck.veh 1).length = 5 ∧ (exWorldTruck.veh 1).minGap = 5 / 2 := by
  refine ⟨?_, ?_, ?_, ?_, ?_, ?_, ?_, ?_⟩ <;>
  · simp [exWorldTruck, receive, arrivalOnEntry, World.fresh, exSegment, exStoreTruck, exVehicle,
      exEnv, chooseQueue, tentativeLeave, insertCar, overtake, MESegment.que, MESegment.block,
      TIME2STEPS, castToTime, World.setVeh, World.log, Function.update_apply,
      MEVehicle.getLengthWithGap]
    try norm_num

theorem hasSpaceFor_init_witness :
    exWorldTruck.seg.myOccupancy ≠ 0
    ∧ exWorldTruck.seg.myCarQues = [[0]]
    ∧ exWorldTruck.seg.myMaxSpeed = 25
    ∧ specMeanSpeed exEnv exWorldTruck = 10
    ∧ (hasSpaceFor exEnv exWorldTruck 1 0 true).1 = true
    ∧ ¬ (exWorldTruck.seg.myOccupancy + (exWorldTruck.veh 1).length + (exWorldTruck.veh 1).minGap
        ≤ ((⌈exWorldTruck.seg.myLength / (exWorldTruck.seg.myMaxSpeed
              * ((exWorldTruck.seg.myTau_ff : ℚ) / 1000))⌉ : Int) : ℚ)
            * (exEnv.defaultLength + exEnv.defaultMinGap)) := by
  obtain ⟨hq, ho, hc, hl, htau, hms, hlen, hgap⟩ := exWorldTruck_state
  have h0 : exWorldTruck.seg.myOccupancy ≠ 0 := by rw [ho]; norm_num
  have h := hasSpaceFor_init exEnv exWorldTruck 1 0 h0 (by rw [ho, hc, hlen, hgap]; norm_num)
  have hmean : specMeanSpeed exEnv exWorldTruck = 10 := by
    rw [h.2.2.2.1 0 hq]
    rfl
  refine ⟨h0, hq, hms, hmean, h.1.mpr ?_, ?_⟩
  · rw [hmean, ho, hl, htau, hlen, hgap]
    norm_num [exEnv]
  · rw [ho, hl, htau, hlen, hgap, hms]
    norm_num [exEnv]

/-- C10: `getTimeHeadway` is `tau_ff` for a free predecessor and a free segment,
`tau_fj` for a free predecessor and a jammed segment, `tau_jf` for a jammed
predecessor and a free segment, the segment being free iff
`occupancy ≤ jamThreshold`. -/
theorem getTimeHeadway_regimes (s : MESegment) :
    (s.myOccupancy ≤ s.myJamThreshold → getTimeHeadway s true = s.myTau_ff)
    ∧ (¬ s.myOccupancy ≤ s.myJamThreshold → getTimeHeadway s true = s.myTau_fj)
    ∧ (s.myOccupancy ≤ s.myJamThreshold → getTimeHeadway s false = s.myTau_jf) := by
  refine ⟨fun h => ?_, fun h => ?_, fun h => ?_⟩ <;> simp [getTimeHeadway, free, h]

theorem getTimeHeadway_regimes_witness :
    getTimeHeadway exSegment true = 1000
    ∧ getTimeHeadway { exSegment with myOccupancy := 60 } true = 1500
    ∧ getTimeHeadway exSegment false = 2000 :=
  ⟨(getTimeHeadway_regimes exSegment).1 (by norm_num [exSegment]),
    (getTimeHeadway_regimes { exSegment with myOccupancy := 60 }).2.1 (by norm_num [exSegment]),
    (getTimeHeadway_regimes exSegment).2.2 (by norm_num [exSegment])⟩

/-! ## Departure: occupancy round trip and block times -/

@[simp] theorem removeCar_jamThreshold (w : World) (v : VehPtr) (t : SUMOTime) (n : NextSeg) :
    (removeCar w v t n).2.seg.myJamThreshold = w.seg.myJamThreshold := by
  unfold removeCar
  simp only []
  split_ifs <;> rfl

/-- The flag `free()` as `send` reads it, after `removeCar` has lowered the occupancy. -/
theorem free_removeCar (w : World) (v : VehPtr) (t : SUMOTime) (n : NextSeg) :
    free (removeCar w v t n).2.seg
      = decide (max 0 (w.seg.myOccupancy - (w.veh v).getLengthWithGap) ≤ w.seg.myJamThreshold) := by
  unfold free
  rw [removeCar_occupancy, removeCar_jamThreshold]

@[simp] theorem free_setBlock (w : World) (q : Nat) (t : SUMOTime) :
    free (w.setBlock q t).seg = free w.seg := rfl

@[simp] theorem setBlock_blockTimes (w : World) (q : Nat) (t : SUMOTime) :
    (w.setBlock q t).seg.myBlockTimes = w.seg.myBlockTimes.set q t := rfl

/-- Assigning `t` and then adding `h` in place, as `send` does. -/
theorem set_add_blockTimes (l : List SUMOTime) (q : Nat) (t h : SUMOTime) :
    (l.set q t).set q ((l.set q t).getD q 0 + h) = l.set q (t + h) := by
  by_cases hq : q < l.length
  · simp [List.getD_eq_getElem?_getD, List.getElem?_set, hq]
  · have hq1 : l.length ≤ q := Nat.le_of_not_lt hq
    have h1 : ∀ x, l.set q x = l := fun x => List.set_eq_of_length_le hq1
    simp [h1]

/-- The block-time array after `send`. -/
theorem send_blockTimes (w : World) (v : VehPtr) (n : NextSeg) (t : SUMOTime) :
    (send w v n t).seg.myBlockTimes = w.seg.myBlockTimes.set (w.veh v).queIndex
      (match n with
        | NextSeg.real s => t + getTimeHeadway s (free (removeCar w v t n).2.seg)
        | _ => t) := by
  unfold send
  simp only []
  cases n <;> cases (removeCar w v t _).1 <;>
    simp only [log_seg, setVeh_seg, setBlock_blockTimes, removeCar_blockTimes, removeCar_veh,
      free_setBlock, MESegment.block, set_add_blockTimes]

/-- C9: after `send(v, next, t)` the block time of the queue of `v` is exactly
`t` when `next` is null or the vaporization sentinel, and `t` plus
`next.getTimeHeadway(free())` when `next` is a real segment, `free()` being read
after the removal; the block times of all other queues are unchanged. -/
theorem send_blockTime_frame (w : World) (v : VehPtr) (next : NextSeg) (t : SUMOTime)
    (hq : (w.veh v).queIndex < w.seg.myBlockTimes.length) :
    (isInvalid next = true → (send w v next t).seg.block (w.veh v).queIndex = t)
    ∧ (∀ n, next = NextSeg.real n →
        (send w v next t).seg.block (w.veh v).queIndex
          = t + getTimeHeadway n (free (removeCar w v t next).2.seg)
        ∧ free (removeCar w v t next).2.seg = free (send w v next t).seg)
    ∧ (∀ q, q ≠ (w.veh v).queIndex → (send w v next t).seg.block q = w.seg.block q)
    ∧ (send w v next t).seg.myBlockTimes.length = w.seg.myBlockTimes.length := by
  have hfree : free (removeCar w v t next).2.seg = free (send w v next t).seg := by
    unfold free
    rw [removeCar_occupancy, send_occupancy, removeCar_jamThreshold]
    have : (send w v next t).seg.myJamThreshold = w.seg.myJamThreshold := by
      unfold send
      simp only []
      cases next <;> cases (removeCar w v t _).1 <;> simp [World.setBlock]
    rw [this]
  refine ⟨fun hinv => ?_, fun n hn => ⟨?_, hfree⟩, fun q hne => ?_, ?_⟩
  · unfold MESegment.block
    rw [send_blockTimes]
    cases next with
    | null => simp [List.getD_eq_getElem?_getD, List.getElem?_set, hq]
    | vaporizationTarget => simp [List.getD_eq_getElem?_getD, List.getElem?_set, hq]
    | real n => simp [isInvalid] at hinv
  · subst hn
    unfold MESegment.block
    rw [send_blockTimes]
    simp [List.getD_eq_getElem?_getD, List.getElem?_set, hq]
  · unfold MESegment.block
    rw [send_blockTimes]
    simp [List.getD_eq_getElem?_getD, List.getElem?_set, Ne.symm hne]
  · rw [send_blockTimes]; simp

/-- The occupancy after a receive and a removal under a rounding `fl` that is
monotone and leaves representable values unchanged. -/
theorem occupancy_round_trip (fl : SUMOReal → SUMOReal) (cap occ lg : SUMOReal)
    (hmono : ∀ x y, x ≤ y → fl x ≤ fl y) (hidem : ∀ x, fl (fl x) = fl x)
    (hzero : fl 0 = 0) (hcap : fl cap = cap) (hocc : fl occ = occ) (hlg : fl lg = lg)
    (h0 : 0 ≤ occ) (hl : 0 ≤ lg) (hc : 0 ≤ cap) :
    (0 ≤ occupancyOnRemove fl (occupancyOnReceive fl cap occ lg) lg
      ∧ occupancyOnRemove fl (occupancyOnReceive fl cap occ lg) lg
          ≤ occupancyOnReceive fl cap occ lg
      ∧ occupancyOnReceive fl cap occ lg ≤ cap)
    ∧ (occ = 0 → occupancyOnRemove fl (occupancyOnReceive fl cap occ lg) lg = 0)
    ∧ (occ + lg ≤ cap → fl (occ + lg) = occ + lg →
        occupancyOnRemove fl (occupancyOnReceive fl cap occ lg) lg = occ)
    ∧ (occ + lg ≤ cap → ∀ u : SUMOReal, 0 ≤ u →
        |fl (occ + lg) - (occ + lg)| ≤ u * (occ + lg) →
        |fl (fl (occ + lg) - lg) - (fl (occ + lg) - lg)| ≤ u * |fl (occ + lg) - lg| →
        |occupancyOnRemove fl (occupancyOnReceive fl cap occ lg) lg - occ|
          ≤ u * (2 * occ + lg) + u ^ 2 * (occ + lg))
    ∧ (cap < occ + lg →
        occupancyOnRemove fl (occupancyOnReceive fl cap occ lg) lg = max 0 (fl (cap - lg))
        ∧ occupancyOnRemove fl (occupancyOnReceive fl cap occ lg) lg ≤ occ) := by
  have hs0 : 0 ≤ fl (occ + lg) := by
    have := hmono 0 (occ + lg) (by linarith)
    rwa [hzero] at this
  have hx0 : 0 ≤ min cap (fl (occ + lg)) := le_min hc hs0
  have hxr : fl (min cap (fl (occ + lg))) = min cap (fl (occ + lg)) := by
    rcases min_choice cap (fl (occ + lg)) with h | h
    · rw [h, hcap]
    · rw [h, hidem]
  unfold occupancyOnRemove occupancyOnReceive
  refine ⟨⟨le_max_left _ _, ?_, min_le_left _ _⟩, fun hz => ?_, fun hfit hex => ?_,
    fun hfit u hu e1 e2 => ?_, fun hover => ?_⟩
  · apply max_le hx0
    have := hmono (min cap (fl (occ + lg)) - lg) (min cap (fl (occ + lg))) (by linarith)
    rwa [hxr] at this
  · subst hz
    rw [zero_add, hlg]
    have hd : min cap lg - lg ≤ 0 := by
      have := min_le_right cap lg
      linarith
    have := hmono _ _ hd
    rw [hzero] at this
    exact max_eq_left this
  · rw [hex, min_eq_right hfit]
    have : occ + lg - lg = occ := by ring
    rw [this, hocc]
    exact max_eq_right h0
  · have hsle : fl (occ + lg) ≤ cap := by
      have := hmono _ _ hfit
      rwa [hcap] at this
    rw [min_eq_right hsle]
    have h1 : |max 0 (fl (fl (occ + lg) - lg)) - occ| ≤ |fl (fl (occ + lg) - lg) - occ| := by
      rcases le_total 0 (fl (fl (occ + lg) - lg)) with hp | hn
      · rw [max_eq_right hp]
      · rw [max_eq_left hn, zero_sub, abs_neg, abs_of_nonneg h0, abs_of_nonpos (by linarith)]
        linarith
    have h2 : |fl (occ + lg) - lg - occ| ≤ u * (occ + lg) := by
      have : fl (occ + lg) - lg - occ = fl (occ + lg) - (occ + lg) := by ring
      rw [this]
      exact e1
    have h3 : |fl (occ + lg) - lg| ≤ occ + u * (occ + lg) := by
      have : fl (occ + lg) - lg = (fl (occ + lg) - lg - occ) + occ := by ring
      rw [this]
      calc |fl (occ + lg) - lg - occ + occ| ≤ |fl (occ + lg) - lg - occ| + |occ| := abs_add _ _
        _ ≤ u * (occ + lg) + occ := by rw [abs_of_nonneg h0]; linarith
        _ = occ + u * (occ + lg) := by ring
    have h4 : |fl (fl (occ + lg) - lg) - occ|
        ≤ |fl (fl (occ + lg) - lg) - (fl (occ + lg) - lg)| + |fl (occ + lg) - lg - occ| := by
      have : fl (fl (occ + lg) - lg) - occ
          = (fl (fl (occ + lg) - lg) - (fl (occ + lg) - lg)) + (fl (occ + lg) - lg - occ) := by ring
      rw [this]
      exact abs_add _ _
    have h5 : u * |fl (occ + lg) - lg| ≤ u * (occ + u * (occ + lg)) :=
      mul_le_mul_of_nonneg_left h3 hu
    calc |max 0 (fl (fl (occ + lg) - lg)) - occ|
        ≤ |fl (fl (occ + lg) - lg) - occ| := h1
      _ ≤ u * (occ + u * (occ + lg)) + u * (occ + lg) := by linarith
      _ = u * (2 * occ + lg) + u ^ 2 * (occ + lg) := by ring
  · have hcs : cap ≤ fl (occ + lg) := by
      have := hmono cap (occ + lg) (le_of_lt hover)
      rwa [hcap] at this
    rw [min_eq_left hcs]
    refine ⟨rfl, max_le h0 ?_⟩
    have := hmono (cap - lg) occ (by linarith)
    rwa [hocc] at this

/-- C7 (as amended): for a vehicle whose route continues, `receive(v)` followed
by `send(v, next, t)` leaves the occupancy at `MAX2(0, MIN2(capacity, occupancy
+ lengthWithGap) - lengthWithGap)`.  Under any rounding of the addition and
the subtraction that is monotone and keeps representable values, with
occupancy, length plus gap and capacity representable and not negative, this
value lies between 0 and the occupancy after the receive; it is 0 again after
a round trip from occupancy 0; when occupancy plus length and gap does not
exceed the capacity it is the former occupancy if the addition is exact, and
within `u * (2 * occupancy + lengthWithGap) + u^2 * (occupancy +
lengthWithGap)` of it if both operations have relative error at most `u`;
when the capacity is exceeded it is `MAX2(0, capacity - lengthWithGap)`, which
is not above the former occupancy. -/
theorem receive_send_occupancy (env : Env) (w : World) (veh : VehPtr) (time : SUMOTime)
    (isDepart afterTeleport : Bool) (rand : SUMOReal) (next : NextSeg) (t : SUMOTime)
    (hroute : arrivalOnEntry w.seg (w.veh veh) isDepart afterTeleport = false) :
    (send (receive env w veh time isDepart afterTeleport rand) veh next t).seg.myOccupancy
      = occupancyOnRemove id
          (occupancyOnReceive id w.seg.myCapacity w.seg.myOccupancy (w.veh veh).getLengthWithGap)
          (w.veh veh).getLengthWithGap
    ∧ ∀ fl : SUMOReal → SUMOReal,
        (∀ x y, x ≤ y → fl x ≤ fl y) → (∀ x, fl (fl x) = fl x) → fl 0 = 0 →
        fl w.seg.myCapacity = w.seg.myCapacity → fl w.seg.myOccupancy = w.seg.myOccupancy →
        fl (w.veh veh).getLengthWithGap = (w.veh veh).getLengthWithGap →
        0 ≤ w.seg.myOccupancy → 0 ≤ (w.veh veh).getLengthWithGap → 0 ≤ w.seg.myCapacity →
        (0 ≤ occupancyOnRemove fl
              (occupancyOnReceive fl w.seg.myCapacity w.seg.myOccupancy
                (w.veh veh).getLengthWithGap) (w.veh veh).getLengthWithGap
          ∧ occupancyOnRemove fl
              (occupancyOnReceive fl w.seg.myCapacity w.seg.myOccupancy
                (w.veh veh).getLengthWithGap) (w.veh veh).getLengthWithGap
            ≤ occupancyOnReceive fl w.seg.myCapacity w.seg.myOccupancy
                (w.veh veh).getLengthWithGap
          ∧ occupancyOnReceive fl w.seg.myCapacity w.seg.myOccupancy
                (w.veh veh).getLengthWithGap ≤ w.seg.myCapacity)
        ∧ (w.seg.myOccupancy = 0 →
            occupancyOnRemove fl
              (occupancyOnReceive fl w.seg.myCapacity w.seg.myOccupancy
                (w.veh veh).getLengthWithGap) (w.veh veh).getLengthWithGap = 0)
        ∧ (w.seg.myOccupancy + (w.veh veh).getLengthWithGap ≤ w.seg.myCapacity →
            fl (w.seg.myOccupancy + (w.veh veh).getLengthWithGap)
              = w.seg.myOccupancy + (w.veh veh).getLengthWithGap →
            occupancyOnRemove fl
              (occupancyOnReceive fl w.seg.myCapacity w.seg.myOccupancy
                (w.veh veh).getLengthWithGap) (w.veh veh).getLengthWithGap
              = w.seg.myOccupancy)
        ∧ (w.seg.myOccupancy + (w.veh veh).getLengthWithGap ≤ w.seg.myCapacity →
            ∀ u : SUMOReal, 0 ≤ u →
            |fl (w.seg.myOccupancy + (w.veh veh).getLengthWithGap)
                - (w.seg.myOccupancy + (w.veh veh).getLengthWithGap)|
              ≤ u * (w.seg.myOccupancy + (w.veh veh).getLengthWithGap) →
            |fl (fl (w.seg.myOccupancy + (w.veh veh).getLengthWithGap)
                  - (w.veh veh).getLengthWithGap)
                - (fl (w.seg.myOccupancy + (w.veh veh).getLengthWithGap)
                  - (w.veh veh).getLengthWithGap)|
              ≤ u * |fl (w.seg.myOccupancy + (w.veh veh).getLengthWithGap)
                  - (w.veh veh).getLengthWithGap| →
            |occupancyOnRemove fl
                (occupancyOnReceive fl w.seg.myCapacity w.seg.myOccupancy
                  (w.veh veh).getLengthWithGap) (w.veh veh).getLengthWithGap
              - w.seg.myOccupancy|
              ≤ u * (2 * w.seg.myOccupancy + (w.veh veh).getLengthWithGap)
                + u ^ 2 * (w.seg.myOccupancy + (w.veh veh).getLengthWithGap))
        ∧ (w.seg.myCapacity < w.seg.myOccupancy + (w.veh veh).getLengthWithGap →
            occupancyOnRemove fl
              (occupancyOnReceive fl w.seg.myCapacity w.seg.myOccupancy
                (w.veh veh).getLengthWithGap) (w.veh veh).getLengthWithGap
              = max 0 (fl (w.seg.myCapacity - (w.veh veh).getLengthWithGap))
            ∧ occupancyOnRemove fl
              (occupancyOnReceive fl w.seg.myCapacity w.seg.myOccupancy
                (w.veh veh).getLengthWithGap) (w.veh veh).getLengthWithGap
              ≤ w.seg.myOccupancy) := by
  refine ⟨?_, fun fl hmono hidem hzero hcap hocc hlg h0 hl hc =>
    occupancy_round_trip fl _ _ _ hmono hidem hzero hcap hocc hlg h0 hl hc⟩
  rw [send_occupancy, receive_occupancy, hroute,
    lengthWithGap_of_facade (receive_facade env w veh time isDepart afterTeleport rand veh)]
  rfl

theorem facade_arrivalOnEntry {s s1 : MESegment} {v v1 : MEVehicle} (hs : s1.fixed = s.fixed)
    (hv : v1.facade = v.facade) (d a : Bool) : arrivalOnEntry s1 v1 d a = arrivalOnEntry s v d a := by
  simp only [MESegment.fixed, MEVehicle.facade, Prod.mk.injEq] at hs hv
  unfold arrivalOnEntry
  rw [hs.2.2.2.1, hv.2.2.2.2.2.1, hv.2.2.2.2.2.2.1]

theorem exWorldNearlyFull_occupancy : exWorldNearlyFull.seg.myOccupancy = 99 := by
  unfold exWorldNearlyFull
  rw [receive_occupancy]
  norm_num [arrivalOnEntry, World.fresh, exSegment, exStoreLong, exVehicle, MEVehicle.getLengthWithGap]

/-- C7 fails as stated: with occupancy 99 of capacity 100, receiving a vehicle of
length plus gap 2 caps the occupancy at 100 and sending it leaves 98. -/
theorem receive_send_occupancy_counterexample :
    arrivalOnEntry exWorldNearlyFull.seg (exWorldNearlyFull.veh 1) false false = false
    ∧ exWorldNearlyFull.seg.myOccupancy = 99
    ∧ (send (receive exEnv exWorldNearlyFull 1 500 false false 0) 1 NextSeg.null 9000).seg.myOccupancy
        = 98
    ∧ (send (receive exEnv exWorldNearlyFull 1 500 false false 0) 1 NextSeg.null 9000).seg.myOccupancy
        ≠ exWorldNearlyFull.seg.myOccupancy := by
  have hf : exWorldNearlyFull.seg.fixed = (World.fresh exSegment exStoreLong).seg.fixed :=
    receive_fixed _ _ _ _ _ _ _
  have hv : (exWorldNearlyFull.veh 1).facade = ((World.fresh exSegment exStoreLong).veh 1).facade :=
    receive_facade _ _ _ _ _ _ _ _
  have harr : arrivalOnEntry exWorldNearlyFull.seg (exWorldNearlyFull.veh 1) false false = false := by
    rw [facade_arrivalOnEntry hf hv]
    simp [arrivalOnEntry, World.fresh, exStoreLong, exVehicle]
  have hl : (exWorldNearlyFull.veh 1).getLengthWithGap = 2 := by
    rw [lengthWithGap_of_facade hv]
    norm_num [World.fresh, exStoreLong, exVehicle, MEVehicle.getLengthWithGap]
  have hc : exWorldNearlyFull.seg.myCapacity = 100 := by
    rw [capacity_of_fixed hf]; rfl
  have hs : (send (receive exEnv exWorldNearlyFull 1 500 false false 0) 1 NextSeg.null
      9000).seg.myOccupancy = 98 := by
    rw [send_occupancy, receive_occupancy, harr,
      lengthWithGap_of_facade (receive_facade exEnv exWorldNearlyFull 1 500 false false 0 1), hl,
      exWorldNearlyFull_occupancy, hc]
    norm_num
  refine ⟨harr, exWorldNearlyFull_occupancy, hs, ?_⟩
  rw [hs, exWorldNearlyFull_occupancy]
  norm_num

theorem getTimeHeadway_constructNamed (id : String) (occ jt ms : SUMOReal) (e l : SUMOTime)
    (f : Bool) : getTimeHeadway (constructNamed id occ jt ms e l) f = 0 := by
  unfold getTimeHeadway
  split_ifs <;> simp [constructNamed, castToTime, wrapTime, getCarNumber]

/-- C8 (as amended): immediately after `send(v, next, t)` with `next` not null,
the block time of the queue of `v` is `t + next.getTimeHeadway(f)`, where `f`
is the `free()` flag of this segment on the occupancy left after `v` was
removed; for the vaporization target the headway is 0 whatever `f` is. -/
theorem send_headway_law (w : World) (v : VehPtr) (t : SUMOTime)
    (hq : (w.veh v).queIndex < w.seg.myBlockTimes.length) :
    (∀ n : MESegment, (send w v (NextSeg.real n) t).seg.block (w.veh v).queIndex
        = t + getTimeHeadway n
            (decide (max 0 (w.seg.myOccupancy - ((w.veh v).length + (w.veh v).minGap))
              ≤ w.seg.myJamThreshold)))
    ∧ (∀ (id : String) (occ jt ms : SUMOReal) (e l : SUMOTime) (f : Bool),
        (send w v NextSeg.vaporizationTarget t).seg.block (w.veh v).queIndex
          = t + getTimeHeadway (constructNamed id occ jt ms e l) f) := by
  constructor
  · intro n
    unfold MESegment.block
    rw [send_blockTimes, free_removeCar]
    simp [List.getD_eq_getElem?_getD, List.getElem?_set, hq, MEVehicle.getLengthWithGap]
  · intro id occ jt ms e l f
    unfold MESegment.block
    rw [send_blockTimes, getTimeHeadway_constructNamed]
    simp [List.getD_eq_getElem?_getD, List.getElem?_set, hq]

theorem send_headway_law_witness :
    (send exWorldJammed 0 (NextSeg.real exSegment) 5000).seg.block (exWorldJammed.veh 0).queIndex
      = 5000 + getTimeHeadway exSegment
          (decide (max 0 (exWorldJammed.seg.myOccupancy
              - ((exWorldJammed.veh 0).length + (exWorldJammed.veh 0).minGap))
            ≤ exWorldJammed.seg.myJamThreshold)) :=
  (send_headway_law exWorldJammed 0 5000 (by decide)).1 exSegment

/-- C8 fails as stated: the segment is jammed before the removal and free after
it, and the block time is taken with the flag after the removal. -/
theorem send_headway_law_counterexample :
    free exWorldJammed.seg = false
    ∧ (send exWorldJammed 0 (NextSeg.real exSegment) 5000).seg.block (exWorldJammed.veh 0).queIndex
        = 6000
    ∧ 5000 + getTimeHeadway exSegment (free exWorldJammed.seg) = 7000
    ∧ (send exWorldJammed 0 (NextSeg.real exSegment) 5000).seg.block (exWorldJammed.veh 0).queIndex
        ≠ 5000 + getTimeHeadway exSegment (free exWorldJammed.seg) := by
  have hfree : free exWorldJammed.seg = false := by
    norm_num [free, exWorldJammed, exSegment]
  have hb : (send exWorldJammed 0 (NextSeg.real exSegment) 5000).seg.block
      (exWorldJammed.veh 0).queIndex = 6000 := by
    unfold MESegment.block
    rw [send_blockTimes, free_removeCar]
    norm_num [exWorldJammed, exSegment, exVehicle, MEVehicle.getLengthWithGap, getTimeHeadway, free]
  have hc : 5000 + getTimeHeadway exSegment (free exWorldJammed.seg) = 7000 := by
    rw [hfree]
    norm_num [getTimeHeadway, free, exSegment]
  refine ⟨hfree, hb, hc, ?_⟩
  rw [hb, hc]
  decide

theorem send_blockTime_frame_witness :
    (send exWorldJammed 0 NextSeg.null 5000).seg.block (exWorldJammed.veh 0).queIndex = 5000
    ∧ (send exWorldJammed 0 NextSeg.vaporizationTarget 5000).seg.block (exWorldJammed.veh 0).queIndex
        = 5000
    ∧ (send exWorldJammed 0 (NextSeg.real exSegment) 5000).seg.block (exWorldJammed.veh 0).queIndex
        = 5000 + getTimeHeadway exSegment
            (free (removeCar exWorldJammed 0 5000 (NextSeg.real exSegment)).2.seg) :=
  ⟨(send_blockTime_frame exWorldJammed 0 NextSeg.null 5000 (by decide)).1 rfl,
    (send_blockTime_frame exWorldJammed 0 NextSeg.vaporizationTarget 5000 (by decide)).1 rfl,
    ((send_blockTime_frame exWorldJammed 0 (NextSeg.real exSegment) 5000 (by decide)).2.1
      exSegment rfl).1⟩

theorem exWorldOneCar_state :
    exWorldOneCar.seg.myOccupancy = 15 / 2 ∧ exWorldOneCar.seg.myCapacity = 100
    ∧ (exWorldOneCar.veh 1).getLengthWithGap = 15 / 2
    ∧ arrivalOnEntry exWorldOneCar.seg (exWorldOneCar.veh 1) false false = false := by
  refine ⟨?_, ?_, ?_, ?_⟩ <;>
  · simp [exWorldOneCar, receive, arrivalOnEntry, World.fresh, exSegment, exVehicle,
      exEnv, chooseQueue, tentativeLeave, insertCar, overtake, MESegment.que, MESegment.block,
      TIME2STEPS, castToTime, World.setVeh, World.log, Function.update_apply,
      MEVehicle.getLengthWithGap]
    try norm_num

theorem receive_send_occupancy_witness :
    arrivalOnEntry exWorldOneCar.seg (exWorldOneCar.veh 1) false false = false
    ∧ exWorldOneCar.seg.myOccupancy = 15 / 2
    ∧ (send (receive exEnv exWorldOneCar 1 500 false false 0) 1 NextSeg.null 9000).seg.myOccupancy
        = 15 / 2 := by
  obtain ⟨ho, hc, hl, harr⟩ := exWorldOneCar_state
  have h := receive_send_occupancy exEnv exWorldOneCar 1 500 false false 0 NextSeg.null 9000 harr
  have hr := (h.2 id (fun _ _ hxy => hxy) (fun _ => rfl) rfl rfl rfl rfl
    (by rw [ho]; norm_num) (by rw [hl]; norm_num) (by rw [hc]; norm_num)).2.2.1
    (by rw [ho, hl, hc]; norm_num) rfl
  refine ⟨harr, ho, ?_⟩
  rw [h.1, hr, ho]

/-! ## Ordering of event times along a queue -/

theorem que_set (s : MESegment) (i q : Nat) (x : List VehPtr) :
    ({ s with myCarQues := s.myCarQues.set i x } : MESegment).que q
      = if q = i ∧ i < s.myCarQues.length then x else s.que q := by
  unfold MESegment.que
  simp only [List.getD_eq_getElem?_getD, List.getElem?_set]
  by_cases h : i = q
  · subst h
    by_cases h2 : i < s.myCarQues.length
    · simp [h2]
    · simp [h2, List.getElem?_eq_none (Nat.le_of_not_lt h2)]
  · have h' : ¬ q = i := fun e => h e.symm
    simp [h, h']

/-- What `insertCar` can produce. -/
theorem insertCar_cases (env : Env) (w : World) (veh : VehPtr) (d : Bool) (r : SUMOReal)
    (t0 : SUMOTime) (cars : List VehPtr) :
    (cars = [] ∧ (insertCar env w veh d r t0 cars).2.2.2 = [veh])
    ∨ (∃ c0 rest, cars = c0 :: rest ∧ (insertCar env w veh d r t0 cars).2.2.2 = c0 :: veh :: rest
        ∧ (insertCar env w veh d r t0 cars).2.1 < (w.veh c0).eventTime)
    ∨ (∃ c0 rest, cars = c0 :: rest ∧ (insertCar env w veh d r t0 cars).2.2.2 = veh :: c0 :: rest
        ∧ (w.veh c0).eventTime + w.seg.myTau_ff ≤ (insertCar env w veh d r t0 cars).2.1) := by
  cases cars with
  | nil => exact Or.inl ⟨rfl, rfl⟩
  | cons c0 rest =>
    right
    unfold insertCar
    simp only []
    by_cases h1 : (!d && decide ((w.veh c0).eventTime > t0)) = true
    · rw [if_pos h1]
      have hlt : t0 < (w.veh c0).eventTime := by
        simp only [Bool.and_eq_true, decide_eq_true_eq] at h1
        exact h1.2
      by_cases h2 : (overtake env w r).1 = true
      · rw [if_pos h2]
        left
        by_cases h3 : rest = []
        · rw [if_pos h3]; exact ⟨c0, rest, rfl, rfl, hlt⟩
        · rw [if_neg h3]; exact ⟨c0, rest, rfl, rfl, hlt⟩
      · rw [if_neg h2]
        right
        exact ⟨c0, rest, rfl, rfl, le_max_left _ _⟩
    · rw [if_neg h1]
      right
      exact ⟨c0, rest, rfl, rfl, le_max_left _ _⟩

/-- Effect of a `receive` that queues the vehicle. -/
theorem receive_queued (env : Env) (w : World) (veh : VehPtr) (time : SUMOTime)
    (d a : Bool) (r : SUMOReal) (h : arrivalOnEntry w.seg (w.veh veh) d a = false) :
    ∃ (tl : SUMOTime) (newcars : List VehPtr),
      (receive env w veh time d a r).seg.myCarQues
          = w.seg.myCarQues.set (chooseQueue w.seg (w.veh veh).succEdge1) newcars
      ∧ (∀ p, p ≠ veh → (receive env w veh time d a r).veh p = w.veh p)
      ∧ ((receive env w veh time d a r).veh veh).eventTime = tl
      ∧ ((w.seg.que (chooseQueue w.seg (w.veh veh).succEdge1) = [] ∧ newcars = [veh])
        ∨ (∃ c0 rest, w.seg.que (chooseQueue w.seg (w.veh veh).succEdge1) = c0 :: rest
            ∧ newcars = c0 :: veh :: rest ∧ tl < (w.veh c0).eventTime)
        ∨ (∃ c0 rest, w.seg.que (chooseQueue w.seg (w.veh veh).succEdge1) = c0 :: rest
            ∧ newcars = veh :: c0 :: rest ∧ (w.veh c0).eventTime + w.seg.myTau_ff ≤ tl)) := by
  have harr : ∀ (s : MESegment) (v : MEVehicle) (x : Option String) (t b : SUMOTime),
      arrivalOnEntry s { v with segment := x, lastEntryTime := t, blockTime := b } d a
        = arrivalOnEntry s v d a := fun _ _ _ _ _ => rfl
  have hev : ∀ c0, ((w.setVeh veh (fun v => { v with segment := some w.seg.id, lastEntryTime := time, blockTime := SUMOTime_MAX })).veh c0).eventTime
      = (w.veh c0).eventTime := by
    intro c0
    rw [setVeh_veh]
    split_ifs with hc
    · rw [hc]
    · rfl
  have hcases := insertCar_cases env (w.setVeh veh (fun v => { v with segment := some w.seg.id, lastEntryTime := time, blockTime := SUMOTime_MAX })) veh d r
      (tentativeLeave w.seg { w.veh veh with segment := some w.seg.id, lastEntryTime := time, blockTime := SUMOTime_MAX } time
        (chooseQueue w.seg (w.veh veh).succEdge1))
      (w.seg.que (chooseQueue w.seg (w.veh veh).succEdge1))
  simp only [hev, setVeh_seg] at hcases
  refine ⟨_, _, ?_, ?_, ?_, hcases⟩
  · unfold receive
    simp only [setVeh_seg, setVeh_veh_self, harr, h, Bool.false_eq_true, if_false]
    split_ifs <;> simp
  · intro p hp
    unfold receive
    simp only [setVeh_seg, setVeh_veh_self, harr, h, Bool.false_eq_true, if_false]
    split_ifs <;> simp [setVeh_veh, hp]
  · unfold receive
    simp only [setVeh_seg, setVeh_veh_self, harr, h, Bool.false_eq_true, if_false]
    split_ifs <;> simp


theorem getD_set_queues (l : List (List VehPtr)) (i q : Nat) (x : List VehPtr) :
    (l.set i x).getD q [] = if q = i ∧ i < l.length then x else l.getD q [] := by
  simp only [List.getD_eq_getElem?_getD, List.getElem?_set]
  by_cases h : i = q
  · subst h
    by_cases h2 : i < l.length
    · simp [h2]
    · simp [h2, List.getElem?_eq_none (Nat.le_of_not_lt h2)]
  · have h' : ¬ q = i := fun e => h e.symm
    simp [h, h']

/-- Effect of a `receive` that takes the arrival path. -/
theorem receive_arrived (env : Env) (w : World) (veh : VehPtr) (time : SUMOTime)
    (d a : Bool) (r : SUMOReal) (h : arrivalOnEntry w.seg (w.veh veh) d a = true) :
    (receive env w veh time d a r).seg = w.seg
      ∧ ∀ p, p ≠ veh → (receive env w veh time d a r).veh p = w.veh p := by
  have harr : ∀ (s : MESegment) (v : MEVehicle) (x : Option String) (t b : SUMOTime),
      arrivalOnEntry s { v with segment := x, lastEntryTime := t, blockTime := b } d a
        = arrivalOnEntry s v d a := fun _ _ _ _ _ => rfl
  constructor
  · unfold receive
    simp only [setVeh_seg, setVeh_veh_self, harr, h, if_true]
    simp
  · intro p hp
    unfold receive
    simp only [setVeh_seg, setVeh_veh_self, harr, h, if_true]
    simp [setVeh_veh, hp]

theorem queueEventTimes_congr {w w1 : World} {q : Nat} (hq : w1.seg.que q = w.seg.que q)
    (hv : ∀ p ∈ w.seg.que q, w1.veh p = w.veh p) : queueEventTimes w1 q = queueEventTimes w q := by
  unfold queueEventTimes
  rw [hq]
  exact List.map_congr_left (fun p hp => by rw [hv p hp])

theorem receive_orderInv (env : Env) (w : World) (veh : VehPtr) (time : SUMOTime)
    (d a : Bool) (r : SUMOReal) (hord : QueueOrdered w) (hdist : QueuesDistinct w)
    (htau : 0 ≤ w.seg.myTau_ff) (hsafe : OrderSafe w (Op.receive env veh time d a r)) :
    QueueOrdered (receive env w veh time d a r)
      ∧ QueuesDistinct (receive env w veh time d a r) := by
  obtain ⟨hfresh, hguard⟩ := hsafe
  by_cases harr : arrivalOnEntry w.seg (w.veh veh) d a = true
  · obtain ⟨hseg, hveh⟩ := receive_arrived env w veh time d a r harr
    have hq : ∀ q, (receive env w veh time d a r).seg.que q = w.seg.que q := by
      intro q; rw [hseg]
    refine ⟨fun q => ?_, fun q => ?_, fun q1 q2 hne => ?_⟩
    · rw [queueEventTimes_congr (hq q) (fun p hp => hveh p (fun e => hfresh q (e ▸ hp)))]
      exact hord q
    · rw [hq]; exact hdist.1 q
    · rw [hq, hq]; exact hdist.2 q1 q2 hne
  · have harr' : arrivalOnEntry w.seg (w.veh veh) d a = false := by
      simpa using harr
    obtain ⟨tl, newcars, hques, hveh, htl, hshape⟩ := receive_queued env w veh time d a r harr'
    have hq : ∀ q, (receive env w veh time d a r).seg.que q
        = if q = chooseQueue w.seg (w.veh veh).succEdge1
            ∧ chooseQueue w.seg (w.veh veh).succEdge1 < w.seg.myCarQues.length
          then newcars else w.seg.que q := by
      intro q
      unfold MESegment.que
      rw [hques, getD_set_queues]
    have hev : ∀ q, ∀ p ∈ w.seg.que q,
        ((receive env w veh time d a r).veh p).eventTime = (w.veh p).eventTime := by
      intro q p hp
      rw [hveh p (fun e => hfresh q (e ▸ hp))]
    -- the queue after insertion: its members and its event times
    have hnew : newcars.Nodup ∧ (∀ x ∈ newcars, x = veh ∨
          x ∈ w.seg.que (chooseQueue w.seg (w.veh veh).succEdge1))
        ∧ (chooseQueue w.seg (w.veh veh).succEdge1 < w.seg.myCarQues.length →
            List.Chain' (fun back front : SUMOTime => back ≥ front)
              (newcars.map (fun p => ((receive env w veh time d a r).veh p).eventTime))) := by
      have hnd := hdist.1 (chooseQueue w.seg (w.veh veh).succEdge1)
      have hnot := hfresh (chooseQueue w.seg (w.veh veh).succEdge1)
      have hchain := hord (chooseQueue w.seg (w.veh veh).succEdge1)
      unfold queueEventTimes at hchain
      rcases hshape with ⟨_, hn⟩ | ⟨c0, rest, hc, hn, hlt⟩ | ⟨c0, rest, hc, hn, hle⟩
      · subst hn
        exact ⟨List.nodup_singleton _, by simp, fun _ => by simp⟩
      · rw [hc] at hnd hnot hchain
        subst hn
        have hc0 : c0 ≠ veh := fun e => hnot (by simp [e])
        have hvr : veh ∉ rest := fun e => hnot (by simp [e])
        refine ⟨?_, ?_, ?_⟩
        · rw [List.nodup_cons] at hnd ⊢
          refine ⟨?_, List.nodup_cons.mpr ⟨hvr, hnd.2⟩⟩
          intro hmem
          rcases List.mem_cons.mp hmem with e | e
          · exact hc0 e
          · exact hnd.1 e
        · intro x hx
          rcases List.mem_cons.mp hx with e | e
          · right; rw [hc]; simp [e]
          · rcases List.mem_cons.mp e with e | e
            · left; exact e
            · right; rw [hc]; simp [e]
        · intro hin
          rcases hguard with hg | hg | hg
          · exact absurd hg harr
          · rw [hc] at hg
            have hrest : rest = [] := by
              cases rest with
              | nil => rfl
              | cons x xs => simp at hg
            subst hrest
            simp only [List.map_cons, List.map_nil, List.chain'_cons, List.chain'_singleton,
              and_true]
            rw [htl, hveh c0 hc0]
            exact le_of_lt hlt
          · rw [hq, if_pos ⟨rfl, hin⟩] at hg
            simp only [List.head?_cons, Option.some.injEq] at hg
            exact absurd hg hc0
      · rw [hc] at hnd hnot hchain
        subst hn
        have hc0 : c0 ≠ veh := fun e => hnot (by simp [e])
        refine ⟨List.nodup_cons.mpr ⟨hnot, hnd⟩, ?_, ?_⟩
        · intro x hx
          rcases List.mem_cons.mp hx with e | e
          · left; exact e
          · right; rw [hc]; exact e
        · intro _
          have hmap : (c0 :: rest).map (fun p => ((receive env w veh time d a r).veh p).eventTime)
              = (c0 :: rest).map (fun p => (w.veh p).eventTime) :=
            List.map_congr_left (fun p hp => by
              have hp' : p ∈ w.seg.que (chooseQueue w.seg (w.veh veh).succEdge1) := by rw [hc]; exact hp
              exact hev _ p hp')
          rw [List.map_cons, htl, hmap]
          rw [List.map_cons] at hchain ⊢
          refine List.Chain'.cons ?_ hchain
          show tl ≥ (w.veh c0).eventTime
          linarith
    obtain ⟨hnd, hmem, hch⟩ := hnew
    refine ⟨fun q => ?_, fun q => ?_, fun q1 q2 hne => ?_⟩
    · unfold queueEventTimes
      rw [hq]
      split_ifs with hc
      · exact hch hc.2
      · have := hord q
        unfold queueEventTimes at this
        rw [List.map_congr_left (fun p hp => hev q p hp)]
        exact this
    · rw [hq]
      split_ifs
      · exact hnd
      · exact hdist.1 q
    · rw [hq, hq]
      split_ifs with h1 h2 h2
      · exact absurd (h1.1.trans h2.1.symm) hne
      · intro x hx1 hx2
        rcases hmem x hx1 with e | e
        · exact hfresh q2 (e ▸ hx2)
        · exact hdist.2 _ q2 (h1.1 ▸ hne) e hx2
      · intro x hx1 hx2
        rcases hmem x hx2 with e | e
        · exact hfresh q1 (e ▸ hx1)
        · exact hdist.2 q1 _ (h2.1 ▸ hne) hx1 e
      · exact hdist.2 q1 q2 hne

theorem removeCar_leader (w : World) (v : VehPtr) (t : SUMOTime) (n : NextSeg) :
    (removeCar w v t n).1
      = if (w.seg.que (w.veh v).queIndex).getLast? = some v
        then (w.seg.que (w.veh v).queIndex).dropLast.getLast? else none := by
  unfold removeCar
  simp only []
  split_ifs with h1 h2 h2
  · rfl
  · exact absurd h1 h2
  · exact absurd h2 h1
  · rfl

theorem removeCar_carQues (w : World) (v : VehPtr) (t : SUMOTime) (n : NextSeg) :
    (removeCar w v t n).2.seg.myCarQues
      = w.seg.myCarQues.set (w.veh v).queIndex
          (if (w.seg.que (w.veh v).queIndex).getLast? = some v
            then (w.seg.que (w.veh v).queIndex).dropLast
            else (w.seg.que (w.veh v).queIndex).erase v) := by
  unfold removeCar
  simp only []
  split_ifs with h1 h2 h2
  · rfl
  · exact absurd h1 h2
  · exact absurd h2 h1
  · rfl

theorem send_carQues (w : World) (v : VehPtr) (n : NextSeg) (t : SUMOTime) :
    (send w v n t).seg.myCarQues
      = w.seg.myCarQues.set (w.veh v).queIndex
          (if (w.seg.que (w.veh v).queIndex).getLast? = some v
            then (w.seg.que (w.veh v).queIndex).dropLast
            else (w.seg.que (w.veh v).queIndex).erase v) := by
  rw [← removeCar_carQues w v t n]
  unfold send
  simp only []
  cases n <;> cases (removeCar w v t _).1 <;> simp [World.setBlock]

theorem send_veh (w : World) (v : VehPtr) (n : NextSeg) (t : SUMOTime) (p : VehPtr) :
    (send w v n t).veh p
      = match (removeCar w v t n).1 with
        | some l =>
          if p = l then
            { w.veh l with eventTime := max (w.veh l).eventTime ((send w v n t).seg.block (w.veh v).queIndex) }
          else w.veh p
        | none => w.veh p := by
  unfold send
  simp only []
  cases n <;> cases (removeCar w v t _).1 <;> simp [setVeh_veh, World.setBlock]

/-- The queue `send` leaves in place of the one it removes from. -/
theorem send_que (w : World) (v : VehPtr) (n : NextSeg) (t : SUMOTime) (x : Nat) :
    (send w v n t).seg.que x
      = if x = (w.veh v).queIndex then
          (if (w.seg.que (w.veh v).queIndex).getLast? = some v
            then (w.seg.que (w.veh v).queIndex).dropLast
            else (w.seg.que (w.veh v).queIndex).erase v)
        else w.seg.que x := by
  have h : (send w v n t).seg.que x = ((send w v n t).seg.myCarQues).getD x [] := rfl
  rw [h, send_carQues, getD_set_queues]
  by_cases hx : x = (w.veh v).queIndex
  · by_cases hl : (w.veh v).queIndex < w.seg.myCarQues.length
    · rw [if_pos ⟨hx, hl⟩, if_pos hx]
    · have hnil : w.seg.que (w.veh v).queIndex = [] := by
        unfold MESegment.que
        simp [List.getD_eq_getElem?_getD, List.getElem?_eq_none (Nat.le_of_not_lt hl)]
      rw [if_neg (fun hh => hl hh.2), if_pos hx, hnil, hx]
      have : w.seg.myCarQues.getD (w.veh v).queIndex [] = [] := hnil
      rw [this]
      simp
  · rw [if_neg (fun hh => hx hh.1), if_neg hx]
    rfl

theorem chain_ge_iff_pairwise (l : List SUMOTime) :
    List.Chain' (fun back front : SUMOTime => back ≥ front) l
      ↔ List.Pairwise (fun back front : SUMOTime => back ≥ front) l := by
  haveI : IsTrans SUMOTime (fun back front : SUMOTime => back ≥ front) :=
    ⟨fun a b c hab hbc => le_trans hbc hab⟩
  exact List.chain'_iff_pairwise

theorem send_orderInv (w : World) (v : VehPtr) (n : NextSeg) (t : SUMOTime)
    (hord : QueueOrdered w) (hdist : QueuesDistinct w) (hsafe : OrderSafe w (Op.send v n t)) :
    QueueOrdered (send w v n t) ∧ QueuesDistinct (send w v n t) := by
  have hsub : ∀ x, List.Sublist ((send w v n t).seg.que x) (w.seg.que x) := by
    intro x
    rw [send_que]
    split_ifs with h1 h2
    · rw [h1]; exact List.dropLast_sublist _
    · rw [h1]; exact List.erase_sublist _ _
    · exact List.Sublist.refl _
  refine ⟨fun x => ?_, fun x => (hdist.1 x).sublist (hsub x), fun q1 q2 hne => ?_⟩
  swap
  · intro y h1 h2
    exact hdist.2 q1 q2 hne ((hsub q1).subset h1) ((hsub q2).subset h2)
  rw [chain_ge_iff_pairwise]
  have hpw : List.Pairwise (fun back front : SUMOTime => back ≥ front) (queueEventTimes w x) :=
    (chain_ge_iff_pairwise _).mp (hord x)
  unfold queueEventTimes at hpw ⊢
  -- without a new leader no event time changes
  have hnone : (removeCar w v t n).1 = none →
      List.Pairwise (fun back front : SUMOTime => back ≥ front)
        (((send w v n t).seg.que x).map (fun p => ((send w v n t).veh p).eventTime)) := by
    intro hl
    have hv : ∀ p, (send w v n t).veh p = w.veh p := by
      intro p; rw [send_veh, hl]
    simp only [hv]
    exact hpw.sublist ((hsub x).map _)
  rw [removeCar_leader] at hnone
  by_cases hlast : (w.seg.que (w.veh v).queIndex).getLast? = some v
  swap
  · exact hnone (by rw [if_neg hlast])
  cases hlc : (w.seg.que (w.veh v).queIndex).dropLast.getLast? with
  | none => exact hnone (by rw [if_pos hlast, hlc])
  | some lc =>
    have hcars : w.seg.que (w.veh v).queIndex = (w.seg.que (w.veh v).queIndex).dropLast ++ [v] :=
      (List.dropLast_append_getLast? v hlast).symm
    obtain ⟨pre, hpre⟩ := List.getLast?_eq_some_iff.mp hlc
    rw [hpre] at hcars
    have hv : ∀ p, (send w v n t).veh p
        = if p = lc then
            { w.veh lc with eventTime := max (w.veh lc).eventTime ((send w v n t).seg.block (w.veh v).queIndex) }
          else w.veh p := by
      intro p
      rw [send_veh, removeCar_leader, if_pos hlast, hlc]
    have hnd := hdist.1 (w.veh v).queIndex
    rw [hcars] at hnd
    by_cases hx : x = (w.veh v).queIndex
    · subst hx
      rw [send_que, if_pos rfl, if_pos hlast, hpre]
      rw [hcars] at hpw
      have hlcpre : lc ∉ pre := by
        intro hmem
        have := List.nodup_append.mp (List.nodup_append.mp hnd).1
        exact this.2.2 hmem (by simp)
      have hmap : pre.map (fun p => ((send w v n t).veh p).eventTime)
          = pre.map (fun p => (w.veh p).eventTime) :=
        List.map_congr_left (fun p hp => by
          rw [hv, if_neg (fun (e : p = lc) => hlcpre (e ▸ hp))])
      rw [List.map_append, hmap, List.map_cons, List.map_nil, hv, if_pos rfl]
      simp only [List.map_append, List.map_cons, List.map_nil, List.append_assoc,
        List.singleton_append] at hpw
      rw [List.pairwise_append] at hpw ⊢
      refine ⟨hpw.1, List.pairwise_singleton _ _, ?_⟩
      intro a ha b hb
      rw [List.mem_singleton] at hb
      subst hb
      have h1 : a ≥ (w.veh lc).eventTime := hpw.2.2 a ha _ (by simp)
      show a ≥ max (w.veh lc).eventTime ((send w v n t).seg.block (w.veh v).queIndex)
      refine max_le h1 ?_
      -- the vehicle behind the new leader bounds the block time
      rcases List.eq_nil_or_concat pre with hnil | ⟨pre1, f, hf⟩
      · rw [hnil] at ha; simp at ha
      · rw [List.concat_eq_append] at hf
        have hguard := hsafe pre1 f lc (by rw [hcars, hf]; simp)
        have hf_le : a ≥ (w.veh f).eventTime := by
          rw [hf, List.map_append, List.mem_append] at ha
          rcases ha with ha | ha
          · have := hpw.1
            rw [hf, List.map_append, List.pairwise_append] at this
            exact this.2.2 a ha _ (by simp)
          · simp at ha; rw [ha]
        exact le_trans hguard hf_le
    · rw [send_que, if_neg hx]
      have hlcx : lc ∉ w.seg.que x := by
        intro hmem
        have hlcq : lc ∈ w.seg.que (w.veh v).queIndex := by rw [hcars]; simp
        exact hdist.2 x _ hx hmem hlcq
      rw [List.map_congr_left (fun p hp => by rw [hv, if_neg (fun (e : p = lc) => hlcx (e ▸ hp))])]
      exact hpw

theorem setSpeedFollowers_spec (ns : SUMOReal) (t : SUMOTime) (l : List VehPtr) (e : SUMOTime)
    (w : World) (hnd : l.Nodup) (htau : 0 ≤ w.seg.myTau_ff) :
    (∀ p, p ∉ l → (setSpeedFollowers ns t l e w).veh p = w.veh p)
    ∧ List.Chain (fun a b : SUMOTime => a ≤ b) e
        (l.map (fun p => ((setSpeedFollowers ns t l e w).veh p).eventTime)) := by
  induction l generalizing e w with
  | nil => exact ⟨fun _ _ => rfl, List.Chain.nil⟩
  | cons p rest ih =>
    rw [List.nodup_cons] at hnd
    simp only [setSpeedFollowers, log_seg, log_veh]
    obtain ⟨h1, h2⟩ := ih
      (max (newArrival w.seg (w.veh p) ns t) (e + w.seg.myTau_ff))
      ((w.log (Event.updateDetectors p t false none)).setVeh p (fun v =>
        { v with eventTime := max (newArrival w.seg (w.veh p) ns t) (e + w.seg.myTau_ff) }))
      hnd.2 htau
    refine ⟨fun x hx => ?_, ?_⟩
    · rw [h1 x (fun hm => hx (List.mem_cons_of_mem _ hm))]
      rw [setVeh_veh_other _ _ _ _ (fun hxp => hx (by simp [hxp]))]
      rfl
    · rw [List.map_cons, List.chain_cons]
      refine ⟨?_, ?_⟩
      · rw [h1 p hnd.1]
        simp only [setVeh_veh_self]
        exact le_trans (by linarith) (le_max_right _ _)
      · rw [h1 p hnd.1]
        simp only [setVeh_veh_self]
        exact h2

theorem setSpeedForQueue_spec (w : World) (ns : SUMOReal) (t b : SUMOTime) (vehs : List VehPtr)
    (hnd : vehs.Nodup) (htau : 0 ≤ w.seg.myTau_ff) :
    (∀ p, p ∉ vehs → (setSpeedForQueue w ns t b vehs).veh p = w.veh p)
    ∧ List.Chain' (fun back front : SUMOTime => back ≥ front)
        (vehs.map (fun p => ((setSpeedForQueue w ns t b vehs).veh p).eventTime)) := by
  unfold setSpeedForQueue
  rcases hrev : vehs.reverse with _ | ⟨v, rest⟩
  · have : vehs = [] := List.reverse_eq_nil_iff.mp hrev
    subst this
    exact ⟨fun _ _ => rfl, List.chain'_nil⟩
  · have hvehs : vehs = (v :: rest).reverse := by rw [← hrev, List.reverse_reverse]
    have hnd2 : (v :: rest).Nodup := by rw [← hrev]; exact List.nodup_reverse.mpr hnd
    rw [List.nodup_cons] at hnd2
    simp only [log_seg, log_veh]
    -- the state after the leader has been handled
    obtain ⟨w2, hw2, hseg2, hv2, hother2⟩ : ∃ w2 : World,
        w2 = (if (w.veh v).eventTime ≠ max (newArrival w.seg (w.veh v) ns t) b then
            (((w.log (Event.updateDetectors v t false none)).log (Event.removeLeaderCar v)).setVeh v
              (fun x => { x with eventTime := max (newArrival w.seg (w.veh v) ns t) b })).log
              (Event.addLeaderCar v)
          else w.log (Event.updateDetectors v t false none))
        ∧ w2.seg = w.seg
        ∧ (w2.veh v).eventTime = max (newArrival w.seg (w.veh v) ns t) b
        ∧ ∀ p, p ≠ v → w2.veh p = w.veh p := by
      refine ⟨_, rfl, ?_, ?_, ?_⟩
      · split_ifs <;> simp
      · split_ifs with h
        · simp
        · simp only [log_veh]
          exact not_not.mp h
      · intro p hp
        split_ifs <;> simp [setVeh_veh, hp]
    rw [← hw2]
    obtain ⟨h1, h2⟩ := setSpeedFollowers_spec ns t rest (max (newArrival w.seg (w.veh v) ns t) b)
      w2 hnd2.2 (by rw [hseg2]; exact htau)
    refine ⟨fun p hp => ?_, ?_⟩
    · have hpv : p ≠ v := fun e => hp (by rw [hvehs, e]; simp)
      have hpr : p ∉ rest := fun hm => hp (by rw [hvehs]; simp [hm])
      rw [h1 p hpr, hother2 p hpv]
    · rw [hvehs, List.map_reverse, List.chain'_reverse, List.map_cons, h1 v hnd2.1, hv2]
      exact h2


theorem tau_ff_of_fixed {s s1 : MESegment} (h : s1.fixed = s.fixed) : s1.myTau_ff = s.myTau_ff := by
  simp only [MESegment.fixed, Prod.mk.injEq] at h; tauto

theorem setSpeed_loop_orderInv (ns : SUMOReal) (t : SUMOTime) (l : List Nat) (w : World)
    (h : OrderInv w) :
    OrderInv (l.foldl (fun x i =>
        if (x.seg.que i).length ≠ 0 then
          setSpeedForQueue x ns t (x.seg.block i) (x.seg.que i)
        else x) w) := by
  induction l generalizing w with
  | nil => exact h
  | cons i rest ih =>
    rw [List.foldl_cons]
    apply ih
    split_ifs with hi
    swap
    · exact h
    obtain ⟨hord, hdist, htau⟩ := h
    obtain ⟨h1, h2⟩ := setSpeedForQueue_spec w ns t (w.seg.block i) (w.seg.que i) (hdist.1 i) htau
    have hseg : (setSpeedForQueue w ns t (w.seg.block i) (w.seg.que i)).seg = w.seg :=
      setSpeedForQueue_seg _ _ _ _ _
    refine ⟨fun q => ?_, ⟨fun q => ?_, fun q1 q2 hne => ?_⟩, ?_⟩
    · unfold queueEventTimes
      rw [hseg]
      by_cases hq : q = i
      · rw [hq]; exact h2
      · rw [List.map_congr_left (fun p hp => by
          rw [h1 p (fun hm => hdist.2 q i hq hp hm)])]
        exact hord q
    · rw [hseg]; exact hdist.1 q
    · rw [hseg]; exact hdist.2 q1 q2 hne
    · rw [hseg]; exact htau

theorem setSpeed_orderInv (env : Env) (w : World) (ns : SUMOReal) (t : SUMOTime) (jt : SUMOReal)
    (h : OrderInv w) : OrderInv (setSpeed env w ns t jt) := by
  unfold setSpeed
  split_ifs with hs
  · exact h
  · apply setSpeed_loop_orderInv
    obtain ⟨x, hx⟩ := recomputeJamThreshold_eq env { w.seg with myMaxSpeed := ns } jt
    obtain ⟨hord, hdist, htau⟩ := h
    have hq : ∀ q, (recomputeJamThreshold env { w.seg with myMaxSpeed := ns } jt).que q
        = w.seg.que q := by
      intro q; rw [hx]; rfl
    refine ⟨fun q => ?_, ⟨fun q => ?_, fun q1 q2 hne => ?_⟩, ?_⟩
    · unfold queueEventTimes
      simp only [hq]
      exact hord q
    · simp only [hq]; exact hdist.1 q
    · simp only [hq]; exact hdist.2 q1 q2 hne
    · show 0 ≤ (recomputeJamThreshold env { w.seg with myMaxSpeed := ns } jt).myTau_ff
      rw [hx]; exact htau

theorem step_orderInv (w : World) (op : Op) (h : OrderInv w) (hsafe : OrderSafe w op) :
    OrderInv (step w op) := by
  obtain ⟨hord, hdist, htau⟩ := h
  cases op with
  | receive env veh time d a r =>
    obtain ⟨h1, h2⟩ := receive_orderInv env w veh time d a r hord hdist htau hsafe
    refine ⟨h1, h2, ?_⟩
    show 0 ≤ (receive env w veh time d a r).seg.myTau_ff
    rw [tau_ff_of_fixed (receive_fixed env w veh time d a r)]; exact htau
  | send v n t =>
    obtain ⟨h1, h2⟩ := send_orderInv w v n t hord hdist hsafe
    refine ⟨h1, h2, ?_⟩
    show 0 ≤ (send w v n t).seg.myTau_ff
    rw [tau_ff_of_fixed (send_fixed w v n t)]; exact htau
  | vaporizeAnyCar t => exact absurd hsafe (by simp [OrderSafe])
  | setSpeed env ns t jt => exact setSpeed_orderInv env w ns t jt ⟨hord, hdist, htau⟩
  | loadState vehs b q => exact absurd hsafe (by simp [OrderSafe])

theorem run_orderInv (ops : List Op) (w : World) (h : OrderInv w) (hsafe : OrderSafeRun w ops)
    (k : Nat) : OrderInv (run w (ops.take k)) := by
  induction ops generalizing w k with
  | nil => simpa [run] using h
  | cons op rest ih =>
    cases k with
    | zero => simpa [run] using h
    | succ k =>
      obtain ⟨h1, h2⟩ := hsafe
      exact ih (step w op) (step_orderInv w op h h1) h2 k

/-- C6 (as amended): on a segment with `tau_ff ≥ 0` whose queues are ordered and
hold distinct vehicles, the ordering of event times (the vehicle nearer
`front()` has the later or equal event time) holds after every operation of any
sequence of receive, send and setSpeed in which no received vehicle is queued
already or overtakes into a queue of two or more vehicles, and in which every
send that promotes a new leader leaves a block time not above the event time of
the vehicle behind that leader. -/
theorem queue_order_invariant (w : World) (ops : List Op) (k : Nat)
    (hord : QueueOrdered w) (hdist : QueuesDistinct w) (htau : 0 ≤ w.seg.myTau_ff)
    (hsafe : OrderSafeRun w ops) :
    ∀ q, List.Chain' (fun back front : SUMOTime => back ≥ front)
      (((run w (ops.take k)).seg.que q).map (fun p => ((run w (ops.take k)).veh p).eventTime)) :=
  (run_orderInv ops w ⟨hord, hdist, htau⟩ hsafe k).1

/-- The queue and the event times after the two departures of `exDeparts`. -/
theorem exDeparts_state :
    (run (World.fresh exSegmentTwoLanes exStoreFast) exDeparts).seg.myCarQues = [[1, 0]]
    ∧ ((run (World.fresh exSegmentTwoLanes exStoreFast) exDeparts).veh 1).eventTime = 10500
    ∧ ((run (World.fresh exSegmentTwoLanes exStoreFast) exDeparts).veh 0).eventTime = 10000 := by
  refine ⟨?_, ?_, ?_⟩ <;>
  · simp [run, step, exDeparts, receive, arrivalOnEntry, World.fresh,
      exSegmentTwoLanes, exSegment, exStoreFast, exVehicle, exEnv, chooseQueue, tentativeLeave,
      insertCar, overtake, MESegment.que, MESegment.block, TIME2STEPS, castToTime, World.setVeh, World.log, Function.update_apply,
      MEVehicle.getLengthWithGap]
    try norm_num

/-- The queue and the event times after the overtaking `receive` of `exOvertakeOps`. -/
theorem exOvertake_state :
    (run (World.fresh exSegmentTwoLanes exStoreFast) exOvertakeOps).seg.myCarQues = [[1, 2, 0]]
    ∧ ((run (World.fresh exSegmentTwoLanes exStoreFast) exOvertakeOps).veh 2).eventTime = 6000
    ∧ ((run (World.fresh exSegmentTwoLanes exStoreFast) exOvertakeOps).veh 0).eventTime = 10000 := by
  refine ⟨?_, ?_, ?_⟩ <;>
  · simp [run, step, exOvertakeOps, exDeparts, receive, arrivalOnEntry, World.fresh,
      exSegmentTwoLanes, exSegment, exStoreFast, exVehicle, exEnv, chooseQueue, tentativeLeave,
      insertCar, overtake, MESegment.que, MESegment.block, TIME2STEPS, castToTime, World.setVeh, World.log, Function.update_apply,
      MEVehicle.getLengthWithGap]
    try norm_num

/-- The queue and the event times after the `send` of `exSendOps`. -/
theorem exSend_state :
    (run (World.fresh exSegmentTwoLanes exStoreFast) exSendOps).seg.myCarQues = [[3, 1]]
    ∧ ((run (World.fresh exSegmentTwoLanes exStoreFast) exSendOps).veh 3).eventTime = 11000
    ∧ ((run (World.fresh exSegmentTwoLanes exStoreFast) exSendOps).veh 1).eventTime = 15000 := by
  refine ⟨?_, ?_, ?_⟩ <;>
  · simp [run, step, exSendOps, exDeparts, receive, arrivalOnEntry, World.fresh,
      exSegmentTwoLanes, exSegment, exStoreFast, exVehicle, exEnv, chooseQueue, tentativeLeave,
      insertCar, overtake, MESegment.que, MESegment.block, TIME2STEPS, castToTime, World.setVeh, World.log, Function.update_apply,
      MEVehicle.getLengthWithGap, send, removeCar, updateDetectorsOnLeave, World.setBlock,
      getTimeHeadway, free, exSegmentSlow]
    try norm_num


theorem que_nil_or_mem (s : MESegment) (q : Nat) : s.que q = [] ∨ s.que q ∈ s.myCarQues := by
  unfold MESegment.que
  rw [List.getD_eq_getElem?_getD]
  by_cases h : q < s.myCarQues.length
  · right
    rw [List.getElem?_eq_getElem h]
    exact List.getElem_mem h
  · left
    rw [List.getElem?_eq_none (Nat.le_of_not_lt h)]
    rfl

theorem not_mem_que_of_forall (s : MESegment) (p : VehPtr) (h : ∀ k ∈ s.myCarQues, p ∉ k) (q : Nat) :
    p ∉ s.que q := by
  rcases que_nil_or_mem s q with h1 | h1
  · rw [h1]; simp
  · exact h _ h1

/-- The queue after the first departure of `exDeparts`. -/
theorem exDeparts_first :
    (step (World.fresh exSegmentTwoLanes exStoreFast) (Op.receive exEnv 0 0 true false 0)).seg.myCarQues
      = [[0]] := by
  simp [step, receive, arrivalOnEntry, World.fresh,
    exSegmentTwoLanes, exSegment, exStoreFast, exVehicle, exEnv, chooseQueue, tentativeLeave,
    insertCar, overtake, MESegment.que, MESegment.block, TIME2STEPS, castToTime,
    World.setVeh, World.log, Function.update_apply, MEVehicle.getLengthWithGap]

/-- C6 fails as stated: a vehicle that overtakes into a queue of two is placed
at index 1 with an event time below that of the vehicle at index 2, and a
`send` raises the event time of the new leader above that of the vehicle
behind it. -/
theorem queue_order_counterexample :
    QueueOrdered (run (World.fresh exSegmentTwoLanes exStoreFast) exDeparts)
    ∧ (run (World.fresh exSegmentTwoLanes exStoreFast) exOvertakeOps).seg.que 0 = [1, 2, 0]
    ∧ ((run (World.fresh exSegmentTwoLanes exStoreFast) exOvertakeOps).veh 2).eventTime = 6000
    ∧ ((run (World.fresh exSegmentTwoLanes exStoreFast) exOvertakeOps).veh 0).eventTime = 10000
    ∧ ¬ QueueOrdered (run (World.fresh exSegmentTwoLanes exStoreFast) exOvertakeOps)
    ∧ (run (World.fresh exSegmentTwoLanes exStoreFast) exSendOps).seg.que 0 = [3, 1]
    ∧ ((run (World.fresh exSegmentTwoLanes exStoreFast) exSendOps).veh 3).eventTime = 11000
    ∧ ((run (World.fresh exSegmentTwoLanes exStoreFast) exSendOps).veh 1).eventTime = 15000
    ∧ ¬ QueueOrdered (run (World.fresh exSegmentTwoLanes exStoreFast) exSendOps) := by
  obtain ⟨hd, hd1, hd0⟩ := exDeparts_state
  obtain ⟨ho, ho2, ho0⟩ := exOvertake_state
  obtain ⟨hs, hs3, hs1⟩ := exSend_state
  have hoq : (run (World.fresh exSegmentTwoLanes exStoreFast) exOvertakeOps).seg.que 0 = [1, 2, 0] := by
    unfold MESegment.que; rw [ho]; rfl
  have hsq : (run (World.fresh exSegmentTwoLanes exStoreFast) exSendOps).seg.que 0 = [3, 1] := by
    unfold MESegment.que; rw [hs]; rfl
  refine ⟨?_, hoq, ho2, ho0, ?_, hsq, hs3, hs1, ?_⟩
  · intro q
    unfold queueEventTimes MESegment.que
    rw [hd]
    cases q with
    | zero =>
      simp only [List.getD_cons_zero, List.map_cons, List.map_nil, hd1, hd0]
      simp
    | succ q => simp
  · intro h
    have h0 := h 0
    unfold queueEventTimes at h0
    rw [hoq] at h0
    simp only [List.map_cons, List.map_nil, ho2, ho0, List.chain'_cons] at h0
    exact absurd h0.2.1 (by decide)
  · intro h
    have h0 := h 0
    unfold queueEventTimes at h0
    rw [hsq] at h0
    simp only [List.map_cons, List.map_nil, hs3, hs1, List.chain'_cons] at h0
    exact absurd h0.1 (by decide)

theorem queue_order_invariant_witness :
    List.Chain' (fun back front : SUMOTime => back ≥ front)
      (((run (World.fresh exSegmentTwoLanes exStoreFast) (exOrderedOps.take 4)).seg.que 0).map
        (fun p => ((run (World.fresh exSegmentTwoLanes exStoreFast) (exOrderedOps.take 4)).veh p).eventTime)) := by
  obtain ⟨hd, hd1, hd0⟩ := exDeparts_state
  have hrun : run (World.fresh exSegmentTwoLanes exStoreFast) exDeparts
      = step (step (World.fresh exSegmentTwoLanes exStoreFast) (Op.receive exEnv 0 0 true false 0))
          (Op.receive exEnv 1 500 true false 0) := rfl
  rw [hrun] at hd
  refine queue_order_invariant (World.fresh exSegmentTwoLanes exStoreFast) exOrderedOps 4 ?_ ?_ ?_ ?_ 0
  · intro q
    have : (World.fresh exSegmentTwoLanes exStoreFast).seg.que q = [] := by
      rcases que_nil_or_mem (World.fresh exSegmentTwoLanes exStoreFast).seg q with h | h
      · exact h
      · simpa [World.fresh, exSegmentTwoLanes, exSegment] using h
    unfold queueEventTimes
    rw [this]
    exact List.chain'_nil
  · have hq : ∀ q, (World.fresh exSegmentTwoLanes exStoreFast).seg.que q = [] := by
      intro q
      rcases que_nil_or_mem (World.fresh exSegmentTwoLanes exStoreFast).seg q with h | h
      · exact h
      · simpa [World.fresh, exSegmentTwoLanes, exSegment] using h
    refine ⟨fun q => ?_, fun q1 q2 _ => ?_⟩
    · rw [hq]; exact List.nodup_nil
    · rw [hq]; exact List.disjoint_nil_left _
  · norm_num [World.fresh, exSegmentTwoLanes, exSegment]
  · refine ⟨⟨?_, Or.inr (Or.inl ?_)⟩, ⟨?_, Or.inr (Or.inl ?_)⟩, ?_, trivial, trivial⟩
    · exact not_mem_que_of_forall _ _ (by simp [World.fresh, exSegmentTwoLanes, exSegment])
    · rcases que_nil_or_mem (World.fresh exSegmentTwoLanes exStoreFast).seg
        (chooseQueue (World.fresh exSegmentTwoLanes exStoreFast).seg
          ((World.fresh exSegmentTwoLanes exStoreFast).veh 0).succEdge1) with h | h
      · rw [h]; simp
      · have : (World.fresh exSegmentTwoLanes exStoreFast).seg.myCarQues = [[]] := rfl
        rw [this, List.mem_singleton] at h
        rw [h]; simp
    · exact not_mem_que_of_forall _ _ (by rw [exDeparts_first]; simp)
    · rcases que_nil_or_mem (step (World.fresh exSegmentTwoLanes exStoreFast)
          (Op.receive exEnv 0 0 true false 0)).seg
        (chooseQueue (step (World.fresh exSegmentTwoLanes exStoreFast)
          (Op.receive exEnv 0 0 true false 0)).seg
          ((step (World.fresh exSegmentTwoLanes exStoreFast)
            (Op.receive exEnv 0 0 true false 0)).veh 1).succEdge1) with h | h
      · rw [h]; simp
      · rw [exDeparts_first, List.mem_singleton] at h
        rw [h]; simp
    · intro pre f lc hq
      exfalso
      rcases que_nil_or_mem (step (step (World.fresh exSegmentTwoLanes exStoreFast)
          (Op.receive exEnv 0 0 true false 0)) (Op.receive exEnv 1 500 true false 0)).seg
        ((step (step (World.fresh exSegmentTwoLanes exStoreFast)
          (Op.receive exEnv 0 0 true false 0)) (Op.receive exEnv 1 500 true false 0)).veh 0).queIndex
        with h | h
      · rw [h] at hq; simp at hq
      · rw [hd, List.mem_singleton] at h
        rw [h] at hq
        have := congrArg List.length hq
        simp at this

/-! ## Headway in a jam, next insertion time -/

theorem foldl_add_length (l : List (List VehPtr)) (a : Nat) :
    l.foldl (fun total k => total + k.length) a = a + (l.map List.length).sum := by
  induction l generalizing a with
  | nil => simp
  | cons k rest ih => simp only [List.foldl_cons, ih, List.map_cons, List.sum_cons]; omega

theorem getCarNumber_eq_sum (s : MESegment) :
    getCarNumber s = (s.myCarQues.map List.length).sum := by
  unfold getCarNumber
  rw [foldl_add_length]; simp

theorem wrapTime_of_range (x : Int) (h1 : -(2 ^ 63) ≤ x) (h2 : x < 2 ^ 63) : wrapTime x = x := by
  unfold wrapTime
  rw [Int.emod_eq_of_lt (by linarith) (by linarith)]
  ring

/-- C11: when the predecessor and this segment are both jammed,
`getTimeHeadway(false)` is `tau_jj * carCount` plus `headwayCapacity * (tau_jf -
tau_jj)` cut to whole ticks, `carCount` being the number of vehicles over all
queues (the sum staying within the range of `SUMOTime`). -/
theorem getTimeHeadway_jammed (s : MESegment)
    (hjam : ¬ s.myOccupancy ≤ s.myJamThreshold)
    (hlo : -(2 ^ 63) ≤ s.myTau_jj * ((s.myCarQues.map List.length).sum : Int)
      + castToTime (s.myHeadwayCapacity * ((s.myTau_jf - s.myTau_jj : Int) : ℚ)))
    (hhi : s.myTau_jj * ((s.myCarQues.map List.length).sum : Int)
      + castToTime (s.myHeadwayCapacity * ((s.myTau_jf - s.myTau_jj : Int) : ℚ)) < 2 ^ 63) :
    getTimeHeadway s false
      = s.myTau_jj * ((s.myCarQues.map List.length).sum : Int)
        + castToTime (s.myHeadwayCapacity * ((s.myTau_jf - s.myTau_jj : Int) : ℚ)) := by
  unfold getTimeHeadway
  simp only [Bool.false_eq_true, if_false, free, hjam, decide_False]
  rw [getCarNumber_eq_sum]
  exact wrapTime_of_range _ hlo hhi

theorem exJamPropagation_eval :
    exJamPropagation.myHeadwayCapacity = 40 / 3 ∧ exJamPropagation.myTau_jj = 3000
    ∧ exJamPropagation.myTau_jf = 2000 ∧ exJamPropagation.myJamThreshold = 30
    ∧ exJamPropagation.myOccupancy = 75
    ∧ exJamPropagation.myCarQues = [[9, 8, 7, 6, 5, 4, 3, 2, 1, 0]] := by
  refine ⟨?_, ?_, ?_, ?_, ?_, ?_⟩ <;>
    norm_num [exJamPropagation, construct, recomputeJamThreshold, DO_NOT_PATCH_JAM_THRESHOLD,
      exEdge, divBySize, wrapTime, jamThresholdForSpeed, STEPS2TIME, exEnv]


theorem getTimeHeadway_jammed_witness :
    getTimeHeadway exJamPropagation false = 16667
    ∧ |STEPS2TIME (getTimeHeadway exJamPropagation false) - 1667 / 100| ≤ 1 / 200 := by
  obtain ⟨hc, hjj, hjf, hjt, hocc, hq⟩ := exJamPropagation_eval
  have hval : exJamPropagation.myTau_jj * ((exJamPropagation.myCarQues.map List.length).sum : Int)
      + castToTime (exJamPropagation.myHeadwayCapacity
          * ((exJamPropagation.myTau_jf - exJamPropagation.myTau_jj : Int) : ℚ)) = 16667 := by
    rw [hc, hjj, hjf, hq]
    have : castToTime ((40 / 3 : ℚ) * (((2000 - 3000 : Int)) : ℚ)) = -13333 := by
      unfold castToTime
      rw [if_neg (by norm_num)]
      rw [Int.ceil_eq_iff]
      constructor <;> norm_num
    rw [this]
    norm_num
  have h := getTimeHeadway_jammed exJamPropagation (by rw [hocc, hjt]; norm_num)
    (by rw [hval]; norm_num) (by rw [hval]; norm_num)
  rw [hval] at h
  refine ⟨h, ?_⟩
  rw [h]
  norm_num [STEPS2TIME, abs_le]

theorem map_range_getD {α : Type} (l : List α) (d : α) :
    (List.range l.length).map (fun i => l.getD i d) = l := by
  apply List.ext_getElem
  · simp
  · intro n h1 h2
    simp [List.getD_eq_getElem?_getD, List.getElem?_eq_getElem h2]

/-- A loop over the indices of a vector that reads the element at each index
is a fold over the vector. -/
theorem foldl_range_getD {α β : Type} (l : List α) (d : α) (f : β → α → β) (a : β) :
    (List.range l.length).foldl (fun r i => f r (l.getD i d)) a = l.foldl f a := by
  conv_rhs => rw [← map_range_getD l d]
  rw [List.foldl_map]

theorem foldl_max_init (l : List SUMOTime) (a b : SUMOTime) :
    l.foldl max (max a b) = max a (l.foldl max b) := by
  induction l generalizing b with
  | nil => rfl
  | cons x rest ih =>
    simp only [List.foldl_cons]
    rw [max_assoc, ih]

theorem castToTime_nonneg (x : SUMOReal) (h : 0 ≤ x) : 0 ≤ castToTime x := by
  unfold castToTime
  rw [if_pos h]
  exact Int.floor_nonneg.mpr h

theorem TIME2STEPS_nonneg (x : SUMOReal) (h : 0 ≤ x) : 0 ≤ TIME2STEPS x := by
  unfold TIME2STEPS
  exact castToTime_nonneg _ (by positivity)

/-- C12: on a segment with `L ≥ 0` and `v_max > 0` whose block-time array is
co-indexed with its queues, `getNextInsertionTime(earliestEntry)` is the largest
of `earliestEntry`, the largest block time minus `L / v_max` in ticks, and the
entry block time. -/
theorem getNextInsertionTime_eq (s : MESegment) (earliestEntry b0 : SUMOTime)
    (rest : List SUMOTime) (hb : s.myBlockTimes = b0 :: rest)
    (hco : s.myBlockTimes.length = s.myCarQues.length)
    (hL : 0 ≤ s.myLength) (hv : 0 < s.myMaxSpeed) :
    getNextInsertionTime s earliestEntry
      = max earliestEntry
          (max (rest.foldl max b0 - TIME2STEPS (s.myLength / s.myMaxSpeed)) s.myEntryBlockTime) := by
  have hT : 0 ≤ TIME2STEPS (s.myLength / s.myMaxSpeed) :=
    TIME2STEPS_nonneg _ (div_nonneg hL (le_of_lt hv))
  unfold getNextInsertionTime
  simp only []
  rw [← hco]
  have hfold : (List.range s.myBlockTimes.length).foldl (fun e i => max e (s.block i)) earliestEntry
      = s.myBlockTimes.foldl max earliestEntry :=
    foldl_range_getD s.myBlockTimes 0 max earliestEntry
  rw [hfold, hb, List.foldl_cons, foldl_max_init]
  rcases le_total earliestEntry (rest.foldl max b0) with h | h
  · rw [max_eq_right h]
    rw [max_comm s.myEntryBlockTime, max_assoc]
  · rw [max_eq_left h]
    have h1 : rest.foldl max b0 - TIME2STEPS (s.myLength / s.myMaxSpeed) ≤ earliestEntry := by
      linarith
    have h2 : earliestEntry - TIME2STEPS (s.myLength / s.myMaxSpeed) ≤ earliestEntry := by linarith
    rw [max_eq_left h2, max_comm s.myEntryBlockTime, ← max_assoc, max_eq_left h1]

theorem getNextInsertionTime_eq_witness :
    getNextInsertionTime
        { exSegment with myCarQues := [[], []], myBlockTimes := [9000, 12000], myEntryBlockTime := 4500 }
        3000
      = max 3000 (max (([12000] : List SUMOTime).foldl max 9000 - TIME2STEPS (100 / 25)) 4500) :=
  getNextInsertionTime_eq
    { exSegment with myCarQues := [[], []], myBlockTimes := [9000, 12000], myEntryBlockTime := 4500 }
    3000 9000 [12000] rfl rfl (by norm_num [exSegment]) (by norm_num [exSegment])

/-! ## Notifications and scheduler calls -/

@[simp] theorem updateDetectorsOnLeave_trace (w : World) (v : VehPtr) (t : SUMOTime) (n : NextSeg) :
    (updateDetectorsOnLeave w v t n).trace
      = w.trace ++ [Event.updateDetectors v t true (some
          (match n with
            | NextSeg.null => Notification.ARRIVED
            | NextSeg.vaporizationTarget => Notification.VAPORIZED
            | NextSeg.real _ =>
              if w.seg.myNextSegment = none then Notification.JUNCTION else Notification.SEGMENT))] := by
  cases n <;> rfl

theorem removeCar_trace (w : World) (v : VehPtr) (t : SUMOTime) (n : NextSeg) :
    (removeCar w v t n).2.trace
      = w.trace ++ [Event.updateDetectors v t true (some
          (match n with
            | NextSeg.null => Notification.ARRIVED
            | NextSeg.vaporizationTarget => Notification.VAPORIZED
            | NextSeg.real _ =>
              if w.seg.myNextSegment = none then Notification.JUNCTION else Notification.SEGMENT))] := by
  unfold removeCar
  simp only []
  split_ifs <;> simp [*]

/-- The calls `send` makes: the leave notification, then the registration of
the new leader if there is one. -/
theorem send_trace (w : World) (v : VehPtr) (n : NextSeg) (t : SUMOTime) :
    (send w v n t).trace
      = (removeCar w v t n).2.trace
        ++ (match (removeCar w v t n).1 with
            | some l => [Event.addLeaderCar l]
            | none => []) := by
  unfold send
  simp only []
  cases n <;> cases (removeCar w v t _).1 <;> simp [World.setBlock]

/-- C18: the reason of the leave notification issued by `removeCar` (and so by
`send`) is chosen by first match: Arrived for a null `next`, Vaporized for the
vaporization target, Junction if this segment has no next segment, Segment
otherwise; a null `next` gives Arrived also on the last segment of an edge. -/
theorem leave_reason_first_match (w : World) (v : VehPtr) (next : NextSeg) (t : SUMOTime) :
    (removeCar w v t next).2.trace
      = w.trace ++ [Event.updateDetectors v t true (some
          (match next with
            | NextSeg.null => Notification.ARRIVED
            | NextSeg.vaporizationTarget => Notification.VAPORIZED
            | NextSeg.real _ =>
              if w.seg.myNextSegment = none then Notification.JUNCTION else Notification.SEGMENT))]
    ∧ (send w v next t).trace
      = w.trace ++ [Event.updateDetectors v t true (some
          (match next with
            | NextSeg.null => Notification.ARRIVED
            | NextSeg.vaporizationTarget => Notification.VAPORIZED
            | NextSeg.real _ =>
              if w.seg.myNextSegment = none then Notification.JUNCTION else Notification.SEGMENT))]
        ++ (match (removeCar w v t next).1 with
            | some l => [Event.addLeaderCar l]
            | none => [])
    ∧ (send { w with seg := { w.seg with myNextSegment := none } } v NextSeg.null t).trace
      = w.trace ++ [Event.updateDetectors v t true (some Notification.ARRIVED)]
        ++ (match (removeCar { w with seg := { w.seg with myNextSegment := none } } v t
              NextSeg.null).1 with
            | some l => [Event.addLeaderCar l]
            | none => []) := by
  refine ⟨removeCar_trace w v t next, ?_, ?_⟩
  · rw [send_trace, removeCar_trace]
  · rw [send_trace, removeCar_trace]

theorem find_nonempty_append (pre post : List (List VehPtr)) (k : List VehPtr)
    (hpre : ∀ x ∈ pre, x = []) (hk : k ≠ []) :
    (pre ++ k :: post).find? (fun x => !x.isEmpty) = some k := by
  induction pre with
  | nil =>
    cases k with
    | nil => exact absurd rfl hk
    | cons a b => rfl
  | cons x rest ih =>
    have hx : x = [] := hpre x (by simp)
    subst hx
    simp only [List.cons_append, List.find?_cons, List.isEmpty_nil, Bool.not_true]
    exact ih (fun y hy => hpre y (List.mem_cons_of_mem _ hy))

/-- C19: `vaporizeAnyCar(t)` returns false exactly when every queue is empty,
and then issues no call; otherwise it returns true, its victim is `front()` of
the first non-empty queue, it calls `removeLeaderCar(victim)` exactly when that
queue holds one vehicle, and calls `changeSegment(victim, t, vaporizationTarget)`
once. -/
theorem vaporizeAnyCar_spec (w : World) (t : SUMOTime) :
    ((vaporizeAnyCar w t).1 = false ↔ ∀ k ∈ w.seg.myCarQues, k = [])
    ∧ ((∀ k ∈ w.seg.myCarQues, k = []) →
        (vaporizeAnyCar w t).2.1 = none ∧ (vaporizeAnyCar w t).2.2.trace = w.trace)
    ∧ (∀ pre victim rest post, w.seg.myCarQues = pre ++ (victim :: rest) :: post →
        (∀ k ∈ pre, k = []) →
        (vaporizeAnyCar w t).1 = true ∧ (vaporizeAnyCar w t).2.1 = some victim
        ∧ (vaporizeAnyCar w t).2.2.trace
            = w.trace ++ (if rest = [] then [Event.removeLeaderCar victim] else [])
              ++ [Event.changeSegmentToVaporization victim t]) := by
  have hnone : (∀ k ∈ w.seg.myCarQues, k = []) →
      w.seg.myCarQues.find? (fun k => !k.isEmpty) = none := by
    intro h
    rw [List.find?_eq_none]
    intro x hx
    rw [h x hx]
    simp
  have hsome : ∀ pre victim rest post, w.seg.myCarQues = pre ++ (victim :: rest) :: post →
      (∀ k ∈ pre, k = []) →
      (vaporizeAnyCar w t).1 = true ∧ (vaporizeAnyCar w t).2.1 = some victim
      ∧ (vaporizeAnyCar w t).2.2.trace
          = w.trace ++ (if rest = [] then [Event.removeLeaderCar victim] else [])
            ++ [Event.changeSegmentToVaporization victim t] := by
    intro pre victim rest post hq hpre
    have hf := find_nonempty_append pre post (victim :: rest) hpre (by simp)
    rw [← hq] at hf
    unfold vaporizeAnyCar
    rw [hf]
    simp only [List.head?_cons, List.length_cons]
    refine ⟨trivial, trivial, ?_⟩
    cases rest with
    | nil => simp
    | cons a b => simp
  refine ⟨⟨fun hfalse => ?_, fun h => ?_⟩, fun h => ?_, hsome⟩
  · by_contra hne
    push_neg at hne
    obtain ⟨k, hk, hkne⟩ := hne
    -- split the queues at the first non-empty one
    have hex : ∃ pre victim rest post, w.seg.myCarQues = pre ++ (victim :: rest) :: post
        ∧ ∀ x ∈ pre, x = [] := by
      generalize w.seg.myCarQues = l at hk
      induction l with
      | nil => simp at hk
      | cons x xs ih =>
        cases x with
        | cons a b => exact ⟨[], a, b, xs, rfl, by simp⟩
        | nil =>
          have hk' : k ∈ xs := by
            rcases List.mem_cons.mp hk with e | e
            · exact absurd e hkne
            · exact e
          obtain ⟨pre, victim, rest, post, he, hp⟩ := ih hk'
          refine ⟨[] :: pre, victim, rest, post, by rw [he]; rfl, ?_⟩
          intro y hy
          rcases List.mem_cons.mp hy with e | e
          · exact e
          · exact hp y e
    obtain ⟨pre, victim, rest, post, he, hp⟩ := hex
    have := (hsome pre victim rest post he hp).1
    rw [hfalse] at this
    exact absurd this (by decide)
  · unfold vaporizeAnyCar
    rw [hnone h]
  · unfold vaporizeAnyCar
    rw [hnone h]
    exact ⟨rfl, rfl⟩

theorem vaporizeAnyCar_spec_witness :
    (vaporizeAnyCar { exWorldJammed with seg := { exWorldJammed.seg with myCarQues := [[7], [8, 9]] } }
        4500).1 = true
    ∧ (vaporizeAnyCar { exWorldJammed with seg := { exWorldJammed.seg with myCarQues := [[7], [8, 9]] } }
        4500).2.1 = some 7
    ∧ (vaporizeAnyCar { exWorldJammed with seg := { exWorldJammed.seg with myCarQues := [[7], [8, 9]] } }
        4500).2.2.trace
        = [] ++ (if ([] : List VehPtr) = [] then [Event.removeLeaderCar 7] else [])
          ++ [Event.changeSegmentToVaporization 7 4500] :=
  (vaporizeAnyCar_spec
    { exWorldJammed with seg := { exWorldJammed.seg with myCarQues := [[7], [8, 9]] } } 4500).2.2
    [] 7 [] [[8, 9]] rfl (by simp)

/-! ## Initial placement -/

/-- A depart never reaches `overtake()`: the random number plays no role. -/
theorem insertCar_depart (env : Env) (w : World) (veh : VehPtr) (r r1 : SUMOReal)
    (t0 : SUMOTime) (cars : List VehPtr) :
    insertCar env w veh true r t0 cars = insertCar env w veh true r1 t0 cars := by
  cases cars with
  | nil => rfl
  | cons c rest => simp [insertCar]

theorem receive_depart_rand (env : Env) (w : World) (veh : VehPtr) (time : SUMOTime)
    (a : Bool) (r r1 : SUMOReal) :
    receive env w veh time true a r = receive env w veh time true a r1 := by
  unfold receive
  simp only [insertCar_depart env _ veh r r1]

theorem hasSpaceFor_world (env : Env) (w : World) (veh : VehPtr) (t : SUMOTime) (init : Bool) :
    ∃ ms u, (hasSpaceFor env w veh t init).2
      = { w with seg := { w.seg with myMeanSpeed := ms, myLastMeanSpeedUpdate := u } } := by
  unfold hasSpaceFor
  by_cases h0 : w.seg.myOccupancy = 0
  · rw [if_pos h0]
    exact ⟨w.seg.myMeanSpeed, w.seg.myLastMeanSpeedUpdate, rfl⟩
  · rw [if_neg h0]
    simp only []
    by_cases h1 : w.seg.myOccupancy + (w.veh veh).getLengthWithGap > w.seg.myCapacity
    · rw [if_pos h1]
      exact ⟨w.seg.myMeanSpeed, w.seg.myLastMeanSpeedUpdate, rfl⟩
    · rw [if_neg h1]
      cases init with
      | true =>
        simp only [if_true]
        exact getMeanSpeed_seg env w false
      | false =>
        simp only [Bool.false_eq_true, if_false]
        exact ⟨w.seg.myMeanSpeed, w.seg.myLastMeanSpeedUpdate, rfl⟩

/-- C20: `initialise(veh, t)` returns false exactly when
`hasSpaceFor(veh, t, true)` is false, and then queues, occupancy, block times,
entry block time, vehicles and calls are as before; it raises the route error
exactly when the vehicle was admitted, route checking is on and the vehicle has
no valid route; otherwise it returns true; whenever the vehicle is admitted it
has been received as a depart. -/
theorem initialise_spec (env : Env) (w : World) (veh : VehPtr) (t : SUMOTime) :
    ((initialise env w veh t).1 = InitResult.returned false
        ↔ (hasSpaceFor env w veh t true).1 = false)
    ∧ ((hasSpaceFor env w veh t true).1 = false →
        (initialise env w veh t).2.seg.myCarQues = w.seg.myCarQues
        ∧ (initialise env w veh t).2.seg.myOccupancy = w.seg.myOccupancy
        ∧ (initialise env w veh t).2.seg.myBlockTimes = w.seg.myBlockTimes
        ∧ (initialise env w veh t).2.seg.myEntryBlockTime = w.seg.myEntryBlockTime
        ∧ (initialise env w veh t).2.veh = w.veh
        ∧ (initialise env w veh t).2.trace = w.trace)
    ∧ ((initialise env w veh t).1 = InitResult.processError
        ↔ (hasSpaceFor env w veh t true).1 = true ∧ env.gCheckRoutes = true
          ∧ ((initialise env w veh t).2.veh veh).validRoute = false)
    ∧ ((initialise env w veh t).1 = InitResult.returned true
        ↔ (hasSpaceFor env w veh t true).1 = true
          ∧ ¬ (env.gCheckRoutes = true ∧ ((initialise env w veh t).2.veh veh).validRoute = false))
    ∧ ((hasSpaceFor env w veh t true).1 = true →
        ∀ rand, (initialise env w veh t).2
          = receive env (hasSpaceFor env w veh t true).2 veh t true false rand) := by
  obtain ⟨ms, u, hw⟩ := hasSpaceFor_world env w veh t true
  by_cases h : (hasSpaceFor env w veh t true).1 = true
  · have hrecv : (initialise env w veh t).2
        = receive env (hasSpaceFor env w veh t true).2 veh t true false 0 := by
      unfold initialise
      simp only [h, if_true]
      split_ifs <;> rfl
    have hres : (initialise env w veh t).1
        = if (env.gCheckRoutes && !((initialise env w veh t).2.veh veh).validRoute) = true
          then InitResult.processError else InitResult.returned true := by
      rw [hrecv]
      unfold initialise
      simp only [h, if_true]
      split_ifs <;> rfl
    refine ⟨?_, fun hf => absurd h (by rw [hf]; decide), ?_, ?_, fun _ rand => ?_⟩
    · rw [hres, h]
      split_ifs <;> simp
    · rw [hres]
      split_ifs with hc
      · simp only [Bool.and_eq_true, Bool.not_eq_true'] at hc
        simp [h, hc.1, hc.2]
      · simp only [Bool.and_eq_true, Bool.not_eq_true', not_and] at hc
        simp only [false_iff, reduceCtorEq, not_and]
        intro _ hg
        exact hc hg
    · rw [hres]
      split_ifs with hc
      · simp only [Bool.and_eq_true, Bool.not_eq_true'] at hc
        simp [hc.1, hc.2]
      · simp only [Bool.and_eq_true, Bool.not_eq_true', not_and] at hc
        simp only [true_iff]
        exact ⟨h, fun hh => hc hh.1 hh.2⟩
    · rw [hrecv]
      exact receive_depart_rand env _ veh t false 0 rand
  · have hf : (hasSpaceFor env w veh t true).1 = false := by simpa using h
    have hinit : initialise env w veh t = (InitResult.returned false, (hasSpaceFor env w veh t true).2) := by
      unfold initialise
      simp only [hf, Bool.false_eq_true, if_false]
    refine ⟨?_, fun _ => ?_, ?_, ?_, fun ht => absurd ht h⟩
    · rw [hinit]; simp [hf]
    · rw [hinit, hw]
      exact ⟨rfl, rfl, rfl, rfl, rfl, rfl⟩
    · rw [hinit]; simp [hf]
    · rw [hinit]; simp [hf]


theorem initialise_spec_witness :
    (hasSpaceFor exEnv (exWorld 99 { exVehicle with length := 1, minGap := 1 }) 0 5 true).1 = false
    ∧ (initialise exEnv (exWorld 99 { exVehicle with length := 1, minGap := 1 }) 0 5).1
        = InitResult.returned false
    ∧ (initialise exEnv (exWorld 99 { exVehicle with length := 1, minGap := 1 }) 0 5).2.seg.myOccupancy
        = (exWorld 99 { exVehicle with length := 1, minGap := 1 }).seg.myOccupancy := by
  have h : (hasSpaceFor exEnv (exWorld 99 { exVehicle with length := 1, minGap := 1 }) 0 5 true).1
      = false := by
    norm_num [hasSpaceFor, exWorld, exSegment, exVehicle, MEVehicle.getLengthWithGap]
  exact ⟨h,
    (initialise_spec exEnv (exWorld 99 { exVehicle with length := 1, minGap := 1 }) 0 5).1.mpr h,
    ((initialise_spec exEnv (exWorld 99 { exVehicle with length := 1, minGap := 1 }) 0 5).2.1 h).2.1⟩

/-! ## Scenario S1: single-segment free flow -/

theorem divBySize_one (t : SUMOTime) (h0 : 0 ≤ t) (h1 : t < 2 ^ 63) : divBySize t 1 = t := by
  unfold divBySize
  rw [Int.emod_eq_of_lt h0 (by linarith)]
  simp only [Nat.cast_one, Int.ediv_one]
  exact wrapTime_of_range t (by linarith) h1

/-- The segment of scenario S1 as the constructor builds it on a one-lane edge. -/
theorem construct_one_lane (env : Env) (id : String) (parent : MSEdge) (next : Option String)
    (idx : Nat) (taufj taujf taujj : SUMOTime) (jamThresh : SUMOReal)
    (multiQueue junctionControl : Bool) (lgf uninit : SUMOReal) (hlanes : parent.lanes.length = 1) :
    ∃ jt, construct env id parent next 100 25 idx 1000 taufj taujf taujj jamThresh multiQueue
        junctionControl lgf uninit
      = { id := id, myNextSegment := next, myLength := 100, myMaxSpeed := 25, myIndex := idx,
          myTau_ff := 1000, myTau_fj := divBySize taufj 1, myTau_jf := divBySize taujf 1,
          myTau_jj := divBySize taujj 1, myHeadwayCapacity := 100 / (15 / 2) * 1,
          myCapacity := 100 * 1, myOccupancy := 0, myJamThreshold := jt,
          myJunctionControl := junctionControl, myEntryBlockTime := SUMOTime_MIN,
          myLengthGeometryFactor := lgf, myMeanSpeed := 25, myLastMeanSpeedUpdate := SUMOTime_MIN,
          myCarQues := [[]], myBlockTimes := [-1], myFollowerMap := [] } := by
  unfold construct
  simp only [hlanes]
  have hm : (multiQueue && decide (1 > 1) && decide (parent.successors.length > 1)) = false := by
    simp
  simp only [hm, Bool.false_eq_true, if_false, divBySize_one 1000 (by norm_num) (by norm_num)]
  obtain ⟨x, hx⟩ := recomputeJamThreshold_eq env
    { id := id, myNextSegment := next, myLength := 100, myMaxSpeed := 25, myIndex := idx,
      myTau_ff := 1000, myTau_fj := divBySize taufj 1, myTau_jf := divBySize taujf 1,
      myTau_jj := divBySize taujj 1, myHeadwayCapacity := 100 / (15 / 2) * ((1 : Nat) : ℚ),
      myCapacity := 100 * ((1 : Nat) : ℚ), myOccupancy := 0, myJamThreshold := uninit,
      myJunctionControl := junctionControl, myEntryBlockTime := SUMOTime_MIN,
      myLengthGeometryFactor := lgf, myMeanSpeed := 25, myLastMeanSpeedUpdate := SUMOTime_MIN,
      myCarQues := [[]], myBlockTimes := [-1], myFollowerMap := [] } jamThresh
  refine ⟨x, ?_⟩
  rw [hx]
  simp


theorem TIME2STEPS_four : TIME2STEPS (100 / 25) = 4000 := by
  unfold TIME2STEPS castToTime
  rw [if_pos (by norm_num)]
  rw [Int.floor_eq_iff]
  constructor <;> norm_num

/-- The state after the departure of scenario S1. -/
theorem exFreeFlow_state (env : Env) (parent : MSEdge) (store : VehPtr → MEVehicle) (v : VehPtr)
    (hlanes : parent.lanes.length = 1)
    (hlen : (store v).length + (store v).minGap = 15 / 2)
    (hsf : (store v).chosenSpeedFactor = 1) (hms : 25 ≤ (store v).maxSpeed)
    (hstop : (store v).stoptime = 0) :
    (exFreeFlow env parent store v).seg.myOccupancy = 15 / 2
    ∧ ((exFreeFlow env parent store v).veh v).eventTime = 4000
    ∧ STEPS2TIME ((exFreeFlow env parent store v).veh v).eventTime = 4
    ∧ (exFreeFlow env parent store v).seg.myCarQues = [[v]]
    ∧ (exFreeFlow env parent store v).seg.myBlockTimes = [-1]
    ∧ (exFreeFlow env parent store v).seg.block 0 = -1
    ∧ (exFreeFlow env parent store v).trace
        = [Event.activateReminders v Notification.DEPARTED, Event.addLeaderCar v] := by
  obtain ⟨jt, hc⟩ := construct_one_lane env "seg" parent none 0 1000 2000 3000 (-1) false false 1 0
    hlanes
  have hu : max (min (25 : ℚ) (store v).maxSpeed) (5 / 100) = 25 := by
    rw [min_eq_left hms]
    norm_num
  have hev : ((exFreeFlow env parent store v).veh v).eventTime = 4000 := by
    unfold exFreeFlow
    rw [hc]
    simp [receive, arrivalOnEntry, World.fresh, chooseQueue, tentativeLeave, insertCar,
      MESegment.que, MESegment.block, World.setVeh, World.log, hsf, hstop, hu, TIME2STEPS_four]
  refine ⟨?_, hev, ?_, ?_, ?_, ?_, ?_⟩
  · unfold exFreeFlow
    rw [hc]
    simp [receive, arrivalOnEntry, World.fresh, chooseQueue, tentativeLeave, insertCar,
      MESegment.que, MESegment.block, World.setVeh, World.log, MEVehicle.getLengthWithGap, hlen]
    norm_num
  · rw [hev]; norm_num [STEPS2TIME]
  · unfold exFreeFlow
    rw [hc]
    simp [receive, arrivalOnEntry, World.fresh, chooseQueue, tentativeLeave, insertCar,
      MESegment.que, MESegment.block, World.setVeh, World.log]
  · unfold exFreeFlow
    rw [hc]
    simp [receive, arrivalOnEntry, World.fresh, chooseQueue, tentativeLeave, insertCar,
      MESegment.que, MESegment.block, World.setVeh, World.log]
  · unfold exFreeFlow
    rw [hc]
    simp [receive, arrivalOnEntry, World.fresh, chooseQueue, tentativeLeave, insertCar,
      MESegment.que, MESegment.block, World.setVeh, World.log]
  · unfold exFreeFlow
    rw [hc]
    simp [receive, arrivalOnEntry, World.fresh, chooseQueue, tentativeLeave, insertCar,
      MESegment.que, MESegment.block, World.setVeh, World.log]

/-- C17 (as amended): in scenario S1 the departing vehicle (length plus gap 7.5 m,
speed factor 1, type maximum speed at least 25 m/s, no stop) ends with occupancy
7.5, event time 4 s, and is registered as leader; the block time of queue 0 is
still the -1 it was constructed with. -/
theorem scenario_free_flow (env : Env) (parent : MSEdge) (store : VehPtr → MEVehicle) (v : VehPtr)
    (hlanes : parent.lanes.length = 1)
    (hlen : (store v).length + (store v).minGap = 15 / 2)
    (hsf : (store v).chosenSpeedFactor = 1) (hms : 25 ≤ (store v).maxSpeed)
    (hstop : (store v).stoptime = 0) :
    (exFreeFlow env parent store v).seg.myOccupancy = 15 / 2
    ∧ ((exFreeFlow env parent store v).veh v).eventTime = 4000
    ∧ STEPS2TIME ((exFreeFlow env parent store v).veh v).eventTime = 4
    ∧ (exFreeFlow env parent store v).seg.myCarQues = [[v]]
    ∧ (exFreeFlow env parent store v).seg.myBlockTimes = [-1]
    ∧ (exFreeFlow env parent store v).seg.block 0 = -1
    ∧ (exFreeFlow env parent store v).trace
        = [Event.activateReminders v Notification.DEPARTED, Event.addLeaderCar v] :=
  exFreeFlow_state env parent store v hlanes hlen hsf hms hstop

theorem scenario_free_flow_witness :
    (exFreeFlow exEnv exEdge (fun _ => exVehicle) 0).seg.myOccupancy = 15 / 2
    ∧ ((exFreeFlow exEnv exEdge (fun _ => exVehicle) 0).veh 0).eventTime = 4000
    ∧ (exFreeFlow exEnv exEdge (fun _ => exVehicle) 0).seg.block 0 = -1
    ∧ (exFreeFlow exEnv exEdge (fun _ => exVehicle) 0).trace
        = [Event.activateReminders 0 Notification.DEPARTED, Event.addLeaderCar 0] := by
  have h := scenario_free_flow exEnv exEdge (fun _ => exVehicle) 0 rfl
    (by norm_num [exVehicle]) rfl (by norm_num [exVehicle]) rfl
  exact ⟨h.1, h.2.1, h.2.2.2.2.2.1, h.2.2.2.2.2.2⟩

/-- C17 fails as stated: after the departure of scenario S1 the block time of
queue 0 is -1, not 0. -/
theorem scenario_free_flow_counterexample :
    (exFreeFlow exEnv exEdge (fun _ => exVehicle) 0).seg.myOccupancy = 15 / 2
    ∧ ((exFreeFlow exEnv exEdge (fun _ => exVehicle) 0).veh 0).eventTime = 4000
    ∧ (exFreeFlow exEnv exEdge (fun _ => exVehicle) 0).seg.block 0 = -1
    ∧ (exFreeFlow exEnv exEdge (fun _ => exVehicle) 0).seg.block 0 ≠ 0 := by
  have h := exFreeFlow_state exEnv exEdge (fun _ => exVehicle) 0 rfl
    (by norm_num [exVehicle]) rfl (by norm_num [exVehicle]) rfl
  refine ⟨h.1, h.2.1, h.2.2.2.2.2.1, ?_⟩
  rw [h.2.2.2.2.2.1]
  decide

/-! ## Event time of a segment -/

theorem foldl_leaders (veh : VehPtr → MEVehicle) (l : List (List VehPtr)) (a : SUMOTime) :
    l.foldl (fun result k =>
        match k.getLast? with
        | some b => if (veh b).eventTime < result then (veh b).eventTime else result
        | none => result) a
      = (l.filterMap (fun k => k.getLast?.map (fun b => (veh b).eventTime))).foldl min a := by
  induction l generalizing a with
  | nil => rfl
  | cons k rest ih =>
    simp only [List.foldl_cons, List.filterMap_cons]
    cases hk : k.getLast? with
    | none => simp only [Option.map_none']; exact ih a
    | some b =>
      simp only [Option.map_some', List.foldl_cons]
      rw [ih]
      congr 1
      rcases lt_or_le (veh b).eventTime a with h | h
      · rw [if_pos h, min_eq_right (le_of_lt h)]
      · rw [if_neg (not_lt.mpr h), min_eq_left h]

theorem foldl_min_le (l : List SUMOTime) (a : SUMOTime) :
    l.foldl min a ≤ a ∧ (∀ e ∈ l, l.foldl min a ≤ e) ∧ (l.foldl min a = a ∨ l.foldl min a ∈ l) := by
  induction l generalizing a with
  | nil => simp
  | cons x rest ih =>
    obtain ⟨h1, h2, h3⟩ := ih (min a x)
    simp only [List.foldl_cons]
    refine ⟨le_trans h1 (min_le_left _ _), ?_, ?_⟩
    · intro e he
      rcases List.mem_cons.mp he with rfl | he
      · exact le_trans h1 (min_le_right _ _)
      · exact h2 e he
    · rcases h3 with h | h
      · rcases le_total a x with hax | hax
        · left; rw [h, min_eq_left hax]
        · right; rw [h, min_eq_right hax]; simp
      · right; exact List.mem_cons_of_mem _ h

theorem getEventTime_eq (w : World) :
    getEventTime w
      = if (leaderEventTimes w).foldl min SUMOTime_MAX < SUMOTime_MAX
        then (leaderEventTimes w).foldl min SUMOTime_MAX else -1 := by
  unfold getEventTime leaderEventTimes
  simp only []
  have h := foldl_range_getD w.seg.myCarQues ([] : List VehPtr)
    (fun (result : SUMOTime) (k : List VehPtr) =>
        match k.getLast? with
        | some b => if (w.veh b).eventTime < result then (w.veh b).eventTime else result
        | none => result) SUMOTime_MAX
  rw [foldl_leaders] at h
  rw [← h]
  rfl

theorem leaderEventTimes_eq_nil (w : World) :
    leaderEventTimes w = [] ↔ ∀ k ∈ w.seg.myCarQues, k = [] := by
  unfold leaderEventTimes
  rw [List.filterMap_eq_nil_iff]
  constructor
  · intro h k hk
    have := h k hk
    cases k with
    | nil => rfl
    | cons a b =>
      rw [Option.map_eq_none', List.getLast?_eq_none_iff] at this
      exact this
  · intro h k hk
    rw [h k hk]
    rfl

/-- C13: leader event times being times in `[0, SUMOTime_MAX)`, the event time
of the segment is -1 exactly when all queues are empty, and otherwise it is the
smallest event time among the vehicles that leave next in the non-empty
queues. -/
theorem getEventTime_spec (w : World)
    (hvalid : ∀ e ∈ leaderEventTimes w, 0 ≤ e ∧ e < SUMOTime_MAX) :
    (getEventTime w = -1 ↔ ∀ k ∈ w.seg.myCarQues, k = [])
    ∧ ((∃ k ∈ w.seg.myCarQues, k ≠ []) →
        getEventTime w ∈ leaderEventTimes w ∧ ∀ e ∈ leaderEventTimes w, getEventTime w ≤ e) := by
  obtain ⟨h1, h2, h3⟩ := foldl_min_le (leaderEventTimes w) SUMOTime_MAX
  have key : leaderEventTimes w ≠ [] →
      getEventTime w = (leaderEventTimes w).foldl min SUMOTime_MAX
        ∧ getEventTime w ∈ leaderEventTimes w := by
    intro hne
    obtain ⟨e, he⟩ := List.exists_mem_of_ne_nil _ hne
    have hlt : (leaderEventTimes w).foldl min SUMOTime_MAX < SUMOTime_MAX :=
      lt_of_le_of_lt (h2 e he) (hvalid e he).2
    have heq : getEventTime w = (leaderEventTimes w).foldl min SUMOTime_MAX := by
      rw [getEventTime_eq, if_pos hlt]
    refine ⟨heq, ?_⟩
    rw [heq]
    rcases h3 with h | h
    · exact absurd h (ne_of_lt hlt)
    · exact h
  constructor
  · constructor
    · intro hm
      by_contra hne
      rw [← leaderEventTimes_eq_nil] at hne
      have := (hvalid _ (key hne).2).1
      rw [hm] at this
      exact absurd this (by decide)
    · intro hall
      rw [getEventTime_eq, (leaderEventTimes_eq_nil w).mpr hall]
      simp
  · rintro ⟨k, hk, hkne⟩
    have hne : leaderEventTimes w ≠ [] := by
      intro h
      exact hkne ((leaderEventTimes_eq_nil w).mp h k hk)
    obtain ⟨heq, hmem⟩ := key hne
    refine ⟨hmem, fun e he => ?_⟩
    rw [heq]
    exact h2 e he


theorem exWorldThreeQueues_leaders : leaderEventTimes exWorldThreeQueues = [1000, 3000] := by
  simp [leaderEventTimes, exWorldThreeQueues, exSegment, exStoreTimed]

theorem getEventTime_spec_witness :
    getEventTime exWorldThreeQueues ∈ leaderEventTimes exWorldThreeQueues
    ∧ (∀ e ∈ leaderEventTimes exWorldThreeQueues, getEventTime exWorldThreeQueues ≤ e)
    ∧ getEventTime exWorldThreeQueues = 1000 := by
  have hvalid : ∀ e ∈ leaderEventTimes exWorldThreeQueues, 0 ≤ e ∧ e < SUMOTime_MAX := by
    rw [exWorldThreeQueues_leaders]
    intro e he
    simp only [List.mem_cons, List.mem_singleton, List.not_mem_nil, or_false] at he
    rcases he with rfl | rfl <;> exact ⟨by decide, by decide⟩
  have h := (getEventTime_spec exWorldThreeQueues hvalid).2 ⟨[1, 0], by simp [exWorldThreeQueues], by simp⟩
  refine ⟨h.1, h.2, ?_⟩
  have hm := h.1
  have hle := h.2 1000 (by rw [exWorldThreeQueues_leaders]; simp)
  rw [exWorldThreeQueues_leaders] at hm
  simp only [List.mem_cons, List.mem_singleton, List.not_mem_nil, or_false] at hm
  rcases hm with e | e
  · exact e
  · rw [e] at hle; exact absurd hle (by decide)

/-! ## Conservation of vehicles -/

theorem sum_length_set (l : List (List VehPtr)) (i : Nat) (x : List VehPtr) (h : i < l.length) :
    ((l.set i x).map List.length).sum + (l.getD i []).length
      = (l.map List.length).sum + x.length := by
  induction l generalizing i with
  | nil => simp at h
  | cons k rest ih =>
    cases i with
    | zero => simp; omega
    | succ i =>
      have := ih i (by simpa using h)
      simp only [List.set_cons_succ, List.map_cons, List.sum_cons, List.getD_cons_succ]
      omega

theorem que_eq_nil_of_length_le (s : MESegment) (q : Nat) (h : s.myCarQues.length ≤ q) :
    s.que q = [] := by
  unfold MESegment.que
  simp [List.getD_eq_getElem?_getD, List.getElem?_eq_none h]

theorem receive_carNumber (env : Env) (w : World) (veh : VehPtr) (time : SUMOTime)
    (d a : Bool) (r : SUMOReal)
    (hq : chooseQueue w.seg (w.veh veh).succEdge1 < w.seg.myCarQues.length) :
    getCarNumber (receive env w veh time d a r).seg
      = getCarNumber w.seg + (if arrivalOnEntry w.seg (w.veh veh) d a then 0 else 1) := by
  by_cases harr : arrivalOnEntry w.seg (w.veh veh) d a = true
  · rw [(receive_arrived env w veh time d a r harr).1, if_pos harr]
    rfl
  · have harr' : arrivalOnEntry w.seg (w.veh veh) d a = false := by simpa using harr
    rw [if_neg harr]
    obtain ⟨tl, newcars, hques, _, _, hshape⟩ := receive_queued env w veh time d a r harr'
    rw [getCarNumber_eq_sum, getCarNumber_eq_sum, hques]
    have hs := sum_length_set w.seg.myCarQues _ newcars hq
    have hlen : newcars.length
        = (w.seg.myCarQues.getD (chooseQueue w.seg (w.veh veh).succEdge1) []).length + 1 := by
      have hqd : w.seg.myCarQues.getD (chooseQueue w.seg (w.veh veh).succEdge1) []
          = w.seg.que (chooseQueue w.seg (w.veh veh).succEdge1) := rfl
      rw [hqd]
      rcases hshape with ⟨h1, h2⟩ | ⟨c0, rest, h1, h2, _⟩ | ⟨c0, rest, h1, h2, _⟩ <;>
        (rw [h1, h2]; simp)
    omega

theorem send_carNumber (w : World) (v : VehPtr) (n : NextSeg) (t : SUMOTime)
    (hv : v ∈ w.seg.que (w.veh v).queIndex) :
    getCarNumber (send w v n t).seg + 1 = getCarNumber w.seg := by
  have hq : (w.veh v).queIndex < w.seg.myCarQues.length := by
    by_contra hge
    rw [que_eq_nil_of_length_le _ _ (Nat.le_of_not_lt hge)] at hv
    simp at hv
  rw [getCarNumber_eq_sum, getCarNumber_eq_sum, send_carQues]
  have hs := sum_length_set w.seg.myCarQues (w.veh v).queIndex
    (if (w.seg.que (w.veh v).queIndex).getLast? = some v
      then (w.seg.que (w.veh v).queIndex).dropLast
      else (w.seg.que (w.veh v).queIndex).erase v) hq
  have hqd : w.seg.myCarQues.getD (w.veh v).queIndex [] = w.seg.que (w.veh v).queIndex := rfl
  rw [hqd] at hs
  have hlen : (if (w.seg.que (w.veh v).queIndex).getLast? = some v
      then (w.seg.que (w.veh v).queIndex).dropLast
      else (w.seg.que (w.veh v).queIndex).erase v).length + 1
      = (w.seg.que (w.veh v).queIndex).length := by
    have hpos : 0 < (w.seg.que (w.veh v).queIndex).length := List.length_pos_of_mem hv
    split_ifs
    · rw [List.length_dropLast]; omega
    · rw [List.length_erase_of_mem hv]; omega
  omega

theorem sendCalls_cons (op : Op) (rest : List Op) :
    sendCalls (op :: rest)
      = (match op with
          | Op.send _ _ _ => 1
          | _ => 0) + sendCalls rest := by
  unfold sendCalls
  cases op <;> simp [List.filter_cons]
  all_goals omega

theorem run_carNumber (ops : List Op) (w : World) (hsafe : CountSafeRun w ops) :
    getCarNumber (run w ops).seg + sendCalls ops = getCarNumber w.seg + queuedReceives w ops := by
  induction ops generalizing w with
  | nil => simp [run, sendCalls, queuedReceives]
  | cons op rest ih =>
    obtain ⟨h1, h2⟩ := hsafe
    have hrun : run w (op :: rest) = run (step w op) rest := rfl
    have := ih (step w op) h2
    cases op with
    | receive env veh time d a r =>
      have hr := receive_carNumber env w veh time d a r h1
      rw [hrun, sendCalls_cons]
      simp only [queuedReceives, step] at this hr ⊢
      split_ifs at hr ⊢ <;> omega
    | send v n t =>
      have hs := send_carNumber w v n t h1
      rw [hrun, sendCalls_cons]
      simp only [queuedReceives, step] at this hs ⊢
      omega
    | vaporizeAnyCar t => exact absurd h1 (by simp [CountSafe])
    | setSpeed env ns t jt => exact absurd h1 (by simp [CountSafe])
    | loadState vehs b q => exact absurd h1 (by simp [CountSafe])

/-- C14 (as amended): for any sequence of receive and send calls on a segment
that starts empty, every receive selecting an existing queue and every send
being for a vehicle of the queue its queue index names, the sum of the queue
lengths is the number of receive calls whose route continues (which queue
their vehicle) minus the number of send calls. -/
theorem conservation (w : World) (ops : List Op)
    (hempty : ∀ k ∈ w.seg.myCarQues, k = []) (hsafe : CountSafeRun w ops) :
    (((run w ops).seg.myCarQues.map List.length).sum : Int)
      = (queuedReceives w ops : Int) - (sendCalls ops : Int) := by
  have h := run_carNumber ops w hsafe
  have h0 : getCarNumber w.seg = 0 := by
    rw [getCarNumber_eq_sum]
    apply List.sum_eq_zero
    intro x hx
    obtain ⟨k, hk, rfl⟩ := List.mem_map.mp hx
    rw [hempty k hk]; rfl
  rw [getCarNumber_eq_sum] at h
  rw [h0] at h
  omega


theorem chooseQueue_single (s : MESegment) (succ : Option EdgeId) (h : s.myCarQues.length ≤ 1) :
    chooseQueue s succ = 0 := by
  unfold chooseQueue
  rw [if_neg (by omega)]

theorem receive_queIndex (env : Env) (w : World) (veh : VehPtr) (time : SUMOTime)
    (d a : Bool) (r : SUMOReal) (h : arrivalOnEntry w.seg (w.veh veh) d a = false) :
    ((receive env w veh time d a r).veh veh).queIndex = chooseQueue w.seg (w.veh veh).succEdge1 := by
  have harr : ∀ (s : MESegment) (v : MEVehicle) (x : Option String) (t b : SUMOTime),
      arrivalOnEntry s { v with segment := x, lastEntryTime := t, blockTime := b } d a
        = arrivalOnEntry s v d a := fun _ _ _ _ _ => rfl
  unfold receive
  simp only [setVeh_seg, setVeh_veh_self, harr, h, Bool.false_eq_true, if_false]
  split_ifs <;> simp

theorem carQues_length_of_fixed {s s1 : MESegment} (h : s1.fixed = s.fixed) :
    s1.myCarQues.length = s.myCarQues.length := by
  simp only [MESegment.fixed, Prod.mk.injEq] at h; tauto

theorem conservation_witness :
    (((run (World.fresh exSegmentTwoLanes exStoreFast)
        (exDeparts ++ [Op.send 0 NextSeg.null 10000])).seg.myCarQues.map List.length).sum : Int)
      = (queuedReceives (World.fresh exSegmentTwoLanes exStoreFast)
          (exDeparts ++ [Op.send 0 NextSeg.null 10000]) : Int)
        - (sendCalls (exDeparts ++ [Op.send 0 NextSeg.null 10000]) : Int) := by
  obtain ⟨hd, _, _⟩ := exDeparts_state
  have hrun : run (World.fresh exSegmentTwoLanes exStoreFast) exDeparts
      = receive exEnv (receive exEnv (World.fresh exSegmentTwoLanes exStoreFast) 0 0 true false 0)
          1 500 true false 0 := rfl
  rw [hrun] at hd
  have hlen0 : (World.fresh exSegmentTwoLanes exStoreFast).seg.myCarQues.length = 1 := rfl
  have hlen1 : (receive exEnv (World.fresh exSegmentTwoLanes exStoreFast) 0 0 true false
      0).seg.myCarQues.length = 1 :=
    carQues_length_of_fixed (receive_fixed _ _ _ _ _ _ _)
  have g1 : chooseQueue (World.fresh exSegmentTwoLanes exStoreFast).seg
      ((World.fresh exSegmentTwoLanes exStoreFast).veh 0).succEdge1
      < (World.fresh exSegmentTwoLanes exStoreFast).seg.myCarQues.length := by
    rw [chooseQueue_single _ _ (le_of_eq hlen0), hlen0]
    exact Nat.one_pos
  have g2 : chooseQueue (receive exEnv (World.fresh exSegmentTwoLanes exStoreFast) 0 0 true false 0).seg
      ((receive exEnv (World.fresh exSegmentTwoLanes exStoreFast) 0 0 true false 0).veh 1).succEdge1
      < (receive exEnv (World.fresh exSegmentTwoLanes exStoreFast) 0 0 true false
          0).seg.myCarQues.length := by
    rw [chooseQueue_single _ _ (le_of_eq hlen1), hlen1]
    exact Nat.one_pos
  have hq0 : ((receive exEnv (receive exEnv (World.fresh exSegmentTwoLanes exStoreFast) 0 0 true
      false 0) 1 500 true false 0).veh 0).queIndex = 0 := by
    obtain ⟨_, _, _, hother, _⟩ := receive_queued exEnv
      (receive exEnv (World.fresh exSegmentTwoLanes exStoreFast) 0 0 true false 0) 1 500 true false 0
      (by simp [arrivalOnEntry])
    rw [hother 0 (by decide), receive_queIndex _ _ _ _ _ _ _ (by simp [arrivalOnEntry])]
    exact chooseQueue_single _ _ (le_of_eq hlen0)
  have g3 : (0 : VehPtr) ∈ (receive exEnv (receive exEnv (World.fresh exSegmentTwoLanes exStoreFast)
      0 0 true false 0) 1 500 true false 0).seg.que
      ((receive exEnv (receive exEnv (World.fresh exSegmentTwoLanes exStoreFast) 0 0 true
        false 0) 1 500 true false 0).veh 0).queIndex := by
    rw [hq0]
    unfold MESegment.que
    rw [hd]
    simp
  refine conservation (World.fresh exSegmentTwoLanes exStoreFast)
    (exDeparts ++ [Op.send 0 NextSeg.null 10000]) ?_ ⟨g1, g2, g3, trivial⟩
  intro k hk
  simpa [World.fresh, exSegmentTwoLanes, exSegment] using hk

/-- C14 fails as stated: a `receive` of a vehicle that has arrived takes the
arrival path and queues nothing, so one receive call and no send call leave
the queues empty. -/
theorem conservation_counterexample :
    (∀ k ∈ (World.fresh exSegment exStoreArrived).seg.myCarQues, k = [])
    ∧ (((run (World.fresh exSegment exStoreArrived)
          [Op.receive exEnv 0 0 false false 0]).seg.myCarQues.map List.length).sum : Int) = 0
    ∧ receiveCalls [Op.receive exEnv 0 0 false false 0] = 1
    ∧ sendCalls [Op.receive exEnv 0 0 false false 0] = 0
    ∧ (((run (World.fresh exSegment exStoreArrived)
          [Op.receive exEnv 0 0 false false 0]).seg.myCarQues.map List.length).sum : Int)
        ≠ (receiveCalls [Op.receive exEnv 0 0 false false 0] : Int)
          - (sendCalls [Op.receive exEnv 0 0 false false 0] : Int) := by
  have hseg : (run (World.fresh exSegment exStoreArrived)
      [Op.receive exEnv 0 0 false false 0]).seg = exSegment :=
    (receive_arrived exEnv (World.fresh exSegment exStoreArrived) 0 0 false false 0
      (by simp [arrivalOnEntry, World.fresh, exStoreArrived])).1
  have hsum : (((run (World.fresh exSegment exStoreArrived)
      [Op.receive exEnv 0 0 false false 0]).seg.myCarQues.map List.length).sum : Int) = 0 := by
    rw [hseg]; rfl
  have hr : receiveCalls [Op.receive exEnv 0 0 false false 0] = 1 := rfl
  have hs : sendCalls [Op.receive exEnv 0 0 false false 0] = 0 := rfl
  refine ⟨?_, hsum, hr, hs, ?_⟩
  · intro k hk
    simpa [World.fresh, exSegment] using hk
  · rw [hsum, hr, hs]
    decide

/-! ## Leader event time and block time -/

@[simp] theorem insertCar_blockTimes (env : Env) (w : World) (veh : VehPtr) (d : Bool)
    (r : SUMOReal) (t : SUMOTime) (cars : List VehPtr) :
    (insertCar env w veh d r t cars).1.seg.myBlockTimes = w.seg.myBlockTimes := by
  rw [insertCar_seg]

theorem receive_blockTimes (env : Env) (w : World) (veh : VehPtr) (time : SUMOTime)
    (d a : Bool) (r : SUMOReal) :
    (receive env w veh time d a r).seg.myBlockTimes = w.seg.myBlockTimes := by
  unfold receive
  simp only [setVeh_seg, setVeh_veh_self]
  split_ifs <;> simp

theorem insertCar_tleave_ge (env : Env) (w : World) (veh : VehPtr) (d : Bool) (r : SUMOReal)
    (t0 : SUMOTime) (cars : List VehPtr) : t0 ≤ (insertCar env w veh d r t0 cars).2.1 := by
  unfold insertCar
  cases cars with
  | nil => exact le_refl _
  | cons c rest =>
    simp only []
    split_ifs
    · exact le_refl _
    · exact le_refl _
    · exact le_max_right _ _
    · exact le_max_right _ _

/-- The event time a queued vehicle is given is at least the block time of its queue. -/
theorem receive_eventTime_ge_block (env : Env) (w : World) (veh : VehPtr) (time : SUMOTime)
    (d a : Bool) (r : SUMOReal) (h : arrivalOnEntry w.seg (w.veh veh) d a = false) :
    w.seg.block (chooseQueue w.seg (w.veh veh).succEdge1)
      ≤ ((receive env w veh time d a r).veh veh).eventTime := by
  have harr : ∀ (s : MESegment) (v : MEVehicle) (x : Option String) (t b : SUMOTime),
      arrivalOnEntry s { v with segment := x, lastEntryTime := t, blockTime := b } d a
        = arrivalOnEntry s v d a := fun _ _ _ _ _ => rfl
  have hev : ((receive env w veh time d a r).veh veh).eventTime
      = (insertCar env (w.setVeh veh (fun v => { v with segment := some w.seg.id, lastEntryTime := time, blockTime := SUMOTime_MAX })) veh d r
          (tentativeLeave w.seg { w.veh veh with segment := some w.seg.id, lastEntryTime := time, blockTime := SUMOTime_MAX } time
            (chooseQueue w.seg (w.veh veh).succEdge1))
          (w.seg.que (chooseQueue w.seg (w.veh veh).succEdge1))).2.1 := by
    unfold receive
    simp only [setVeh_seg, setVeh_veh_self, harr, h, Bool.false_eq_true, if_false]
    split_ifs <;> simp
  rw [hev]
  refine le_trans ?_ (insertCar_tleave_ge _ _ _ _ _ _ _)
  unfold tentativeLeave
  exact le_max_right _ _

/-- The queues after a `receive` that queues the vehicle. -/
theorem receive_que (env : Env) (w : World) (veh : VehPtr) (time : SUMOTime)
    (d a : Bool) (r : SUMOReal) (h : arrivalOnEntry w.seg (w.veh veh) d a = false) (q : Nat) :
    (receive env w veh time d a r).seg.que q = w.seg.que q
    ∨ (q = chooseQueue w.seg (w.veh veh).succEdge1
      ∧ ((w.seg.que q = [] ∧ (receive env w veh time d a r).seg.que q = [veh])
        ∨ (∃ c0 rest, w.seg.que q = c0 :: rest
            ∧ ((receive env w veh time d a r).seg.que q = c0 :: veh :: rest
              ∨ (receive env w veh time d a r).seg.que q = veh :: c0 :: rest)))) := by
  obtain ⟨tl, newcars, hques, _, _, hshape⟩ := receive_queued env w veh time d a r h
  have hq : (receive env w veh time d a r).seg.que q
      = if q = chooseQueue w.seg (w.veh veh).succEdge1
          ∧ chooseQueue w.seg (w.veh veh).succEdge1 < w.seg.myCarQues.length
        then newcars else w.seg.que q := by
    unfold MESegment.que
    rw [hques, getD_set_queues]
  rw [hq]
  split_ifs with hc
  · right
    refine ⟨hc.1, ?_⟩
    rw [hc.1]
    rcases hshape with ⟨h1, h2⟩ | ⟨c0, rest, h1, h2, _⟩ | ⟨c0, rest, h1, h2, _⟩
    · exact Or.inl ⟨h1, h2⟩
    · exact Or.inr ⟨c0, rest, h1, Or.inl h2⟩
    · exact Or.inr ⟨c0, rest, h1, Or.inr h2⟩
  · left; rfl

theorem receive_distinct (env : Env) (w : World) (veh : VehPtr) (time : SUMOTime)
    (d a : Bool) (r : SUMOReal) (hfresh : ∀ q, veh ∉ w.seg.que q) (hdist : QueuesDistinct w) :
    QueuesDistinct (receive env w veh time d a r) := by
  by_cases harr : arrivalOnEntry w.seg (w.veh veh) d a = true
  · rw [QueuesDistinct, (receive_arrived env w veh time d a r harr).1]
    exact hdist
  have harr' : arrivalOnEntry w.seg (w.veh veh) d a = false := by simpa using harr
  -- members of the new queues, and absence of duplicates
  have hmem : ∀ q x, x ∈ (receive env w veh time d a r).seg.que q → x = veh ∨ x ∈ w.seg.que q := by
    intro q x hx
    rcases receive_que env w veh time d a r harr' q with h | ⟨_, ⟨h1, h2⟩ | ⟨c0, rest, h1, h2 | h2⟩⟩
    · right; rw [← h]; exact hx
    · left; rw [h2] at hx; simpa using hx
    · rw [h2] at hx; rw [h1]
      simp only [List.mem_cons] at hx ⊢
      tauto
    · rw [h2] at hx; rw [h1]
      simp only [List.mem_cons] at hx ⊢
      tauto
  have hnd : ∀ q, ((receive env w veh time d a r).seg.que q).Nodup := by
    intro q
    have hq := hdist.1 q
    have hf := hfresh q
    rcases receive_que env w veh time d a r harr' q with h | ⟨_, ⟨h1, h2⟩ | ⟨c0, rest, h1, h2 | h2⟩⟩
    · rw [h]; exact hq
    · rw [h2]; exact List.nodup_singleton _
    · rw [h2]; rw [h1] at hq hf
      simp only [List.nodup_cons, List.mem_cons, not_or] at hq hf ⊢
      exact ⟨⟨fun e => hf.1 e.symm, hq.1⟩, hf.2, hq.2⟩
    · rw [h2]; rw [h1] at hq hf
      exact List.nodup_cons.mpr ⟨hf, hq⟩
  refine ⟨hnd, fun q1 q2 hne x h1 h2 => ?_⟩
  rcases hmem q1 x h1 with e1 | e1
  · -- the received vehicle is in one queue only
    subst e1
    rcases receive_que env w x time d a r harr' q1 with h | ⟨hq1, _⟩
    · rw [h] at h1; exact hfresh q1 h1
    · rcases receive_que env w x time d a r harr' q2 with h | ⟨hq2, _⟩
      · rw [h] at h2; exact hfresh q2 h2
      · exact hne (hq1.trans hq2.symm)
  · rcases hmem q2 x h2 with e2 | e2
    · subst e2; exact hfresh q1 e1
    · exact hdist.2 q1 q2 hne e1 e2

theorem receive_leaderAfterBlock (env : Env) (w : World) (veh : VehPtr) (time : SUMOTime)
    (d a : Bool) (r : SUMOReal) (hfresh : ∀ q, veh ∉ w.seg.que q) (hinv : LeaderAfterBlock w) :
    LeaderAfterBlock (receive env w veh time d a r) := by
  intro q b hb
  have hblock : (receive env w veh time d a r).seg.block q = w.seg.block q := by
    unfold MESegment.block
    rw [receive_blockTimes]
  rw [hblock]
  by_cases harr : arrivalOnEntry w.seg (w.veh veh) d a = true
  · obtain ⟨hseg, hveh⟩ := receive_arrived env w veh time d a r harr
    rw [hseg] at hb
    have hbq : b ∈ w.seg.que q := List.mem_of_getLast?_eq_some hb
    rw [hveh b (fun e => hfresh q (e ▸ hbq))]
    exact hinv q b hb
  have harr' : arrivalOnEntry w.seg (w.veh veh) d a = false := by simpa using harr
  obtain ⟨_, _, _, hveh, _, _⟩ := receive_queued env w veh time d a r harr'
  have hold : ∀ b, (w.seg.que q).getLast? = some b →
      w.seg.block q ≤ ((receive env w veh time d a r).veh b).eventTime := by
    intro b hb
    have hbq : b ∈ w.seg.que q := List.mem_of_getLast?_eq_some hb
    rw [hveh b (fun e => hfresh q (e ▸ hbq))]
    exact hinv q b hb
  rcases receive_que env w veh time d a r harr' q with h | ⟨hq, ⟨h1, h2⟩ | ⟨c0, rest, h1, h2 | h2⟩⟩
  · rw [h] at hb; exact hold b hb
  · rw [h2] at hb
    simp only [List.getLast?_singleton, Option.some.injEq] at hb
    subst hb
    rw [hq]
    exact receive_eventTime_ge_block env w _ time d a r harr'
  · rw [h2] at hb
    cases rest with
    | nil =>
      simp only [List.getLast?_cons_cons, List.getLast?_singleton, Option.some.injEq] at hb
      subst hb
      rw [hq]
      exact receive_eventTime_ge_block env w _ time d a r harr'
    | cons x xs =>
      apply hold
      rw [h1]
      simpa [List.getLast?_cons_cons] using hb
  · rw [h2] at hb
    apply hold
    rw [h1]
    simpa [List.getLast?_cons_cons] using hb

theorem send_distinct (w : World) (v : VehPtr) (n : NextSeg) (t : SUMOTime)
    (hdist : QueuesDistinct w) : QueuesDistinct (send w v n t) := by
  have hsub : ∀ x, List.Sublist ((send w v n t).seg.que x) (w.seg.que x) := by
    intro x
    rw [send_que]
    split_ifs with h1 h2
    · rw [h1]; exact List.dropLast_sublist _
    · rw [h1]; exact List.erase_sublist _ _
    · exact List.Sublist.refl _
  refine ⟨fun x => (hdist.1 x).sublist (hsub x), fun q1 q2 hne y h1 h2 => ?_⟩
  exact hdist.2 q1 q2 hne ((hsub q1).subset h1) ((hsub q2).subset h2)

/-- `send` never lowers an event time. -/
theorem send_eventTime_ge (w : World) (v : VehPtr) (n : NextSeg) (t : SUMOTime) (p : VehPtr) :
    (w.veh p).eventTime ≤ ((send w v n t).veh p).eventTime := by
  rw [send_veh]
  cases (removeCar w v t n).1 with
  | none => exact le_refl _
  | some l =>
    simp only []
    split_ifs with h
    · subst h; exact le_max_left _ _
    · exact le_refl _

theorem send_block_other (w : World) (v : VehPtr) (n : NextSeg) (t : SUMOTime) (q : Nat)
    (hq : q ≠ (w.veh v).queIndex) : (send w v n t).seg.block q = w.seg.block q := by
  unfold MESegment.block
  rw [send_blockTimes]
  simp [List.getD_eq_getElem?_getD, List.getElem?_set, Ne.symm hq]

theorem getLast?_erase_of_ne (l : List VehPtr) (v b : VehPtr) (hb : l.getLast? = some b)
    (hne : v ≠ b) : (l.erase v).getLast? = some b := by
  obtain ⟨pre, rfl⟩ := List.getLast?_eq_some_iff.mp hb
  by_cases hv : v ∈ pre
  · rw [List.erase_append_left _ hv]
    simp
  · rw [List.erase_append_right _ hv]
    have : [b].erase v = [b] := by
      rw [List.erase_of_not_mem]
      simpa using hne
    rw [this]
    simp

theorem send_leaderAfterBlock (w : World) (v : VehPtr) (n : NextSeg) (t : SUMOTime)
    (hinv : LeaderAfterBlock w) (hsafe : BlockSafe w (Op.send v n t)) :
    LeaderAfterBlock (send w v n t) := by
  intro q b hb
  by_cases hq : q = (w.veh v).queIndex
  swap
  · rw [send_block_other w v n t q hq]
    rw [send_que, if_neg hq] at hb
    exact le_trans (hinv q b hb) (send_eventTime_ge w v n t b)
  subst hq
  rw [send_que, if_pos rfl] at hb
  by_cases hlast : (w.seg.que (w.veh v).queIndex).getLast? = some v
  · -- the vehicle that leaves next is removed: the new leader is lifted to the block time
    rw [if_pos hlast] at hb
    rw [send_veh, removeCar_leader, if_pos hlast, hb]
    simp only [if_true]
    exact le_max_right _ _
  · rw [if_neg hlast] at hb
    rcases hsafe with hs | hs
    · exact absurd hs hlast
    · -- another vehicle is removed: the leader stays
      have hne : (w.seg.que (w.veh v).queIndex) ≠ [] := by
        intro he
        rw [he] at hb
        simp at hb
      obtain ⟨b0, hb0⟩ : ∃ b0, (w.seg.que (w.veh v).queIndex).getLast? = some b0 := by
        cases hl : (w.seg.que (w.veh v).queIndex).getLast? with
        | none => exact absurd (List.getLast?_eq_none_iff.mp hl) hne
        | some b0 => exact ⟨b0, rfl⟩
      have hvb : v ≠ b0 := fun e => hlast (by rw [hb0, e])
      have := getLast?_erase_of_ne _ v b0 hb0 hvb
      rw [this] at hb
      simp only [Option.some.injEq] at hb
      subst hb
      exact le_trans (hs b0 hb0) (send_eventTime_ge w v n t b0)

theorem setSpeedFollowers_other (ns : SUMOReal) (t : SUMOTime) (l : List VehPtr) (e : SUMOTime)
    (w : World) (p : VehPtr) (hp : p ∉ l) : (setSpeedFollowers ns t l e w).veh p = w.veh p := by
  induction l generalizing e w with
  | nil => rfl
  | cons x rest ih =>
    simp only [setSpeedFollowers]
    rw [ih _ _ (fun hm => hp (List.mem_cons_of_mem _ hm))]
    rw [setVeh_veh_other _ _ _ _ (fun hxp => hp (by simp [hxp]))]
    rfl

/-- `setSpeedForQueue` leaves the vehicles of other queues alone and gives the
vehicle that leaves next an event time at least the block time. -/
theorem setSpeedForQueue_leader (w : World) (ns : SUMOReal) (t b : SUMOTime) (vehs : List VehPtr)
    (hnd : vehs.Nodup) :
    (∀ p, p ∉ vehs → (setSpeedForQueue w ns t b vehs).veh p = w.veh p)
    ∧ ∀ v, vehs.getLast? = some v → b ≤ ((setSpeedForQueue w ns t b vehs).veh v).eventTime := by
  unfold setSpeedForQueue
  rcases hrev : vehs.reverse with _ | ⟨v, rest⟩
  · have : vehs = [] := List.reverse_eq_nil_iff.mp hrev
    subst this
    exact ⟨fun _ _ => rfl, fun v hv => by simp at hv⟩
  · have hvehs : vehs = (v :: rest).reverse := by rw [← hrev, List.reverse_reverse]
    have hnd2 : (v :: rest).Nodup := by rw [← hrev]; exact List.nodup_reverse.mpr hnd
    rw [List.nodup_cons] at hnd2
    simp only [log_seg, log_veh]
    constructor
    · intro p hp
      have hpv : p ≠ v := fun e => hp (by rw [hvehs, e]; simp)
      have hpr : p ∉ rest := fun hm => hp (by rw [hvehs]; simp [hm])
      rw [setSpeedFollowers_other _ _ _ _ _ _ hpr]
      split_ifs <;> simp [setVeh_veh, hpv]
    · intro v1 hv1
      have hv1v : v1 = v := by
        rw [hvehs] at hv1
        simpa using hv1.symm
      subst hv1v
      rw [setSpeedFollowers_other _ _ _ _ _ _ hnd2.1]
      split_ifs with h
      · simp
      · simp only [log_veh]
        rw [not_not.mp h]
        exact le_max_right _ _

theorem setSpeed_loop_leaderAfterBlock (ns : SUMOReal) (t : SUMOTime) (l : List Nat) (w : World)
    (h : LeaderAfterBlock w ∧ QueuesDistinct w) :
    LeaderAfterBlock (l.foldl (fun x i =>
        if (x.seg.que i).length ≠ 0 then
          setSpeedForQueue x ns t (x.seg.block i) (x.seg.que i)
        else x) w)
    ∧ QueuesDistinct (l.foldl (fun x i =>
        if (x.seg.que i).length ≠ 0 then
          setSpeedForQueue x ns t (x.seg.block i) (x.seg.que i)
        else x) w) := by
  induction l generalizing w with
  | nil => exact h
  | cons i rest ih =>
    rw [List.foldl_cons]
    apply ih
    split_ifs with hi
    swap
    · exact h
    obtain ⟨hinv, hdist⟩ := h
    obtain ⟨h1, h2⟩ := setSpeedForQueue_leader w ns t (w.seg.block i) (w.seg.que i) (hdist.1 i)
    have hseg : (setSpeedForQueue w ns t (w.seg.block i) (w.seg.que i)).seg = w.seg :=
      setSpeedForQueue_seg _ _ _ _ _
    refine ⟨fun q b hb => ?_, ?_⟩
    · rw [hseg] at hb ⊢
      by_cases hq : q = i
      · subst hq; exact h2 b hb
      · have hbq : b ∈ w.seg.que q := List.mem_of_getLast?_eq_some hb
        rw [h1 b (fun hm => hdist.2 q i hq hbq hm)]
        exact hinv q b hb
    · rw [QueuesDistinct, hseg]; exact hdist

theorem setSpeed_leaderAfterBlock (env : Env) (w : World) (ns : SUMOReal) (t : SUMOTime)
    (jt : SUMOReal) (h : LeaderAfterBlock w ∧ QueuesDistinct w) :
    LeaderAfterBlock (setSpeed env w ns t jt) ∧ QueuesDistinct (setSpeed env w ns t jt) := by
  unfold setSpeed
  split_ifs with hs
  · exact h
  · apply setSpeed_loop_leaderAfterBlock
    obtain ⟨x, hx⟩ := recomputeJamThreshold_eq env { w.seg with myMaxSpeed := ns } jt
    obtain ⟨hinv, hdist⟩ := h
    have hq : ∀ q, (recomputeJamThreshold env { w.seg with myMaxSpeed := ns } jt).que q
        = w.seg.que q := by
      intro q; rw [hx]; rfl
    have hb : ∀ q, (recomputeJamThreshold env { w.seg with myMaxSpeed := ns } jt).block q
        = w.seg.block q := by
      intro q; rw [hx]; rfl
    refine ⟨fun q b hlast => ?_, ⟨fun q => ?_, fun q1 q2 hne => ?_⟩⟩
    · simp only [hq] at hlast
      simp only [hb]
      exact hinv q b hlast
    · simp only [hq]; exact hdist.1 q
    · simp only [hq]; exact hdist.2 q1 q2 hne

theorem loadState_loop_que (q : Nat) (vehs : List VehPtr) (w : World) (x : Nat) :
    (vehs.foldl
      (fun x v => { x with seg := { x.seg with
        myCarQues := x.seg.myCarQues.set q (x.seg.que q ++ [v])
        myOccupancy := x.seg.myOccupancy + (x.veh v).getLengthWithGap } }) w).seg.que x
      = if x = q ∧ q < w.seg.myCarQues.length then w.seg.que q ++ vehs else w.seg.que x := by
  induction vehs generalizing w with
  | nil =>
    simp only [List.foldl_nil, List.append_nil]
    split_ifs with h
    · rw [h.1]
    · rfl
  | cons v rest ih =>
    rw [List.foldl_cons, ih]
    have hq : ∀ y, ({ w.seg with
        myCarQues := w.seg.myCarQues.set q (w.seg.que q ++ [v])
        myOccupancy := w.seg.myOccupancy + (w.veh v).getLengthWithGap } : MESegment).que y
        = if y = q ∧ q < w.seg.myCarQues.length then w.seg.que q ++ [v] else w.seg.que y := by
      intro y
      unfold MESegment.que
      exact getD_set_queues _ _ _ _
    simp only [hq, List.length_set]
    by_cases h : x = q ∧ q < w.seg.myCarQues.length
    · simp [h]
    · simp [h]

theorem loadState_que (w : World) (vehs : List VehPtr) (b : SUMOTime) (q x : Nat) :
    (loadState w vehs b q).seg.que x
      = if x = q ∧ q < w.seg.myCarQues.length then w.seg.que q ++ vehs else w.seg.que x := by
  rw [← loadState_loop_que q vehs w x]
  unfold loadState
  simp only []
  split <;> rfl

theorem loadState_veh (w : World) (vehs : List VehPtr) (b : SUMOTime) (q : Nat) :
    (loadState w vehs b q).veh = w.veh := by
  have h := (loadState_loop q vehs w).1
  simp only [] at h
  unfold loadState
  simp only []
  split <;> simp [h, World.setBlock, World.log]

theorem loadState_block_other (w : World) (vehs : List VehPtr) (b : SUMOTime) (q x : Nat)
    (hx : x ≠ q) : (loadState w vehs b q).seg.block x = w.seg.block x := by
  have h := (loadState_loop q vehs w).2.2.2.1
  simp only [] at h
  unfold loadState MESegment.block
  simp only []
  split <;>
    simp [h, World.setBlock, World.log, List.getD_eq_getElem?_getD, List.getElem?_set, Ne.symm hx]

theorem loadState_leaderAfterBlock (w : World) (vehs : List VehPtr) (b : SUMOTime) (q : Nat)
    (h : LeaderAfterBlock w ∧ QueuesDistinct w) (hsafe : BlockSafe w (Op.loadState vehs b q)) :
    LeaderAfterBlock (loadState w vehs b q) ∧ QueuesDistinct (loadState w vehs b q) := by
  obtain ⟨hinv, hdist⟩ := h
  obtain ⟨hnd, hfresh, hblock⟩ := hsafe
  refine ⟨fun x l hl => ?_, ⟨fun x => ?_, fun x1 x2 hne y h1 h2 => ?_⟩⟩
  · rw [loadState_veh]
    rw [loadState_que] at hl
    by_cases hx : x = q ∧ q < w.seg.myCarQues.length
    · rw [if_pos hx] at hl
      rw [hx.1]
      exact hblock l hl
    · rw [if_neg hx] at hl
      by_cases hxq : x = q
      · -- the queue does not exist: nothing was loaded and the queue is empty
        exfalso
        have hlen : w.seg.myCarQues.length ≤ x := by
          rw [hxq]; exact Nat.le_of_not_lt (fun hlt => hx ⟨hxq, hlt⟩)
        have : w.seg.que x = [] := by
          unfold MESegment.que
          rw [List.getD_eq_getElem?_getD, List.getElem?_eq_none hlen]
          rfl
        rw [this] at hl
        simp at hl
      · rw [loadState_block_other w vehs b q x hxq]
        exact hinv x l hl
  · rw [loadState_que]
    split_ifs with hx
    · rw [List.nodup_append]
      exact ⟨hdist.1 q, hnd, fun y hy1 hy2 => hfresh y hy2 q hy1⟩
    · exact hdist.1 x
  · rw [loadState_que] at h1 h2
    by_cases hx1 : x1 = q ∧ q < w.seg.myCarQues.length
    · rw [if_pos hx1] at h1
      have hx2 : ¬ (x2 = q ∧ q < w.seg.myCarQues.length) := fun e => hne (hx1.1.trans e.1.symm)
      rw [if_neg hx2] at h2
      rcases List.mem_append.mp h1 with h1 | h1
      · exact hdist.2 q x2 (fun e => hne (hx1.1.trans e)) h1 h2
      · exact hfresh y h1 x2 h2
    · rw [if_neg hx1] at h1
      by_cases hx2 : x2 = q ∧ q < w.seg.myCarQues.length
      · rw [if_pos hx2] at h2
        rcases List.mem_append.mp h2 with h2 | h2
        · exact hdist.2 x1 q (fun e => hne (e.trans hx2.1.symm)) h1 h2
        · exact hfresh y h2 x1 h1
      · rw [if_neg hx2] at h2
        exact hdist.2 x1 x2 hne h1 h2

theorem step_blockInv (w : World) (op : Op) (h : LeaderAfterBlock w ∧ QueuesDistinct w)
    (hsafe : BlockSafe w op) :
    LeaderAfterBlock (step w op) ∧ QueuesDistinct (step w op) := by
  cases op with
  | receive env veh time d a r =>
    exact ⟨receive_leaderAfterBlock env w veh time d a r hsafe h.1,
      receive_distinct env w veh time d a r hsafe h.2⟩
  | send v n t => exact ⟨send_leaderAfterBlock w v n t h.1 hsafe, send_distinct w v n t h.2⟩
  | vaporizeAnyCar t => exact absurd hsafe (by simp [BlockSafe])
  | setSpeed env ns t jt => exact setSpeed_leaderAfterBlock env w ns t jt h
  | loadState vehs b q => exact loadState_leaderAfterBlock w vehs b q h hsafe

theorem run_blockInv (ops : List Op) (w : World) (h : LeaderAfterBlock w ∧ QueuesDistinct w)
    (hsafe : BlockSafeRun w ops) (k : Nat) :
    LeaderAfterBlock (run w (ops.take k)) ∧ QueuesDistinct (run w (ops.take k)) := by
  induction ops generalizing w k with
  | nil => simpa [run] using h
  | cons op rest ih =>
    cases k with
    | zero => simpa [run] using h
    | succ k =>
      obtain ⟨h1, h2⟩ := hsafe
      exact ih (step w op) (step_blockInv w op h h1) h2 k

/-- The states along `exBlockOps`. -/
theorem exBlockOps_state :
    (step (World.fresh exSegmentTwoLanes exStoreFast) (Op.loadState [0, 1] 0 0)).seg.myCarQues
      = [[0, 1]]
    ∧ (step (World.fresh exSegmentTwoLanes exStoreFast) (Op.loadState [0, 1] 0 0)).seg.block 0 = 0
    ∧ (step (step (World.fresh exSegmentTwoLanes exStoreFast) (Op.loadState [0, 1] 0 0))
        (Op.receive exEnv 3 1000 true false 0)).seg.myCarQues = [[3, 0, 1]]
    ∧ ((step (step (World.fresh exSegmentTwoLanes exStoreFast) (Op.loadState [0, 1] 0 0))
        (Op.receive exEnv 3 1000 true false 0)).veh 1).queIndex = 0
    ∧ (run (World.fresh exSegmentTwoLanes exStoreFast) (exBlockOps.take 3)).seg.myCarQues
      = [[3, 0]] := by
  refine ⟨?_, ?_, ?_, ?_, ?_⟩ <;>
  · simp [run, step, exBlockOps, loadState, receive, arrivalOnEntry, World.fresh,
      exSegmentTwoLanes, exSegment, exStoreFast, exVehicle, exEnv, chooseQueue, tentativeLeave,
      insertCar, overtake, MESegment.que, MESegment.block, TIME2STEPS, castToTime, World.setVeh,
      World.log, Function.update_apply, MEVehicle.getLengthWithGap, send, removeCar,
      updateDetectorsOnLeave, World.setBlock, getTimeHeadway, free]
    try norm_num

/-- The state after `exLateBlockOps`. -/
theorem exLateBlockOps_state :
    (run (World.fresh exSegment (fun _ => exVehicle)) exLateBlockOps).seg.myCarQues = [[0]]
    ∧ ((run (World.fresh exSegment (fun _ => exVehicle)) exLateBlockOps).veh 0).eventTime = 0
    ∧ (run (World.fresh exSegment (fun _ => exVehicle)) exLateBlockOps).seg.block 0 = 100 := by
  refine ⟨?_, ?_, ?_⟩ <;>
  · simp [run, step, exLateBlockOps, loadState, World.fresh, exSegment, exVehicle,
      MESegment.que, MESegment.block, World.log, World.setBlock]

theorem fresh_que_nil (veh : VehPtr → MEVehicle) (q : Nat) :
    (World.fresh exSegmentTwoLanes veh).seg.que q = [] := by
  rcases que_nil_or_mem (World.fresh exSegmentTwoLanes veh).seg q with h | h
  · exact h
  · simpa [World.fresh, exSegmentTwoLanes, exSegment] using h

/-- C15 (as amended): from a state in which every queue holds distinct vehicles
and the vehicle next to leave each non-empty queue has an event time of at
least the queue's block time, the same holds after every operation of any
sequence of receive, send, setSpeed and loadState in which no received or
loaded vehicle is queued already, every send either removes the vehicle next
to leave its queue or leaves a block time not above the event time of that
vehicle, and every loadState leaves a block time not above the event time of
the last vehicle of the restored queue. -/
theorem leader_block_invariant (w : World) (ops : List Op) (k : Nat)
    (hinv : LeaderAfterBlock w) (hdist : QueuesDistinct w) (hsafe : BlockSafeRun w ops) :
    ∀ q b, ((run w (ops.take k)).seg.que q).getLast? = some b →
      (run w (ops.take k)).seg.block q ≤ ((run w (ops.take k)).veh b).eventTime :=
  (run_blockInv ops w ⟨hinv, hdist⟩ hsafe k).1

/-- Witness for C15: after the three operations of `exBlockOps` on the empty
two-lane segment, vehicle 0 is next to leave queue 0 and its event time is at
least the block time of that queue. -/
theorem leader_block_invariant_witness :
    (run (World.fresh exSegmentTwoLanes exStoreFast) (exBlockOps.take 3)).seg.block 0
      ≤ ((run (World.fresh exSegmentTwoLanes exStoreFast) (exBlockOps.take 3)).veh 0).eventTime := by
  obtain ⟨h1, h1b, h2, h2i, h3⟩ := exBlockOps_state
  refine leader_block_invariant (World.fresh exSegmentTwoLanes exStoreFast) exBlockOps 3
    ?_ ?_ ?_ 0 0 ?_
  · intro q b hb
    rw [fresh_que_nil] at hb
    simp at hb
  · refine ⟨fun q => ?_, fun q1 q2 _ => ?_⟩
    · rw [fresh_que_nil]; exact List.nodup_nil
    · rw [fresh_que_nil]; exact List.disjoint_nil_left _
  · refine ⟨⟨by decide, ?_, ?_⟩, ?_, Or.inl ?_, trivial⟩
    · intro v _ q
      rw [fresh_que_nil]; simp
    · intro b hb
      rw [fresh_que_nil] at hb
      have hb1 : b = 1 := by simpa using hb.symm
      show (step (World.fresh exSegmentTwoLanes exStoreFast) (Op.loadState [0, 1] 0 0)).seg.block 0
        ≤ _
      rw [h1b, hb1]
      simp [World.fresh, exStoreFast, exVehicle]
    · intro q
      exact not_mem_que_of_forall _ _ (by rw [h1]; simp) q
    · rw [h2i]
      unfold MESegment.que
      rw [h2]
      rfl
  · unfold MESegment.que
    rw [h3]
    rfl

/-- C15 fails as stated: restoring vehicle 0, whose event time is 0, into the
empty queue 0 with block time 0.1 s leaves that vehicle next to leave with an
event time below the block time. -/
theorem leader_block_invariant_counterexample :
    (run (World.fresh exSegment (fun _ => exVehicle)) exLateBlockOps).seg.myCarQues = [[0]]
    ∧ ((run (World.fresh exSegment (fun _ => exVehicle)) exLateBlockOps).veh 0).eventTime = 0
    ∧ (run (World.fresh exSegment (fun _ => exVehicle)) exLateBlockOps).seg.block 0 = 100
    ∧ ¬ LeaderAfterBlock (run (World.fresh exSegment (fun _ => exVehicle)) exLateBlockOps) := by
  obtain ⟨h1, h2, h3⟩ := exLateBlockOps_state
  refine ⟨h1, h2, h3, fun h => ?_⟩
  have hl : ((run (World.fresh exSegment (fun _ => exVehicle)) exLateBlockOps).seg.que 0).getLast?
      = some 0 := by
    unfold MESegment.que
    rw [h1]
    rfl
  have := h 0 0 hl
  rw [h2, h3] at this
  exact absurd this (by decide)

/-! ## The scheduler's set of leaders -/

theorem applyAll_append (sch : Scheduler) (a b : List Event) :
    sch.applyAll (a ++ b) = (sch.applyAll a).applyAll b := by
  simp [Scheduler.applyAll, List.foldl_append]

theorem applyAll_nil (sch : Scheduler) : sch.applyAll [] = sch := rfl

theorem applyAll_singleton (sch : Scheduler) (e : Event) : sch.applyAll [e] = sch.apply e := rfl

/-- The calls an operation made are what it appended to the trace. -/
theorem drop_trace {w w1 : World} {evs : List Event} (h : w1.trace = w.trace ++ evs) :
    w1.trace.drop w.trace.length = evs := by
  rw [h, List.drop_left]

/-- Removing a registered vehicle and registering it again changes nothing. -/
theorem apply_remove_add (sch : Scheduler) (v : VehPtr) (hp : sch.paired = true)
    (hv : v ∈ sch.registered) :
    (sch.apply (Event.removeLeaderCar v)).apply (Event.addLeaderCar v) = sch := by
  cases sch with
  | mk reg p =>
    have hp1 : p = true := hp
    have hv1 : v ∈ reg := hv
    subst hp1
    simp [Scheduler.apply, hv1, Finset.insert_erase hv1]

theorem send_emits (w : World) (v : VehPtr) (n : NextSeg) (t : SUMOTime) :
    ∃ e, (send w v n t).trace
      = w.trace ++ (Event.updateDetectors v t true e
          :: (match (removeCar w v t n).1 with
              | some l => [Event.addLeaderCar l]
              | none => [])) := by
  rw [send_trace, removeCar_trace]
  exact ⟨_, by rw [List.append_assoc]; rfl⟩

/-- The scheduler after the calls of a `send`. -/
theorem send_sched (sch : Scheduler) (w : World) (v : VehPtr) (n : NextSeg) (t : SUMOTime) :
    sch.applyAll ((send w v n t).trace.drop w.trace.length)
      = match (removeCar w v t n).1 with
        | some l => { sch with registered := insert l sch.registered }
        | none => sch := by
  obtain ⟨e, he⟩ := send_emits w v n t
  rw [drop_trace he]
  cases (removeCar w v t n).1 <;> rfl

/-- The leaders after a `send`: the new leader it reports, and the old leaders
other than the vehicle sent. -/
theorem send_isLeader (w : World) (v : VehPtr) (n : NextSeg) (t : SUMOTime)
    (hidx : QueIndexOk w) (u : VehPtr) :
    IsLeader (send w v n t) u ↔ ((removeCar w v t n).1 = some u ∨ (u ≠ v ∧ IsLeader w u)) := by
  rw [removeCar_leader]
  constructor
  · rintro ⟨q, hq⟩
    rw [send_que] at hq
    by_cases hx : q = (w.veh v).queIndex
    · rw [if_pos hx] at hq
      by_cases hl : (w.seg.que (w.veh v).queIndex).getLast? = some v
      · rw [if_pos hl] at hq
        left
        rw [if_pos hl]
        exact hq
      · rw [if_neg hl] at hq
        right
        cases hb : (w.seg.que (w.veh v).queIndex).getLast? with
        | none =>
          rw [List.getLast?_eq_none_iff.mp hb] at hq
          simp at hq
        | some b =>
          have hvb : v ≠ b := fun e => hl (by rw [hb, e])
          rw [getLast?_erase_of_ne _ v b hb hvb] at hq
          simp only [Option.some.injEq] at hq
          subst hq
          exact ⟨fun e => hvb e.symm, ⟨_, hb⟩⟩
    · rw [if_neg hx] at hq
      right
      refine ⟨fun e => hx ?_, ⟨q, hq⟩⟩
      have hm : u ∈ w.seg.que q := List.mem_of_getLast?_eq_some hq
      rw [← e]
      exact (hidx q u hm).symm
  · rintro (h | ⟨hne, q, hq⟩)
    · by_cases hl : (w.seg.que (w.veh v).queIndex).getLast? = some v
      · rw [if_pos hl] at h
        refine ⟨(w.veh v).queIndex, ?_⟩
        rw [send_que, if_pos rfl, if_pos hl]
        exact h
      · rw [if_neg hl] at h
        exact absurd h (by simp)
    · refine ⟨q, ?_⟩
      rw [send_que]
      by_cases hx : q = (w.veh v).queIndex
      · rw [if_pos hx]
        rw [hx] at hq
        have hl : ¬ (w.seg.que (w.veh v).queIndex).getLast? = some v := by
          rw [hq]
          simpa using hne
        rw [if_neg hl]
        exact getLast?_erase_of_ne _ v u hq (fun e => hne e.symm)
      · rw [if_neg hx]
        exact hq

theorem send_queIndex (w : World) (v : VehPtr) (n : NextSeg) (t : SUMOTime) (p : VehPtr) :
    ((send w v n t).veh p).queIndex = (w.veh p).queIndex := by
  rw [send_veh]
  cases (removeCar w v t n).1 with
  | none => rfl
  | some l =>
    simp only []
    split_ifs with h
    · rw [h]
    · rfl

theorem send_sublist (w : World) (v : VehPtr) (n : NextSeg) (t : SUMOTime) (x : Nat) :
    List.Sublist ((send w v n t).seg.que x) (w.seg.que x) := by
  rw [send_que]
  split_ifs with h1 h2
  · rw [h1]; exact List.dropLast_sublist _
  · rw [h1]; exact List.erase_sublist _ _
  · exact List.Sublist.refl _

theorem send_queIndexOk (w : World) (v : VehPtr) (n : NextSeg) (t : SUMOTime)
    (hidx : QueIndexOk w) : QueIndexOk (send w v n t) := by
  intro q p hp
  rw [send_queIndex]
  exact hidx q p ((send_sublist w v n t q).subset hp)

/-- What the registration argument carries along a run. -/
theorem send_registered (sch : Scheduler) (w : World) (v : VehPtr) (n : NextSeg) (t : SUMOTime)
    (hidx : QueIndexOk w) (hreg : ∀ u, u ∈ sch.registered ↔ IsLeader w u) (u : VehPtr) :
    u ∈ (schedStep sch w (Op.send v n t)).registered ↔ IsLeader (step w (Op.send v n t)) u := by
  show u ∈ (Scheduler.applyAll _ ((send w v n t).trace.drop w.trace.length)).registered
    ↔ IsLeader (send w v n t) u
  rw [send_sched, send_isLeader w v n t hidx]
  cases h : (removeCar w v t n).1 with
  | none => simp [Finset.mem_erase, hreg]
  | some l =>
    simp only [Finset.mem_insert, Finset.mem_erase, hreg, Option.some.injEq]
    constructor
    · rintro (h1 | h1)
      · exact Or.inl h1.symm
      · exact Or.inr h1
    · rintro (h1 | h1)
      · exact Or.inl h1.symm
      · exact Or.inr h1

theorem send_paired (sch : Scheduler) (w : World) (v : VehPtr) (n : NextSeg) (t : SUMOTime) :
    (schedStep sch w (Op.send v n t)).paired = sch.paired := by
  show (Scheduler.applyAll _ ((send w v n t).trace.drop w.trace.length)).paired = _
  rw [send_sched]
  cases (removeCar w v t n).1 <;> rfl

theorem setSpeedFollowers_sched (ns : SUMOReal) (t : SUMOTime) (l : List VehPtr) (e : SUMOTime)
    (w : World) :
    (∀ p, ((setSpeedFollowers ns t l e w).veh p).queIndex = (w.veh p).queIndex)
    ∧ ∃ evs, (setSpeedFollowers ns t l e w).trace = w.trace ++ evs
        ∧ ∀ sch : Scheduler, sch.applyAll evs = sch := by
  induction l generalizing e w with
  | nil => exact ⟨fun _ => rfl, [], by simp [setSpeedFollowers], fun _ => rfl⟩
  | cons x rest ih =>
    simp only [setSpeedFollowers]
    generalize max (newArrival (w.log (Event.updateDetectors x t false none)).seg
        ((w.log (Event.updateDetectors x t false none)).veh x) ns t)
        (e + (w.log (Event.updateDetectors x t false none)).seg.myTau_ff) = e1
    obtain ⟨h1, evs, h2, h3⟩ := ih e1
      ((w.log (Event.updateDetectors x t false none)).setVeh x (fun v => { v with eventTime := e1 }))
    refine ⟨fun p => ?_, Event.updateDetectors x t false none :: evs, ?_, fun sch => ?_⟩
    · rw [h1, setVeh_veh]
      split_ifs with hp
      · rw [hp]; rfl
      · rfl
    · rw [h2]
      simp
    · exact h3 sch

theorem setSpeedForQueue_sched (w : World) (ns : SUMOReal) (t b : SUMOTime) (vehs : List VehPtr) :
    (∀ p, ((setSpeedForQueue w ns t b vehs).veh p).queIndex = (w.veh p).queIndex)
    ∧ ∃ evs, (setSpeedForQueue w ns t b vehs).trace = w.trace ++ evs
        ∧ ∀ sch : Scheduler, sch.paired = true →
            (∀ v, vehs.getLast? = some v → v ∈ sch.registered) → sch.applyAll evs = sch := by
  unfold setSpeedForQueue
  rcases hrev : vehs.reverse with _ | ⟨v, rest⟩
  · exact ⟨fun _ => rfl, [], by simp, fun _ _ _ => rfl⟩
  · have hlast : vehs.getLast? = some v := by
      have : vehs = (v :: rest).reverse := by rw [← hrev, List.reverse_reverse]
      rw [this]
      simp
    simp only []
    generalize max (newArrival (w.log (Event.updateDetectors v t false none)).seg
        ((w.log (Event.updateDetectors v t false none)).veh v) ns t) b = e1
    by_cases hne : ((w.log (Event.updateDetectors v t false none)).veh v).eventTime ≠ e1
    · rw [if_pos hne]
      obtain ⟨h1, evs, h2, h3⟩ := setSpeedFollowers_sched ns t rest e1
        ((((w.log (Event.updateDetectors v t false none)).log (Event.removeLeaderCar v)).setVeh v (fun x => { x with eventTime := e1 })).log (Event.addLeaderCar v))
      refine ⟨fun p => ?_,
        Event.updateDetectors v t false none :: Event.removeLeaderCar v
          :: Event.addLeaderCar v :: evs, ?_, fun sch hp hv => ?_⟩
      · rw [h1]
        simp only [log_veh]
        rw [setVeh_veh]
        split_ifs with hpv
        · rw [hpv]; rfl
        · rfl
      · rw [h2]
        simp
      · have : sch.applyAll (Event.updateDetectors v t false none :: Event.removeLeaderCar v
            :: Event.addLeaderCar v :: evs)
            = (((sch.apply (Event.removeLeaderCar v)).apply (Event.addLeaderCar v))).applyAll evs :=
          rfl
        rw [this, apply_remove_add sch v hp (hv v hlast)]
        exact h3 sch
    · rw [if_neg hne]
      obtain ⟨h1, evs, h2, h3⟩ := setSpeedFollowers_sched ns t rest e1
        (w.log (Event.updateDetectors v t false none))
      refine ⟨fun p => ?_, Event.updateDetectors v t false none :: evs, ?_, fun sch _ _ => ?_⟩
      · rw [h1]; rfl
      · rw [h2]
        simp
      · exact h3 sch

theorem setSpeed_loop_sched (ns : SUMOReal) (t : SUMOTime) (l : List Nat) (w : World) :
    (∀ p, ((l.foldl (fun x i =>
        if (x.seg.que i).length ≠ 0 then
          setSpeedForQueue x ns t (x.seg.block i) (x.seg.que i)
        else x) w).veh p).queIndex = (w.veh p).queIndex)
    ∧ ∃ evs, (l.foldl (fun x i =>
        if (x.seg.que i).length ≠ 0 then
          setSpeedForQueue x ns t (x.seg.block i) (x.seg.que i)
        else x) w).trace = w.trace ++ evs
        ∧ ∀ sch : Scheduler, sch.paired = true →
            (∀ v, IsLeader w v → v ∈ sch.registered) → sch.applyAll evs = sch := by
  induction l generalizing w with
  | nil => exact ⟨fun _ => rfl, [], by simp, fun _ _ _ => rfl⟩
  | cons i rest ih =>
    rw [List.foldl_cons]
    by_cases hi : (w.seg.que i).length ≠ 0
    · rw [if_pos hi]
      obtain ⟨h1, evs1, h2, h3⟩ := setSpeedForQueue_sched w ns t (w.seg.block i) (w.seg.que i)
      obtain ⟨k1, evs2, k2, k3⟩ := ih (setSpeedForQueue w ns t (w.seg.block i) (w.seg.que i))
      refine ⟨fun p => by rw [k1, h1], evs1 ++ evs2, ?_, fun sch hp hv => ?_⟩
      · rw [k2, h2, List.append_assoc]
      · rw [applyAll_append, h3 sch hp (fun v hl => hv v ⟨i, hl⟩)]
        refine k3 sch hp (fun v hl => hv v ?_)
        obtain ⟨q, hq⟩ := hl
        rw [setSpeedForQueue_seg] at hq
        exact ⟨q, hq⟩
    · rw [if_neg hi]
      exact ih w

theorem setSpeed_que (env : Env) (w : World) (ns : SUMOReal) (t : SUMOTime) (jt : SUMOReal)
    (q : Nat) : (setSpeed env w ns t jt).seg.que q = w.seg.que q := by
  obtain ⟨v, x, h⟩ := setSpeed_seg env w ns t jt
  rw [h]
  rfl

theorem setSpeed_sched (env : Env) (w : World) (ns : SUMOReal) (t : SUMOTime) (jt : SUMOReal) :
    (∀ p, ((setSpeed env w ns t jt).veh p).queIndex = (w.veh p).queIndex)
    ∧ ∃ evs, (setSpeed env w ns t jt).trace = w.trace ++ evs
        ∧ ∀ sch : Scheduler, sch.paired = true →
            (∀ v, IsLeader w v → v ∈ sch.registered) → sch.applyAll evs = sch := by
  unfold setSpeed
  split_ifs with hs
  · exact ⟨fun _ => rfl, [], by simp, fun _ _ _ => rfl⟩
  · obtain ⟨h1, evs, h2, h3⟩ := setSpeed_loop_sched ns t
      (List.range (recomputeJamThreshold env { w.seg with myMaxSpeed := ns } jt).myCarQues.length)
      { w with seg := recomputeJamThreshold env { w.seg with myMaxSpeed := ns } jt }
    refine ⟨h1, evs, h2, fun sch hp hv => h3 sch hp (fun v hl => hv v ?_)⟩
    obtain ⟨q, hq⟩ := hl
    obtain ⟨x, hx⟩ := recomputeJamThreshold_eq env { w.seg with myMaxSpeed := ns } jt
    refine ⟨q, ?_⟩
    have : (recomputeJamThreshold env { w.seg with myMaxSpeed := ns } jt).que q = w.seg.que q := by
      rw [hx]; rfl
    rw [← this]
    exact hq

/-- The calls made while a vehicle is inserted into a queue, by the shape of
the queue: only the overtaking of a single queued vehicle removes a leader. -/
theorem insertCar_sched (env : Env) (w : World) (veh : VehPtr) (d : Bool) (r : SUMOReal)
    (t0 : SUMOTime) (cars : List VehPtr) :
    ∃ evs, (insertCar env w veh d r t0 cars).1.trace = w.trace ++ evs
      ∧ ((cars = [] ∧ (insertCar env w veh d r t0 cars).2.2.2 = [veh]
          ∧ (insertCar env w veh d r t0 cars).2.2.1 = true
          ∧ ∀ sch : Scheduler, sch.applyAll evs = sch)
        ∨ (∃ c0, cars = [c0] ∧ (insertCar env w veh d r t0 cars).2.2.2 = [c0, veh]
          ∧ (insertCar env w veh d r t0 cars).2.2.1 = true
          ∧ ∀ sch : Scheduler, sch.applyAll evs = sch.apply (Event.removeLeaderCar c0))
        ∨ (∃ c0 c1 rest, cars = c0 :: c1 :: rest
          ∧ (insertCar env w veh d r t0 cars).2.2.2 = c0 :: veh :: c1 :: rest
          ∧ (insertCar env w veh d r t0 cars).2.2.1 = false
          ∧ ∀ sch : Scheduler, sch.applyAll evs = sch)
        ∨ (∃ c0 rest, cars = c0 :: rest
          ∧ (insertCar env w veh d r t0 cars).2.2.2 = veh :: c0 :: rest
          ∧ (insertCar env w veh d r t0 cars).2.2.1 = false
          ∧ ∀ sch : Scheduler, sch.applyAll evs = sch)) := by
  have hov : (overtake env w r).2 = w ∨ (overtake env w r).2 = w.log Event.randDraw := by
    unfold overtake
    split_ifs
    · exact Or.inr rfl
    · exact Or.inl rfl
  have hovt : ∃ evs, (overtake env w r).2.trace = w.trace ++ evs
      ∧ ∀ sch : Scheduler, sch.applyAll evs = sch := by
    rcases hov with h | h
    · exact ⟨[], by rw [h]; simp, fun _ => rfl⟩
    · exact ⟨[Event.randDraw], by rw [h]; simp, fun _ => rfl⟩
  cases cars with
  | nil => exact ⟨[], by simp [insertCar], Or.inl ⟨rfl, rfl, rfl, fun _ => rfl⟩⟩
  | cons c0 rest =>
    unfold insertCar
    simp only []
    by_cases h1 : (!d && decide ((w.veh c0).eventTime > t0)) = true
    · rw [if_pos h1]
      obtain ⟨evs, he, hs⟩ := hovt
      by_cases h2 : (overtake env w r).1 = true
      · rw [if_pos h2]
        by_cases h3 : rest = []
        · rw [if_pos h3]
          subst h3
          refine ⟨evs ++ [Event.removeLeaderCar c0], ?_, Or.inr (Or.inl ⟨c0, rfl, rfl, rfl, ?_⟩)⟩
          · simp [he]
          · intro sch
            rw [applyAll_append, hs]
            rfl
        · rw [if_neg h3]
          cases rest with
          | nil => exact absurd rfl h3
          | cons c1 rest1 =>
            exact ⟨evs, he, Or.inr (Or.inr (Or.inl ⟨c0, c1, rest1, rfl, rfl, rfl, hs⟩))⟩
      · rw [if_neg h2]
        exact ⟨evs, he, Or.inr (Or.inr (Or.inr ⟨c0, rest, rfl, rfl, rfl, hs⟩))⟩
    · rw [if_neg h1]
      exact ⟨[], by simp, Or.inr (Or.inr (Or.inr ⟨c0, rest, rfl, rfl, rfl, fun _ => rfl⟩))⟩

/-- The calls of a `receive` on the arrival path touch no leader. -/
theorem receive_arrived_sched (env : Env) (w : World) (veh : VehPtr) (time : SUMOTime)
    (d a : Bool) (r : SUMOReal) (h : arrivalOnEntry w.seg (w.veh veh) d a = true) :
    ∃ evs, (receive env w veh time d a r).trace = w.trace ++ evs
      ∧ ∀ sch : Scheduler, sch.applyAll evs = sch := by
  have harr : ∀ (s : MESegment) (v : MEVehicle) (x : Option String) (t b : SUMOTime),
      arrivalOnEntry s { v with segment := x, lastEntryTime := t, blockTime := b } d a
        = arrivalOnEntry s v d a := fun _ _ _ _ _ => rfl
  refine ⟨[Event.activateReminders veh Notification.JUNCTION,
    Event.updateDetectors veh time true (some Notification.ARRIVED),
    Event.scheduleVehicleRemoval veh], ?_, fun _ => rfl⟩
  unfold receive
  simp only [setVeh_seg, setVeh_veh_self, harr, h, if_true]
  simp [updateDetectorsOnLeave]

/-- The queue and the calls of a `receive` that queues the vehicle, by the
shape of the selected queue. -/
theorem receive_queued_sched (env : Env) (w : World) (veh : VehPtr) (time : SUMOTime)
    (d a : Bool) (r : SUMOReal) (h : arrivalOnEntry w.seg (w.veh veh) d a = false) :
    ∃ evs newcars, (receive env w veh time d a r).trace = w.trace ++ evs
      ∧ (receive env w veh time d a r).seg.myCarQues
          = w.seg.myCarQues.set (chooseQueue w.seg (w.veh veh).succEdge1) newcars
      ∧ ((w.seg.que (chooseQueue w.seg (w.veh veh).succEdge1) = [] ∧ newcars = [veh]
          ∧ ∀ sch : Scheduler, sch.applyAll evs = sch.apply (Event.addLeaderCar veh))
        ∨ (∃ c0, w.seg.que (chooseQueue w.seg (w.veh veh).succEdge1) = [c0] ∧ newcars = [c0, veh]
          ∧ ∀ sch : Scheduler, sch.applyAll evs
              = (sch.apply (Event.removeLeaderCar c0)).apply (Event.addLeaderCar veh))
        ∨ (∃ c0 c1 rest, w.seg.que (chooseQueue w.seg (w.veh veh).succEdge1) = c0 :: c1 :: rest
          ∧ newcars = c0 :: veh :: c1 :: rest ∧ ∀ sch : Scheduler, sch.applyAll evs = sch)
        ∨ (∃ c0 rest, w.seg.que (chooseQueue w.seg (w.veh veh).succEdge1) = c0 :: rest
          ∧ newcars = veh :: c0 :: rest ∧ ∀ sch : Scheduler, sch.applyAll evs = sch)) := by
  have harr : ∀ (s : MESegment) (v : MEVehicle) (x : Option String) (t b : SUMOTime),
      arrivalOnEntry s { v with segment := x, lastEntryTime := t, blockTime := b } d a
        = arrivalOnEntry s v d a := fun _ _ _ _ _ => rfl
  obtain ⟨evs, he, hcases⟩ := insertCar_sched env (w.setVeh veh (fun v => { v with segment := some w.seg.id, lastEntryTime := time, blockTime := SUMOTime_MAX })) veh d r
      (tentativeLeave w.seg { w.veh veh with segment := some w.seg.id, lastEntryTime := time, blockTime := SUMOTime_MAX } time
        (chooseQueue w.seg (w.veh veh).succEdge1))
      (w.seg.que (chooseQueue w.seg (w.veh veh).succEdge1))
  simp only [setVeh_trace] at he
  have hq : (receive env w veh time d a r).seg.myCarQues
      = w.seg.myCarQues.set (chooseQueue w.seg (w.veh veh).succEdge1)
        (insertCar env (w.setVeh veh (fun v => { v with segment := some w.seg.id, lastEntryTime := time, blockTime := SUMOTime_MAX })) veh d r
          (tentativeLeave w.seg { w.veh veh with segment := some w.seg.id, lastEntryTime := time, blockTime := SUMOTime_MAX } time
            (chooseQueue w.seg (w.veh veh).succEdge1))
          (w.seg.que (chooseQueue w.seg (w.veh veh).succEdge1))).2.2.2 := by
    unfold receive
    simp only [setVeh_seg, setVeh_veh_self, harr, h, Bool.false_eq_true, if_false]
    split_ifs <;> simp
  have ht : ∃ e, (receive env w veh time d a r).trace
      = (insertCar env (w.setVeh veh (fun v => { v with segment := some w.seg.id, lastEntryTime := time, blockTime := SUMOTime_MAX })) veh d r
          (tentativeLeave w.seg { w.veh veh with segment := some w.seg.id, lastEntryTime := time, blockTime := SUMOTime_MAX } time
            (chooseQueue w.seg (w.veh veh).succEdge1))
          (w.seg.que (chooseQueue w.seg (w.veh veh).succEdge1))).1.trace
        ++ (Event.activateReminders veh e
          :: (if (insertCar env (w.setVeh veh (fun v => { v with segment := some w.seg.id, lastEntryTime := time, blockTime := SUMOTime_MAX })) veh d r
              (tentativeLeave w.seg { w.veh veh with segment := some w.seg.id, lastEntryTime := time, blockTime := SUMOTime_MAX } time
                (chooseQueue w.seg (w.veh veh).succEdge1))
              (w.seg.que (chooseQueue w.seg (w.veh veh).succEdge1))).2.2.1 = true
            then [Event.addLeaderCar veh] else [])) := by
    refine ⟨if d = true then Notification.DEPARTED
      else if (w.seg.myIndex == 0 || a) = true then Notification.JUNCTION
      else Notification.SEGMENT, ?_⟩
    unfold receive
    simp only [setVeh_seg, setVeh_veh_self, harr, h, Bool.false_eq_true, if_false]
    split_ifs <;> simp_all
  obtain ⟨e, ht⟩ := ht
  rw [he] at ht
  refine ⟨_, _, by rw [ht, List.append_assoc], hq, ?_⟩
  rcases hcases with ⟨h1, h2, h3, h4⟩ | ⟨c0, h1, h2, h3, h4⟩ | ⟨c0, c1, rest, h1, h2, h3, h4⟩
      | ⟨c0, rest, h1, h2, h3, h4⟩
  · refine Or.inl ⟨h1, h2, fun sch => ?_⟩
    rw [applyAll_append, h4, h3]
    rfl
  · refine Or.inr (Or.inl ⟨c0, h1, h2, fun sch => ?_⟩)
    rw [applyAll_append, h4, h3]
    rfl
  · refine Or.inr (Or.inr (Or.inl ⟨c0, c1, rest, h1, h2, fun sch => ?_⟩))
    rw [applyAll_append, h4, h3]
    rfl
  · refine Or.inr (Or.inr (Or.inr ⟨c0, rest, h1, h2, fun sch => ?_⟩))
    rw [applyAll_append, h4, h3]
    rfl

/-- The leaders after one queue has been replaced. -/
theorem isLeader_set (w w1 : World) (i : Nat) (newcars : List VehPtr)
    (hq : w1.seg.myCarQues = w.seg.myCarQues.set i newcars) (hi : i < w.seg.myCarQues.length)
    (u : VehPtr) :
    IsLeader w1 u
      ↔ (newcars.getLast? = some u ∨ ∃ q, q ≠ i ∧ (w.seg.que q).getLast? = some u) := by
  have hque : ∀ q, w1.seg.que q = if q = i then newcars else w.seg.que q := by
    intro q
    unfold MESegment.que
    rw [hq, getD_set_queues]
    by_cases h : q = i
    · rw [if_pos ⟨h, hi⟩, if_pos h]
    · rw [if_neg (fun e => h e.1), if_neg h]
  constructor
  · rintro ⟨q, h⟩
    rw [hque] at h
    by_cases hqi : q = i
    · rw [if_pos hqi] at h; exact Or.inl h
    · rw [if_neg hqi] at h; exact Or.inr ⟨q, hqi, h⟩
  · rintro (h | ⟨q, hqi, h⟩)
    · exact ⟨i, by rw [hque, if_pos rfl]; exact h⟩
    · exact ⟨q, by rw [hque, if_neg hqi]; exact h⟩

theorem receive_queIndexOk (env : Env) (w : World) (veh : VehPtr) (time : SUMOTime)
    (d a : Bool) (r : SUMOReal) (hfresh : ∀ q, veh ∉ w.seg.que q) (hidx : QueIndexOk w) :
    QueIndexOk (receive env w veh time d a r) := by
  intro q v hv
  by_cases harr : arrivalOnEntry w.seg (w.veh veh) d a = true
  · obtain ⟨hseg, hveh⟩ := receive_arrived env w veh time d a r harr
    rw [hseg] at hv
    rw [hveh v (fun e => hfresh q (e ▸ hv))]
    exact hidx q v hv
  have harr1 : arrivalOnEntry w.seg (w.veh veh) d a = false := by simpa using harr
  obtain ⟨_, _, _, hveh, _, _⟩ := receive_queued env w veh time d a r harr1
  have hold : v ∈ w.seg.que q → ((receive env w veh time d a r).veh v).queIndex = q := by
    intro hm
    rw [hveh v (fun e => hfresh q (e ▸ hm))]
    exact hidx q v hm
  have hnew : q = chooseQueue w.seg (w.veh veh).succEdge1 → v = veh →
      ((receive env w veh time d a r).veh v).queIndex = q := by
    intro hq hvv
    rw [hvv, receive_queIndex env w veh time d a r harr1, hq]
  rcases receive_que env w veh time d a r harr1 q with h | ⟨hq, h⟩
  · rw [h] at hv; exact hold hv
  · rcases h with ⟨h1, h2⟩ | ⟨c0, rest, h1, h2 | h2⟩
    · rw [h2] at hv
      exact hnew hq (by simpa using hv)
    · rw [h2] at hv
      rcases List.mem_cons.mp hv with e | hm
      · exact hold (by rw [h1, e]; simp)
      · rcases List.mem_cons.mp hm with e | hm
        · exact hnew hq e
        · exact hold (by rw [h1]; simp [hm])
    · rw [h2] at hv
      rcases List.mem_cons.mp hv with e | hm
      · exact hnew hq e
      · exact hold (by rw [h1]; exact hm)

/-- A `receive` keeps the scheduler's set equal to the set of leaders and
removes only a registered vehicle. -/
theorem receive_registered (sch : Scheduler) (env : Env) (w : World) (veh : VehPtr)
    (time : SUMOTime) (d a : Bool) (r : SUMOReal)
    (hp : sch.paired = true) (hreg : ∀ u, u ∈ sch.registered ↔ IsLeader w u)
    (hdist : QueuesDistinct w) (hsafe : RegSafe w (Op.receive env veh time d a r)) :
    (schedStep sch w (Op.receive env veh time d a r)).paired = true
    ∧ ∀ u, u ∈ (schedStep sch w (Op.receive env veh time d a r)).registered
        ↔ IsLeader (step w (Op.receive env veh time d a r)) u := by
  obtain ⟨hfresh, hvalid⟩ := hsafe
  show (sch.applyAll ((receive env w veh time d a r).trace.drop w.trace.length)).paired = true
    ∧ ∀ u, u ∈ (sch.applyAll ((receive env w veh time d a r).trace.drop w.trace.length)).registered
        ↔ IsLeader (receive env w veh time d a r) u
  by_cases harr : arrivalOnEntry w.seg (w.veh veh) d a = true
  · obtain ⟨evs, he, hs⟩ := receive_arrived_sched env w veh time d a r harr
    rw [drop_trace he, hs]
    refine ⟨hp, fun u => ?_⟩
    rw [hreg]
    unfold IsLeader
    rw [(receive_arrived env w veh time d a r harr).1]
  have harr1 : arrivalOnEntry w.seg (w.veh veh) d a = false := by simpa using harr
  have hi : chooseQueue w.seg (w.veh veh).succEdge1 < w.seg.myCarQues.length := by
    rcases hvalid with h | h
    · exact absurd h harr
    · exact h
  obtain ⟨evs, newcars, he, hq, hcases⟩ := receive_queued_sched env w veh time d a r harr1
  rw [drop_trace he]
  have hl := isLeader_set w (receive env w veh time d a r) _ newcars hq hi
  rcases hcases with ⟨h1, h2, h3⟩ | ⟨c0, h1, h2, h3⟩ | ⟨c0, c1, rest, h1, h2, h3⟩
      | ⟨c0, rest, h1, h2, h3⟩
  · -- empty queue: the vehicle is registered
    rw [h3]
    refine ⟨hp, fun u => ?_⟩
    rw [hl u, h2]
    simp only [Scheduler.apply, Finset.mem_insert, hreg, List.getLast?_singleton,
      Option.some.injEq]
    constructor
    · rintro (e | ⟨q, hq1⟩)
      · exact Or.inl e.symm
      · refine Or.inr ⟨q, fun e => ?_, hq1⟩
        rw [e, h1] at hq1
        simp at hq1
    · rintro (e | ⟨q, _, hq1⟩)
      · exact Or.inl e.symm
      · exact Or.inr ⟨q, hq1⟩
  · -- overtaking a single vehicle: it is removed and the newcomer registered
    rw [h3]
    have hc0 : c0 ∈ sch.registered := (hreg c0).mpr ⟨_, by rw [h1]; rfl⟩
    refine ⟨by simp [Scheduler.apply, hp, hc0], fun u => ?_⟩
    rw [hl u, h2]
    simp only [Scheduler.apply, Finset.mem_insert, Finset.mem_erase, hreg]
    have hlast : [c0, veh].getLast? = some veh := rfl
    rw [hlast]
    simp only [Option.some.injEq]
    constructor
    · rintro (e | ⟨hne, q, hq1⟩)
      · exact Or.inl e.symm
      · refine Or.inr ⟨q, fun e => hne ?_, hq1⟩
        rw [e, h1] at hq1
        simpa using hq1.symm
    · rintro (e | ⟨q, hqi, hq1⟩)
      · exact Or.inl e.symm
      · refine Or.inr ⟨fun e => ?_, q, hq1⟩
        have hm1 : u ∈ w.seg.que q := List.mem_of_getLast?_eq_some hq1
        have hm2 : u ∈ w.seg.que (chooseQueue w.seg (w.veh veh).succEdge1) := by
          rw [h1, e]; simp
        exact hdist.2 q _ hqi hm1 hm2
  · -- overtaking into a longer queue: the leader stays
    rw [h3]
    refine ⟨hp, fun u => ?_⟩
    rw [hl u, h2, hreg]
    have hlast : (c0 :: veh :: c1 :: rest).getLast? = (c0 :: c1 :: rest).getLast? := by
      simp [List.getLast?_cons_cons]
    rw [hlast, ← h1]
    constructor
    · rintro ⟨q, hq1⟩
      by_cases hqi : q = chooseQueue w.seg (w.veh veh).succEdge1
      · exact Or.inl (hqi ▸ hq1)
      · exact Or.inr ⟨q, hqi, hq1⟩
    · rintro (h | ⟨q, _, hq1⟩)
      · exact ⟨_, h⟩
      · exact ⟨q, hq1⟩
  · -- queued behind: the leader stays
    rw [h3]
    refine ⟨hp, fun u => ?_⟩
    rw [hl u, h2, hreg]
    have hlast : (veh :: c0 :: rest).getLast? = (c0 :: rest).getLast? := by
      simp [List.getLast?_cons_cons]
    rw [hlast, ← h1]
    constructor
    · rintro ⟨q, hq1⟩
      by_cases hqi : q = chooseQueue w.seg (w.veh veh).succEdge1
      · exact Or.inl (hqi ▸ hq1)
      · exact Or.inr ⟨q, hqi, hq1⟩
    · rintro (h | ⟨q, _, hq1⟩)
      · exact ⟨_, h⟩
      · exact ⟨q, hq1⟩

/-- The two outcomes of `vaporizeAnyCar`: nothing is queued and nothing
happens, or the victim is `front()` of some queue and a leader is removed
exactly when the victim is alone in that queue. -/
theorem vaporizeAnyCar_cases (w : World) (t : SUMOTime) :
    vaporizeAnyCar w t = (false, none, w)
    ∨ ∃ i victim rest w1 evs, w.seg.que i = victim :: rest
        ∧ vaporizeAnyCar w t = (true, some victim, w1)
        ∧ w1.seg = w.seg ∧ w1.veh = w.veh ∧ w1.trace = w.trace ++ evs
        ∧ ((rest = [] ∧ ∀ sch : Scheduler,
              sch.applyAll evs = sch.apply (Event.removeLeaderCar victim))
          ∨ (rest ≠ [] ∧ ∀ sch : Scheduler, sch.applyAll evs = sch)) := by
  unfold vaporizeAnyCar
  cases hf : w.seg.myCarQues.find? (fun k => !k.isEmpty) with
  | none => exact Or.inl rfl
  | some k =>
    right
    have hmem : k ∈ w.seg.myCarQues := List.mem_of_find?_eq_some hf
    obtain ⟨i, hi, hik⟩ := List.getElem_of_mem hmem
    have hque : w.seg.que i = k := by
      unfold MESegment.que
      rw [List.getD_eq_getElem?_getD, List.getElem?_eq_getElem hi, hik]
      rfl
    have hne : k ≠ [] := by
      have := List.find?_some hf
      intro e
      rw [e] at this
      simp at this
    cases k with
    | nil => exact absurd rfl hne
    | cons victim rest =>
      cases rest with
      | nil =>
        exact ⟨i, victim, [], _, [Event.removeLeaderCar victim,
          Event.changeSegmentToVaporization victim t], hque, rfl, rfl, rfl, by simp,
          Or.inl ⟨rfl, fun _ => rfl⟩⟩
      | cons c1 rest1 =>
        exact ⟨i, victim, c1 :: rest1, _, [Event.changeSegmentToVaporization victim t], hque,
          rfl, rfl, rfl, by simp, Or.inr ⟨by simp, fun _ => rfl⟩⟩

theorem regInv_send (sch : Scheduler) (w : World) (v : VehPtr) (n : NextSeg) (t : SUMOTime)
    (h : RegInv sch w) : RegInv (schedStep sch w (Op.send v n t)) (step w (Op.send v n t)) := by
  obtain ⟨hp, hreg, hdist, hidx⟩ := h
  exact ⟨by rw [send_paired]; exact hp, send_registered sch w v n t hidx hreg,
    send_distinct w v n t hdist, send_queIndexOk w v n t hidx⟩

theorem regInv_receive (sch : Scheduler) (env : Env) (w : World) (veh : VehPtr)
    (time : SUMOTime) (d a : Bool) (r : SUMOReal) (h : RegInv sch w)
    (hsafe : RegSafe w (Op.receive env veh time d a r)) :
    RegInv (schedStep sch w (Op.receive env veh time d a r))
      (step w (Op.receive env veh time d a r)) := by
  obtain ⟨hp, hreg, hdist, hidx⟩ := h
  obtain ⟨h1, h2⟩ := receive_registered sch env w veh time d a r hp hreg hdist hsafe
  exact ⟨h1, h2, receive_distinct env w veh time d a r hsafe.1 hdist,
    receive_queIndexOk env w veh time d a r hsafe.1 hidx⟩

theorem regInv_setSpeed (sch : Scheduler) (env : Env) (w : World) (ns : SUMOReal)
    (t : SUMOTime) (jt : SUMOReal) (h : RegInv sch w) :
    RegInv (schedStep sch w (Op.setSpeed env ns t jt)) (step w (Op.setSpeed env ns t jt)) := by
  obtain ⟨hp, hreg, hdist, hidx⟩ := h
  obtain ⟨hq, evs, he, hs⟩ := setSpeed_sched env w ns t jt
  have hsch : schedStep sch w (Op.setSpeed env ns t jt) = sch := by
    show sch.applyAll ((setSpeed env w ns t jt).trace.drop w.trace.length) = sch
    rw [drop_trace he]
    exact hs sch hp (fun v hv => (hreg v).mpr hv)
  rw [hsch]
  show RegInv sch (setSpeed env w ns t jt)
  refine ⟨hp, fun u => ?_, ⟨fun q => ?_, fun q1 q2 hne => ?_⟩, fun q v hv => ?_⟩
  · rw [hreg]
    unfold IsLeader
    simp only [setSpeed_que]
  · rw [setSpeed_que]; exact hdist.1 q
  · rw [setSpeed_que, setSpeed_que]; exact hdist.2 q1 q2 hne
  · rw [setSpeed_que] at hv
    rw [hq]
    exact hidx q v hv

theorem regInv_vaporize (sch : Scheduler) (w : World) (t : SUMOTime) (h : RegInv sch w) :
    RegInv (schedStep sch w (Op.vaporizeAnyCar t)) (step w (Op.vaporizeAnyCar t)) := by
  obtain ⟨hp, hreg, hdist, hidx⟩ := h
  rcases vaporizeAnyCar_cases w t with hv | ⟨i, victim, rest, w1, evs, hque, hv, hseg, hveh, htr, hev⟩
  · have hstep : step w (Op.vaporizeAnyCar t) = w := by
      simp only [step, hv]
    have hsch : schedStep sch w (Op.vaporizeAnyCar t) = sch := by
      simp only [schedStep, hstep, List.drop_length]
      rfl
    rw [hstep, hsch]
    exact ⟨hp, hreg, hdist, hidx⟩
  · have hstep : step w (Op.vaporizeAnyCar t) = send w1 victim NextSeg.vaporizationTarget t := by
      simp only [step, hv, changeSegmentToVaporization]
    have hidx1 : QueIndexOk w1 := by
      intro q v hm
      rw [hseg] at hm
      rw [hveh]
      exact hidx q v hm
    have hdist1 : QueuesDistinct w1 := by
      unfold QueuesDistinct
      rw [hseg]
      exact hdist
    have hlead1 : ∀ u, IsLeader w1 u ↔ IsLeader w u := by
      intro u
      unfold IsLeader
      rw [hseg]
    have hvi : (w1.veh victim).queIndex = i := by
      rw [hveh]
      exact hidx i victim (by rw [hque]; simp)
    have hnd : (victim :: rest).Nodup := hque ▸ hdist.1 i
    -- no new leader is reported: the victim is alone or is not the vehicle that leaves next
    have hlc : (removeCar w1 victim t NextSeg.vaporizationTarget).1 = none := by
      rw [removeCar_leader, hvi, hseg, hque]
      cases rest with
      | nil => simp
      | cons c1 rest1 =>
        rw [if_neg]
        intro hl
        have hm : victim ∈ c1 :: rest1 := by
          rw [List.getLast?_cons_cons] at hl
          exact List.mem_of_getLast?_eq_some hl
        exact (List.nodup_cons.mp hnd).1 hm
    obtain ⟨e, hsend⟩ := send_emits w1 victim NextSeg.vaporizationTarget t
    rw [hlc] at hsend
    have hdelta : (send w1 victim NextSeg.vaporizationTarget t).trace.drop w.trace.length
        = evs ++ [Event.updateDetectors victim t true e] := by
      rw [hsend, htr, List.append_assoc]
      exact List.drop_left _ _
    have hsch : schedStep sch w (Op.vaporizeAnyCar t) = sch.applyAll evs := by
      show sch.applyAll ((step w (Op.vaporizeAnyCar t)).trace.drop w.trace.length) = _
      rw [hstep, hdelta, applyAll_append]
      rfl
    rw [hsch, hstep]
    refine ⟨?_, fun u => ?_, send_distinct w1 victim _ t hdist1, send_queIndexOk w1 victim _ t hidx1⟩
    · rcases hev with ⟨hr, hs⟩ | ⟨_, hs⟩
      · rw [hs]
        have hreg1 : victim ∈ sch.registered :=
          (hreg victim).mpr ⟨i, by rw [hque, hr]; rfl⟩
        simp [Scheduler.apply, hp, hreg1]
      · rw [hs]; exact hp
    · rw [send_isLeader w1 victim _ t hidx1, hlc, hlead1]
      simp only [reduceCtorEq, false_or]
      rcases hev with ⟨hr, hs⟩ | ⟨hr, hs⟩
      · rw [hs]
        simp only [Scheduler.apply, Finset.mem_erase, hreg]
      · rw [hs, hreg]
        refine ⟨fun hl => ⟨fun e => ?_, hl⟩, fun hl => hl.2⟩
        -- the victim is not the vehicle that leaves next
        subst e
        obtain ⟨q, hq⟩ := hl
        have hm : u ∈ w.seg.que q := List.mem_of_getLast?_eq_some hq
        have hqi : q = i := by
          rw [← hidx q u hm, ← hveh]
          exact hvi
        rw [hqi, hque] at hq
        cases rest with
        | nil => exact hr rfl
        | cons c1 rest1 =>
          rw [List.getLast?_cons_cons] at hq
          exact (List.nodup_cons.mp hnd).1 (List.mem_of_getLast?_eq_some hq)

theorem step_regInv (sch : Scheduler) (w : World) (op : Op) (h : RegInv sch w)
    (hsafe : RegSafe w op) : RegInv (schedStep sch w op) (step w op) := by
  cases op with
  | receive env veh time d a r => exact regInv_receive sch env w veh time d a r h hsafe
  | send v n t => exact regInv_send sch w v n t h
  | vaporizeAnyCar t => exact regInv_vaporize sch w t h
  | setSpeed env ns t jt => exact regInv_setSpeed sch env w ns t jt h
  | loadState vehs b q => exact absurd hsafe (by simp [RegSafe])

theorem run_regInv (ops : List Op) (sch : Scheduler) (w : World) (h : RegInv sch w)
    (hsafe : RegSafeRun w ops) (k : Nat) :
    RegInv (schedRun sch w (ops.take k)) (run w (ops.take k)) := by
  induction ops generalizing sch w k with
  | nil => simpa [run, schedRun] using h
  | cons op rest ih =>
    cases k with
    | zero => simpa [run, schedRun] using h
    | succ k =>
      obtain ⟨h1, h2⟩ := hsafe
      exact ih (schedStep sch w op) (step w op) (step_regInv sch w op h h1) h2 k

/-- C16: with the scheduler modelled as the set of vehicles registered by
`addLeaderCar` and not yet removed by `removeLeaderCar` (the scheduler removing
a vehicle itself before it calls `send` on it), start from a state in which the
registered vehicles are the vehicles next to leave the queues, no vehicle is
queued twice and every queued vehicle records its queue.  Then after every
operation of a sequence of receive, send, vaporizeAnyCar and setSpeed whose
received vehicles are not queued already and are given an existing queue, the
registered vehicles are exactly the vehicles next to leave the non-empty
queues, no vehicle is next to leave two queues, and every `removeLeaderCar`
issued named a vehicle registered at that moment. -/
theorem leader_registration (sch : Scheduler) (w : World) (ops : List Op) (k : Nat)
    (hpaired : sch.paired = true)
    (hreg : ∀ v, v ∈ sch.registered ↔ ∃ q, (w.seg.que q).getLast? = some v)
    (hdist : QueuesDistinct w) (hidx : QueIndexOk w) (hsafe : RegSafeRun w ops) :
    (∀ v, v ∈ (schedRun sch w (ops.take k)).registered
        ↔ ∃ q, ((run w (ops.take k)).seg.que q).getLast? = some v)
    ∧ (∀ q1 q2 v, ((run w (ops.take k)).seg.que q1).getLast? = some v →
        ((run w (ops.take k)).seg.que q2).getLast? = some v → q1 = q2)
    ∧ (schedRun sch w (ops.take k)).paired = true := by
  obtain ⟨h1, h2, h3, _⟩ := run_regInv ops sch w ⟨hpaired, hreg, hdist, hidx⟩ hsafe k
  refine ⟨h2, fun q1 q2 v hq1 hq2 => ?_, h1⟩
  by_contra hne
  exact h3.2 q1 q2 hne (List.mem_of_getLast?_eq_some hq1) (List.mem_of_getLast?_eq_some hq2)

/-- Witness for C16: the four operations of `exRegOps` on the empty two-lane
segment with an empty scheduler. -/
theorem leader_registration_witness :
    ((0 : VehPtr) ∈ (schedRun { registered := ∅, paired := true }
          (World.fresh exSegmentTwoLanes exStoreFast) (exRegOps.take 4)).registered
        ↔ ∃ q, ((run (World.fresh exSegmentTwoLanes exStoreFast) (exRegOps.take 4)).seg.que
            q).getLast? = some 0)
    ∧ (schedRun { registered := ∅, paired := true }
          (World.fresh exSegmentTwoLanes exStoreFast) (exRegOps.take 4)).paired = true := by
  have hlen0 : (World.fresh exSegmentTwoLanes exStoreFast).seg.myCarQues.length = 1 := rfl
  have hlen1 : (receive exEnv (World.fresh exSegmentTwoLanes exStoreFast) 0 0 true false
      0).seg.myCarQues.length = 1 :=
    carQues_length_of_fixed (receive_fixed _ _ _ _ _ _ _)
  have g1 : chooseQueue (World.fresh exSegmentTwoLanes exStoreFast).seg
      ((World.fresh exSegmentTwoLanes exStoreFast).veh 0).succEdge1
      < (World.fresh exSegmentTwoLanes exStoreFast).seg.myCarQues.length := by
    rw [chooseQueue_single _ _ (le_of_eq hlen0), hlen0]
    exact Nat.one_pos
  have g2 : chooseQueue (receive exEnv (World.fresh exSegmentTwoLanes exStoreFast) 0 0 true false 0).seg
      ((receive exEnv (World.fresh exSegmentTwoLanes exStoreFast) 0 0 true false 0).veh 1).succEdge1
      < (receive exEnv (World.fresh exSegmentTwoLanes exStoreFast) 0 0 true false
          0).seg.myCarQues.length := by
    rw [chooseQueue_single _ _ (le_of_eq hlen1), hlen1]
    exact Nat.one_pos
  have f1 : ∀ q, (0 : VehPtr) ∉ (World.fresh exSegmentTwoLanes exStoreFast).seg.que q := by
    intro q
    rw [fresh_que_nil]; simp
  have f2 : ∀ q, (1 : VehPtr) ∉ (receive exEnv (World.fresh exSegmentTwoLanes exStoreFast) 0 0
      true false 0).seg.que q :=
    not_mem_que_of_forall _ _ (by
      have := exDeparts_first
      simp only [step] at this
      rw [this]; simp)
  have h := leader_registration { registered := ∅, paired := true }
    (World.fresh exSegmentTwoLanes exStoreFast) exRegOps 4 rfl
    (fun v => by
      constructor
      · intro hv
        exact absurd hv (Finset.not_mem_empty v)
      · rintro ⟨q, hq⟩
        rw [fresh_que_nil] at hq
        simp at hq)
    ⟨fun q => by rw [fresh_que_nil]; exact List.nodup_nil,
      fun q1 q2 _ => by rw [fresh_que_nil]; exact List.disjoint_nil_left _⟩
    (fun q v hv => by rw [fresh_que_nil] at hv; simp at hv)
    ⟨⟨f1, Or.inr g1⟩, ⟨f2, Or.inr g2⟩, trivial, trivial, trivial⟩
  exact ⟨h.1 0, h.2.2⟩

/-! ## Jam threshold, overtaking and entry block time -/

theorem doNotPatch_pos : (0 : SUMOReal) < DO_NOT_PATCH_JAM_THRESHOLD := by
  unfold DO_NOT_PATCH_JAM_THRESHOLD
  norm_num

/-- C23: `recomputeJamThreshold(jamThresh)` leaves the segment as it is when
`jamThresh` is the do-not-patch value; for a negative `jamThresh` the jam
threshold becomes `ceil(L / (v_max * tau_ff in seconds))` times the default
vehicle length plus gap; for any other `jamThresh` it becomes `jamThresh *
capacity`. -/
theorem recomputeJamThreshold_spec (env : Env) (s : MESegment) (jamThresh : SUMOReal) :
    (jamThresh = DO_NOT_PATCH_JAM_THRESHOLD → recomputeJamThreshold env s jamThresh = s)
    ∧ (jamThresh < 0 →
        (recomputeJamThreshold env s jamThresh).myJamThreshold
          = ((⌈s.myLength / (s.myMaxSpeed * STEPS2TIME s.myTau_ff)⌉ : Int) : ℚ)
            * (env.defaultLength + env.defaultMinGap))
    ∧ (0 ≤ jamThresh → jamThresh ≠ DO_NOT_PATCH_JAM_THRESHOLD →
        (recomputeJamThreshold env s jamThresh).myJamThreshold = jamThresh * s.myCapacity) := by
  refine ⟨fun h => ?_, fun h => ?_, fun h0 hne => ?_⟩
  · unfold recomputeJamThreshold
    rw [if_pos h]
  · have hne : jamThresh ≠ DO_NOT_PATCH_JAM_THRESHOLD :=
      fun e => absurd (e ▸ h) (not_lt.mpr (le_of_lt doNotPatch_pos))
    unfold recomputeJamThreshold
    rw [if_neg hne, if_pos h]
    rfl
  · unfold recomputeJamThreshold
    rw [if_neg hne, if_neg (not_lt.mpr h0)]

theorem recomputeJamThreshold_spec_witness :
    recomputeJamThreshold exEnv exSegment DO_NOT_PATCH_JAM_THRESHOLD = exSegment
    ∧ (recomputeJamThreshold exEnv exSegment (-1)).myJamThreshold
        = ((⌈exSegment.myLength / (exSegment.myMaxSpeed * STEPS2TIME exSegment.myTau_ff)⌉ : Int) : ℚ)
          * (exEnv.defaultLength + exEnv.defaultMinGap)
    ∧ (recomputeJamThreshold exEnv exSegment (1 / 2)).myJamThreshold
        = 1 / 2 * exSegment.myCapacity :=
  ⟨(recomputeJamThreshold_spec exEnv exSegment DO_NOT_PATCH_JAM_THRESHOLD).1 rfl,
    (recomputeJamThreshold_spec exEnv exSegment (-1)).2.1 (by norm_num),
    (recomputeJamThreshold_spec exEnv exSegment (1 / 2)).2.2 (by norm_num)
      (fun e => by
        have h := doNotPatch_pos
        unfold DO_NOT_PATCH_JAM_THRESHOLD at e h
        norm_num at e)⟩

/-- C28: `overtake()` returns true exactly when overtaking is enabled, the
capacity exceeds the length and the random draw exceeds occupancy / capacity;
so it returns false when capacity = length, and, the draw being below 1 and the
length non-negative, when occupancy = capacity. -/
theorem overtake_spec (env : Env) (w : World) (r : SUMOReal) :
    ((overtake env w r).1 = true
      ↔ env.gMesoOvertaking = true ∧ w.seg.myCapacity > w.seg.myLength
        ∧ r > w.seg.myOccupancy / w.seg.myCapacity)
    ∧ (w.seg.myCapacity = w.seg.myLength → (overtake env w r).1 = false)
    ∧ (0 ≤ w.seg.myLength → 0 ≤ r → r < 1 → w.seg.myOccupancy = w.seg.myCapacity →
        (overtake env w r).1 = false) := by
  have hiff : (overtake env w r).1 = true
      ↔ env.gMesoOvertaking = true ∧ w.seg.myCapacity > w.seg.myLength
        ∧ r > w.seg.myOccupancy / w.seg.myCapacity := by
    unfold overtake
    by_cases h : (env.gMesoOvertaking && decide (w.seg.myCapacity > w.seg.myLength)) = true
    · rw [if_pos h]
      simp only [Bool.and_eq_true, decide_eq_true_eq] at h
      simp [h.1, h.2]
    · rw [if_neg h]
      simp only [Bool.and_eq_true, decide_eq_true_eq, not_and] at h
      constructor
      · intro hf
        exact absurd hf (by simp)
      · rintro ⟨h1, h2, _⟩
        exact absurd h2 (h h1)
  refine ⟨hiff, fun hc => ?_, fun hL _ hr1 ho => ?_⟩
  · rw [Bool.eq_false_iff]
    intro ht
    have := (hiff.mp ht).2.1
    rw [hc] at this
    exact lt_irrefl _ this
  · rw [Bool.eq_false_iff]
    intro ht
    obtain ⟨_, h2, h3⟩ := hiff.mp ht
    have hpos : 0 < w.seg.myCapacity := lt_of_le_of_lt hL h2
    rw [ho, div_self (ne_of_gt hpos)] at h3
    exact absurd h3 (not_lt.mpr (le_of_lt hr1))

theorem overtake_spec_witness :
    ((overtake exEnv (World.fresh exSegmentTwoLanes exStoreFast) (9 / 10)).1 = true
      ↔ exEnv.gMesoOvertaking = true
        ∧ (World.fresh exSegmentTwoLanes exStoreFast).seg.myCapacity
            > (World.fresh exSegmentTwoLanes exStoreFast).seg.myLength
        ∧ (9 / 10 : SUMOReal) > (World.fresh exSegmentTwoLanes exStoreFast).seg.myOccupancy
            / (World.fresh exSegmentTwoLanes exStoreFast).seg.myCapacity)
    ∧ (overtake exEnv (World.fresh exSegment exStoreFast) (9 / 10)).1 = false
    ∧ (overtake exEnv (exWorld 100 exVehicle) (9 / 10)).1 = false :=
  ⟨(overtake_spec exEnv (World.fresh exSegmentTwoLanes exStoreFast) (9 / 10)).1,
    (overtake_spec exEnv (World.fresh exSegment exStoreFast) (9 / 10)).2.1 rfl,
    (overtake_spec exEnv (exWorld 100 exVehicle) (9 / 10)).2.2
      (by norm_num [exWorld, exSegment]) (by norm_num) (by norm_num) rfl⟩

/-- C29: a `receive` that is not a depart and whose route continues sets the
entry block time to `t + tau_ff - 1`, whatever the random draw that decides
overtaking; a depart leaves the entry block time as it is. -/
theorem receive_entryBlockTime (env : Env) (w : World) (veh : VehPtr) (time : SUMOTime)
    (a : Bool) (r : SUMOReal) :
    (arrivalOnEntry w.seg (w.veh veh) false a = false →
        (receive env w veh time false a r).seg.myEntryBlockTime = time + w.seg.myTau_ff - 1)
    ∧ (receive env w veh time true a r).seg.myEntryBlockTime = w.seg.myEntryBlockTime := by
  have harr : ∀ (d : Bool) (s : MESegment) (v : MEVehicle) (x : Option String) (t b : SUMOTime),
      arrivalOnEntry s { v with segment := x, lastEntryTime := t, blockTime := b } d a
        = arrivalOnEntry s v d a := fun _ _ _ _ _ _ => rfl
  constructor
  · intro h
    unfold receive
    simp only [setVeh_seg, setVeh_veh_self, harr, h, Bool.false_eq_true, if_false]
    split_ifs <;> simp
  · have h : arrivalOnEntry w.seg (w.veh veh) true a = false := rfl
    unfold receive
    simp only [setVeh_seg, setVeh_veh_self, harr, h, Bool.false_eq_true, if_false]
    split_ifs <;> simp

theorem receive_entryBlockTime_witness :
    (receive exEnv (World.fresh exSegmentTwoLanes exStoreFast) 2 1000 false false
        (9 / 10)).seg.myEntryBlockTime
      = 1000 + (World.fresh exSegmentTwoLanes exStoreFast).seg.myTau_ff - 1 :=
  (receive_entryBlockTime exEnv (World.fresh exSegmentTwoLanes exStoreFast) 2 1000
    false (9 / 10)).1 (by simp [arrivalOnEntry, exStoreFast, exVehicle, World.fresh])

/-! ## Queue selection -/

/-- The scan that keeps the first index of smallest key: its result splits the
scanned list into indices of larger key before it and of no smaller key after it. -/
theorem foldl_argmin (key : Nat → Nat) (l : List Nat) (a : Nat) :
    ∃ pre post,
      a :: l = pre ++ l.foldl (fun best i => if key i < key best then i else best) a :: post
      ∧ (∀ i ∈ pre, key (l.foldl (fun best i => if key i < key best then i else best) a) < key i)
      ∧ (∀ i ∈ post, key (l.foldl (fun best i => if key i < key best then i else best) a)
          ≤ key i) := by
  induction l using List.reverseRecOn with
  | nil => exact ⟨[], [], rfl, by simp, by simp⟩
  | append_singleton l x ih =>
    obtain ⟨pre, post, hsplit, hpre, hpost⟩ := ih
    rw [List.foldl_append, List.foldl_cons, List.foldl_nil]
    by_cases hx : key x < key (l.foldl (fun best i => if key i < key best then i else best) a)
    · rw [if_pos hx]
      refine ⟨a :: l, [], by simp, fun i hi => ?_, by simp⟩
      rw [hsplit] at hi
      rcases List.mem_append.mp hi with h | h
      · exact lt_trans hx (hpre i h)
      · rcases List.mem_cons.mp h with h | h
        · rw [h]; exact hx
        · exact lt_of_lt_of_le hx (hpost i h)
    · rw [if_neg hx]
      refine ⟨pre, post ++ [x], ?_, hpre, fun i hi => ?_⟩
      · rw [← List.cons_append, hsplit]
        simp
      · rcases List.mem_append.mp hi with h | h
        · exact hpost i h
        · rw [List.mem_singleton.mp h]
          exact Nat.le_of_not_lt hx

/-- C30: `receive` selects queue 0 when the segment has one queue, when the
vehicle has no next route edge, or when the follower map has no entry for that
edge; otherwise it selects an index listed for that edge whose queue is no
longer than that of any listed index, the first such index in listing order. -/
theorem chooseQueue_spec (s : MESegment) (succ : Option EdgeId) :
    (s.myCarQues.length ≤ 1 → chooseQueue s succ = 0)
    ∧ (succ = none → chooseQueue s succ = 0)
    ∧ (∀ e, succ = some e → s.myFollowerMap.lookup e = none → chooseQueue s succ = 0)
    ∧ (∀ e indices, 1 < s.myCarQues.length → succ = some e →
        s.myFollowerMap.lookup e = some indices → indices ≠ [] →
        ∃ pre post, indices = pre ++ chooseQueue s succ :: post
          ∧ (∀ i ∈ pre, (s.que (chooseQueue s succ)).length < (s.que i).length)
          ∧ (∀ i ∈ post, (s.que (chooseQueue s succ)).length ≤ (s.que i).length)) := by
  refine ⟨chooseQueue_single s succ, fun h => ?_, fun e he hl => ?_,
    fun e indices hlen he hl hne => ?_⟩
  · unfold chooseQueue
    rw [h]
    split_ifs <;> rfl
  · unfold chooseQueue
    rw [he]
    simp only [hl]
    split_ifs <;> rfl
  · have hc : chooseQueue s succ
        = indices.tail.foldl
            (fun best i => if (s.que i).length < (s.que best).length then i else best)
            (indices.headD 0) := by
      unfold chooseQueue
      rw [if_pos hlen, he]
      simp only [hl]
    cases indices with
    | nil => exact absurd rfl hne
    | cons a l =>
      rw [hc]
      exact foldl_argmin (fun i => (s.que i).length) l a

theorem chooseQueue_spec_witness :
    ∃ pre post, [2, 0] = pre ++ chooseQueue exSegmentFollowers (some 8) :: post
      ∧ (∀ i ∈ pre, (exSegmentFollowers.que (chooseQueue exSegmentFollowers (some 8))).length
          < (exSegmentFollowers.que i).length)
      ∧ (∀ i ∈ post, (exSegmentFollowers.que (chooseQueue exSegmentFollowers (some 8))).length
          ≤ (exSegmentFollowers.que i).length) :=
  (chooseQueue_spec exSegmentFollowers (some 8)).2.2.2 8 [2, 0] (by decide) rfl (by decide)
    (by decide)

/-- The queues selected on `exSegmentFollowers`: the empty queue 1 for edge 7,
and for edge 8 the first listed of the two queues of equal length. -/
theorem exSegmentFollowers_choice :
    chooseQueue exSegmentFollowers (some 7) = 1 ∧ chooseQueue exSegmentFollowers (some 8) = 2
    ∧ chooseQueue exSegmentFollowers (some 9) = 0 ∧ chooseQueue exSegmentFollowers none = 0 := by
  decide

/-! ## Insertion into a queue -/

/-- Whether `overtake()` succeeds depends on the segment and the draw only. -/
theorem overtake_fst_congr (env : Env) (w w1 : World) (r : SUMOReal) (h : w1.seg = w.seg) :
    (overtake env w1 r).1 = (overtake env w r).1 := by
  unfold overtake
  rw [h]
  split_ifs <;> rfl

/-- A successful `overtake()` has drawn a random number. -/
theorem overtake_true_world (env : Env) (w : World) (r : SUMOReal)
    (h : (overtake env w r).1 = true) : (overtake env w r).2 = w.log Event.randDraw := by
  unfold overtake at h ⊢
  split_ifs at h ⊢ with hc
  rfl

theorem overtake_trace (env : Env) (w : World) (r : SUMOReal) :
    (overtake env w r).2.trace = w.trace ∨ (overtake env w r).2.trace = w.trace ++ [Event.randDraw] := by
  unfold overtake
  split_ifs
  · exact Or.inr rfl
  · exact Or.inl rfl

/-- Insertion by overtaking: index 1, the tentative exit time kept, and the
single vehicle of the queue, if it was alone, removed as leader. -/
theorem insertCar_overtaking (env : Env) (w : World) (veh : VehPtr) (r : SUMOReal)
    (t0 : SUMOTime) (c0 : VehPtr) (rest : List VehPtr)
    (h2 : (w.veh c0).eventTime > t0) (h3 : (overtake env w r).1 = true) :
    insertCar env w veh false r t0 (c0 :: rest)
      = (if rest = [] then (w.log Event.randDraw).log (Event.removeLeaderCar c0)
          else w.log Event.randDraw,
        t0, decide (rest = []), c0 :: veh :: rest) := by
  unfold insertCar
  simp only [Bool.not_false, Bool.true_and, decide_eq_true_eq, h2, if_true, h3,
    overtake_true_world env w r h3]
  split_ifs <;> simp [*]

/-- Insertion without overtaking: index 0, `tau_ff` after the vehicle that was
at index 0, no new leader and at most a random draw. -/
theorem insertCar_behind (env : Env) (w : World) (veh : VehPtr) (d : Bool) (r : SUMOReal)
    (t0 : SUMOTime) (c0 : VehPtr) (rest : List VehPtr)
    (h : ¬ (d = false ∧ (w.veh c0).eventTime > t0 ∧ (overtake env w r).1 = true)) :
    (insertCar env w veh d r t0 (c0 :: rest)).2
      = (max ((w.veh c0).eventTime + w.seg.myTau_ff) t0, false, veh :: c0 :: rest)
    ∧ ((insertCar env w veh d r t0 (c0 :: rest)).1.trace = w.trace
      ∨ (insertCar env w veh d r t0 (c0 :: rest)).1.trace = w.trace ++ [Event.randDraw]) := by
  unfold insertCar
  simp only []
  by_cases h1 : (!d && decide ((w.veh c0).eventTime > t0)) = true
  · rw [if_pos h1]
    have h1' : d = false ∧ (w.veh c0).eventTime > t0 := by
      simpa using h1
    have h2 : ¬ (overtake env w r).1 = true := fun e => h ⟨h1'.1, h1'.2, e⟩
    rw [if_neg h2]
    exact ⟨rfl, overtake_trace env w r⟩
  · rw [if_neg h1]
    exact ⟨rfl, Or.inl rfl⟩

/-- What a `receive` whose route continues does, in terms of the insertion
into the selected queue. -/
theorem receive_insert (env : Env) (w : World) (veh : VehPtr) (time : SUMOTime)
    (d a : Bool) (r : SUMOReal) (h : arrivalOnEntry w.seg (w.veh veh) d a = false) :
    ∃ w1 : World, w1.seg = w.seg ∧ w1.trace = w.trace
      ∧ (∀ p, (w1.veh p).eventTime = (w.veh p).eventTime)
      ∧ ((receive env w veh time d a r).veh veh).eventTime
          = (insertCar env w1 veh d r
              (tentativeLeave w.seg (w.veh veh) time (chooseQueue w.seg (w.veh veh).succEdge1))
              (w.seg.que (chooseQueue w.seg (w.veh veh).succEdge1))).2.1
      ∧ (receive env w veh time d a r).seg.myCarQues
          = w.seg.myCarQues.set (chooseQueue w.seg (w.veh veh).succEdge1)
            (insertCar env w1 veh d r
              (tentativeLeave w.seg (w.veh veh) time (chooseQueue w.seg (w.veh veh).succEdge1))
              (w.seg.que (chooseQueue w.seg (w.veh veh).succEdge1))).2.2.2
      ∧ (receive env w veh time d a r).trace
          = (insertCar env w1 veh d r
              (tentativeLeave w.seg (w.veh veh) time (chooseQueue w.seg (w.veh veh).succEdge1))
              (w.seg.que (chooseQueue w.seg (w.veh veh).succEdge1))).1.trace
            ++ (Event.activateReminders veh
                (if d = true then Notification.DEPARTED
                  else if (w.seg.myIndex == 0 || a) = true then Notification.JUNCTION
                  else Notification.SEGMENT)
              :: (if (insertCar env w1 veh d r
                    (tentativeLeave w.seg (w.veh veh) time (chooseQueue w.seg (w.veh veh).succEdge1))
                    (w.seg.que (chooseQueue w.seg (w.veh veh).succEdge1))).2.2.1 = true
                  then [Event.addLeaderCar veh] else [])) := by
  have harr : ∀ (s : MESegment) (v : MEVehicle) (x : Option String) (t b : SUMOTime),
      arrivalOnEntry s { v with segment := x, lastEntryTime := t, blockTime := b } d a
        = arrivalOnEntry s v d a := fun _ _ _ _ _ => rfl
  have htl : ∀ (v : MEVehicle) (x : Option String) (t b : SUMOTime) (q : Nat),
      tentativeLeave w.seg { v with segment := x, lastEntryTime := t, blockTime := b } time q
        = tentativeLeave w.seg v time q := fun _ _ _ _ _ => rfl
  refine ⟨w.setVeh veh (fun v => { v with segment := some w.seg.id, lastEntryTime := time, blockTime := SUMOTime_MAX }), rfl, rfl, fun p => ?_, ?_, ?_, ?_⟩
  · rw [setVeh_veh]
    split_ifs with hc
    · rw [hc]
    · rfl
  · unfold receive
    simp only [setVeh_seg, setVeh_veh_self, harr, h, Bool.false_eq_true, if_false, htl]
    split_ifs <;> simp
  · unfold receive
    simp only [setVeh_seg, setVeh_veh_self, harr, h, Bool.false_eq_true, if_false, htl]
    split_ifs <;> simp
  · unfold receive
    simp only [setVeh_seg, setVeh_veh_self, harr, h, Bool.false_eq_true, if_false, htl]
    split_ifs <;> simp_all

/-- C25: event time given by a `receive` whose route continues.  With `uspeed =
max(min(speedFactor * v_max, type.maxSpeed), 0.05)` and `tleave = max(t +
ticks(L / uspeed) + stopTime, blockTime[q])`, `q` the selected queue: the event
time is `tleave` when the queue is empty or the vehicle overtakes, and
`max(e0 + tau_ff, tleave)` otherwise, `e0` being the event time of the vehicle
at index 0 before insertion; in all cases it is at least `blockTime[q]`. -/
theorem receive_exit_time (env : Env) (w : World) (veh : VehPtr) (time : SUMOTime)
    (d a : Bool) (r : SUMOReal) (h : arrivalOnEntry w.seg (w.veh veh) d a = false) :
    (w.seg.que (chooseQueue w.seg (w.veh veh).succEdge1) = [] →
      ((receive env w veh time d a r).veh veh).eventTime
        = max (time + TIME2STEPS (w.seg.myLength
              / max (min ((w.veh veh).chosenSpeedFactor * w.seg.myMaxSpeed) (w.veh veh).maxSpeed)
                  (5 / 100)) + (w.veh veh).stoptime)
            (w.seg.block (chooseQueue w.seg (w.veh veh).succEdge1)))
    ∧ (∀ c0 rest, w.seg.que (chooseQueue w.seg (w.veh veh).succEdge1) = c0 :: rest →
        (d = false
          ∧ (w.veh c0).eventTime
              > max (time + TIME2STEPS (w.seg.myLength
                    / max (min ((w.veh veh).chosenSpeedFactor * w.seg.myMaxSpeed)
                        (w.veh veh).maxSpeed) (5 / 100)) + (w.veh veh).stoptime)
                  (w.seg.block (chooseQueue w.seg (w.veh veh).succEdge1))
          ∧ (overtake env w r).1 = true) →
        ((receive env w veh time d a r).veh veh).eventTime
          = max (time + TIME2STEPS (w.seg.myLength
                / max (min ((w.veh veh).chosenSpeedFactor * w.seg.myMaxSpeed) (w.veh veh).maxSpeed)
                    (5 / 100)) + (w.veh veh).stoptime)
              (w.seg.block (chooseQueue w.seg (w.veh veh).succEdge1)))
    ∧ (∀ c0 rest, w.seg.que (chooseQueue w.seg (w.veh veh).succEdge1) = c0 :: rest →
        ¬ (d = false
          ∧ (w.veh c0).eventTime
              > max (time + TIME2STEPS (w.seg.myLength
                    / max (min ((w.veh veh).chosenSpeedFactor * w.seg.myMaxSpeed)
                        (w.veh veh).maxSpeed) (5 / 100)) + (w.veh veh).stoptime)
                  (w.seg.block (chooseQueue w.seg (w.veh veh).succEdge1))
          ∧ (overtake env w r).1 = true) →
        ((receive env w veh time d a r).veh veh).eventTime
          = max ((w.veh c0).eventTime + w.seg.myTau_ff)
              (max (time + TIME2STEPS (w.seg.myLength
                  / max (min ((w.veh veh).chosenSpeedFactor * w.seg.myMaxSpeed)
                      (w.veh veh).maxSpeed) (5 / 100)) + (w.veh veh).stoptime)
                (w.seg.block (chooseQueue w.seg (w.veh veh).succEdge1))))
    ∧ w.seg.block (chooseQueue w.seg (w.veh veh).succEdge1)
        ≤ ((receive env w veh time d a r).veh veh).eventTime := by
  obtain ⟨w1, hseg, _, hev, hevent, _, _⟩ := receive_insert env w veh time d a r h
  have htl : tentativeLeave w.seg (w.veh veh) time (chooseQueue w.seg (w.veh veh).succEdge1)
      = max (time + TIME2STEPS (w.seg.myLength
              / max (min ((w.veh veh).chosenSpeedFactor * w.seg.myMaxSpeed) (w.veh veh).maxSpeed)
                  (5 / 100)) + (w.veh veh).stoptime)
            (w.seg.block (chooseQueue w.seg (w.veh veh).succEdge1)) := rfl
  rw [htl] at hevent
  refine ⟨fun hq => ?_, fun c0 rest hq ho => ?_, fun c0 rest hq ho => ?_,
    receive_eventTime_ge_block env w veh time d a r h⟩
  · rw [hevent, hq]
    rfl
  · rw [hevent, hq]
    obtain ⟨hd, hgt, hov⟩ := ho
    subst hd
    rw [insertCar_overtaking env w1 veh r _ c0 rest (by rw [hev]; exact hgt)
      (by rw [overtake_fst_congr env w w1 r hseg]; exact hov)]
  · rw [hevent, hq]
    have hb := (insertCar_behind env w1 veh d r
      (max (time + TIME2STEPS (w.seg.myLength
          / max (min ((w.veh veh).chosenSpeedFactor * w.seg.myMaxSpeed) (w.veh veh).maxSpeed)
              (5 / 100)) + (w.veh veh).stoptime)
        (w.seg.block (chooseQueue w.seg (w.veh veh).succEdge1))) c0 rest
      (by rw [hev, overtake_fst_congr env w w1 r hseg]; exact ho)).1
    rw [hb, hev, hseg]

theorem receive_exit_time_witness :
    ((receive exEnv (World.fresh exSegmentTwoLanes exStoreFast) 0 0 true false 0).veh 0).eventTime
        = max (0 + TIME2STEPS ((World.fresh exSegmentTwoLanes exStoreFast).seg.myLength
              / max (min (((World.fresh exSegmentTwoLanes exStoreFast).veh 0).chosenSpeedFactor
                    * (World.fresh exSegmentTwoLanes exStoreFast).seg.myMaxSpeed)
                  ((World.fresh exSegmentTwoLanes exStoreFast).veh 0).maxSpeed) (5 / 100))
              + ((World.fresh exSegmentTwoLanes exStoreFast).veh 0).stoptime)
            ((World.fresh exSegmentTwoLanes exStoreFast).seg.block
              (chooseQueue (World.fresh exSegmentTwoLanes exStoreFast).seg
                ((World.fresh exSegmentTwoLanes exStoreFast).veh 0).succEdge1))
    ∧ (World.fresh exSegmentTwoLanes exStoreFast).seg.block
          (chooseQueue (World.fresh exSegmentTwoLanes exStoreFast).seg
            ((World.fresh exSegmentTwoLanes exStoreFast).veh 0).succEdge1)
        ≤ ((receive exEnv (World.fresh exSegmentTwoLanes exStoreFast) 0 0 true false 0).veh
            0).eventTime :=
  ⟨(receive_exit_time exEnv (World.fresh exSegmentTwoLanes exStoreFast) 0 0 true false 0 rfl).1
      (fresh_que_nil _ _),
    (receive_exit_time exEnv (World.fresh exSegmentTwoLanes exStoreFast) 0 0 true false 0
      rfl).2.2.2⟩

/-- The queue a `receive` leaves at the selected index, when that index exists. -/
theorem que_of_set (s s1 : MESegment) (i : Nat) (x : List VehPtr)
    (h : s1.myCarQues = s.myCarQues.set i x) (hi : i < s.myCarQues.length) : s1.que i = x := by
  unfold MESegment.que
  rw [h, getD_set_queues, if_pos ⟨rfl, hi⟩]

/-- Effect of a `receive` that inserts by overtaking: queue, event time and calls. -/
theorem receive_overtake_insert (env : Env) (w : World) (veh : VehPtr) (time : SUMOTime)
    (a : Bool) (r : SUMOReal) (c0 : VehPtr) (rest : List VehPtr)
    (h : arrivalOnEntry w.seg (w.veh veh) false a = false)
    (hi : chooseQueue w.seg (w.veh veh).succEdge1 < w.seg.myCarQues.length)
    (hq : w.seg.que (chooseQueue w.seg (w.veh veh).succEdge1) = c0 :: rest)
    (hgt : (w.veh c0).eventTime
      > tentativeLeave w.seg (w.veh veh) time (chooseQueue w.seg (w.veh veh).succEdge1))
    (hov : (overtake env w r).1 = true) :
    (receive env w veh time false a r).seg.que (chooseQueue w.seg (w.veh veh).succEdge1)
        = c0 :: veh :: rest
    ∧ ((receive env w veh time false a r).veh veh).eventTime
        = max (time + TIME2STEPS (w.seg.myLength
              / max (min ((w.veh veh).chosenSpeedFactor * w.seg.myMaxSpeed) (w.veh veh).maxSpeed)
                  (5 / 100)) + (w.veh veh).stoptime)
            (w.seg.block (chooseQueue w.seg (w.veh veh).succEdge1))
    ∧ (receive env w veh time false a r).trace
        = w.trace ++ [Event.randDraw]
          ++ (if rest = [] then [Event.removeLeaderCar c0] else [])
          ++ [Event.activateReminders veh
              (if (w.seg.myIndex == 0 || a) = true then Notification.JUNCTION
                else Notification.SEGMENT)]
          ++ (if rest = [] then [Event.addLeaderCar veh] else []) := by
  obtain ⟨w1, hseg, htr, hev, hevent, hques, htrace⟩ := receive_insert env w veh time false a r h
  have hins := insertCar_overtaking env w1 veh r
    (tentativeLeave w.seg (w.veh veh) time (chooseQueue w.seg (w.veh veh).succEdge1)) c0 rest
    (by rw [hev]; exact hgt) (by rw [overtake_fst_congr env w w1 r hseg]; exact hov)
  rw [hq, hins] at hevent hques htrace
  refine ⟨que_of_set _ _ _ _ hques hi, ?_, ?_⟩
  · rw [hevent]
    rfl
  · rw [htrace]
    by_cases hr : rest = []
    · simp [hr, htr]
    · simp [hr, htr]

/-- C27: a `receive` that is not a depart, whose route continues and that finds
in the selected queue a vehicle at index 0 with an event time above `tleave`,
inserts the vehicle at index 1 when `overtake()` succeeds, with event time
exactly `tleave`; the calls are the random draw, `removeLeaderCar` for the
vehicle that was alone in the queue, the reminder activation, and
`addLeaderCar` for the received vehicle if that vehicle was alone; with more
vehicles in the queue no scheduler call is made. -/
theorem receive_overtaking (env : Env) (w : World) (veh : VehPtr) (time : SUMOTime)
    (a : Bool) (r : SUMOReal) (c0 : VehPtr) (rest : List VehPtr)
    (h : arrivalOnEntry w.seg (w.veh veh) false a = false)
    (hi : chooseQueue w.seg (w.veh veh).succEdge1 < w.seg.myCarQues.length)
    (hq : w.seg.que (chooseQueue w.seg (w.veh veh).succEdge1) = c0 :: rest)
    (hgt : (w.veh c0).eventTime
      > tentativeLeave w.seg (w.veh veh) time (chooseQueue w.seg (w.veh veh).succEdge1))
    (hov : (overtake env w r).1 = true) :
    (receive env w veh time false a r).seg.que (chooseQueue w.seg (w.veh veh).succEdge1)
        = c0 :: veh :: rest
    ∧ ((receive env w veh time false a r).veh veh).eventTime
        = max (time + TIME2STEPS (w.seg.myLength
              / max (min ((w.veh veh).chosenSpeedFactor * w.seg.myMaxSpeed) (w.veh veh).maxSpeed)
                  (5 / 100)) + (w.veh veh).stoptime)
            (w.seg.block (chooseQueue w.seg (w.veh veh).succEdge1))
    ∧ (receive env w veh time false a r).trace
        = w.trace ++ [Event.randDraw]
          ++ (if rest = [] then [Event.removeLeaderCar c0] else [])
          ++ [Event.activateReminders veh
              (if (w.seg.myIndex == 0 || a) = true then Notification.JUNCTION
                else Notification.SEGMENT)]
          ++ (if rest = [] then [Event.addLeaderCar veh] else []) :=
  receive_overtake_insert env w veh time a r c0 rest h hi hq hgt hov

theorem receive_overtaking_witness :
    (receive exEnv exWorldS3 1 0 false false (9 / 10)).seg.que
        (chooseQueue exWorldS3.seg (exWorldS3.veh 1).succEdge1) = [0, 1]
    ∧ ((receive exEnv exWorldS3 1 0 false false (9 / 10)).veh 1).eventTime
        = max (0 + TIME2STEPS (exWorldS3.seg.myLength
              / max (min ((exWorldS3.veh 1).chosenSpeedFactor * exWorldS3.seg.myMaxSpeed)
                  (exWorldS3.veh 1).maxSpeed) (5 / 100)) + (exWorldS3.veh 1).stoptime)
            (exWorldS3.seg.block (chooseQueue exWorldS3.seg (exWorldS3.veh 1).succEdge1))
    ∧ (receive exEnv exWorldS3 1 0 false false (9 / 10)).trace
        = exWorldS3.trace ++ [Event.randDraw]
          ++ (if ([] : List VehPtr) = [] then [Event.removeLeaderCar 0] else [])
          ++ [Event.activateReminders 1
              (if (exWorldS3.seg.myIndex == 0 || false) = true then Notification.JUNCTION
                else Notification.SEGMENT)]
          ++ (if ([] : List VehPtr) = [] then [Event.addLeaderCar 1] else []) :=
  receive_overtaking exEnv exWorldS3 1 0 false (9 / 10) 0 []
    (by simp [arrivalOnEntry, exWorldS3, exVehicle])
    (by decide)
    (by decide)
    (by
      norm_num [tentativeLeave, exWorldS3, exSegmentTwoLanes, exSegment, exVehicle,
        chooseQueue, MESegment.block, TIME2STEPS, castToTime])
    (by
      norm_num [overtake, exWorldS3, exSegmentTwoLanes, exSegment, exEnv])

/-- Scenario S3 in numbers: the overtaking vehicle is queued at index 1 with the
event time 10 s of its tentative exit, occupancy over capacity being 0.25. -/
theorem exWorldS3_state :
    exWorldS3.seg.myOccupancy / exWorldS3.seg.myCapacity = 1 / 4
    ∧ (exWorldS3.veh 0).eventTime = 20000
    ∧ tentativeLeave exWorldS3.seg (exWorldS3.veh 1) 0 0 = 10000
    ∧ (receive exEnv exWorldS3 1 0 false false (9 / 10)).seg.myCarQues = [[0, 1]]
    ∧ ((receive exEnv exWorldS3 1 0 false false (9 / 10)).veh 1).eventTime = 10000
    ∧ (receive exEnv exWorldS3 1 0 false false (9 / 10)).trace
        = [Event.randDraw, Event.removeLeaderCar 0,
            Event.activateReminders 1 Notification.JUNCTION, Event.addLeaderCar 1] := by
  have ht : tentativeLeave exWorldS3.seg (exWorldS3.veh 1) 0 0 = 10000 := by
    norm_num [tentativeLeave, exWorldS3, exSegmentTwoLanes, exSegment, exVehicle,
      MESegment.block, TIME2STEPS, castToTime]
  have hc : chooseQueue exWorldS3.seg (exWorldS3.veh 1).succEdge1 = 0 := by decide
  obtain ⟨h1, h2, h3⟩ := receive_overtake_insert exEnv exWorldS3 1 0 false (9 / 10) 0 []
    (by simp [arrivalOnEntry, exWorldS3, exVehicle]) (by decide) (by decide)
    (by rw [hc, ht]; norm_num [exWorldS3])
    (by norm_num [overtake, exWorldS3, exSegmentTwoLanes, exSegment, exEnv])
  refine ⟨by norm_num [exWorldS3, exSegmentTwoLanes, exSegment], by simp [exWorldS3], ht,
    ?_, ?_, ?_⟩
  · obtain ⟨_, _, _, _, _, hques, _⟩ := receive_insert exEnv exWorldS3 1 0 false false (9 / 10)
      (by simp [arrivalOnEntry, exWorldS3, exVehicle])
    rw [hc] at h1 hques
    have hlen : (receive exEnv exWorldS3 1 0 false false (9 / 10)).seg.myCarQues.length = 1 := by
      rw [hques]; simp [exWorldS3]
    unfold MESegment.que at h1
    match hm : (receive exEnv exWorldS3 1 0 false false (9 / 10)).seg.myCarQues, hlen, h1 with
    | [k], _, h1 =>
      simp at h1
      rw [h1]
  · rw [h2]
    have := ht
    unfold tentativeLeave at this
    rw [hc]
    exact this
  · rw [h3]
    simp [exWorldS3, exSegmentTwoLanes, exSegment]

/-- Replacing a queue by one with the same last vehicle, and event times that
agree on all queued vehicles, leaves the leader event times as they are. -/
theorem leaderEventTimes_set (w w1 : World) (i : Nat) (x : List VehPtr)
    (hq : w1.seg.myCarQues = w.seg.myCarQues.set i x)
    (hlast : x.getLast? = (w.seg.que i).getLast?)
    (hev : ∀ k ∈ w.seg.myCarQues, ∀ b ∈ k, (w1.veh b).eventTime = (w.veh b).eventTime) :
    leaderEventTimes w1 = leaderEventTimes w := by
  unfold leaderEventTimes
  rw [hq]
  have hmap : (w.seg.myCarQues.set i x).map
        (fun k => k.getLast?.map (fun b => (w1.veh b).eventTime))
      = w.seg.myCarQues.map (fun k => k.getLast?.map (fun b => (w.veh b).eventTime)) := by
    apply List.ext_getElem?
    intro n
    rw [List.getElem?_map, List.getElem?_map, List.getElem?_set]
    have hold : ∀ k, w.seg.myCarQues[n]? = some k →
        k.getLast?.map (fun b => (w1.veh b).eventTime)
          = k.getLast?.map (fun b => (w.veh b).eventTime) := by
      intro k hk
      have hmem : k ∈ w.seg.myCarQues := List.getElem?_mem hk
      cases hl : k.getLast? with
      | none => rfl
      | some b =>
        simp only [Option.map_some']
        rw [hev k hmem b (List.mem_of_getLast?_eq_some hl)]
    by_cases hin : i = n
    · subst hin
      rw [if_pos rfl]
      by_cases hlt : i < w.seg.myCarQues.length
      · rw [if_pos hlt, List.getElem?_eq_getElem hlt]
        simp only [Option.map_some']
        have hqi : w.seg.que i = w.seg.myCarQues[i] := by
          unfold MESegment.que
          rw [List.getD_eq_getElem?_getD, List.getElem?_eq_getElem hlt]
          rfl
        rw [hlast, hqi]
        exact congrArg some (hold _ (List.getElem?_eq_getElem hlt))
      · rw [if_neg hlt, List.getElem?_eq_none (Nat.le_of_not_lt hlt)]
        rfl
    · rw [if_neg hin]
      cases hk : w.seg.myCarQues[n]? with
      | none => rfl
      | some k =>
        simp only [Option.map_some']
        exact congrArg some (hold k hk)
  have hf : ∀ (l : List (List VehPtr)) (g : List VehPtr → Option SUMOTime),
      l.filterMap g = (l.map g).filterMap id := by
    intro l g
    rw [List.filterMap_map]
    rfl
  rw [hf, hmap, ← hf]

/-- Effect of a `receive` that queues its vehicle without overtaking into a
non-empty queue. -/
theorem receive_behind_insert (env : Env) (w : World) (veh : VehPtr) (time : SUMOTime)
    (d a : Bool) (r : SUMOReal) (c0 : VehPtr) (rest : List VehPtr)
    (h : arrivalOnEntry w.seg (w.veh veh) d a = false)
    (hi : chooseQueue w.seg (w.veh veh).succEdge1 < w.seg.myCarQues.length)
    (hq : w.seg.que (chooseQueue w.seg (w.veh veh).succEdge1) = c0 :: rest)
    (hno : ¬ (d = false
      ∧ (w.veh c0).eventTime
          > tentativeLeave w.seg (w.veh veh) time (chooseQueue w.seg (w.veh veh).succEdge1)
      ∧ (overtake env w r).1 = true)) :
    (receive env w veh time d a r).seg.que (chooseQueue w.seg (w.veh veh).succEdge1)
        = veh :: c0 :: rest
    ∧ ((receive env w veh time d a r).seg.que
          (chooseQueue w.seg (w.veh veh).succEdge1)).getLast?
        = (w.seg.que (chooseQueue w.seg (w.veh veh).succEdge1)).getLast?
    ∧ ((receive env w veh time d a r).trace
          = w.trace ++ [Event.activateReminders veh
              (if d = true then Notification.DEPARTED
                else if (w.seg.myIndex == 0 || a) = true then Notification.JUNCTION
                else Notification.SEGMENT)]
        ∨ (receive env w veh time d a r).trace
          = w.trace ++ [Event.randDraw, Event.activateReminders veh
              (if d = true then Notification.DEPARTED
                else if (w.seg.myIndex == 0 || a) = true then Notification.JUNCTION
                else Notification.SEGMENT)])
    ∧ ((∀ k, veh ∉ w.seg.que k) →
        getEventTime (receive env w veh time d a r) = getEventTime w) := by
  obtain ⟨w1, hseg, htr, hev, hevent, hques, htrace⟩ := receive_insert env w veh time d a r h
  obtain ⟨hins, hit⟩ := insertCar_behind env w1 veh d r
    (tentativeLeave w.seg (w.veh veh) time (chooseQueue w.seg (w.veh veh).succEdge1)) c0 rest
    (by rw [hev, overtake_fst_congr env w w1 r hseg]; exact hno)
  rw [hq] at hevent hques htrace
  rw [hins] at hevent hques htrace
  have hnew := que_of_set _ _ _ _ hques hi
  refine ⟨hnew, ?_, ?_, fun hfresh => ?_⟩
  · rw [hnew, hq]
    simp [List.getLast?_cons_cons]
  · rw [htrace]
    rcases hit with ht | ht
    · left
      rw [ht, htr]
      simp
    · right
      rw [ht, htr]
      simp
  · rw [getEventTime_eq, getEventTime_eq]
    have hl : leaderEventTimes (receive env w veh time d a r) = leaderEventTimes w := by
      refine leaderEventTimes_set w _ _ _ hques ?_ (fun k hk b hb => ?_)
      · rw [hq]
        simp [List.getLast?_cons_cons]
      · obtain ⟨_, _, _, hother, _⟩ := receive_queued env w veh time d a r h
        have hne : b ≠ veh := by
          intro e
          obtain ⟨n, hn, hnk⟩ := List.getElem_of_mem hk
          apply hfresh n
          unfold MESegment.que
          rw [List.getD_eq_getElem?_getD, List.getElem?_eq_getElem hn, hnk]
          exact e ▸ hb
        rw [hother b hne]
    rw [hl]

/-- C26 (as amended): a `receive` whose route continues and that does not
overtake puts its vehicle at index 0 of a non-empty selected queue; the vehicle
next to leave that queue, `back()`, stays the one it was, no `addLeaderCar` or
`removeLeaderCar` is called (the calls are at most a random draw, then the
reminder activation), and, the received vehicle not being queued already,
`getEventTime()` is unchanged. -/
theorem receive_behind (env : Env) (w : World) (veh : VehPtr) (time : SUMOTime)
    (d a : Bool) (r : SUMOReal) (c0 : VehPtr) (rest : List VehPtr)
    (h : arrivalOnEntry w.seg (w.veh veh) d a = false)
    (hi : chooseQueue w.seg (w.veh veh).succEdge1 < w.seg.myCarQues.length)
    (hq : w.seg.que (chooseQueue w.seg (w.veh veh).succEdge1) = c0 :: rest)
    (hno : ¬ (d = false
      ∧ (w.veh c0).eventTime
          > tentativeLeave w.seg (w.veh veh) time (chooseQueue w.seg (w.veh veh).succEdge1)
      ∧ (overtake env w r).1 = true)) :
    (receive env w veh time d a r).seg.que (chooseQueue w.seg (w.veh veh).succEdge1)
        = veh :: c0 :: rest
    ∧ ((receive env w veh time d a r).seg.que
          (chooseQueue w.seg (w.veh veh).succEdge1)).getLast?
        = (w.seg.que (chooseQueue w.seg (w.veh veh).succEdge1)).getLast?
    ∧ ((receive env w veh time d a r).trace
          = w.trace ++ [Event.activateReminders veh
              (if d = true then Notification.DEPARTED
                else if (w.seg.myIndex == 0 || a) = true then Notification.JUNCTION
                else Notification.SEGMENT)]
        ∨ (receive env w veh time d a r).trace
          = w.trace ++ [Event.randDraw, Event.activateReminders veh
              (if d = true then Notification.DEPARTED
                else if (w.seg.myIndex == 0 || a) = true then Notification.JUNCTION
                else Notification.SEGMENT)])
    ∧ ((∀ k, veh ∉ w.seg.que k) →
        getEventTime (receive env w veh time d a r) = getEventTime w) :=
  receive_behind_insert env w veh time d a r c0 rest h hi hq hno

theorem receive_behind_witness :
    (receive exEnv (receive exEnv (World.fresh exSegmentTwoLanes exStoreFast) 0 0 true false 0)
        1 500 true false 0).seg.que
        (chooseQueue (receive exEnv (World.fresh exSegmentTwoLanes exStoreFast) 0 0 true false 0).seg
          ((receive exEnv (World.fresh exSegmentTwoLanes exStoreFast) 0 0 true false 0).veh
            1).succEdge1)
      = [1, 0]
    ∧ ((receive exEnv (receive exEnv (World.fresh exSegmentTwoLanes exStoreFast) 0 0 true false 0)
        1 500 true false 0).seg.que
        (chooseQueue (receive exEnv (World.fresh exSegmentTwoLanes exStoreFast) 0 0 true false 0).seg
          ((receive exEnv (World.fresh exSegmentTwoLanes exStoreFast) 0 0 true false 0).veh
            1).succEdge1)).getLast?
      = ((receive exEnv (World.fresh exSegmentTwoLanes exStoreFast) 0 0 true false 0).seg.que
        (chooseQueue (receive exEnv (World.fresh exSegmentTwoLanes exStoreFast) 0 0 true false 0).seg
          ((receive exEnv (World.fresh exSegmentTwoLanes exStoreFast) 0 0 true false 0).veh
            1).succEdge1)).getLast? := by
  have hlen1 : (receive exEnv (World.fresh exSegmentTwoLanes exStoreFast) 0 0 true false
      0).seg.myCarQues.length = 1 :=
    carQues_length_of_fixed (receive_fixed _ _ _ _ _ _ _)
  have hc : chooseQueue (receive exEnv (World.fresh exSegmentTwoLanes exStoreFast) 0 0 true false 0).seg
      ((receive exEnv (World.fresh exSegmentTwoLanes exStoreFast) 0 0 true false 0).veh 1).succEdge1
      = 0 := chooseQueue_single _ _ (le_of_eq hlen1)
  have hq0 : (receive exEnv (World.fresh exSegmentTwoLanes exStoreFast) 0 0 true false 0).seg.que 0
      = [0] := by
    have := exDeparts_first
    simp only [step] at this
    unfold MESegment.que
    rw [this]
    rfl
  have h := receive_behind exEnv
    (receive exEnv (World.fresh exSegmentTwoLanes exStoreFast) 0 0 true false 0) 1 500 true false 0
    0 [] rfl (by rw [hc, hlen1]; exact Nat.one_pos) (by rw [hc]; exact hq0) (by simp)
  exact ⟨h.1, h.2.1⟩

/-- C26 fails as stated: after the second departure of `exDeparts`, which does
not overtake and finds vehicle 0 queued, vehicle 1 is at index 0 but the vehicle
next to leave is still vehicle 0; `getEventTime()` reports the 10 s of vehicle 0,
not the 10.5 s of vehicle 1, and `addLeaderCar` was not called for vehicle 1. -/
theorem receive_behind_counterexample :
    (step (World.fresh exSegmentTwoLanes exStoreFast) (Op.receive exEnv 0 0 true false 0)).seg.myCarQues
      = [[0]]
    ∧ (run (World.fresh exSegmentTwoLanes exStoreFast) exDeparts).seg.myCarQues = [[1, 0]]
    ∧ ((run (World.fresh exSegmentTwoLanes exStoreFast) exDeparts).seg.que 0).head? = some 1
    ∧ ((run (World.fresh exSegmentTwoLanes exStoreFast) exDeparts).seg.que 0).getLast? = some 0
    ∧ getEventTime (run (World.fresh exSegmentTwoLanes exStoreFast) exDeparts) = 10000
    ∧ ((run (World.fresh exSegmentTwoLanes exStoreFast) exDeparts).veh 1).eventTime = 10500
    ∧ (run (World.fresh exSegmentTwoLanes exStoreFast) exDeparts).trace
        = [Event.activateReminders 0 Notification.DEPARTED, Event.addLeaderCar 0,
            Event.activateReminders 1 Notification.DEPARTED] := by
  obtain ⟨hd, hd1, hd0⟩ := exDeparts_state
  have hque : (run (World.fresh exSegmentTwoLanes exStoreFast) exDeparts).seg.que 0 = [1, 0] := by
    unfold MESegment.que
    rw [hd]
    rfl
  refine ⟨exDeparts_first, hd, by rw [hque]; rfl, by rw [hque]; rfl, ?_, hd1, ?_⟩
  · rw [getEventTime_eq]
    have hl : leaderEventTimes (run (World.fresh exSegmentTwoLanes exStoreFast) exDeparts)
        = [10000] := by
      unfold leaderEventTimes
      rw [hd]
      simp [hd0]
    rw [hl]
    simp [SUMOTime_MAX]
  · simp [run, step, exDeparts, receive, arrivalOnEntry, World.fresh,
      exSegmentTwoLanes, exSegment, exStoreFast, exVehicle, exEnv, chooseQueue, tentativeLeave,
      insertCar, overtake, MESegment.que, MESegment.block, TIME2STEPS, castToTime, World.setVeh,
      World.log, Function.update_apply, MEVehicle.getLengthWithGap]

/-! ## Block times over time -/

theorem setSpeed_blockTimes (env : Env) (w : World) (ns : SUMOReal) (t : SUMOTime)
    (jt : SUMOReal) : (setSpeed env w ns t jt).seg.myBlockTimes = w.seg.myBlockTimes := by
  obtain ⟨v, x, h⟩ := setSpeed_seg env w ns t jt
  rw [h]

theorem hasSpaceFor_blockTimes (env : Env) (w : World) (veh : VehPtr) (t : SUMOTime)
    (init : Bool) : (hasSpaceFor env w veh t init).2.seg.myBlockTimes = w.seg.myBlockTimes := by
  obtain ⟨ms, u, h⟩ := hasSpaceFor_world env w veh t init
  rw [h]

theorem initialise_blockTimes (env : Env) (w : World) (veh : VehPtr) (t : SUMOTime) :
    (initialise env w veh t).2.seg.myBlockTimes = w.seg.myBlockTimes := by
  unfold initialise
  simp only []
  split_ifs <;> simp only [receive_blockTimes, hasSpaceFor_blockTimes]

/-- The block time `send` leaves is not below the one it found, provided the
send time is not below it and the headway added is not negative. -/
theorem send_block_ge (w : World) (v : VehPtr) (next : NextSeg) (t : SUMOTime)
    (ht : w.seg.block (w.veh v).queIndex ≤ t)
    (hh : ∀ n, next = NextSeg.real n → 0 ≤ getTimeHeadway n (free (removeCar w v t next).2.seg)) :
    w.seg.block (w.veh v).queIndex ≤ (send w v next t).seg.block (w.veh v).queIndex := by
  by_cases hq : (w.veh v).queIndex < w.seg.myBlockTimes.length
  · unfold MESegment.block at ht ⊢
    rw [send_blockTimes]
    cases next with
    | null =>
      simpa [List.getD_eq_getElem?_getD, List.getElem?_set, hq] using ht
    | vaporizationTarget =>
      simpa [List.getD_eq_getElem?_getD, List.getElem?_set, hq] using ht
    | real n =>
      have h0 := hh n rfl
      have hx : (w.seg.myBlockTimes.set (w.veh v).queIndex
          (t + getTimeHeadway n (free (removeCar w v t (NextSeg.real n)).2.seg))).getD
            (w.veh v).queIndex 0
          = t + getTimeHeadway n (free (removeCar w v t (NextSeg.real n)).2.seg) := by
        simp [List.getD_eq_getElem?_getD, List.getElem?_set, hq]
      simp only []
      rw [hx]
      linarith
  · have : (send w v next t).seg.block (w.veh v).queIndex = w.seg.block (w.veh v).queIndex := by
      unfold MESegment.block
      rw [send_blockTimes]
      simp [List.getD_eq_getElem?_getD, List.getElem?_set, hq,
        List.getElem?_eq_none (Nat.le_of_not_lt hq)]
    rw [this]

/-- C21 (as amended): a `send(v, next, t)` whose time is at least the block time
of the queue of `v`, and whose `next`, when it is a real segment, has a
non-negative headway, leaves a block time at least as large as before; a `send`
to null or to the vaporization target leaves exactly `t`.  `receive`,
`setSpeed`, `vaporizeAnyCar`, `hasSpaceFor` and `initialise` change no block
time. -/
theorem blockTime_monotone (w : World) (v : VehPtr) (next : NextSeg) (t : SUMOTime) :
    (w.seg.block (w.veh v).queIndex ≤ t →
      (∀ n, next = NextSeg.real n → 0 ≤ getTimeHeadway n (free (removeCar w v t next).2.seg)) →
      w.seg.block (w.veh v).queIndex ≤ (send w v next t).seg.block (w.veh v).queIndex)
    ∧ (isInvalid next = true →
        (send w v next t).seg.myBlockTimes = w.seg.myBlockTimes.set (w.veh v).queIndex t)
    ∧ (∀ env veh time d a r,
        (receive env w veh time d a r).seg.myBlockTimes = w.seg.myBlockTimes)
    ∧ (∀ env ns time jt, (setSpeed env w ns time jt).seg.myBlockTimes = w.seg.myBlockTimes)
    ∧ (∀ time, (vaporizeAnyCar w time).2.2.seg.myBlockTimes = w.seg.myBlockTimes)
    ∧ (∀ env veh time init,
        (hasSpaceFor env w veh time init).2.seg.myBlockTimes = w.seg.myBlockTimes)
    ∧ (∀ env veh time, (initialise env w veh time).2.seg.myBlockTimes = w.seg.myBlockTimes) := by
  refine ⟨send_block_ge w v next t, fun hinv => ?_, fun env veh time d a r => ?_,
    fun env ns time jt => ?_, fun time => ?_, fun env veh time init => ?_,
    fun env veh time => ?_⟩
  · rw [send_blockTimes]
    cases next with
    | null => rfl
    | vaporizationTarget => rfl
    | real n => simp [isInvalid] at hinv
  · exact receive_blockTimes env w veh time d a r
  · exact setSpeed_blockTimes env w ns time jt
  · rw [vaporizeAnyCar_seg]
  · exact hasSpaceFor_blockTimes env w veh time init
  · exact initialise_blockTimes env w veh time

theorem blockTime_monotone_witness :
    exWorldJammed.seg.block (exWorldJammed.veh 0).queIndex
        ≤ (send exWorldJammed 0 (NextSeg.real exSegment) 5000).seg.block
            (exWorldJammed.veh 0).queIndex
    ∧ (send exWorldJammed 0 NextSeg.null 5000).seg.myBlockTimes
        = exWorldJammed.seg.myBlockTimes.set (exWorldJammed.veh 0).queIndex 5000 :=
  ⟨(blockTime_monotone exWorldJammed 0 (NextSeg.real exSegment) 5000).1
      (by decide)
      (fun n hn => by
        have hn' : n = exSegment := by
          simp only [NextSeg.real.injEq] at hn
          exact hn.symm
        subst hn'
        rw [free_removeCar]
        norm_num [getTimeHeadway, free, exSegment, exWorldJammed, exVehicle,
          MEVehicle.getLengthWithGap]),
    (blockTime_monotone exWorldJammed 0 NextSeg.null 5000).2.1 rfl⟩

/-- C21 fails as stated: the `send` that vaporizes vehicle 3 at 11 s lowers the
block time of its queue from 15 s to 11 s; and a `send` at 6 s, after the block
time of 5 s, to a jammed segment whose two vehicles give the headway -7.333 s
leaves the block time -1.333 s. -/
theorem blockTime_monotone_counterexample :
    (run (World.fresh exSegmentTwoLanes exStoreFast) exSendOps).seg.myBlockTimes = [15000]
    ∧ (run (World.fresh exSegmentTwoLanes exStoreFast) exVaporizeEarlyOps).seg.myBlockTimes
        = [11000]
    ∧ exWorldJamSend.seg.myBlockTimes = [5000]
    ∧ getTimeHeadway exSegmentJamNext false = -7333
    ∧ (send exWorldJamSend 0 (NextSeg.real exSegmentJamNext) 6000).seg.myBlockTimes = [-1333] := by
  have hh : getTimeHeadway exSegmentJamNext false = -7333 := by
    have hc : castToTime ((40 / 3 : ℚ) * (((2000 - 3000 : Int)) : ℚ)) = -13333 := by
      unfold castToTime
      rw [if_neg (by norm_num)]
      rw [Int.ceil_eq_iff]
      constructor <;> norm_num
    have hn : getCarNumber exSegmentJamNext = 2 := by
      rw [getCarNumber_eq_sum]
      rfl
    unfold getTimeHeadway
    have hfree : free exSegmentJamNext = false := by
      norm_num [free, exSegmentJamNext, exSegment]
    simp only [Bool.false_eq_true, if_false, hfree, hn]
    have h1 : exSegmentJamNext.myHeadwayCapacity = 40 / 3 := rfl
    have h2 : exSegmentJamNext.myTau_jf = 2000 := rfl
    have h3 : exSegmentJamNext.myTau_jj = 3000 := rfl
    rw [h1, h2, h3, hc]
    norm_num [wrapTime]
  refine ⟨?_, ?_, rfl, hh, ?_⟩
  · simp [run, step, exSendOps, exDeparts, receive, arrivalOnEntry, World.fresh,
      exSegmentTwoLanes, exSegment, exStoreFast, exVehicle, exEnv, chooseQueue, tentativeLeave,
      insertCar, overtake, MESegment.que, MESegment.block, TIME2STEPS, castToTime, World.setVeh,
      World.log, Function.update_apply, MEVehicle.getLengthWithGap, send, removeCar,
      updateDetectorsOnLeave, World.setBlock, getTimeHeadway, free, exSegmentSlow]
    try norm_num
  · simp [run, step, exVaporizeEarlyOps, exSendOps, exDeparts, receive, arrivalOnEntry,
      World.fresh,
      exSegmentTwoLanes, exSegment, exStoreFast, exVehicle, exEnv, chooseQueue, tentativeLeave,
      insertCar, overtake, MESegment.que, MESegment.block, TIME2STEPS, castToTime, World.setVeh,
      World.log, Function.update_apply, MEVehicle.getLengthWithGap, send, removeCar,
      updateDetectorsOnLeave, World.setBlock, getTimeHeadway, free, exSegmentSlow]
  · rw [send_blockTimes, free_removeCar]
    have hf : decide (max 0 (exWorldJamSend.seg.myOccupancy
        - (exWorldJamSend.veh 0).getLengthWithGap) ≤ exWorldJamSend.seg.myJamThreshold) = false := by
      norm_num [exWorldJamSend, exSegment, exVehicle, MEVehicle.getLengthWithGap]
    rw [hf]
    simp only []
    rw [hh]
    rfl

/-! ## Event time of a queued vehicle over time -/

theorem run_append (w : World) (a b : List Op) : run w (a ++ b) = run (run w a) b := by
  unfold run
  rw [List.foldl_append]

theorem receive_eventTime_other (env : Env) (w : World) (veh : VehPtr) (time : SUMOTime)
    (d a : Bool) (r : SUMOReal) (p : VehPtr) (hp : veh ≠ p) :
    ((receive env w veh time d a r).veh p).eventTime = (w.veh p).eventTime := by
  by_cases harr : arrivalOnEntry w.seg (w.veh veh) d a = true
  · rw [(receive_arrived env w veh time d a r harr).2 p (fun e => hp e.symm)]
  · have harr1 : arrivalOnEntry w.seg (w.veh veh) d a = false := by simpa using harr
    obtain ⟨_, _, _, hother, _⟩ := receive_queued env w veh time d a r harr1
    rw [hother p (fun e => hp e.symm)]

theorem step_eventTime_ge (p : VehPtr) (w : World) (op : Op) (h : KeepsEvent p op) :
    (w.veh p).eventTime ≤ ((step w op).veh p).eventTime := by
  cases op with
  | receive env veh time d a r =>
    exact le_of_eq (receive_eventTime_other env w veh time d a r p h).symm
  | send v n t => exact send_eventTime_ge w v n t p
  | vaporizeAnyCar t => exact absurd h (by simp [KeepsEvent])
  | setSpeed env ns t jt => exact absurd h (by simp [KeepsEvent])
  | loadState vehs b q => exact absurd h (by simp [KeepsEvent])

theorem run_eventTime_ge (p : VehPtr) (ops : List Op) (w : World)
    (h : ∀ op ∈ ops, KeepsEvent p op) :
    (w.veh p).eventTime ≤ ((run w ops).veh p).eventTime := by
  induction ops generalizing w with
  | nil => exact le_refl _
  | cons op rest ih =>
    exact le_trans (step_eventTime_ge p w op (h op (List.mem_cons_self _ _)))
      (ih (step w op) (fun o ho => h o (List.mem_cons_of_mem _ ho)))

/-- C24 (as amended): along a sequence of `receive` calls for other vehicles and
of `send` calls, the event time of a vehicle never decreases: after the whole
sequence it is at least what it was after any number of its operations.
`setSpeed` is not among them: it recomputes event times from the new speed. -/
theorem eventTime_monotone (p : VehPtr) (w : World) (ops : List Op) (k : Nat)
    (h : ∀ op ∈ ops, KeepsEvent p op) :
    ((run w (ops.take k)).veh p).eventTime ≤ ((run w ops).veh p).eventTime := by
  have hsplit : run w ops = run (run w (ops.take k)) (ops.drop k) := by
    rw [← run_append, List.take_append_drop]
  rw [hsplit]
  exact run_eventTime_ge p (ops.drop k) _ (fun o ho => h o (List.mem_of_mem_drop ho))

theorem eventTime_monotone_witness :
    ((run (run (World.fresh exSegmentTwoLanes exStoreFast) exDeparts)
        ([Op.receive exEnv 3 1000 true false 0,
          Op.send 0 (NextSeg.real exSegmentSlow) 10000].take 1)).veh 1).eventTime
      ≤ ((run (run (World.fresh exSegmentTwoLanes exStoreFast) exDeparts)
          [Op.receive exEnv 3 1000 true false 0,
            Op.send 0 (NextSeg.real exSegmentSlow) 10000]).veh 1).eventTime :=
  eventTime_monotone 1 (run (World.fresh exSegmentTwoLanes exStoreFast) exDeparts)
    [Op.receive exEnv 3 1000 true false 0, Op.send 0 (NextSeg.real exSegmentSlow) 10000] 1
    (fun op hop => by
      simp only [List.mem_cons, List.mem_singleton, List.not_mem_nil, or_false] at hop
      rcases hop with e | e <;> subst e <;> simp [KeepsEvent])

/-- `setSpeedForQueue` on a queue of one vehicle gives that vehicle the event
time `max(newArrival, blockTime)`. -/
theorem setSpeedForQueue_single (w : World) (ns : SUMOReal) (t b : SUMOTime) (v : VehPtr) :
    ((setSpeedForQueue w ns t b [v]).veh v).eventTime = max (newArrival w.seg (w.veh v) ns t) b := by
  unfold setSpeedForQueue
  simp only [List.reverse_cons, List.reverse_nil, List.nil_append, setSpeedFollowers, log_seg,
    log_veh]
  split_ifs with h
  · simp
  · simp only [log_veh]
    exact not_not.mp h

/-- `setSpeed` on a segment whose only queue holds one vehicle. -/
theorem setSpeed_single (env : Env) (w : World) (ns : SUMOReal) (t : SUMOTime) (v : VehPtr)
    (hq : w.seg.myCarQues = [[v]]) (hs : w.seg.myMaxSpeed ≠ ns) :
    ((setSpeed env w ns t DO_NOT_PATCH_JAM_THRESHOLD).veh v).eventTime
      = max (newArrival w.seg (w.veh v) ns t) (w.seg.block 0) := by
  have hr : recomputeJamThreshold env { w.seg with myMaxSpeed := ns } DO_NOT_PATCH_JAM_THRESHOLD
      = { w.seg with myMaxSpeed := ns } := by
    unfold recomputeJamThreshold
    rw [if_pos rfl]
  have hw : setSpeed env w ns t DO_NOT_PATCH_JAM_THRESHOLD
      = setSpeedForQueue { w with seg := { w.seg with myMaxSpeed := ns } } ns t (w.seg.block 0) [v] := by
    unfold setSpeed
    rw [if_neg hs]
    simp only [hr]
    have hl : (List.range ({ w.seg with myMaxSpeed := ns } : MESegment).myCarQues.length) = [0] := by
      show List.range w.seg.myCarQues.length = [0]
      rw [hq]
      rfl
    rw [hl, List.foldl_cons, List.foldl_nil]
    have hque : ({ w.seg with myMaxSpeed := ns } : MESegment).que 0 = [v] := by
      show w.seg.myCarQues.getD 0 [] = [v]
      rw [hq]
      rfl
    simp only [hque]
    rw [if_pos (by simp)]
    rfl
  rw [hw, setSpeedForQueue_single]
  rfl

/-- The event time of vehicle 0 along `exSpeedUpOps`. -/
theorem exSpeedUpOps_state :
    (run (World.fresh exSegmentTwoLanes exStoreFast) (exSpeedUpOps.take 1)).seg.myCarQues = [[0]]
    ∧ ((run (World.fresh exSegmentTwoLanes exStoreFast) (exSpeedUpOps.take 1)).veh 0).eventTime
        = 10000
    ∧ (run (World.fresh exSegmentTwoLanes exStoreFast) exSpeedUpOps).seg.myCarQues = [[0]]
    ∧ ((run (World.fresh exSegmentTwoLanes exStoreFast) exSpeedUpOps).veh 0).eventTime = 4600 := by
  have hfirst : (receive exEnv (World.fresh exSegmentTwoLanes exStoreFast) 0 0 true false 0).seg.myCarQues
        = [[0]]
      ∧ ((receive exEnv (World.fresh exSegmentTwoLanes exStoreFast) 0 0 true false 0).veh 0).eventTime
        = 10000
      ∧ (receive exEnv (World.fresh exSegmentTwoLanes exStoreFast) 0 0 true false 0).seg.myMaxSpeed
        = 10
      ∧ (receive exEnv (World.fresh exSegmentTwoLanes exStoreFast) 0 0 true false 0).seg.myLength
        = 100
      ∧ (receive exEnv (World.fresh exSegmentTwoLanes exStoreFast) 0 0 true false 0).seg.myBlockTimes
        = [-1]
      ∧ ((receive exEnv (World.fresh exSegmentTwoLanes exStoreFast) 0 0 true false 0).veh
          0).lastEntryTime = 0
      ∧ ((receive exEnv (World.fresh exSegmentTwoLanes exStoreFast) 0 0 true false 0).veh 0).speed
        = 10 := by
    refine ⟨?_, ?_, ?_, ?_, ?_, ?_, ?_⟩ <;>
    · simp [receive, arrivalOnEntry, World.fresh,
        exSegmentTwoLanes, exSegment, exStoreFast, exVehicle, exEnv, chooseQueue, tentativeLeave,
        insertCar, overtake, MESegment.que, MESegment.block, TIME2STEPS, castToTime, World.setVeh,
        World.log, Function.update_apply, MEVehicle.getLengthWithGap]
      try norm_num
  obtain ⟨h1, h2, h3, h4, h5, h6, h7⟩ := hfirst
  have hrun1 : run (World.fresh exSegmentTwoLanes exStoreFast) (exSpeedUpOps.take 1)
      = receive exEnv (World.fresh exSegmentTwoLanes exStoreFast) 0 0 true false 0 := rfl
  have hrun2 : run (World.fresh exSegmentTwoLanes exStoreFast) exSpeedUpOps
      = setSpeed exEnv (receive exEnv (World.fresh exSegmentTwoLanes exStoreFast) 0 0 true false 0)
          25 1000 DO_NOT_PATCH_JAM_THRESHOLD := rfl
  rw [hrun1, hrun2]
  refine ⟨h1, h2, ?_, ?_⟩
  · obtain ⟨v, x, hseg⟩ := setSpeed_seg exEnv
      (receive exEnv (World.fresh exSegmentTwoLanes exStoreFast) 0 0 true false 0) 25 1000
      DO_NOT_PATCH_JAM_THRESHOLD
    rw [hseg]
    exact h1
  · rw [setSpeed_single _ _ _ _ 0 h1 (by rw [h3]; norm_num)]
    unfold newArrival MESegment.block
    rw [h4, h5, h6, h7]
    norm_num [STEPS2TIME, TIME2STEPS, castToTime]

/-- C24 fails as stated: vehicle 0, queued with event time 10 s, is given the
event time 4.6 s when `setSpeed` raises the free speed from 10 to 25 m/s at 1 s. -/
theorem eventTime_monotone_counterexample :
    (run (World.fresh exSegmentTwoLanes exStoreFast) (exSpeedUpOps.take 1)).seg.myCarQues = [[0]]
    ∧ ((run (World.fresh exSegmentTwoLanes exStoreFast) (exSpeedUpOps.take 1)).veh 0).eventTime
        = 10000
    ∧ (run (World.fresh exSegmentTwoLanes exStoreFast) exSpeedUpOps).seg.myCarQues = [[0]]
    ∧ ((run (World.fresh exSegmentTwoLanes exStoreFast) exSpeedUpOps).veh 0).eventTime = 4600
    ∧ ((run (World.fresh exSegmentTwoLanes exStoreFast) exSpeedUpOps).veh 0).eventTime
        < ((run (World.fresh exSegmentTwoLanes exStoreFast) (exSpeedUpOps.take 1)).veh 0).eventTime := by
  obtain ⟨h1, h2, h3, h4⟩ := exSpeedUpOps_state
  refine ⟨h1, h2, h3, h4, ?_⟩
  rw [h2, h4]
  decide

/-! ## Restoring a saved state -/

theorem eq_set_of_getD (l l1 : List (List VehPtr)) (q : Nat) (x : List VehPtr)
    (hlen : l1.length = l.length)
    (h : ∀ n, l1.getD n [] = if n = q then x else l.getD n []) : l1 = l.set q x := by
  apply List.ext_getElem (by simp [hlen])
  intro n h1 h2
  have hn := h n
  rw [List.getD_eq_getElem?_getD, List.getElem?_eq_getElem h1, Option.getD_some] at hn
  rw [hn, List.getElem_set]
  by_cases e : n = q
  · rw [if_pos e, if_pos e.symm]
  · rw [if_neg e, if_neg (fun e1 => e e1.symm)]
    rw [List.getD_eq_getElem?_getD, List.getElem?_eq_getElem (hlen ▸ h1), Option.getD_some]

theorem loadState_carQues (w : World) (vehs : List VehPtr) (b : SUMOTime) (q : Nat)
    (hq : q < w.seg.myCarQues.length) :
    (loadState w vehs b q).seg.myCarQues = w.seg.myCarQues.set q (w.seg.que q ++ vehs) := by
  apply eq_set_of_getD
  · exact carQues_length_of_fixed (loadState_fixed w vehs b q)
  · intro n
    have := loadState_que w vehs b q n
    unfold MESegment.que at this
    rw [this]
    by_cases e : n = q
    · rw [if_pos ⟨e, hq⟩, if_pos e]
      rfl
    · rw [if_neg (fun h => e h.1), if_neg e]

theorem sum_map_set (f : List VehPtr → SUMOReal) (l : List (List VehPtr)) (i : Nat)
    (x : List VehPtr) (h : i < l.length) :
    ((l.set i x).map f).sum + f (l.getD i []) = (l.map f).sum + f x := by
  induction l generalizing i with
  | nil => simp at h
  | cons k rest ih =>
    cases i with
    | zero =>
      simp only [List.set_cons_zero, List.map_cons, List.sum_cons, List.getD_cons_zero]
      ring
    | succ i =>
      have := ih i (by simpa using h)
      simp only [List.set_cons_succ, List.map_cons, List.sum_cons, List.getD_cons_succ]
      linarith

theorem loadState_trace (w : World) (vehs : List VehPtr) (b : SUMOTime) (q : Nat) :
    (loadState w vehs b q).trace
      = w.trace ++ (match ((loadState w vehs b q).seg.que q).getLast? with
          | some leader => [Event.addLeaderCar leader]
          | none => []) := by
  have h := (loadState_loop q vehs w).2.1
  simp only [] at h
  unfold loadState
  simp only []
  split
  · rename_i leader hl
    simp only [World.setBlock, log_trace, h]
    simp only [MESegment.que] at hl ⊢
    simp only [log_seg, hl]
  · rename_i hl
    simp only [World.setBlock, h]
    simp only [MESegment.que] at hl ⊢
    simp only [hl, List.append_nil]

theorem loadState_block (w : World) (vehs : List VehPtr) (b : SUMOTime) (q : Nat)
    (hb : q < w.seg.myBlockTimes.length) : (loadState w vehs b q).seg.block q = b := by
  have h := (loadState_loop q vehs w).2.2.2.1
  simp only [] at h
  unfold loadState MESegment.block
  simp only []
  split <;> simp [h, World.setBlock, World.log, List.getD_eq_getElem?_getD, List.getElem?_set, hb]

/-- Capping at every step gives the same as capping once, for a non-negative increment. -/
theorem min_min_add (c s x : SUMOReal) (hx : 0 ≤ x) : min c (min c s + x) = min c (s + x) := by
  rcases le_total c s with h | h
  · rw [min_eq_left h, min_eq_left (by linarith), min_eq_left (by linarith)]
  · rw [min_eq_right h]

/-- C22: `loadState(ids, block, q)` on existing indices appends the listed
vehicles to queue `q` in listed order and leaves the other queues alone, sets
`blockTime[q] = block`, calls `addLeaderCar` once, for the last vehicle of the
queue (the last listed one if any is listed) unless the queue stays empty, and
leaves the occupancy at `min(capacity, occupancy + sum of length+gap of the
listed vehicles)`; that is `min(capacity, sum of length+gap over all vehicles
now in the segment)` when the occupancy before was that value for the vehicles
already queued (as on a fresh segment) and lengths plus gaps are non-negative. -/
theorem loadState_spec (w : World) (vehs : List VehPtr) (block : SUMOTime) (q : Nat)
    (hq : q < w.seg.myCarQues.length) (hb : q < w.seg.myBlockTimes.length) :
    (loadState w vehs block q).seg.que q = w.seg.que q ++ vehs
    ∧ (∀ x, x ≠ q → (loadState w vehs block q).seg.que x = w.seg.que x)
    ∧ (loadState w vehs block q).seg.block q = block
    ∧ (loadState w vehs block q).trace
        = w.trace ++ (match (w.seg.que q ++ vehs).getLast? with
            | some leader => [Event.addLeaderCar leader]
            | none => [])
    ∧ (∀ leader, vehs.getLast? = some leader →
        (loadState w vehs block q).trace = w.trace ++ [Event.addLeaderCar leader])
    ∧ (loadState w vehs block q).seg.myOccupancy
        = min w.seg.myCapacity
            (w.seg.myOccupancy + (vehs.map (fun v => (w.veh v).getLengthWithGap)).sum)
    ∧ (w.seg.myOccupancy = min w.seg.myCapacity (queuedLengthWithGap w) →
        (∀ v ∈ vehs, 0 ≤ (w.veh v).getLengthWithGap) →
        (loadState w vehs block q).seg.myOccupancy
          = min (loadState w vehs block q).seg.myCapacity
              (queuedLengthWithGap (loadState w vehs block q))) := by
  have hque : (loadState w vehs block q).seg.que q = w.seg.que q ++ vehs := by
    rw [loadState_que, if_pos ⟨rfl, hq⟩]
  have htrace : (loadState w vehs block q).trace
      = w.trace ++ (match (w.seg.que q ++ vehs).getLast? with
          | some leader => [Event.addLeaderCar leader]
          | none => []) := by
    rw [loadState_trace, hque]
  refine ⟨hque, fun x hx => ?_, loadState_block w vehs block q hb, htrace, fun leader hl => ?_,
    loadState_occupancy w vehs block q, fun hocc hpos => ?_⟩
  · rw [loadState_que, if_neg (fun h => hx h.1)]
  · rw [htrace]
    have : (w.seg.que q ++ vehs).getLast? = some leader := by
      obtain ⟨pre, hpre⟩ := List.getLast?_eq_some_iff.mp hl
      rw [hpre, ← List.append_assoc]
      simp
    rw [this]
  · rw [loadState_occupancy, capacity_of_fixed (loadState_fixed w vehs block q)]
    have hsum : queuedLengthWithGap (loadState w vehs block q)
        = queuedLengthWithGap w + (vehs.map (fun v => (w.veh v).getLengthWithGap)).sum := by
      unfold queuedLengthWithGap
      rw [loadState_carQues w vehs block q hq, loadState_veh]
      have h := sum_map_set (fun k => (k.map (fun v => (w.veh v).getLengthWithGap)).sum)
        w.seg.myCarQues q (w.seg.que q ++ vehs) hq
      simp only [List.map_append, List.sum_append] at h
      unfold MESegment.que at h ⊢
      linarith
    rw [hsum, hocc]
    apply min_min_add
    apply List.sum_nonneg
    intro x hx
    obtain ⟨v, hv, rfl⟩ := List.mem_map.mp hx
    exact hpos v hv

theorem loadState_spec_witness :
    (loadState (World.fresh exSegmentTwoLanes exStoreFast) [0, 1] 5000 0).seg.que 0
        = (World.fresh exSegmentTwoLanes exStoreFast).seg.que 0 ++ [0, 1]
    ∧ (loadState (World.fresh exSegmentTwoLanes exStoreFast) [0, 1] 5000 0).seg.block 0 = 5000
    ∧ (loadState (World.fresh exSegmentTwoLanes exStoreFast) [0, 1] 5000 0).trace
        = (World.fresh exSegmentTwoLanes exStoreFast).trace ++ [Event.addLeaderCar 1]
    ∧ (loadState (World.fresh exSegmentTwoLanes exStoreFast) [0, 1] 5000 0).seg.myOccupancy
        = min (loadState (World.fresh exSegmentTwoLanes exStoreFast) [0, 1] 5000 0).seg.myCapacity
            (queuedLengthWithGap
              (loadState (World.fresh exSegmentTwoLanes exStoreFast) [0, 1] 5000 0)) := by
  have h := loadState_spec (World.fresh exSegmentTwoLanes exStoreFast) [0, 1] 5000 0
    Nat.one_pos Nat.one_pos
  refine ⟨h.1, h.2.2.1, h.2.2.2.2.1 1 rfl, h.2.2.2.2.2.2 ?_ ?_⟩
  · norm_num [queuedLengthWithGap, World.fresh, exSegmentTwoLanes, exSegment]
  · intro v _
    unfold exStoreFast World.fresh MEVehicle.getLengthWithGap
    simp only []
    split_ifs <;> norm_num [exVehicle]

/-- The restored state of the witness in numbers: two vehicles of 7.5 m each. -/
theorem exLoadState_state :
    (loadState (World.fresh exSegmentTwoLanes exStoreFast) [0, 1] 5000 0).seg.myCarQues = [[0, 1]]
    ∧ (loadState (World.fresh exSegmentTwoLanes exStoreFast) [0, 1] 5000 0).seg.myBlockTimes
        = [5000]
    ∧ (loadState (World.fresh exSegmentTwoLanes exStoreFast) [0, 1] 5000 0).seg.myOccupancy = 15
    ∧ (loadState (World.fresh exSegmentTwoLanes exStoreFast) [0, 1] 5000 0).trace
        = [Event.addLeaderCar 1] := by
  refine ⟨?_, ?_, ?_, ?_⟩ <;>
  · simp [loadState, World.fresh, exSegmentTwoLanes, exSegment, exStoreFast, exVehicle,
      MESegment.que, World.log, World.setBlock, MEVehicle.getLengthWithGap]
    try norm_num

/-! ## Travel time after a speed change, admission over time, arrival on entry -/

theorem TIME2STEPS_zero : TIME2STEPS 0 = 0 := by
  simp [TIME2STEPS, castToTime]

/-- C32: `newArrival(v, v_new, t)` is `t + max(1, ticks((L - pos) / v_new))` with
`pos = min(L, seconds(t - v.lastEntryTime) * v.speed)`; it is later than `t`,
and it is `t + 1` when `pos = L`. -/
theorem newArrival_spec (s : MESegment) (v : MEVehicle) (newSpeed : SUMOReal) (t : SUMOTime) :
    newArrival s v newSpeed t
        = t + max 1 (TIME2STEPS ((s.myLength
            - min s.myLength (STEPS2TIME (t - v.lastEntryTime) * v.speed)) / newSpeed))
    ∧ (0 < newSpeed → t < newArrival s v newSpeed t)
    ∧ (min s.myLength (STEPS2TIME (t - v.lastEntryTime) * v.speed) = s.myLength →
        newArrival s v newSpeed t = t + 1) := by
  refine ⟨?_, fun _ => ?_, fun h => ?_⟩
  · unfold newArrival
    simp only []
    rw [max_comm]
  · unfold newArrival
    simp only []
    have : (1 : SUMOTime) ≤ max (TIME2STEPS ((s.myLength
        - min s.myLength (STEPS2TIME (t - v.lastEntryTime) * v.speed)) / newSpeed)) 1 :=
      le_max_right _ _
    linarith
  · unfold newArrival
    simp only []
    rw [h, sub_self, zero_div, TIME2STEPS_zero]
    rfl

theorem newArrival_spec_witness :
    (0 : SUMOTime) < newArrival exSegment exVehicle (25 / 2) 0
    ∧ newArrival exSegment exVehicle (25 / 2) 20000 = 20000 + 1 :=
  ⟨(newArrival_spec exSegment exVehicle (25 / 2) 0).2.1 (by norm_num),
    (newArrival_spec exSegment exVehicle (25 / 2) 20000).2.2
      (by norm_num [exSegment, exVehicle, STEPS2TIME])⟩

/-- C37: for a regular entry, admission at `t` implies admission at every later
time; for an initial placement the result (and the state left behind) does not
depend on the entry time. -/
theorem hasSpaceFor_monotone (env : Env) (w : World) (veh : VehPtr) :
    (∀ t t1 : SUMOTime, t ≤ t1 → (hasSpaceFor env w veh t false).1 = true →
      (hasSpaceFor env w veh t1 false).1 = true)
    ∧ (∀ t t1 : SUMOTime, hasSpaceFor env w veh t true = hasSpaceFor env w veh t1 true) := by
  constructor
  · intro t t1 hle h
    unfold hasSpaceFor at h ⊢
    by_cases h0 : w.seg.myOccupancy = 0
    · rw [if_pos h0]
    · rw [if_neg h0] at h ⊢
      simp only [] at h ⊢
      by_cases h1 : w.seg.myOccupancy + (w.veh veh).getLengthWithGap > w.seg.myCapacity
      · rw [if_pos h1] at h
        exact absurd h (by simp)
      · rw [if_neg h1] at h ⊢
        simp only [Bool.false_eq_true, if_false, decide_eq_true_eq] at h ⊢
        exact le_trans h hle
  · intro t t1
    unfold hasSpaceFor
    rfl

theorem hasSpaceFor_monotone_witness :
    (hasSpaceFor exEnv (exWorld 50 exVehicle) 0 7000 false).1 = true :=
  (hasSpaceFor_monotone exEnv (exWorld 50 exVehicle) 0).1 5000 7000 (by decide)
    (by norm_num [hasSpaceFor, exWorld, exSegment, exVehicle, MEVehicle.getLengthWithGap])

/-- C34: a `receive` on the arrival path gives the vehicle the event time
`t + ticks(L / speed)`, `speed` being the vehicle's speed on the previous
segment; it activates the reminders, notifies the leave with reason Arrived and
schedules the removal of the vehicle, and makes no other call; the segment,
with its queues, occupancy, block times and entry block time, is unchanged. -/
theorem receive_arrival_path (env : Env) (w : World) (veh : VehPtr) (time : SUMOTime)
    (d a : Bool) (r : SUMOReal) (h : arrivalOnEntry w.seg (w.veh veh) d a = true) :
    ((receive env w veh time d a r).veh veh).eventTime
        = time + TIME2STEPS (w.seg.myLength / (w.veh veh).speed)
    ∧ (receive env w veh time d a r).trace
        = w.trace ++ [Event.activateReminders veh Notification.JUNCTION,
            Event.updateDetectors veh time true (some Notification.ARRIVED),
            Event.scheduleVehicleRemoval veh]
    ∧ (receive env w veh time d a r).seg = w.seg
    ∧ (receive env w veh time d a r).seg.myCarQues = w.seg.myCarQues
    ∧ (receive env w veh time d a r).seg.myOccupancy = w.seg.myOccupancy
    ∧ (receive env w veh time d a r).seg.myBlockTimes = w.seg.myBlockTimes
    ∧ (receive env w veh time d a r).seg.myEntryBlockTime = w.seg.myEntryBlockTime
    ∧ (∀ v, Event.addLeaderCar v ∉ (receive env w veh time d a r).trace.drop w.trace.length
        ∧ Event.removeLeaderCar v ∉ (receive env w veh time d a r).trace.drop w.trace.length) := by
  have harr : ∀ (s : MESegment) (v : MEVehicle) (x : Option String) (t b : SUMOTime),
      arrivalOnEntry s { v with segment := x, lastEntryTime := t, blockTime := b } d a
        = arrivalOnEntry s v d a := fun _ _ _ _ _ => rfl
  have hd : d = false := by
    cases d with
    | false => rfl
    | true => simp [arrivalOnEntry] at h
  have hseg := (receive_arrived env w veh time d a r h).1
  have htrace : (receive env w veh time d a r).trace
      = w.trace ++ [Event.activateReminders veh Notification.JUNCTION,
          Event.updateDetectors veh time true (some Notification.ARRIVED),
          Event.scheduleVehicleRemoval veh] := by
    unfold receive
    simp only [setVeh_seg, setVeh_veh_self, harr, h, if_true]
    simp [updateDetectorsOnLeave]
  refine ⟨?_, htrace, hseg, by rw [hseg], by rw [hseg], by rw [hseg], by rw [hseg], fun v => ?_⟩
  · subst hd
    unfold receive
    simp only [setVeh_seg, setVeh_veh_self, harr, h, if_true]
    simp [updateDetectorsOnLeave]
  · rw [drop_trace htrace]
    simp

theorem receive_arrival_path_witness :
    ((receive exEnv (World.fresh exSegment exStoreArrived) 0 5000 false false 0).veh 0).eventTime
        = 5000 + TIME2STEPS ((World.fresh exSegment exStoreArrived).seg.myLength
            / ((World.fresh exSegment exStoreArrived).veh 0).speed)
    ∧ (receive exEnv (World.fresh exSegment exStoreArrived) 0 5000 false false 0).trace
        = (World.fresh exSegment exStoreArrived).trace
          ++ [Event.activateReminders 0 Notification.JUNCTION,
            Event.updateDetectors 0 5000 true (some Notification.ARRIVED),
            Event.scheduleVehicleRemoval 0]
    ∧ (receive exEnv (World.fresh exSegment exStoreArrived) 0 5000 false false 0).seg
        = (World.fresh exSegment exStoreArrived).seg := by
  have h := receive_arrival_path exEnv (World.fresh exSegment exStoreArrived) 0 5000 false false 0
    (by simp [arrivalOnEntry, World.fresh, exStoreArrived])
  exact ⟨h.1, h.2.1, h.2.2.1⟩

/-! ## Arrival test and random draws of `receive` -/

/-- The calls made while a vehicle is inserted into a non-empty queue: a random
draw exactly when the call is not a depart, the vehicle at index 0 leaves after
the tentative exit time, overtaking is enabled and the capacity exceeds the
length; then `removeLeaderCar` if the draw succeeds and that vehicle is alone. -/
theorem insertCar_trace (env : Env) (w : World) (veh : VehPtr) (d : Bool) (r : SUMOReal)
    (t0 : SUMOTime) (c0 : VehPtr) (rest : List VehPtr) :
    (insertCar env w veh d r t0 (c0 :: rest)).1.trace
      = w.trace ++
        (if d = false ∧ (w.veh c0).eventTime > t0 ∧ env.gMesoOvertaking = true
            ∧ w.seg.myCapacity > w.seg.myLength then
          Event.randDraw ::
            (if r > w.seg.myOccupancy / w.seg.myCapacity ∧ rest = [] then
              [Event.removeLeaderCar c0] else [])
        else []) := by
  unfold insertCar overtake
  cases d <;> by_cases h1 : (w.veh c0).eventTime > t0 <;> by_cases h2 : env.gMesoOvertaking = true
    <;> by_cases h3 : w.seg.myCapacity > w.seg.myLength
    <;> by_cases h4 : r > w.seg.myOccupancy / w.seg.myCapacity <;> by_cases h5 : rest = []
    <;> simp [h1, h2, h3, h4, h5]

/-- The calls of a `receive` whose route continues, after those made before. -/
theorem receive_queued_trace (env : Env) (w : World) (veh : VehPtr) (time : SUMOTime)
    (d a : Bool) (r : SUMOReal) (h : arrivalOnEntry w.seg (w.veh veh) d a = false) :
    ∃ evs reason leaderCalls,
      (receive env w veh time d a r).trace
        = w.trace ++ evs ++ Event.activateReminders veh reason :: leaderCalls
      ∧ (leaderCalls = [] ∨ leaderCalls = [Event.addLeaderCar veh])
      ∧ ((w.seg.que (chooseQueue w.seg (w.veh veh).succEdge1) = [] ∧ evs = [])
        ∨ ∃ c0 rest, w.seg.que (chooseQueue w.seg (w.veh veh).succEdge1) = c0 :: rest
          ∧ evs = (if d = false
                ∧ (w.veh c0).eventTime
                    > tentativeLeave w.seg (w.veh veh) time (chooseQueue w.seg (w.veh veh).succEdge1)
                ∧ env.gMesoOvertaking = true ∧ w.seg.myCapacity > w.seg.myLength then
              Event.randDraw ::
                (if r > w.seg.myOccupancy / w.seg.myCapacity ∧ rest = [] then
                  [Event.removeLeaderCar c0] else [])
            else [])) := by
  obtain ⟨w1, hseg, htr, hev, _, _, htrace⟩ := receive_insert env w veh time d a r h
  obtain ⟨lc, hlc, htrace⟩ : ∃ lc, (lc = [] ∨ lc = [Event.addLeaderCar veh])
      ∧ (receive env w veh time d a r).trace
        = (insertCar env w1 veh d r
            (tentativeLeave w.seg (w.veh veh) time (chooseQueue w.seg (w.veh veh).succEdge1))
            (w.seg.que (chooseQueue w.seg (w.veh veh).succEdge1))).1.trace
          ++ Event.activateReminders veh
              (if d = true then Notification.DEPARTED
                else if (w.seg.myIndex == 0 || a) = true then Notification.JUNCTION
                else Notification.SEGMENT) :: lc := by
    refine ⟨_, ?_, htrace⟩
    split_ifs
    · exact Or.inr rfl
    · exact Or.inl rfl
  cases hq : w.seg.que (chooseQueue w.seg (w.veh veh).succEdge1) with
  | nil =>
    rw [hq] at htrace
    refine ⟨[], (if d = true then Notification.DEPARTED
        else if (w.seg.myIndex == 0 || a) = true then Notification.JUNCTION
        else Notification.SEGMENT), lc, ?_, hlc, Or.inl ⟨rfl, rfl⟩⟩
    rw [htrace]
    simp [insertCar, htr]
  | cons c0 rest =>
    rw [hq, insertCar_trace, hev, hseg, htr] at htrace
    exact ⟨_, _, lc, htrace, hlc, Or.inr ⟨c0, rest, rfl, rfl⟩⟩

/-- The calls of a `receive` on the arrival path. -/
theorem receive_arrived_trace (env : Env) (w : World) (veh : VehPtr) (time : SUMOTime)
    (d a : Bool) (r : SUMOReal) (h : arrivalOnEntry w.seg (w.veh veh) d a = true) :
    (receive env w veh time d a r).trace
      = w.trace ++ [Event.activateReminders veh Notification.JUNCTION,
          Event.updateDetectors veh time true (some Notification.ARRIVED),
          Event.scheduleVehicleRemoval veh] := by
  have harr : ∀ (s : MESegment) (v : MEVehicle) (x : Option String) (t b : SUMOTime),
      arrivalOnEntry s { v with segment := x, lastEntryTime := t, blockTime := b } d a
        = arrivalOnEntry s v d a := fun _ _ _ _ _ => rfl
  unfold receive
  simp only [setVeh_seg, setVeh_veh_self, harr, h, if_true]
  simp [updateDetectorsOnLeave]

/-- C33 (as amended): `receive` takes the arrival path, which ends in the
scheduling of the vehicle's removal, exactly when the call is not a depart and
either the segment is the first of its edge or the call follows a teleport and
the route ends on moving the route pointer, or the vehicle has arrived.  So a
vehicle that has arrived takes the arrival path on every segment; on a segment
with index above 0 and without teleport, a vehicle that has not arrived is
queued. -/
theorem receive_arrival_test (env : Env) (w : World) (veh : VehPtr) (time : SUMOTime)
    (d a : Bool) (r : SUMOReal) :
    (Event.scheduleVehicleRemoval veh ∈ (receive env w veh time d a r).trace.drop w.trace.length
      ↔ d = false
        ∧ (((w.seg.myIndex = 0 ∨ a = true) ∧ (w.veh veh).routeEndsOnMove = true)
          ∨ (w.veh veh).arrived = true))
    ∧ (d = false → (w.veh veh).arrived = true → (receive env w veh time d a r).seg = w.seg)
    ∧ (w.seg.myIndex ≠ 0 → a = false → (w.veh veh).arrived = false →
        chooseQueue w.seg (w.veh veh).succEdge1 < w.seg.myCarQues.length →
        veh ∈ (receive env w veh time d a r).seg.que (chooseQueue w.seg (w.veh veh).succEdge1)) := by
  have hiff : arrivalOnEntry w.seg (w.veh veh) d a = true
      ↔ d = false
        ∧ (((w.seg.myIndex = 0 ∨ a = true) ∧ (w.veh veh).routeEndsOnMove = true)
          ∨ (w.veh veh).arrived = true) := by
    unfold arrivalOnEntry
    cases d <;> simp
  refine ⟨?_, fun hd harr => ?_, fun hidx ha harr hi => ?_⟩
  · rw [← hiff]
    by_cases h : arrivalOnEntry w.seg (w.veh veh) d a = true
    · have htrace := receive_arrived_trace env w veh time d a r h
      rw [drop_trace htrace]
      simp [h]
    · have h1 : arrivalOnEntry w.seg (w.veh veh) d a = false := by simpa using h
      obtain ⟨evs, reason, lc, htrace, hlc, hevs⟩ := receive_queued_trace env w veh time d a r h1
      rw [List.append_assoc] at htrace
      rw [drop_trace htrace]
      constructor
      · intro hm
        exfalso
        rcases List.mem_append.mp hm with hm | hm
        · rcases hevs with ⟨_, he⟩ | ⟨c0, rest, _, he⟩
          · rw [he] at hm
            simp at hm
          · rw [he] at hm
            split_ifs at hm <;> simp at hm
        · rcases hlc with hl | hl <;> rw [hl] at hm <;> simp at hm
      · intro ht
        exact absurd ht h
  · exact (receive_arrived env w veh time d a r (hiff.mpr ⟨hd, Or.inr harr⟩)).1
  · have h1 : arrivalOnEntry w.seg (w.veh veh) d a = false := by
      unfold arrivalOnEntry
      cases d <;> simp [hidx, ha, harr]
    rcases receive_que env w veh time d a r h1 (chooseQueue w.seg (w.veh veh).succEdge1) with
      hsame | ⟨_, ⟨_, h2⟩ | ⟨c0, rest, _, h2 | h2⟩⟩
    · -- the queue is the one selected, so it cannot be unchanged
      obtain ⟨_, _, _, _, _, hques, _⟩ := receive_insert env w veh time d a r h1
      rw [que_of_set _ _ _ _ hques hi]
      rcases insertCar_cases env _ veh d r _ (w.seg.que (chooseQueue w.seg (w.veh veh).succEdge1))
        with ⟨_, h3⟩ | ⟨c0, rest, _, h3, _⟩ | ⟨c0, rest, _, h3, _⟩ <;> rw [h3] <;> simp
    · rw [h2]; simp
    · rw [h2]; simp
    · rw [h2]; simp

theorem receive_arrival_test_witness :
    (0 : VehPtr) ∈ (receive exEnv (World.fresh exSegmentSecond (fun _ => exVehicle)) 0 5000 false
        false 0).seg.que
      (chooseQueue (World.fresh exSegmentSecond (fun _ => exVehicle)).seg
        ((World.fresh exSegmentSecond (fun _ => exVehicle)).veh 0).succEdge1) :=
  (receive_arrival_test exEnv (World.fresh exSegmentSecond (fun _ => exVehicle)) 0 5000 false
    false 0).2.2 (by decide) rfl rfl (by decide)

/-- C33 fails as stated: on the segment of index 1, without teleport, a vehicle
that has arrived is not queued; `receive` takes the arrival path. -/
theorem receive_arrival_test_counterexample :
    (World.fresh exSegmentSecond exStoreArrived).seg.myIndex = 1
    ∧ ((World.fresh exSegmentSecond exStoreArrived).veh 0).arrived = true
    ∧ (receive exEnv (World.fresh exSegmentSecond exStoreArrived) 0 5000 false false 0).seg.myCarQues
        = [[]]
    ∧ (receive exEnv (World.fresh exSegmentSecond exStoreArrived) 0 5000 false false 0).trace
        = [Event.activateReminders 0 Notification.JUNCTION,
            Event.updateDetectors 0 5000 true (some Notification.ARRIVED),
            Event.scheduleVehicleRemoval 0] := by
  have harr : arrivalOnEntry (World.fresh exSegmentSecond exStoreArrived).seg
      ((World.fresh exSegmentSecond exStoreArrived).veh 0) false false = true := by
    simp [arrivalOnEntry, World.fresh, exStoreArrived]
  refine ⟨rfl, rfl, ?_, ?_⟩
  · rw [(receive_arrived exEnv _ 0 5000 false false 0 harr).1]
    rfl
  · rw [receive_arrived_trace exEnv _ 0 5000 false false 0 harr]
    rfl

/-! ## Random draws of `receive` -/

/-- Without a random draw the insertion does not depend on the value the
generator would return. -/
theorem insertCar_norand (env : Env) (w : World) (veh : VehPtr) (d : Bool) (r r1 : SUMOReal)
    (t0 : SUMOTime) (cars : List VehPtr)
    (h : env.gMesoOvertaking = false ∨ w.seg.myCapacity ≤ w.seg.myLength ∨ d = true) :
    insertCar env w veh d r t0 cars = insertCar env w veh d r1 t0 cars := by
  rcases h with h | h | h
  · cases cars with
    | nil => rfl
    | cons c rest => simp [insertCar, overtake, h]
  · cases cars with
    | nil => rfl
    | cons c rest => simp [insertCar, overtake, not_lt.mpr h]
  · subst h
    exact insertCar_depart env w veh r r1 t0 cars

/-- C40: the calls of one `receive` contain at most one random draw, and one
exactly when the route continues, the call is not a depart, the selected queue
is non-empty, the vehicle at its index 0 has an event time above `tleave`,
overtaking is enabled and the capacity exceeds the length.  With overtaking
disabled, with a capacity not above the length, or for a depart, the state
after `receive` is the same for every value the generator could return. -/
theorem receive_random_draws (env : Env) (w : World) (veh : VehPtr) (time : SUMOTime)
    (d a : Bool) (r : SUMOReal) :
    ((receive env w veh time d a r).trace.drop w.trace.length).count Event.randDraw ≤ 1
    ∧ (Event.randDraw ∈ (receive env w veh time d a r).trace.drop w.trace.length
      ↔ arrivalOnEntry w.seg (w.veh veh) d a = false ∧ d = false
        ∧ ∃ c0 rest, w.seg.que (chooseQueue w.seg (w.veh veh).succEdge1) = c0 :: rest
          ∧ (w.veh c0).eventTime
              > tentativeLeave w.seg (w.veh veh) time (chooseQueue w.seg (w.veh veh).succEdge1)
          ∧ env.gMesoOvertaking = true ∧ w.seg.myCapacity > w.seg.myLength)
    ∧ ((env.gMesoOvertaking = false ∨ w.seg.myCapacity ≤ w.seg.myLength ∨ d = true) →
        ∀ r1, receive env w veh time d a r1 = receive env w veh time d a r) := by
  have hlast : ∀ (reason : Notification) (lc : List Event),
      (lc = [] ∨ lc = [Event.addLeaderCar veh]) →
      (Event.activateReminders veh reason :: lc).count Event.randDraw = 0
      ∧ Event.randDraw ∉ Event.activateReminders veh reason :: lc := by
    intro reason lc hlc
    rcases hlc with e | e <;> subst e <;> simp
  refine ⟨?_, ?_, fun h r1 => ?_⟩
  · by_cases harr : arrivalOnEntry w.seg (w.veh veh) d a = true
    · rw [drop_trace (receive_arrived_trace env w veh time d a r harr)]
      simp
    · have h1 : arrivalOnEntry w.seg (w.veh veh) d a = false := by simpa using harr
      obtain ⟨evs, reason, lc, htrace, hlc, hevs⟩ := receive_queued_trace env w veh time d a r h1
      rw [List.append_assoc] at htrace
      rw [drop_trace htrace, List.count_append, (hlast reason lc hlc).1]
      rcases hevs with ⟨_, he⟩ | ⟨c0, rest, _, he⟩
      · rw [he]; simp
      · rw [he]
        split_ifs <;> simp
  · by_cases harr : arrivalOnEntry w.seg (w.veh veh) d a = true
    · rw [drop_trace (receive_arrived_trace env w veh time d a r harr)]
      simp [harr]
    · have h1 : arrivalOnEntry w.seg (w.veh veh) d a = false := by simpa using harr
      obtain ⟨evs, reason, lc, htrace, hlc, hevs⟩ := receive_queued_trace env w veh time d a r h1
      rw [List.append_assoc] at htrace
      rw [drop_trace htrace, List.mem_append]
      have hn := (hlast reason lc hlc).2
      rcases hevs with ⟨hq, he⟩ | ⟨c0, rest, hq, he⟩
      · rw [he, hq]
        simp [hn]
      · rw [he, hq]
        constructor
        · rintro (hm | hm)
          · by_cases hc : d = false ∧ (w.veh c0).eventTime
                > tentativeLeave w.seg (w.veh veh) time (chooseQueue w.seg (w.veh veh).succEdge1)
                ∧ env.gMesoOvertaking = true ∧ w.seg.myCapacity > w.seg.myLength
            · exact ⟨h1, hc.1, c0, rest, rfl, hc.2.1, hc.2.2.1, hc.2.2.2⟩
            · rw [if_neg hc] at hm
              simp at hm
          · exact absurd hm hn
        · rintro ⟨_, hd, c, rs, hcs, hgt, hflag, hcap⟩
          left
          simp only [List.cons.injEq] at hcs
          obtain ⟨hc, _⟩ := hcs
          subst hc
          rw [if_pos ⟨hd, hgt, hflag, hcap⟩]
          simp
  · have key := fun t0 cars => insertCar_norand env (w.setVeh veh (fun v => { v with segment := some w.seg.id, lastEntryTime := time, blockTime := SUMOTime_MAX })) veh d r1 r t0 cars h
    unfold receive
    simp only [key]


theorem receive_random_draws_witness :
    (exEnv.gMesoOvertaking = false
        ∨ (World.fresh exSegment (fun _ => exVehicle)).seg.myCapacity
            ≤ (World.fresh exSegment (fun _ => exVehicle)).seg.myLength
        ∨ false = true)
    ∧ receive exEnv (World.fresh exSegment (fun _ => exVehicle)) 0 0 false false 1
      = receive exEnv (World.fresh exSegment (fun _ => exVehicle)) 0 0 false false 0 :=
  ⟨Or.inr (Or.inl (by norm_num [World.fresh, exSegment])),
    (receive_random_draws exEnv (World.fresh exSegment (fun _ => exVehicle)) 0 0 false false 0).2.2
      (Or.inr (Or.inl (by norm_num [World.fresh, exSegment]))) 1⟩

/-! ## Route error of `initialise` -/

/-- The insertion made for a depart: the vehicle goes to index 0 without a call
of `overtake`, and is the new leader exactly when the queue was empty. -/
theorem insertCar_depart_eq (env : Env) (w : World) (veh : VehPtr) (r : SUMOReal)
    (t0 : SUMOTime) (cars : List VehPtr) :
    (insertCar env w veh true r t0 cars).1 = w
    ∧ (insertCar env w veh true r t0 cars).2.2.1 = decide (cars = [])
    ∧ (insertCar env w veh true r t0 cars).2.2.2 = veh :: cars := by
  cases cars with
  | nil => exact ⟨rfl, rfl, rfl⟩
  | cons c rest => simp [insertCar]

/-- The state `initialise` leaves behind when it raises the route error is the
state after the `receive` of the depart. -/
theorem initialise_error (env : Env) (w : World) (veh : VehPtr) (t : SUMOTime)
    (herr : (initialise env w veh t).1 = InitResult.processError) :
    (hasSpaceFor env w veh t true).1 = true
    ∧ (initialise env w veh t).2
        = receive env (hasSpaceFor env w veh t true).2 veh t true false 0 := by
  unfold initialise at herr ⊢
  by_cases h : (hasSpaceFor env w veh t true).1 = true
  · simp only [h, if_true] at herr ⊢
    refine ⟨trivial, ?_⟩
    split_ifs <;> rfl
  · simp [h] at herr

/-- C36: when `initialise` raises the route error nothing is rolled back: the
vehicle is at index 0 of the queue chosen for it, the occupancy is the former
one plus its length and gap, capped at the capacity, the calls made are the
depart notification and, if the queue was empty, the registration of the
vehicle as leader, which no later call takes back, so that the scheduler still
holds the vehicle. -/
theorem initialise_no_rollback (env : Env) (w : World) (veh : VehPtr) (t : SUMOTime)
    (herr : (initialise env w veh t).1 = InitResult.processError) :
    (initialise env w veh t).2.seg.myCarQues
        = w.seg.myCarQues.set (chooseQueue w.seg (w.veh veh).succEdge1)
            (veh :: w.seg.que (chooseQueue w.seg (w.veh veh).succEdge1))
    ∧ (chooseQueue w.seg (w.veh veh).succEdge1 < w.seg.myCarQues.length →
        (initialise env w veh t).2.seg.que (chooseQueue w.seg (w.veh veh).succEdge1)
          = veh :: w.seg.que (chooseQueue w.seg (w.veh veh).succEdge1))
    ∧ (initialise env w veh t).2.seg.myOccupancy
        = min w.seg.myCapacity (w.seg.myOccupancy + (w.veh veh).getLengthWithGap)
    ∧ (initialise env w veh t).2.trace
        = w.trace ++ Event.activateReminders veh Notification.DEPARTED
            :: (if w.seg.que (chooseQueue w.seg (w.veh veh).succEdge1) = []
                then [Event.addLeaderCar veh] else [])
    ∧ (w.seg.que (chooseQueue w.seg (w.veh veh).succEdge1) = [] →
        ∀ sch : Scheduler,
          veh ∈ (sch.applyAll ((initialise env w veh t).2.trace.drop w.trace.length)).registered) := by
  obtain ⟨_, hrecv⟩ := initialise_error env w veh t herr
  obtain ⟨ms, u, hw⟩ := hasSpaceFor_world env w veh t true
  have hseg : (hasSpaceFor env w veh t true).2.seg
      = { w.seg with myMeanSpeed := ms, myLastMeanSpeedUpdate := u } := by rw [hw]
  have hveh : (hasSpaceFor env w veh t true).2.veh = w.veh := by rw [hw]
  have htr : (hasSpaceFor env w veh t true).2.trace = w.trace := by rw [hw]
  have hcq : chooseQueue (hasSpaceFor env w veh t true).2.seg (w.veh veh).succEdge1
      = chooseQueue w.seg (w.veh veh).succEdge1 := by rw [hseg]; rfl
  have hque : ∀ q, (hasSpaceFor env w veh t true).2.seg.que q = w.seg.que q := by
    intro q; rw [hseg]; rfl
  have hqs : (hasSpaceFor env w veh t true).2.seg.myCarQues = w.seg.myCarQues := by rw [hseg]
  obtain ⟨w1, hs1, ht1, _, _, hq, htrace⟩ :=
    receive_insert env (hasSpaceFor env w veh t true).2 veh t true false 0 rfl
  rw [hveh, hcq, hque] at hq htrace
  obtain ⟨hi1, hi2, hi3⟩ := insertCar_depart_eq env w1 veh 0
    (tentativeLeave (hasSpaceFor env w veh t true).2.seg (w.veh veh) t
      (chooseQueue w.seg (w.veh veh).succEdge1))
    (w.seg.que (chooseQueue w.seg (w.veh veh).succEdge1))
  rw [hi3, hqs] at hq
  rw [hi1, hi2, ht1, htr] at htrace
  have htrace2 : (initialise env w veh t).2.trace
      = w.trace ++ Event.activateReminders veh Notification.DEPARTED
          :: (if w.seg.que (chooseQueue w.seg (w.veh veh).succEdge1) = []
              then [Event.addLeaderCar veh] else []) := by
    rw [hrecv, htrace]
    simp
  refine ⟨?_, fun hlt => ?_, ?_, htrace2, fun hnil sch => ?_⟩
  · rw [hrecv, hq]
  · rw [hrecv]
    unfold MESegment.que
    rw [hq, List.getD_eq_getElem?_getD, List.getElem?_set_self (by simpa using hlt)]
    rfl
  · rw [hrecv, receive_occupancy]
    rw [hveh, hseg]
    simp [arrivalOnEntry]
  · rw [drop_trace htrace2, if_pos hnil]
    simp [Scheduler.applyAll, Scheduler.apply]

theorem initialise_no_rollback_witness :
    (initialise { exEnv with gCheckRoutes := true }
        (World.fresh exSegment (fun _ => { exVehicle with validRoute := false })) 0 0).1
      = InitResult.processError
    ∧ (initialise { exEnv with gCheckRoutes := true }
        (World.fresh exSegment (fun _ => { exVehicle with validRoute := false })) 0 0).2.seg.myOccupancy
      = 15 / 2 := by
  have herr : (initialise { exEnv with gCheckRoutes := true }
        (World.fresh exSegment (fun _ => { exVehicle with validRoute := false })) 0 0).1
      = InitResult.processError := by
    have hv := receive_facade { exEnv with gCheckRoutes := true }
      (World.fresh exSegment (fun _ => { exVehicle with validRoute := false })) 0 0 true false 0 0
    have hv2 : ((receive { exEnv with gCheckRoutes := true }
        (World.fresh exSegment (fun _ => { exVehicle with validRoute := false })) 0 0 true false 0).veh
          0).validRoute = false := by
      simp only [MEVehicle.facade, Prod.mk.injEq] at hv
      rw [hv.2.2.2.2.2.2.2.2.2]
      rfl
    simp [initialise, hasSpaceFor, World.fresh, exSegment, exEnv] at hv2 ⊢
    simp [hv2]
  refine ⟨herr, ?_⟩
  rw [(initialise_no_rollback _ _ 0 0 herr).2.2.1]
  norm_num [World.fresh, exSegment, exVehicle, MEVehicle.getLengthWithGap]

/-! ## `send` of a vehicle that is not the leader of its queue -/

/-- C39: `send(v, next, t)` on a vehicle that is in its queue without being at
`back()` erases it there and leaves the other queues alone: the queue is one
shorter, keeps the others in their order and keeps its leader; no vehicle is
changed (so no event time is), the only call made is the leave notification
(so the scheduler is as before); yet the block time of the queue is
overwritten with `t`, plus the headway of `next` when `next` is a real
segment. -/
theorem send_non_leader (w : World) (v : VehPtr) (next : NextSeg) (t : SUMOTime)
    (hmem : v ∈ w.seg.que (w.veh v).queIndex)
    (hnl : (w.seg.que (w.veh v).queIndex).getLast? ≠ some v)
    (hq : (w.veh v).queIndex < w.seg.myBlockTimes.length) :
    (send w v next t).seg.que (w.veh v).queIndex = (w.seg.que (w.veh v).queIndex).erase v
    ∧ (∀ x, x ≠ (w.veh v).queIndex → (send w v next t).seg.que x = w.seg.que x)
    ∧ ((send w v next t).seg.que (w.veh v).queIndex).length + 1
        = (w.seg.que (w.veh v).queIndex).length
    ∧ ((send w v next t).seg.que (w.veh v).queIndex).Sublist (w.seg.que (w.veh v).queIndex)
    ∧ (∀ u, u ≠ v → (u ∈ (send w v next t).seg.que (w.veh v).queIndex
        ↔ u ∈ w.seg.que (w.veh v).queIndex))
    ∧ ((send w v next t).seg.que (w.veh v).queIndex).getLast?
        = (w.seg.que (w.veh v).queIndex).getLast?
    ∧ (send w v next t).veh = w.veh
    ∧ (∃ e, (send w v next t).trace = w.trace ++ [Event.updateDetectors v t true e])
    ∧ (∀ sch : Scheduler, sch.applyAll ((send w v next t).trace.drop w.trace.length) = sch)
    ∧ (send w v next t).seg.block (w.veh v).queIndex
        = (match next with
          | NextSeg.real s => t + getTimeHeadway s (free (removeCar w v t next).2.seg)
          | _ => t) := by
  have hlead : (removeCar w v t next).1 = none := by
    rw [removeCar_leader, if_neg hnl]
  have hque : (send w v next t).seg.que (w.veh v).queIndex
      = (w.seg.que (w.veh v).queIndex).erase v := by
    rw [send_que, if_pos rfl, if_neg hnl]
  refine ⟨hque, fun x hx => ?_, ?_, ?_, fun u hu => ?_, ?_, ?_, ?_, fun sch => ?_, ?_⟩
  · rw [send_que, if_neg hx]
  · rw [hque, List.length_erase_of_mem hmem]
    have : 0 < (w.seg.que (w.veh v).queIndex).length := List.length_pos_of_mem hmem
    omega
  · rw [hque]
    exact List.erase_sublist _ _
  · rw [hque]
    exact List.mem_erase_of_ne hu
  · rw [hque]
    cases hb : (w.seg.que (w.veh v).queIndex).getLast? with
    | none =>
      rw [List.getLast?_eq_none_iff.mp hb] at hmem
      simp at hmem
    | some b =>
      exact getLast?_erase_of_ne _ v b hb (fun e => hnl (by rw [hb, e]))
  · funext p
    rw [send_veh, hlead]
  · obtain ⟨e, he⟩ := send_emits w v next t
    rw [hlead] at he
    exact ⟨e, he⟩
  · rw [send_sched, hlead]
  · unfold MESegment.block
    rw [send_blockTimes]
    cases next <;> simp [List.getD_eq_getElem?_getD, List.getElem?_set, hq]

theorem send_non_leader_witness :
    (1 : VehPtr) ∈ (World.fresh { exSegment with myCarQues := [[1, 0]] } (fun _ => exVehicle)).seg.que
        ((World.fresh { exSegment with myCarQues := [[1, 0]] } (fun _ => exVehicle)).veh 1).queIndex
    ∧ (send (World.fresh { exSegment with myCarQues := [[1, 0]] } (fun _ => exVehicle)) 1
          NextSeg.vaporizationTarget 7000).seg.que 0 = [0]
    ∧ (send (World.fresh { exSegment with myCarQues := [[1, 0]] } (fun _ => exVehicle)) 1
          NextSeg.vaporizationTarget 7000).seg.block 0 = 7000 := by
  have h := send_non_leader (World.fresh { exSegment with myCarQues := [[1, 0]] } (fun _ => exVehicle))
    1 NextSeg.vaporizationTarget 7000 (by decide) (by decide) (by decide)
  exact ⟨by decide, h.1, h.2.2.2.2.2.2.2.2.2⟩

/-! ## Construction -/

/-- For a headway that is not negative the division by the lane count, carried
out on unsigned words, is the integer division. -/
theorem divBySize_nonneg (t : SUMOTime) (n : Nat) (h0 : 0 ≤ t) (h1 : t < 2 ^ 63) (hn : 1 ≤ n) :
    divBySize t n = t / (n : Int) := by
  unfold divBySize
  rw [Int.emod_eq_of_lt h0 (by linarith)]
  have hpos : (0 : Int) < n := by exact_mod_cast hn
  have hlo : 0 ≤ t / (n : Int) := Int.ediv_nonneg h0 (le_of_lt hpos)
  have hhi : t / (n : Int) ≤ t := Int.ediv_le_self _ h0
  exact wrapTime_of_range _ (by linarith) (by linarith)

/-- No operation assigns the attributes fixed at construction. -/
theorem step_fixed (w : World) (op : Op) : (step w op).seg.fixed = w.seg.fixed := by
  cases op with
  | receive env veh time d a r => exact receive_fixed env w veh time d a r
  | send veh next time => exact send_fixed w veh next time
  | vaporizeAnyCar t =>
    have hs := vaporizeAnyCar_seg w t
    show (match vaporizeAnyCar w t with
      | (_, some victim, w1) => changeSegmentToVaporization w1 victim t
      | (_, none, w1) => w1).seg.fixed = w.seg.fixed
    rcases hv : vaporizeAnyCar w t with ⟨b, _ | victim, w1⟩
    · rw [hv] at hs
      simp only [] at hs ⊢
      rw [hs]
    · rw [hv] at hs
      simp only [] at hs ⊢
      unfold changeSegmentToVaporization
      rw [send_fixed, hs]
  | setSpeed env ns t jt =>
    obtain ⟨v, x, h⟩ := setSpeed_seg env w ns t jt
    unfold step
    simp only []
    rw [h]
    rfl
  | loadState vehs block q => exact loadState_fixed w vehs block q

theorem run_fixed (ops : List Op) (w : World) : (run w ops).seg.fixed = w.seg.fixed := by
  induction ops generalizing w with
  | nil => rfl
  | cons op rest ih =>
    have h : run w (op :: rest) = run (step w op) rest := rfl
    rw [h, ih, step_fixed]

theorem blockTimes_length_of_fixed {s s1 : MESegment} (h : s1.fixed = s.fixed) :
    s1.myBlockTimes.length = s.myBlockTimes.length := by
  simp only [MESegment.fixed, Prod.mk.injEq] at h; tauto

/-- C35: a segment constructed on an edge with `n ≥ 1` lanes, from headways
that are not negative, has capacity `L * n`, headway capacity `L / 7.5 * n`,
each of the four headways equal to the raw value divided by `n` (integer
division), occupancy 0, and `Q` empty queues and `Q` block times `-1`, where
`Q = n` if `multiQueue` is set, `n > 1` and the edge has more than one
successor, and `Q = 1` otherwise; after any sequence of operations the number
of queues and the number of block times are still `Q`. -/
theorem construct_spec (env : Env) (id : String) (parent : MSEdge) (next : Option String)
    (length speed : SUMOReal) (idx : Nat) (tauff taufj taujf taujj : SUMOTime)
    (jamThresh : SUMOReal) (multiQueue junctionControl : Bool) (lgf uninit : SUMOReal)
    (s : MESegment)
    (hs : s = construct env id parent next length speed idx tauff taufj taujf taujj jamThresh
      multiQueue junctionControl lgf uninit)
    (hn : 1 ≤ parent.lanes.length)
    (hff : 0 ≤ tauff ∧ tauff < 2 ^ 63) (hfj : 0 ≤ taufj ∧ taufj < 2 ^ 63)
    (hjf : 0 ≤ taujf ∧ taujf < 2 ^ 63) (hjj : 0 ≤ taujj ∧ taujj < 2 ^ 63) :
    s.myCapacity = length * parent.lanes.length
    ∧ s.myHeadwayCapacity = length / (15 / 2) * parent.lanes.length
    ∧ s.myTau_ff = tauff / (parent.lanes.length : Int)
    ∧ s.myTau_fj = taufj / (parent.lanes.length : Int)
    ∧ s.myTau_jf = taujf / (parent.lanes.length : Int)
    ∧ s.myTau_jj = taujj / (parent.lanes.length : Int)
    ∧ s.myOccupancy = 0
    ∧ s.myCarQues = List.replicate
        (if multiQueue = true ∧ parent.lanes.length > 1 ∧ parent.successors.length > 1
          then parent.lanes.length else 1) []
    ∧ s.myBlockTimes = List.replicate
        (if multiQueue = true ∧ parent.lanes.length > 1 ∧ parent.successors.length > 1
          then parent.lanes.length else 1) (-1)
    ∧ ∀ (veh : VehPtr → MEVehicle) (ops : List Op),
        (run (World.fresh s veh) ops).seg.myCarQues.length
          = (if multiQueue = true ∧ parent.lanes.length > 1 ∧ parent.successors.length > 1
              then parent.lanes.length else 1)
        ∧ (run (World.fresh s veh) ops).seg.myBlockTimes.length
          = (if multiQueue = true ∧ parent.lanes.length > 1 ∧ parent.successors.length > 1
              then parent.lanes.length else 1) := by
  have hmulti : (multiQueue && decide (parent.lanes.length > 1)
        && decide (parent.successors.length > 1)) = true
      ↔ (multiQueue = true ∧ parent.lanes.length > 1 ∧ parent.successors.length > 1) := by
    simp [and_assoc]
  have hq : s.myCarQues = List.replicate
        (if multiQueue = true ∧ parent.lanes.length > 1 ∧ parent.successors.length > 1
          then parent.lanes.length else 1) [] := by
    rw [hs]
    unfold construct
    simp only []
    obtain ⟨x, hx⟩ := recomputeJamThreshold_eq env
      { id := id, myNextSegment := next, myLength := length, myMaxSpeed := speed, myIndex := idx, myTau_ff := divBySize tauff parent.lanes.length, myTau_fj := divBySize taufj parent.lanes.length, myTau_jf := divBySize taujf parent.lanes.length, myTau_jj := divBySize taujj parent.lanes.length, myHeadwayCapacity := length / (15 / 2) * parent.lanes.length, myCapacity := length * parent.lanes.length, myOccupancy := 0, myJamThreshold := uninit, myJunctionControl := junctionControl, myEntryBlockTime := SUMOTime_MIN, myLengthGeometryFactor := lgf, myMeanSpeed := speed, myLastMeanSpeedUpdate := SUMOTime_MIN, myCarQues := if (multiQueue && decide (parent.lanes.length > 1) && decide (parent.successors.length > 1)) = true then List.replicate parent.lanes.length [] else [[]], myBlockTimes := if (multiQueue && decide (parent.lanes.length > 1) && decide (parent.successors.length > 1)) = true then List.replicate parent.lanes.length (-1) else [-1], myFollowerMap := if (multiQueue && decide (parent.lanes.length > 1) && decide (parent.successors.length > 1)) = true then parent.successors.foldl (fun m e => followerMapSet m e ((parent.allowedLanes e).map (fun j => parent.lanes.indexOf j))) [] else [] } jamThresh
    rw [hx]
    simp only [hmulti]
    split_ifs <;> rfl
  have hb : s.myBlockTimes = List.replicate
        (if multiQueue = true ∧ parent.lanes.length > 1 ∧ parent.successors.length > 1
          then parent.lanes.length else 1) (-1) := by
    rw [hs]
    unfold construct
    simp only []
    obtain ⟨x, hx⟩ := recomputeJamThreshold_eq env
      { id := id, myNextSegment := next, myLength := length, myMaxSpeed := speed, myIndex := idx, myTau_ff := divBySize tauff parent.lanes.length, myTau_fj := divBySize taufj parent.lanes.length, myTau_jf := divBySize taujf parent.lanes.length, myTau_jj := divBySize taujj parent.lanes.length, myHeadwayCapacity := length / (15 / 2) * parent.lanes.length, myCapacity := length * parent.lanes.length, myOccupancy := 0, myJamThreshold := uninit, myJunctionControl := junctionControl, myEntryBlockTime := SUMOTime_MIN, myLengthGeometryFactor := lgf, myMeanSpeed := speed, myLastMeanSpeedUpdate := SUMOTime_MIN, myCarQues := if (multiQueue && decide (parent.lanes.length > 1) && decide (parent.successors.length > 1)) = true then List.replicate parent.lanes.length [] else [[]], myBlockTimes := if (multiQueue && decide (parent.lanes.length > 1) && decide (parent.successors.length > 1)) = true then List.replicate parent.lanes.length (-1) else [-1], myFollowerMap := if (multiQueue && decide (parent.lanes.length > 1) && decide (parent.successors.length > 1)) = true then parent.successors.foldl (fun m e => followerMapSet m e ((parent.allowedLanes e).map (fun j => parent.lanes.indexOf j))) [] else [] } jamThresh
    rw [hx]
    simp only [hmulti]
    split_ifs <;> rfl
  have hrest : s.myCapacity = length * parent.lanes.length
      ∧ s.myHeadwayCapacity = length / (15 / 2) * parent.lanes.length
      ∧ s.myTau_ff = divBySize tauff parent.lanes.length
      ∧ s.myTau_fj = divBySize taufj parent.lanes.length
      ∧ s.myTau_jf = divBySize taujf parent.lanes.length
      ∧ s.myTau_jj = divBySize taujj parent.lanes.length
      ∧ s.myOccupancy = 0 := by
    rw [hs]
    unfold construct
    simp only []
    obtain ⟨x, hx⟩ := recomputeJamThreshold_eq env
      { id := id, myNextSegment := next, myLength := length, myMaxSpeed := speed, myIndex := idx, myTau_ff := divBySize tauff parent.lanes.length, myTau_fj := divBySize taufj parent.lanes.length, myTau_jf := divBySize taujf parent.lanes.length, myTau_jj := divBySize taujj parent.lanes.length, myHeadwayCapacity := length / (15 / 2) * parent.lanes.length, myCapacity := length * parent.lanes.length, myOccupancy := 0, myJamThreshold := uninit, myJunctionControl := junctionControl, myEntryBlockTime := SUMOTime_MIN, myLengthGeometryFactor := lgf, myMeanSpeed := speed, myLastMeanSpeedUpdate := SUMOTime_MIN, myCarQues := if (multiQueue && decide (parent.lanes.length > 1) && decide (parent.successors.length > 1)) = true then List.replicate parent.lanes.length [] else [[]], myBlockTimes := if (multiQueue && decide (parent.lanes.length > 1) && decide (parent.successors.length > 1)) = true then List.replicate parent.lanes.length (-1) else [-1], myFollowerMap := if (multiQueue && decide (parent.lanes.length > 1) && decide (parent.successors.length > 1)) = true then parent.successors.foldl (fun m e => followerMapSet m e ((parent.allowedLanes e).map (fun j => parent.lanes.indexOf j))) [] else [] } jamThresh
    rw [hx]
    exact ⟨rfl, rfl, rfl, rfl, rfl, rfl, rfl⟩
  obtain ⟨h1, h2, h3, h4, h5, h6, h7⟩ := hrest
  refine ⟨h1, h2, ?_, ?_, ?_, ?_, h7, hq, hb, fun veh ops => ?_⟩
  · rw [h3, divBySize_nonneg _ _ hff.1 hff.2 hn]
  · rw [h4, divBySize_nonneg _ _ hfj.1 hfj.2 hn]
  · rw [h5, divBySize_nonneg _ _ hjf.1 hjf.2 hn]
  · rw [h6, divBySize_nonneg _ _ hjj.1 hjj.2 hn]
  · have hf := run_fixed ops (World.fresh s veh)
    rw [carQues_length_of_fixed hf, blockTimes_length_of_fixed hf]
    have e1 : (World.fresh s veh).seg = s := rfl
    rw [e1, hq, hb]
    simp

theorem construct_spec_witness :
    (1 ≤ ({ lanes := [0, 1], successors := [5, 6], allowedLanes := fun _ => [0, 1] } : MSEdge).lanes.length)
    ∧ (construct exEnv "s" { lanes := [0, 1], successors := [5, 6], allowedLanes := fun _ => [0, 1] }
        none 100 25 0 1000 1500 2000 3000 (-1) true false 1 0).myTau_ff = 500
    ∧ (construct exEnv "s" { lanes := [0, 1], successors := [5, 6], allowedLanes := fun _ => [0, 1] }
        none 100 25 0 1000 1500 2000 3000 (-1) true false 1 0).myBlockTimes = [-1, -1] := by
  have h := construct_spec exEnv "s" { lanes := [0, 1], successors := [5, 6], allowedLanes := fun _ => [0, 1] }
    none 100 25 0 1000 1500 2000 3000 (-1) true false 1 0 _ rfl (by decide)
    ⟨by norm_num, by norm_num⟩ ⟨by norm_num, by norm_num⟩ ⟨by norm_num, by norm_num⟩
    ⟨by norm_num, by norm_num⟩
  refine ⟨by decide, ?_, ?_⟩
  · rw [h.2.2.1]
    norm_num
  · rw [h.2.2.2.2.2.2.2.2.1]
    simp [List.replicate]

/-! ## Queue indices stored in the follower map -/

theorem lookup_filter_ne (m : List (EdgeId × List Nat)) (x e : EdgeId) (h : e ≠ x) :
    (m.filter (fun kv => kv.1 ≠ x)).lookup e = m.lookup e := by
  induction m with
  | nil => rfl
  | cons kv rest ih =>
    obtain ⟨k, v⟩ := kv
    by_cases hk : k = x
    · subst hk
      have hne : (e == k) = false := by simpa using h
      simp [List.filter_cons, List.lookup_cons, hne]
      simpa using ih
    · by_cases hek : e = k
      · subst hek
        simp [List.filter_cons, List.lookup_cons, hk]
      · have hne : (e == k) = false := by simpa using hek
        simp [List.filter_cons, List.lookup_cons, hk, hne]
        simpa using ih

theorem followerMapSet_lookup (m : List (EdgeId × List Nat)) (x e : EdgeId) (v : List Nat) :
    (followerMapSet m x v).lookup e = if e = x then some v else m.lookup e := by
  unfold followerMapSet
  by_cases h : e = x
  · subst h
    simp [List.lookup_cons]
  · have hne : (e == x) = false := by simpa using h
    rw [if_neg h, List.lookup_cons, hne]
    exact lookup_filter_ne m x e h

/-- The entry the constructor's loop leaves for an edge: the list computed for
it if it is among the successors, the former entry otherwise. -/
theorem followerMap_lookup (succs : List EdgeId) (f : EdgeId → List Nat)
    (m0 : List (EdgeId × List Nat)) (e : EdgeId) :
    (succs.foldl (fun m x => followerMapSet m x (f x)) m0).lookup e
      = if e ∈ succs then some (f e) else m0.lookup e := by
  induction succs generalizing m0 with
  | nil => simp
  | cons x rest ih =>
    rw [List.foldl_cons, ih, followerMapSet_lookup]
    by_cases h1 : e ∈ rest
    · simp [h1]
    · by_cases h2 : e = x
      · subst h2
        simp [h1]
      · simp [h1, h2]

/-- The queue `receive` selects exists when every index of the follower map does. -/
theorem chooseQueue_lt (s : MESegment) (succ : Option EdgeId) (hpos : 0 < s.myCarQues.length)
    (hmap : ∀ e indices, s.myFollowerMap.lookup e = some indices →
      ∀ i ∈ indices, i < s.myCarQues.length) :
    chooseQueue s succ < s.myCarQues.length := by
  unfold chooseQueue
  split_ifs with h1
  · cases succ with
    | none => exact hpos
    | some e =>
      simp only []
      cases hl : s.myFollowerMap.lookup e with
      | none => exact hpos
      | some indices =>
        simp only []
        cases indices with
        | nil => exact hpos
        | cons a l =>
          obtain ⟨pre, post, hsplit, _, _⟩ := foldl_argmin (fun i => (s.que i).length) l a
          apply hmap e (a :: l) hl
          simp only [List.tail_cons, List.headD_cons]
          rw [hsplit]
          simp
  · exact hpos

theorem followerMap_of_fixed {s s1 : MESegment} (h : s1.fixed = s.fixed) :
    s1.myFollowerMap = s.myFollowerMap := by
  simp only [MESegment.fixed, Prod.mk.injEq] at h; tauto

/-- The queues, block times and follower map the constructor leaves. -/
theorem construct_queues (env : Env) (id : String) (parent : MSEdge) (next : Option String)
    (length speed : SUMOReal) (idx : Nat) (tauff taufj taujf taujj : SUMOTime)
    (jamThresh : SUMOReal) (multiQueue junctionControl : Bool) (lgf uninit : SUMOReal) :
    (construct env id parent next length speed idx tauff taufj taujf taujj jamThresh multiQueue
        junctionControl lgf uninit).myCarQues
      = (if (multiQueue && decide (parent.lanes.length > 1)
            && decide (parent.successors.length > 1)) = true
          then List.replicate parent.lanes.length [] else [[]])
    ∧ (construct env id parent next length speed idx tauff taufj taujf taujj jamThresh multiQueue
        junctionControl lgf uninit).myBlockTimes
      = (if (multiQueue && decide (parent.lanes.length > 1)
            && decide (parent.successors.length > 1)) = true
          then List.replicate parent.lanes.length (-1) else [-1])
    ∧ (construct env id parent next length speed idx tauff taufj taujf taujj jamThresh multiQueue
        junctionControl lgf uninit).myFollowerMap
      = (if (multiQueue && decide (parent.lanes.length > 1)
            && decide (parent.successors.length > 1)) = true
          then parent.successors.foldl
            (fun m e => followerMapSet m e ((parent.allowedLanes e).map (fun j => parent.lanes.indexOf j))) []
          else []) := by
  unfold construct
  simp only []
  obtain ⟨x, hx⟩ := recomputeJamThreshold_eq env
    { id := id, myNextSegment := next, myLength := length, myMaxSpeed := speed, myIndex := idx, myTau_ff := divBySize tauff parent.lanes.length, myTau_fj := divBySize taufj parent.lanes.length, myTau_jf := divBySize taujf parent.lanes.length, myTau_jj := divBySize taujj parent.lanes.length, myHeadwayCapacity := length / (15 / 2) * parent.lanes.length, myCapacity := length * parent.lanes.length, myOccupancy := 0, myJamThreshold := uninit, myJunctionControl := junctionControl, myEntryBlockTime := SUMOTime_MIN, myLengthGeometryFactor := lgf, myMeanSpeed := speed, myLastMeanSpeedUpdate := SUMOTime_MIN, myCarQues := if (multiQueue && decide (parent.lanes.length > 1) && decide (parent.successors.length > 1)) = true then List.replicate parent.lanes.length [] else [[]], myBlockTimes := if (multiQueue && decide (parent.lanes.length > 1) && decide (parent.successors.length > 1)) = true then List.replicate parent.lanes.length (-1) else [-1], myFollowerMap := if (multiQueue && decide (parent.lanes.length > 1) && decide (parent.successors.length > 1)) = true then parent.successors.foldl (fun m e => followerMapSet m e ((parent.allowedLanes e).map (fun j => parent.lanes.indexOf j))) [] else [] } jamThresh
  rw [hx]
  exact ⟨rfl, rfl, rfl⟩

/-- C38: on a constructed segment whose edge lists for every successor a
non-empty set of allowed lanes, all of them lanes of the edge, every index
stored in the follower map is below the number of queues, and the queue index
`receive` selects is, in every state reached by operations, a valid index of
the queues and of the block times.  On a multi-queue segment a successor with
an allowed lane that is not a lane of the edge has the lane count, which is
the number of queues, among its stored indices. -/
theorem followerMap_index_safety (env : Env) (id : String) (parent : MSEdge)
    (next : Option String) (length speed : SUMOReal) (idx : Nat)
    (tauff taufj taujf taujj : SUMOTime) (jamThresh : SUMOReal)
    (multiQueue junctionControl : Bool) (lgf uninit : SUMOReal) (s : MESegment)
    (hs : s = construct env id parent next length speed idx tauff taufj taujf taujj jamThresh
      multiQueue junctionControl lgf uninit) :
    ((∀ e ∈ parent.successors, parent.allowedLanes e ≠ []
        ∧ ∀ j ∈ parent.allowedLanes e, j ∈ parent.lanes) →
      (∀ e indices, s.myFollowerMap.lookup e = some indices →
        ∀ i ∈ indices, i < s.myCarQues.length)
      ∧ ∀ (veh : VehPtr → MEVehicle) (ops : List Op) (succ : Option EdgeId),
          chooseQueue (run (World.fresh s veh) ops).seg succ
            < (run (World.fresh s veh) ops).seg.myCarQues.length
          ∧ chooseQueue (run (World.fresh s veh) ops).seg succ
            < (run (World.fresh s veh) ops).seg.myBlockTimes.length)
    ∧ (multiQueue = true → parent.lanes.length > 1 → parent.successors.length > 1 →
        ∀ e ∈ parent.successors, ∀ j ∈ parent.allowedLanes e, j ∉ parent.lanes →
          ∃ indices, s.myFollowerMap.lookup e = some indices
            ∧ parent.lanes.length ∈ indices
            ∧ parent.lanes.length = s.myCarQues.length) := by
  obtain ⟨hq, hb, hm⟩ := construct_queues env id parent next length speed idx tauff taufj taujf
    taujj jamThresh multiQueue junctionControl lgf uninit
  rw [← hs] at hq hb hm
  have hlen : s.myBlockTimes.length = s.myCarQues.length := by
    rw [hq, hb]
    split_ifs <;> simp
  have hpos : 0 < s.myCarQues.length := by
    rw [hq]
    split_ifs with h
    · simp only [Bool.and_eq_true, decide_eq_true_eq] at h
      simp only [List.length_replicate]
      omega
    · simp
  refine ⟨fun hallowed => ?_, fun h1 h2 h3 e he j hj hjn => ?_⟩
  · have hstored : ∀ e indices, s.myFollowerMap.lookup e = some indices →
        ∀ i ∈ indices, i < s.myCarQues.length := by
      intro e indices hl i hi
      rw [hm] at hl
      rw [hq]
      split_ifs at hl ⊢ with h
      · rw [followerMap_lookup parent.successors
          (fun e => (parent.allowedLanes e).map (fun j => parent.lanes.indexOf j)) [] e] at hl
        split_ifs at hl with he
        · simp only [Option.some.injEq] at hl
          rw [← hl] at hi
          obtain ⟨j, hj, hji⟩ := List.mem_map.mp hi
          rw [← hji, List.length_replicate]
          exact List.indexOf_lt_length.mpr ((hallowed e he).2 j hj)
        · simp at hl
      · simp at hl
    refine ⟨hstored, fun veh ops succ => ?_⟩
    have hf := run_fixed ops (World.fresh s veh)
    have e1 : (World.fresh s veh).seg = s := rfl
    rw [e1] at hf
    have hlt : chooseQueue (run (World.fresh s veh) ops).seg succ
        < (run (World.fresh s veh) ops).seg.myCarQues.length := by
      apply chooseQueue_lt
      · rw [carQues_length_of_fixed hf]; exact hpos
      · rw [carQues_length_of_fixed hf, followerMap_of_fixed hf]; exact hstored
    refine ⟨hlt, ?_⟩
    rw [blockTimes_length_of_fixed hf, hlen, ← carQues_length_of_fixed hf]
    exact hlt
  · have hmulti : (multiQueue && decide (parent.lanes.length > 1)
        && decide (parent.successors.length > 1)) = true := by
      simp [h1, h2, h3]
    rw [hm, hq, if_pos hmulti, if_pos hmulti]
    rw [followerMap_lookup parent.successors
      (fun e => (parent.allowedLanes e).map (fun j => parent.lanes.indexOf j)) [] e, if_pos he]
    refine ⟨_, rfl, ?_, by simp⟩
    exact List.mem_map.mpr ⟨j, hj, List.indexOf_eq_length.mpr hjn⟩

theorem followerMap_index_safety_witness :
    (∀ e ∈ ({ lanes := [0, 1], successors := [5, 6], allowedLanes := fun _ => [0, 1] } : MSEdge).successors,
      ({ lanes := [0, 1], successors := [5, 6], allowedLanes := fun _ => [0, 1] } : MSEdge).allowedLanes e ≠ []
      ∧ ∀ j ∈ ({ lanes := [0, 1], successors := [5, 6], allowedLanes := fun _ => [0, 1] } : MSEdge).allowedLanes e,
          j ∈ ({ lanes := [0, 1], successors := [5, 6], allowedLanes := fun _ => [0, 1] } : MSEdge).lanes)
    ∧ chooseQueue (construct exEnv "s" { lanes := [0, 1], successors := [5, 6], allowedLanes := fun _ => [0, 1] }
          none 100 25 0 1000 1500 2000 3000 (-1) true false 1 0) (some 5)
        < (construct exEnv "s" { lanes := [0, 1], successors := [5, 6], allowedLanes := fun _ => [0, 1] }
          none 100 25 0 1000 1500 2000 3000 (-1) true false 1 0).myCarQues.length
    ∧ ∃ indices,
        (construct exEnv "s" { lanes := [0, 1], successors := [5, 6], allowedLanes := fun _ => [7] }
          none 100 25 0 1000 1500 2000 3000 (-1) true false 1 0).myFollowerMap.lookup 5 = some indices
        ∧ 2 ∈ indices := by
  have hA : ∀ e ∈ ({ lanes := [0, 1], successors := [5, 6], allowedLanes := fun _ => [0, 1] } : MSEdge).successors,
      ({ lanes := [0, 1], successors := [5, 6], allowedLanes := fun _ => [0, 1] } : MSEdge).allowedLanes e ≠ []
      ∧ ∀ j ∈ ({ lanes := [0, 1], successors := [5, 6], allowedLanes := fun _ => [0, 1] } : MSEdge).allowedLanes e,
          j ∈ ({ lanes := [0, 1], successors := [5, 6], allowedLanes := fun _ => [0, 1] } : MSEdge).lanes :=
    fun e _ => ⟨List.cons_ne_nil 0 [1], fun j hj => hj⟩
  have h1 := (((followerMap_index_safety exEnv "s"
    { lanes := [0, 1], successors := [5, 6], allowedLanes := fun _ => [0, 1] }
    none 100 25 0 1000 1500 2000 3000 (-1) true false 1 0 _ rfl).1 hA).2
    (fun _ => exVehicle) [] (some 5)).1
  obtain ⟨indices, h2, h3, _⟩ := (followerMap_index_safety exEnv "s"
    { lanes := [0, 1], successors := [5, 6], allowedLanes := fun _ => [7] }
    none 100 25 0 1000 1500 2000 3000 (-1) true false 1 0 _ rfl).2 rfl (by decide) (by decide)
    5 (by decide) 7 (by decide) (by decide)
  exact ⟨hA, h1, indices, h2, h3⟩

/-! ## Event times and calls of `setSpeed` -/

/-- The second loop of `setSpeedForQueue`: the first vehicle of the list gets
the later of its new arrival and the given event time plus `tau_ff`, every
other vehicle the later of its new arrival and the new event time of the one
before it in the list plus `tau_ff`; one detector update is made per vehicle. -/
theorem setSpeedFollowers_events (ns : SUMOReal) (t : SUMOTime) (l : List VehPtr) (e : SUMOTime)
    (w : World) (hnd : l.Nodup) :
    (∀ x rest, l = x :: rest →
      ((setSpeedFollowers ns t l e w).veh x).eventTime
        = max (newArrival w.seg (w.veh x) ns t) (e + w.seg.myTau_ff))
    ∧ (∀ l1 y x l2, l = l1 ++ y :: x :: l2 →
      ((setSpeedFollowers ns t l e w).veh x).eventTime
        = max (newArrival w.seg (w.veh x) ns t)
            (((setSpeedFollowers ns t l e w).veh y).eventTime + w.seg.myTau_ff))
    ∧ (setSpeedFollowers ns t l e w).trace
        = w.trace ++ l.map (fun p => Event.updateDetectors p t false none) := by
  induction l generalizing e w with
  | nil =>
    refine ⟨fun x rest h => by simp at h, fun l1 y x l2 h => by simp at h, by simp [setSpeedFollowers]⟩
  | cons p rest ih =>
    rw [List.nodup_cons] at hnd
    have hstep : setSpeedFollowers ns t (p :: rest) e w
        = setSpeedFollowers ns t rest (max (newArrival w.seg (w.veh p) ns t) (e + w.seg.myTau_ff))
            ((w.log (Event.updateDetectors p t false none)).setVeh p (fun v =>
              { v with eventTime := max (newArrival w.seg (w.veh p) ns t) (e + w.seg.myTau_ff) })) := rfl
    rw [hstep]
    generalize he1 : max (newArrival w.seg (w.veh p) ns t) (e + w.seg.myTau_ff) = e1
    obtain ⟨h1, h2, h3⟩ := ih e1
      ((w.log (Event.updateDetectors p t false none)).setVeh p (fun v => { v with eventTime := e1 }))
      hnd.2
    have hp : ((setSpeedFollowers ns t rest e1
        ((w.log (Event.updateDetectors p t false none)).setVeh p
          (fun v => { v with eventTime := e1 }))).veh p).eventTime = e1 := by
      rw [setSpeedFollowers_other _ _ _ _ _ _ hnd.1, setVeh_veh_self]
    have hother : ∀ x, x ≠ p →
        ((w.log (Event.updateDetectors p t false none)).setVeh p
          (fun v => { v with eventTime := e1 })).veh x = w.veh x := by
      intro x hx
      rw [setVeh_veh_other _ _ _ _ hx]
      rfl
    refine ⟨fun x r hx => ?_, fun l1 y x l2 hl => ?_, ?_⟩
    · simp only [List.cons.injEq] at hx
      rw [← hx.1, hp, he1]
    · cases l1 with
      | nil =>
        simp only [List.nil_append, List.cons.injEq] at hl
        obtain ⟨hy, hr⟩ := hl
        subst hy
        have hxp : x ≠ p := fun h => hnd.1 (by rw [hr, h]; simp)
        rw [h1 x l2 hr, hp, hother x hxp]
        rfl
      | cons a l1 =>
        simp only [List.cons_append, List.cons.injEq] at hl
        obtain ⟨ha, hr⟩ := hl
        have hxp : x ≠ p := fun h => hnd.1 (by rw [hr, h]; simp)
        rw [h2 l1 y x l2 hr, hother x hxp]
        rfl
    · rw [h3]
      simp

/-- The calls and event times of `setSpeedForQueue`: the vehicle at `back()`
gets `max(newArrival, blockTime)`, every other vehicle the later of its new
arrival and the new event time of its successor in the vector plus `tau_ff`;
the calls are those of `speedCalls`. -/
theorem setSpeedForQueue_events (w : World) (ns : SUMOReal) (t b : SUMOTime) (vehs : List VehPtr)
    (hnd : vehs.Nodup) :
    (∀ l, vehs.getLast? = some l →
      ((setSpeedForQueue w ns t b vehs).veh l).eventTime
        = max (newArrival w.seg (w.veh l) ns t) b)
    ∧ (∀ pre x y post, vehs = pre ++ x :: y :: post →
      ((setSpeedForQueue w ns t b vehs).veh x).eventTime
        = max (newArrival w.seg (w.veh x) ns t)
            (((setSpeedForQueue w ns t b vehs).veh y).eventTime + w.seg.myTau_ff))
    ∧ (setSpeedForQueue w ns t b vehs).trace = w.trace ++ speedCalls w ns t b vehs := by
  unfold setSpeedForQueue speedCalls
  rcases hrev : vehs.reverse with _ | ⟨v, rest⟩
  · have : vehs = [] := List.reverse_eq_nil_iff.mp hrev
    subst this
    exact ⟨fun l h => by simp at h, fun pre x y post h => by simp at h, by simp⟩
  · have hvehs : vehs = rest.reverse ++ [v] := List.reverse_eq_cons_iff.mp hrev
    have hnd2 : (v :: rest).Nodup := by rw [← hrev]; exact List.nodup_reverse.mpr hnd
    rw [List.nodup_cons] at hnd2
    simp only [log_seg, log_veh]
    obtain ⟨w2, hw2, hseg2, hv2, hother2, htr2⟩ : ∃ w2 : World,
        w2 = (if (w.veh v).eventTime ≠ max (newArrival w.seg (w.veh v) ns t) b then
            (((w.log (Event.updateDetectors v t false none)).log (Event.removeLeaderCar v)).setVeh v
              (fun x => { x with eventTime := max (newArrival w.seg (w.veh v) ns t) b })).log
              (Event.addLeaderCar v)
          else w.log (Event.updateDetectors v t false none))
        ∧ w2.seg = w.seg
        ∧ (w2.veh v).eventTime = max (newArrival w.seg (w.veh v) ns t) b
        ∧ (∀ p, p ≠ v → w2.veh p = w.veh p)
        ∧ w2.trace = w.trace ++ Event.updateDetectors v t false none
            :: (if (w.veh v).eventTime ≠ max (newArrival w.seg (w.veh v) ns t) b
                then [Event.removeLeaderCar v, Event.addLeaderCar v] else []) := by
      refine ⟨_, rfl, ?_, ?_, ?_, ?_⟩
      · split_ifs <;> simp
      · split_ifs with h
        · simp
        · simp only [log_veh]
          exact not_not.mp h
      · intro p hp
        split_ifs <;> simp [setVeh_veh, hp]
      · split_ifs <;> simp [World.setVeh]
    rw [← hw2]
    obtain ⟨f1, f2, f3⟩ := setSpeedFollowers_events ns t rest
      (max (newArrival w.seg (w.veh v) ns t) b) w2 hnd2.2
    have hlead : ((setSpeedFollowers ns t rest (max (newArrival w.seg (w.veh v) ns t) b) w2).veh
        v).eventTime = max (newArrival w.seg (w.veh v) ns t) b := by
      rw [setSpeedFollowers_other _ _ _ _ _ _ hnd2.1, hv2]
    refine ⟨fun l hl => ?_, fun pre x y post hsplit => ?_, ?_⟩
    · have hl2 : vehs.getLast? = some v := by rw [hvehs]; simp
      rw [hl2] at hl
      simp only [Option.some.injEq] at hl
      rw [← hl]
      exact hlead
    · have hr : v :: rest = post.reverse ++ y :: x :: pre.reverse := by
        rw [← hrev, hsplit]
        simp
      have hxv : x ≠ v := by
        intro h
        cases post with
        | nil =>
          simp only [List.reverse_nil, List.nil_append, List.cons.injEq] at hr
          exact hnd2.1 (by rw [hr.2, h]; simp)
        | cons a post =>
          cases hpr : (a :: post).reverse with
          | nil => simp at hpr
          | cons c cs =>
            rw [hpr] at hr
            simp only [List.cons_append, List.cons.injEq] at hr
            exact hnd2.1 (by rw [hr.2, h]; simp)
      cases hpr : post.reverse with
      | nil =>
        rw [hpr] at hr
        simp only [List.nil_append, List.cons.injEq] at hr
        obtain ⟨hy, hrest⟩ := hr
        rw [← hy, hlead, f1 x pre.reverse hrest, hother2 x hxv, hseg2]
      | cons c cs =>
        rw [hpr] at hr
        simp only [List.cons_append, List.cons.injEq] at hr
        rw [f2 cs y x pre.reverse hr.2, hother2 x hxv, hseg2]
    · rw [f3, htr2]
      simp

theorem flatMap_congr_mem {α β : Type} (l : List α) (f g : α → List β)
    (h : ∀ a ∈ l, f a = g a) : l.flatMap f = l.flatMap g := by
  induction l with
  | nil => rfl
  | cons a rest ih =>
    rw [List.flatMap_cons, List.flatMap_cons, h a (by simp),
      ih (fun b hb => h b (List.mem_cons_of_mem _ hb))]

theorem newArrival_congr (s s1 : MESegment) (v : MEVehicle) (ns : SUMOReal) (t : SUMOTime)
    (h : s1.myLength = s.myLength) : newArrival s1 v ns t = newArrival s v ns t := by
  unfold newArrival
  rw [h]

theorem speedCalls_congr (w w1 : World) (ns : SUMOReal) (t b : SUMOTime) (vehs : List VehPtr)
    (hlen : w1.seg.myLength = w.seg.myLength) (hveh : ∀ l ∈ vehs, w1.veh l = w.veh l) :
    speedCalls w1 ns t b vehs = speedCalls w ns t b vehs := by
  unfold speedCalls
  rcases hrev : vehs.reverse with _ | ⟨v, rest⟩
  · rfl
  · have hv : v ∈ vehs := by
      rw [← List.mem_reverse, hrev]
      simp
    simp only []
    rw [hveh v hv, newArrival_congr w.seg w1.seg _ ns t hlen]

theorem speedCalls_nil (w : World) (ns : SUMOReal) (t b : SUMOTime) :
    speedCalls w ns t b [] = [] := rfl

/-- The scheduler calls among those of `speedCalls`: removal and registration
of the leader when its event time changes, and no other. -/
theorem mem_speedCalls (w : World) (ns : SUMOReal) (t b : SUMOTime) (vehs : List VehPtr)
    (p : VehPtr) :
    (Event.removeLeaderCar p ∈ speedCalls w ns t b vehs
      ↔ vehs.getLast? = some p
          ∧ (w.veh p).eventTime ≠ max (newArrival w.seg (w.veh p) ns t) b)
    ∧ (Event.addLeaderCar p ∈ speedCalls w ns t b vehs
      ↔ vehs.getLast? = some p
          ∧ (w.veh p).eventTime ≠ max (newArrival w.seg (w.veh p) ns t) b) := by
  unfold speedCalls
  rcases hrev : vehs.reverse with _ | ⟨v, rest⟩
  · have : vehs = [] := List.reverse_eq_nil_iff.mp hrev
    subst this
    simp
  · have hvehs : vehs = rest.reverse ++ [v] := List.reverse_eq_cons_iff.mp hrev
    have hl : vehs.getLast? = some v := by rw [hvehs]; simp
    rw [hl]
    simp only []
    by_cases hc : (w.veh v).eventTime ≠ max (newArrival w.seg (w.veh v) ns t) b
    · rw [if_pos hc]
      constructor
      · constructor
        · intro h
          simp only [List.mem_cons, List.mem_append, List.mem_map, reduceCtorEq, false_or,
            Event.removeLeaderCar.injEq, List.mem_singleton, or_false, and_false, exists_false,
            List.not_mem_nil] at h
          rw [h]
          exact ⟨rfl, hc⟩
        · rintro ⟨h, _⟩
          simp only [Option.some.injEq] at h
          rw [h]
          simp
      · constructor
        · intro h
          simp only [List.mem_cons, List.mem_append, List.mem_map, reduceCtorEq, false_or,
            Event.addLeaderCar.injEq, List.mem_singleton, or_false, and_false, exists_false,
            List.not_mem_nil] at h
          rw [h]
          exact ⟨rfl, hc⟩
        · rintro ⟨h, _⟩
          simp only [Option.some.injEq] at h
          rw [h]
          simp
    · rw [if_neg hc]
      constructor
      · constructor
        · intro h
          simp at h
        · rintro ⟨h, h2⟩
          simp only [Option.some.injEq] at h
          rw [← h] at h2
          exact absurd h2 hc
      · constructor
        · intro h
          simp at h
        · rintro ⟨h, h2⟩
          simp only [Option.some.injEq] at h
          rw [← h] at h2
          exact absurd h2 hc

/-- The loop of `setSpeed` over the queue indices `idx`: event times and calls,
stated on the state before the loop. -/
theorem setSpeed_loop_events (ns : SUMOReal) (t : SUMOTime) (idx : List Nat) (w : World)
    (hidx : idx.Nodup) (hd : QueuesDistinct w) :
    (∀ p, (∀ q ∈ idx, p ∉ w.seg.que q) →
      (idx.foldl (fun x i =>
        if (x.seg.que i).length ≠ 0 then
          setSpeedForQueue x ns t (x.seg.block i) (x.seg.que i)
        else x) w).veh p = w.veh p)
    ∧ (∀ q ∈ idx, ∀ l, (w.seg.que q).getLast? = some l →
      ((idx.foldl (fun x i =>
        if (x.seg.que i).length ≠ 0 then
          setSpeedForQueue x ns t (x.seg.block i) (x.seg.que i)
        else x) w).veh l).eventTime
        = max (newArrival w.seg (w.veh l) ns t) (w.seg.block q))
    ∧ (∀ q ∈ idx, ∀ pre x y post, w.seg.que q = pre ++ x :: y :: post →
      ((idx.foldl (fun x i =>
        if (x.seg.que i).length ≠ 0 then
          setSpeedForQueue x ns t (x.seg.block i) (x.seg.que i)
        else x) w).veh x).eventTime
        = max (newArrival w.seg (w.veh x) ns t)
            (((idx.foldl (fun x i =>
              if (x.seg.que i).length ≠ 0 then
                setSpeedForQueue x ns t (x.seg.block i) (x.seg.que i)
              else x) w).veh y).eventTime + w.seg.myTau_ff))
    ∧ (idx.foldl (fun x i =>
        if (x.seg.que i).length ≠ 0 then
          setSpeedForQueue x ns t (x.seg.block i) (x.seg.que i)
        else x) w).trace
        = w.trace ++ idx.flatMap (fun q => speedCalls w ns t (w.seg.block q) (w.seg.que q)) := by
  induction idx generalizing w with
  | nil => exact ⟨fun _ _ => rfl, fun q hq => by simp at hq, fun q hq => by simp at hq, by simp⟩
  | cons i rest ih =>
    rw [List.nodup_cons] at hidx
    rw [List.foldl_cons]
    obtain ⟨w1, hw1, hseg1, hoth1, hl1, hp1, htr1⟩ : ∃ w1 : World,
        w1 = (if (w.seg.que i).length ≠ 0 then
            setSpeedForQueue w ns t (w.seg.block i) (w.seg.que i) else w)
        ∧ w1.seg = w.seg
        ∧ (∀ p, p ∉ w.seg.que i → w1.veh p = w.veh p)
        ∧ (∀ l, (w.seg.que i).getLast? = some l →
            (w1.veh l).eventTime = max (newArrival w.seg (w.veh l) ns t) (w.seg.block i))
        ∧ (∀ pre x y post, w.seg.que i = pre ++ x :: y :: post →
            (w1.veh x).eventTime
              = max (newArrival w.seg (w.veh x) ns t) ((w1.veh y).eventTime + w.seg.myTau_ff))
        ∧ w1.trace = w.trace ++ speedCalls w ns t (w.seg.block i) (w.seg.que i) := by
      refine ⟨_, rfl, ?_⟩
      by_cases hne : (w.seg.que i).length ≠ 0
      · rw [if_pos hne]
        obtain ⟨e1, e2, e3⟩ := setSpeedForQueue_events w ns t (w.seg.block i) (w.seg.que i) (hd.1 i)
        exact ⟨setSpeedForQueue_seg _ _ _ _ _,
          (setSpeedForQueue_leader w ns t (w.seg.block i) (w.seg.que i) (hd.1 i)).1, e1, e2, e3⟩
      · rw [if_neg hne]
        have hnil : w.seg.que i = [] := by
          cases hq : w.seg.que i with
          | nil => rfl
          | cons a l => rw [hq] at hne; simp at hne
        rw [hnil]
        exact ⟨rfl, fun _ _ => rfl, fun l h => by simp at h, fun pre x y post h => by simp at h,
          by simp [speedCalls_nil]⟩
    rw [← hw1]
    have hd1 : QueuesDistinct w1 := by
      unfold QueuesDistinct
      rw [hseg1]
      exact hd
    obtain ⟨a1, a2, a3, a4⟩ := ih w1 hidx.2 hd1
    rw [hseg1] at a1 a2 a3 a4
    have hnotin : ∀ q, q ≠ i → ∀ p, p ∈ w.seg.que q → p ∉ w.seg.que i :=
      fun q hq p hp hpi => hd.2 q i hq hp hpi
    have hrest_ne : ∀ q ∈ rest, q ≠ i := fun q hq h => hidx.1 (h ▸ hq)
    refine ⟨fun p hp => ?_, fun q hq l hl => ?_, fun q hq pre x y post hsplit => ?_, ?_⟩
    · rw [a1 p (fun q hq => hp q (List.mem_cons_of_mem _ hq)), hoth1 p (hp i (by simp))]
    · have hlm : l ∈ w.seg.que q := List.mem_of_getLast?_eq_some hl
      rcases List.mem_cons.mp hq with hqi | hqr
      · subst hqi
        rw [a1 l (fun q2 hq2 hm => hnotin q2 (hrest_ne q2 hq2) l hm hlm)]
        exact hl1 l hl
      · rw [a2 q hqr l hl, hoth1 l (hnotin q (hrest_ne q hqr) l hlm)]
    · have hxm : x ∈ w.seg.que q := by rw [hsplit]; simp
      have hym : y ∈ w.seg.que q := by rw [hsplit]; simp
      rcases List.mem_cons.mp hq with hqi | hqr
      · subst hqi
        rw [a1 x (fun q2 hq2 hm => hnotin q2 (hrest_ne q2 hq2) x hm hxm),
          a1 y (fun q2 hq2 hm => hnotin q2 (hrest_ne q2 hq2) y hm hym)]
        exact hp1 pre x y post hsplit
      · rw [a3 q hqr pre x y post hsplit, hoth1 x (hnotin q (hrest_ne q hqr) x hxm)]
    · rw [a4, htr1, List.flatMap_cons, List.append_assoc]
      congr 2
      apply flatMap_congr_mem
      intro q hq
      exact speedCalls_congr w w1 ns t _ _ (by rw [hseg1])
        (fun l hl => hoth1 l (hnotin q (hrest_ne q hq) l hl))

/-- The scheduler calls and event times of `setSpeed` when the speed changes,
with the calls given as the concatenation of `speedCalls` over the queues. -/
theorem setSpeed_events (env : Env) (w : World) (ns : SUMOReal) (t : SUMOTime) (jt : SUMOReal)
    (hs : w.seg.myMaxSpeed ≠ ns) (hd : QueuesDistinct w) :
    (∀ q l, (w.seg.que q).getLast? = some l →
      ((setSpeed env w ns t jt).veh l).eventTime
        = max (newArrival w.seg (w.veh l) ns t) (w.seg.block q))
    ∧ (∀ q pre x y post, w.seg.que q = pre ++ x :: y :: post →
      ((setSpeed env w ns t jt).veh x).eventTime
        = max (newArrival w.seg (w.veh x) ns t)
            (((setSpeed env w ns t jt).veh y).eventTime + w.seg.myTau_ff))
    ∧ (setSpeed env w ns t jt).trace
        = w.trace ++ (List.range w.seg.myCarQues.length).flatMap
            (fun q => speedCalls w ns t (w.seg.block q) (w.seg.que q)) := by
  obtain ⟨x, hx⟩ := recomputeJamThreshold_eq env { w.seg with myMaxSpeed := ns } jt
  have hw : setSpeed env w ns t jt
      = (List.range w.seg.myCarQues.length).foldl
          (fun x i =>
            if (x.seg.que i).length ≠ 0 then
              setSpeedForQueue x ns t (x.seg.block i) (x.seg.que i)
            else x)
          { w with seg := { w.seg with myMaxSpeed := ns, myJamThreshold := x } } := by
    unfold setSpeed
    rw [if_neg hs]
    simp only [hx]
  have hd1 : QueuesDistinct { w with seg := { w.seg with myMaxSpeed := ns, myJamThreshold := x } } := hd
  obtain ⟨_, a2, a3, a4⟩ := setSpeed_loop_events ns t (List.range w.seg.myCarQues.length)
    { w with seg := { w.seg with myMaxSpeed := ns, myJamThreshold := x } }
    (List.nodup_range _) hd1
  rw [← hw] at a2 a3 a4
  have hin : ∀ q, w.seg.que q ≠ [] → q ∈ List.range w.seg.myCarQues.length := by
    intro q hq
    rw [List.mem_range]
    by_contra hlt
    apply hq
    unfold MESegment.que
    rw [List.getD_eq_getElem?_getD, List.getElem?_eq_none (Nat.le_of_not_lt hlt)]
    rfl
  refine ⟨fun q l hl => ?_, fun q pre x y post hsplit => ?_, ?_⟩
  · have hne : w.seg.que q ≠ [] := fun h => by rw [h] at hl; simp at hl
    exact a2 q (hin q hne) l hl
  · have hne : w.seg.que q ≠ [] := fun h => by rw [h] at hsplit; simp at hsplit
    exact a3 q (hin q hne) pre x y post hsplit
  · rw [a4]
    rfl

/-- The scheduler calls among those `setSpeed` makes over all queues. -/
theorem mem_setSpeed_calls (w : World) (ns : SUMOReal) (t : SUMOTime) (p : VehPtr) :
    (Event.removeLeaderCar p ∈ (List.range w.seg.myCarQues.length).flatMap
          (fun q => speedCalls w ns t (w.seg.block q) (w.seg.que q))
      ↔ ∃ q, (w.seg.que q).getLast? = some p
          ∧ (w.veh p).eventTime ≠ max (newArrival w.seg (w.veh p) ns t) (w.seg.block q))
    ∧ (Event.addLeaderCar p ∈ (List.range w.seg.myCarQues.length).flatMap
          (fun q => speedCalls w ns t (w.seg.block q) (w.seg.que q))
      ↔ ∃ q, (w.seg.que q).getLast? = some p
          ∧ (w.veh p).eventTime ≠ max (newArrival w.seg (w.veh p) ns t) (w.seg.block q)) := by
  have hin : ∀ q, (w.seg.que q).getLast? = some p → q ∈ List.range w.seg.myCarQues.length := by
    intro q hq
    rw [List.mem_range]
    by_contra hlt
    have : w.seg.que q = [] := by
      unfold MESegment.que
      rw [List.getD_eq_getElem?_getD, List.getElem?_eq_none (Nat.le_of_not_lt hlt)]
      rfl
    rw [this] at hq
    simp at hq
  constructor
  · rw [List.mem_flatMap]
    constructor
    · rintro ⟨q, _, hm⟩
      exact ⟨q, (mem_speedCalls w ns t _ _ p).1.mp hm⟩
    · rintro ⟨q, h1, h2⟩
      exact ⟨q, hin q h1, (mem_speedCalls w ns t _ _ p).1.mpr ⟨h1, h2⟩⟩
  · rw [List.mem_flatMap]
    constructor
    · rintro ⟨q, _, hm⟩
      exact ⟨q, (mem_speedCalls w ns t _ _ p).2.mp hm⟩
    · rintro ⟨q, h1, h2⟩
      exact ⟨q, hin q h1, (mem_speedCalls w ns t _ _ p).2.mpr ⟨h1, h2⟩⟩

/-- C31: `setSpeed(v_new, t, jamThresh)` with `v_new` different from the current
maximum speed, on queues that hold distinct vehicles, gives the vehicle at
`back()` of every non-empty queue `q` the event time `max(newArrival(leader,
v_new, t), blockTime[q])` and every other vehicle of the queue the event time
`max(newArrival(v, v_new, t), e_prev + tau_ff)`, `e_prev` being the new event
time of the vehicle next to it toward `back()`; `removeLeaderCar` and
`addLeaderCar` are called for a leader exactly when its event time changed, and
for no other vehicle; the calls are, queue by queue, those of `speedCalls`. -/
theorem setSpeed_spec (env : Env) (w : World) (ns : SUMOReal) (t : SUMOTime) (jt : SUMOReal)
    (hs : w.seg.myMaxSpeed ≠ ns) (hd : QueuesDistinct w) :
    (∀ q l, (w.seg.que q).getLast? = some l →
      ((setSpeed env w ns t jt).veh l).eventTime
        = max (newArrival w.seg (w.veh l) ns t) (w.seg.block q))
    ∧ (∀ q pre x y post, w.seg.que q = pre ++ x :: y :: post →
      ((setSpeed env w ns t jt).veh x).eventTime
        = max (newArrival w.seg (w.veh x) ns t)
            (((setSpeed env w ns t jt).veh y).eventTime + w.seg.myTau_ff))
    ∧ (∀ q l, (w.seg.que q).getLast? = some l →
      (Event.removeLeaderCar l ∈ (setSpeed env w ns t jt).trace.drop w.trace.length
        ↔ (w.veh l).eventTime ≠ ((setSpeed env w ns t jt).veh l).eventTime)
      ∧ (Event.addLeaderCar l ∈ (setSpeed env w ns t jt).trace.drop w.trace.length
        ↔ (w.veh l).eventTime ≠ ((setSpeed env w ns t jt).veh l).eventTime))
    ∧ (∀ p, (∀ q, (w.seg.que q).getLast? ≠ some p) →
      Event.removeLeaderCar p ∉ (setSpeed env w ns t jt).trace.drop w.trace.length
      ∧ Event.addLeaderCar p ∉ (setSpeed env w ns t jt).trace.drop w.trace.length)
    ∧ (setSpeed env w ns t jt).trace
        = w.trace ++ (List.range w.seg.myCarQues.length).flatMap
            (fun q => speedCalls w ns t (w.seg.block q) (w.seg.que q)) := by
  obtain ⟨h1, h2, h3⟩ := setSpeed_events env w ns t jt hs hd
  refine ⟨h1, h2, fun q l hl => ?_, fun p hp => ?_, h3⟩
  · rw [drop_trace h3, h1 q l hl]
    obtain ⟨m1, m2⟩ := mem_setSpeed_calls w ns t l
    have hq : ∀ q2, (w.seg.que q2).getLast? = some l → q2 = q := by
      intro q2 hl2
      by_contra hne
      exact hd.2 q2 q hne (List.mem_of_getLast?_eq_some hl2) (List.mem_of_getLast?_eq_some hl)
    constructor
    · rw [m1]
      constructor
      · rintro ⟨q2, hl2, hc⟩
        rw [hq q2 hl2] at hc
        exact hc
      · intro hc
        exact ⟨q, hl, hc⟩
    · rw [m2]
      constructor
      · rintro ⟨q2, hl2, hc⟩
        rw [hq q2 hl2] at hc
        exact hc
      · intro hc
        exact ⟨q, hl, hc⟩
  · rw [drop_trace h3]
    obtain ⟨m1, m2⟩ := mem_setSpeed_calls w ns t p
    constructor
    · rw [m1]
      rintro ⟨q, hl, _⟩
      exact hp q hl
    · rw [m2]
      rintro ⟨q, hl, _⟩
      exact hp q hl

theorem exWorldS6_distinct : QueuesDistinct exWorldS6 := by
  have hq : ∀ q, exWorldS6.seg.que q = [0] ∨ exWorldS6.seg.que q = [] := by
    intro q
    rcases que_nil_or_mem exWorldS6.seg q with h | h
    · exact Or.inr h
    · left
      simpa [exWorldS6] using h
  have h0 : ∀ q, exWorldS6.seg.que q = [0] → q = 0 := by
    intro q h
    cases q with
    | zero => rfl
    | succ n => simp [exWorldS6, MESegment.que] at h
  refine ⟨fun q => ?_, fun q1 q2 hne => ?_⟩
  · rcases hq q with h | h <;> rw [h] <;> simp
  · rcases hq q1 with h1 | h1
    · rcases hq q2 with h2 | h2
      · exact absurd ((h0 q1 h1).trans (h0 q2 h2).symm) hne
      · rw [h2]; simp
    · rw [h1]; simp

theorem setSpeed_spec_witness :
    exWorldS6.seg.myMaxSpeed ≠ 25 / 2 ∧ QueuesDistinct exWorldS6
    ∧ (exWorldS6.veh 0).eventTime = 100000
    ∧ ((setSpeed exEnv exWorldS6 (25 / 2) 0 DO_NOT_PATCH_JAM_THRESHOLD).veh 0).eventTime = 8000
    ∧ Event.removeLeaderCar 0
        ∈ (setSpeed exEnv exWorldS6 (25 / 2) 0 DO_NOT_PATCH_JAM_THRESHOLD).trace.drop
            exWorldS6.trace.length
    ∧ Event.addLeaderCar 0
        ∈ (setSpeed exEnv exWorldS6 (25 / 2) 0 DO_NOT_PATCH_JAM_THRESHOLD).trace.drop
            exWorldS6.trace.length := by
  have hs : exWorldS6.seg.myMaxSpeed ≠ 25 / 2 := by
    norm_num [exWorldS6, exSegment]
  have h := setSpeed_spec exEnv exWorldS6 (25 / 2) 0 DO_NOT_PATCH_JAM_THRESHOLD hs
    exWorldS6_distinct
  have hl : (exWorldS6.seg.que 0).getLast? = some 0 := by decide
  have he : ((setSpeed exEnv exWorldS6 (25 / 2) 0 DO_NOT_PATCH_JAM_THRESHOLD).veh 0).eventTime
      = 8000 := by
    rw [h.1 0 0 hl]
    norm_num [newArrival, exWorldS6, exSegment, exVehicle, MESegment.block, STEPS2TIME,
      TIME2STEPS, castToTime]
  have hne : (exWorldS6.veh 0).eventTime
      ≠ ((setSpeed exEnv exWorldS6 (25 / 2) 0 DO_NOT_PATCH_JAM_THRESHOLD).veh 0).eventTime := by
    rw [he]
    decide
  exact ⟨hs, exWorldS6_distinct, rfl, he, (h.2.2.1 0 0 hl).1.mpr hne, (h.2.2.1 0 0 hl).2.mpr hne⟩

end Meso
